import Mathlib

/-! # ohmm: column-striped pooled allocator

A shallow embedding of `src/pool.c`, `src/pool_iterator.c`,
`src/reference_table.c`, `src/type_info.c`, `src/pool_map.c`, `src/gc.c` and
the macros of `include/pool_private.h`.

Machine integers are natural numbers; `size_t` and `uintptr_t` arithmetic is
reduced modulo `2 ^ 64`, the 16-bit members modulo `2 ^ 16` and the 12-bit
bit-field `index` modulo `2 ^ 12`, at the places where the C code assigns them.
-/

namespace Ohmm

/-! ## Constants and packed handles (pool.h, pool_private.h) -/

/-- PAGE_SIZE of pool_private.h: `((size_t) 1 << 12)`. -/
def PAGE_SIZE : Nat := 4096

/-- The modulus of `size_t` and `uintptr_t` arithmetic. -/
def SIZE_MAX1 : Nat := 18446744073709551616

/-- NULL_POOL of pool.h. -/
def NULL_POOL : Nat := 0

/-- NULL_REF of pool.h. -/
def NULL_REF : Nat := 0

/-- The members of `struct pool_reference`, `struct global_reference` and
`struct pool_iterator` of pool_private.h.  The three structs are unions over the
same 64-bit `raw_val` with the same member layout; the bit called `full` in a
pool handle is the bit called `reserved` in a global reference. -/
structure pool_struct where
  type_id : Nat
  sub_pool_id : Nat
  pool_id : Nat
  index : Nat
  full : Nat
  is_extended : Nat
  gc_state : Nat
  deriving DecidableEq

/-- A global reference has the layout of a pool handle. -/
abbrev reference_struct := pool_struct

/-- Every member lies in the range of its C type: three `uint16_t`, then the
bit-fields `index : 12`, `full : 1`, `is_extended : 1`, `gc_state : 2`. -/
def pool_struct.wf (p : pool_struct) : Prop :=
  p.type_id < 65536 ∧ p.sub_pool_id < 65536 ∧ p.pool_id < 65536 ∧
  p.index < 4096 ∧ p.full < 2 ∧ p.is_extended < 2 ∧ p.gc_state < 4

instance (p : pool_struct) : Decidable p.wf := by
  unfold pool_struct.wf; infer_instance

/-- The union member `raw_val`: the 64-bit word holding the members, first
member in the lowest bits. -/
def raw_val (p : pool_struct) : Nat :=
  p.type_id + p.sub_pool_id * 2 ^ 16 + p.pool_id * 2 ^ 32 + p.index * 2 ^ 48 +
  p.full * 2 ^ 60 + p.is_extended * 2 ^ 61 + p.gc_state * 2 ^ 62

/-- Reading the members out of a 64-bit `raw_val`. -/
def of_raw (v : Nat) : pool_struct :=
  { type_id := v % 2 ^ 16
    sub_pool_id := v / 2 ^ 16 % 2 ^ 16
    pool_id := v / 2 ^ 32 % 2 ^ 16
    index := v / 2 ^ 48 % 2 ^ 12
    full := v / 2 ^ 60 % 2
    is_extended := v / 2 ^ 61 % 2
    gc_state := v / 2 ^ 62 % 4 }

/-- The members of `raw_index`, the 16-bit union over the four bit-fields. -/
def raw_index (p : pool_struct) : Nat :=
  p.index + p.full * 2 ^ 12 + p.is_extended * 2 ^ 13 + p.gc_state * 2 ^ 14

/-- Assigning the 16-bit union member `raw_index`. -/
def set_raw_index (p : pool_struct) (v : Nat) : pool_struct :=
  { p with
    index := v % 2 ^ 12
    full := v / 2 ^ 12 % 2
    is_extended := v / 2 ^ 13 % 2
    gc_state := v / 2 ^ 14 % 4 }

/-! ## The type table (field_info.h) -/

/-- The members of `struct field_offset`. -/
structure field_offset where
  type_id : Nat
  field_size : Nat
  offset : Nat
  deriving DecidableEq

/-- The members of `struct type_offsets`; `field_offsets` points to
`field_count` entries. -/
structure type_offsets where
  type_class : Nat
  referee_type_id : Nat
  type_size : Nat
  field_count : Nat
  field_offsets : List field_offset
  deriving DecidableEq

/-- The global `Type_table type_table`, an array indexed by type id. -/
abbrev Type_table := List type_offsets

/-- The row `type_table[type_id]`.  A read outside the table is undefined in C;
here it yields a row of zeros. -/
def type_row (tt : Type_table) (type_id : Nat) : type_offsets :=
  tt.getD type_id ⟨0, 0, 0, 0, []⟩

/-- The entry `type_table[type_id].field_offsets[field_nr]`; a read outside the
array yields an entry of zeros. -/
def field_entry (tt : Type_table) (type_id field_nr : Nat) : field_offset :=
  (type_row tt type_id).field_offsets.getD field_nr ⟨0, 0, 0⟩

/-- The type table that init_type_table builds for the thirteen descriptors of
test/test_type_info.c (basic_types.h): char, long, a global reference, two
composites, the list, binary tree and octary tree node types with their
reference types, and the 16-byte expansion table entry. -/
def basic_type_table : Type_table :=
  [ ⟨0, 0, 1, 1, [⟨0, 1, 0⟩]⟩,
    ⟨0, 0, 8, 1, [⟨1, 8, 0⟩]⟩,
    ⟨3, 0, 8, 1, [⟨2, 8, 0⟩]⟩,
    ⟨1, 0, 11, 4, [⟨0, 1, 0⟩, ⟨0, 1, 1⟩, ⟨0, 1, 2⟩, ⟨1, 8, 3⟩]⟩,
    ⟨1, 0, 30, 9, [⟨1, 8, 0⟩, ⟨0, 1, 8⟩, ⟨0, 1, 9⟩, ⟨0, 1, 10⟩, ⟨1, 8, 11⟩, ⟨0, 1, 19⟩,
      ⟨0, 1, 20⟩, ⟨0, 1, 21⟩, ⟨1, 8, 22⟩]⟩,
    ⟨3, 7, 8, 1, [⟨5, 8, 0⟩]⟩,
    ⟨2, 7, 2, 1, [⟨6, 2, 0⟩]⟩,
    ⟨1, 0, 18, 3, [⟨6, 2, 0⟩, ⟨1, 8, 2⟩, ⟨1, 8, 10⟩]⟩,
    ⟨2, 9, 2, 1, [⟨8, 2, 0⟩]⟩,
    ⟨1, 0, 20, 4, [⟨8, 2, 0⟩, ⟨8, 2, 2⟩, ⟨1, 8, 4⟩, ⟨1, 8, 12⟩]⟩,
    ⟨2, 11, 2, 1, [⟨10, 2, 0⟩]⟩,
    ⟨1, 0, 32, 10, [⟨10, 2, 0⟩, ⟨10, 2, 2⟩, ⟨10, 2, 4⟩, ⟨10, 2, 6⟩, ⟨10, 2, 8⟩, ⟨10, 2, 10⟩,
      ⟨10, 2, 12⟩, ⟨10, 2, 14⟩, ⟨1, 8, 16⟩, ⟨1, 8, 24⟩]⟩,
    ⟨0, 0, 16, 1, [⟨12, 16, 0⟩]⟩ ]

/-! ## type_info.c: building the type table -/

/-- A type descriptor, `struct type_info` of type_info.h: a primitive with its
size, a composite with its `field_count` fields, or a local or global
reference with the type id of the referee. -/
inductive type_info where
  | primitive (type_id primitive_size : Nat)
  | composite (type_id : Nat) (fields : List type_info)
  | local_ref (type_id referee_type_id : Nat)
  | global_ref (type_id referee_type_id : Nat)

/-- The member `type_id` of a descriptor. -/
def type_info.type_id : type_info → Nat
  | .primitive id _ => id
  | .composite id _ => id
  | .local_ref id _ => id
  | .global_ref id _ => id

/-- The member `type_class`: PRIMITIVE_TYPE = 0, COMPOSITE_TYPE = 1,
LOCAL_REF_TYPE = 2, GLOBAL_REF_TYPE = 3. -/
def type_info.type_class : type_info → Nat
  | .primitive _ _ => 0
  | .composite _ _ => 1
  | .local_ref _ _ => 2
  | .global_ref _ _ => 3

mutual
/-- The function get_size_and_field_count: the pair `(*size, *count)`. -/
def get_size_and_field_count : type_info → Nat × Nat
  | .primitive _ primitive_size => (primitive_size, 1)
  | .global_ref _ _ => (8, 1)
  | .local_ref _ _ => (2, 1)
  | .composite _ fields => size_and_count_loop fields (0, 0)
/-- The loop of get_size_and_field_count over the fields of a composite. -/
def size_and_count_loop : List type_info → Nat × Nat → Nat × Nat
  | [], acc => acc
  | f :: fs, acc =>
    size_and_count_loop fs
      ((acc.1 + (get_size_and_field_count f).1) % SIZE_MAX1,
       (acc.2 + (get_size_and_field_count f).2) % SIZE_MAX1)
end

mutual
/-- The function fill_in_offsets: the entries written from `offsets[0]` on (as
many as the count returned) and the new value of `*base_offset`. -/
def fill_in_offsets : type_info → Nat → List field_offset × Nat
  | .primitive id primitive_size, base =>
    ([⟨id, primitive_size, base⟩], (base + primitive_size) % SIZE_MAX1)
  | .global_ref id _, base => ([⟨id, 8, base⟩], (base + 8) % SIZE_MAX1)
  | .local_ref id _, base => ([⟨id, 2, base⟩], (base + 2) % SIZE_MAX1)
  | .composite _ fields, base => fill_in_offsets_loop fields base
/-- The loop of fill_in_offsets over the fields of a composite. -/
def fill_in_offsets_loop : List type_info → Nat → List field_offset × Nat
  | [], base => ([], base)
  | f :: fs, base =>
    ((fill_in_offsets f base).1 ++ (fill_in_offsets_loop fs (fill_in_offsets f base).2).1,
     (fill_in_offsets_loop fs (fill_in_offsets f base).2).2)
end

/-- The row that init_type_table writes for one descriptor. -/
def type_table_row (info : type_info) : type_offsets :=
  { type_class := info.type_class
    referee_type_id :=
      match info with
      | .local_ref _ referee => referee % 2 ^ 16
      | .global_ref _ referee => referee % 2 ^ 16
      | _ => 0
    type_size := (get_size_and_field_count info).1
    field_count := (get_size_and_field_count info).2
    field_offsets := (fill_in_offsets info 0).1 }

/-- The function init_type_table: the table stored in `type_table`, or `none`
when the `assert` on the number of types fails or `mmap` or `mprotect` fails
(`calls_ok` false; the function then returns `errno`). -/
def init_type_table (calls_ok : Bool) (type_infos : List type_info) : Option Type_table :=
  if type_infos.length ≥ 2 ^ 16 then none
  else if !calls_ok then none
  else some (type_infos.map type_table_row)

mutual
/-- The sizes of the primitive and reference leaves of a descriptor, in
declaration order: the flattened field sequence of the spec. -/
def leaf_sizes : type_info → List Nat
  | .primitive _ primitive_size => [primitive_size]
  | .global_ref _ _ => [8]
  | .local_ref _ _ => [2]
  | .composite _ fields => leaf_sizes_list fields
/-- The leaf sizes of a list of descriptors. -/
def leaf_sizes_list : List type_info → List Nat
  | [] => []
  | f :: fs => leaf_sizes f ++ leaf_sizes_list fs
end

/-- The thirteen descriptors of test/test_type_info.c, in the order in which
they are handed to init_type_table. -/
def basic_type_infos : List type_info :=
  [ .primitive 0 1,
    .primitive 1 8,
    .global_ref 2 0,
    .composite 3 [.primitive 0 1, .primitive 0 1, .primitive 0 1, .primitive 1 8],
    .composite 4 [.primitive 1 8,
      .composite 3 [.primitive 0 1, .primitive 0 1, .primitive 0 1, .primitive 1 8],
      .composite 3 [.primitive 0 1, .primitive 0 1, .primitive 0 1, .primitive 1 8]],
    .global_ref 5 7,
    .local_ref 6 7,
    .composite 7 [.local_ref 6 7, .primitive 1 8, .primitive 1 8],
    .local_ref 8 9,
    .composite 9 [.local_ref 8 9, .local_ref 8 9, .primitive 1 8, .primitive 1 8],
    .local_ref 10 11,
    .composite 11 [.local_ref 10 11, .local_ref 10 11, .local_ref 10 11, .local_ref 10 11,
      .local_ref 10 11, .local_ref 10 11, .local_ref 10 11, .local_ref 10 11,
      .primitive 1 8, .primitive 1 8],
    .primitive 12 16 ]

mutual
/-- The type ids of the primitive and reference leaves of a descriptor, in
declaration order. -/
def leaf_ids : type_info → List Nat
  | .primitive id _ => [id]
  | .global_ref id _ => [id]
  | .local_ref id _ => [id]
  | .composite _ fields => leaf_ids_list fields
/-- The leaf type ids of a list of descriptors. -/
def leaf_ids_list : List type_info → List Nat
  | [] => []
  | f :: fs => leaf_ids f ++ leaf_ids_list fs
end

/-- The running sums of a list of sizes from `b` on: the first offset is `b`,
each further one is the one before plus the size before. -/
def running_offsets : Nat → List Nat → List Nat
  | _, [] => []
  | b, s :: ss => b :: running_offsets (b + s) ss

mutual
/-- The value returned by fill_in_offsets: 1 for a primitive or a reference;
for a composite the local `field_count`, to which the loop adds what the call
for each field returns. -/
def fill_in_offsets_count : type_info → Nat
  | .primitive _ _ => 1
  | .global_ref _ _ => 1
  | .local_ref _ _ => 1
  | .composite _ fields => fill_in_offsets_count_loop fields 0
/-- The loop of fill_in_offsets over the fields of a composite, as far as the
local `field_count` goes. -/
def fill_in_offsets_count_loop : List type_info → Nat → Nat
  | [], field_count => field_count
  | f :: fs, field_count =>
    fill_in_offsets_count_loop fs ((field_count + fill_in_offsets_count f) % SIZE_MAX1)
end

/-! ## Macros of pool_private.h -/

/-- POOL_IDX_TO_ADDR: `((uintptr_t) IDX) << 32`. -/
def POOL_IDX_TO_ADDR (idx : Nat) : Nat := idx * 2 ^ 32 % SIZE_MAX1

/-- GET_POOL_ADDR: `((uintptr_t)(ref).pool_id) << 32`. -/
def GET_POOL_ADDR (ref : pool_struct) : Nat := ref.pool_id * 2 ^ 32 % SIZE_MAX1

/-- SUB_POOLS_NEEDED: `(!!(SIZE & ((1 << 12) - 1))) + (SIZE >> 12)`. -/
def SUB_POOLS_NEEDED (size : Nat) : Nat :=
  (if size &&& (2 ^ 12 - 1) ≠ 0 then 1 else 0) + (size >>> 12)

/-- GET_SUB_POOL_SIZE: `type_table[(ref).type_id].type_size * PAGE_SIZE`. -/
def GET_SUB_POOL_SIZE (tt : Type_table) (ref : pool_struct) : Nat :=
  (type_row tt ref.type_id).type_size * PAGE_SIZE % SIZE_MAX1

/-- GET_GLOBAL_INDEX_OF_REF: `(ref).sub_pool_id*PAGE_SIZE + (ref).index`. -/
def GET_GLOBAL_INDEX_OF_REF (ref : pool_struct) : Nat :=
  ref.sub_pool_id * PAGE_SIZE + ref.index

/-- GET_SIZE_OF_POOL: `sub_pool_id*PAGE_SIZE + index +
(full && index == 0 ? PAGE_SIZE : 0)`. -/
def GET_SIZE_OF_POOL (pool : pool_struct) : Nat :=
  pool.sub_pool_id * PAGE_SIZE + pool.index +
    (if pool.full ≠ 0 ∧ pool.index = 0 then PAGE_SIZE else 0)

/-- GET_FIELD_OFFSET: `field_offsets[field_nr].offset * PAGE_SIZE`. -/
def GET_FIELD_OFFSET (tt : Type_table) (ref : pool_struct) (field_nr : Nat) : Nat :=
  (field_entry tt ref.type_id field_nr).offset * PAGE_SIZE % SIZE_MAX1

/-- GET_FIELD_SIZE: `field_offsets[field_nr].field_size`. -/
def GET_FIELD_SIZE (tt : Type_table) (ref : pool_struct) (field_nr : Nat) : Nat :=
  (field_entry tt ref.type_id field_nr).field_size

/-- GLOBAL_INDEX_TO_SUBPOOL_ID: `(idx) >> 12`. -/
def GLOBAL_INDEX_TO_SUBPOOL_ID (idx : Nat) : Nat := idx >>> 12

/-- GLOBAL_INDEX_TO_SUBPOOL_OFFSET: `(idx) & ((1 << 12) - 1)`. -/
def GLOBAL_INDEX_TO_SUBPOOL_OFFSET (idx : Nat) : Nat := idx &&& (2 ^ 12 - 1)

/-- REF_NOT_FOUND: `~((size_t) 0u)`. -/
def REF_NOT_FOUND : Nat := SIZE_MAX1 - 1

/-- Subtraction of two `size_t` values, wrapping modulo `2 ^ 64`. -/
def sub64 (a b : Nat) : Nat := (a % SIZE_MAX1 + SIZE_MAX1 - b % SIZE_MAX1) % SIZE_MAX1

/-! ## pool.c: creation, growth and shrinking -/

/-- What a pool operation leaves behind: the handle stored through the `pool`
pointer, the value returned, and the address range handed to `mmap` (growth) or
`munmap` (shrinking) when the call was made. -/
structure pool_result (α : Type) where
  pool : pool_struct
  ret : α
  call : Option (Nat × Nat)

/-- The body of pool_create, run by one thread: `next_free` is the value of
NEXT_FREE_POOL_IDX on entry and `mmap_ok` tells whether `mmap` returned the
address asked for.  Yields the handle returned (NULL_POOL as `of_raw 0`), the
new value of the counter and the `mmap` request. -/
def pool_create (tt : Type_table) (next_free : Nat) (mmap_ok : Bool) (type_id : Nat) :
    pool_struct × Nat × (Nat × Nat) :=
  let pool_size := (type_row tt type_id).type_size * PAGE_SIZE % SIZE_MAX1
  let pool_idx := next_free
  let next_free1 := (pool_idx + 1) % 2 ^ 16
  let addr_hint := POOL_IDX_TO_ADDR pool_idx
  if !mmap_ok then
    (of_raw NULL_POOL, next_free1, (addr_hint, pool_size))
  else
    ({ type_id := type_id, sub_pool_id := 0, pool_id := pool_idx, index := 0,
       full := 0, is_extended := 0, gc_state := 0 },
     next_free1, (addr_hint, pool_size))

/-- The static function pool_add_elements.  `mmap_ok` tells whether `mmap`
returns the address asked for when the function calls it. -/
def pool_add_elements (tt : Type_table) (mmap_ok : Bool) (p_ref : pool_struct)
    (num_elements : Nat) : pool_result reference_struct :=
  let type_size := (type_row tt p_ref.type_id).type_size
  let space_left_in_pool := if p_ref.full ≠ 0 then 0 else PAGE_SIZE - p_ref.index
  if num_elements ≤ space_left_in_pool then
    let g_ref := p_ref
    let index1 := (p_ref.index + num_elements) % 2 ^ 12
    { pool := { p_ref with index := index1, full := if index1 = 0 then 1 else 0 }
      ret := g_ref
      call := none }
  else
    let new_pool_addr :=
      (POOL_IDX_TO_ADDR p_ref.pool_id + (p_ref.sub_pool_id + 1) * PAGE_SIZE * type_size) %
        SIZE_MAX1
    let elements_needed := num_elements - space_left_in_pool
    let sub_pools_needed := SUB_POOLS_NEEDED elements_needed
    let new_pages_needed := sub_pools_needed * type_size % SIZE_MAX1
    let request := (new_pool_addr, new_pages_needed * PAGE_SIZE % SIZE_MAX1)
    if !mmap_ok then
      { pool := p_ref, ret := of_raw NULL_REF, call := some request }
    else
      let g_ref : reference_struct :=
        { p_ref with full := 0, sub_pool_id := (p_ref.sub_pool_id + p_ref.full) % 2 ^ 16 }
      let index1 := elements_needed % PAGE_SIZE % 2 ^ 12
      { pool := { p_ref with
                  sub_pool_id := (p_ref.sub_pool_id + sub_pools_needed) % 2 ^ 16
                  index := index1
                  full := if index1 = 0 then 1 else 0 }
        ret := g_ref
        call := some request }

/-- The function pool_alloc: `pool_add_elements(pool, 1)`. -/
def pool_alloc (tt : Type_table) (mmap_ok : Bool) (pool : pool_struct) :
    pool_result reference_struct :=
  pool_add_elements tt mmap_ok pool 1

/-- The function pool_grow: `-1` when pool_add_elements returns NULL_REF,
else `0`. -/
def pool_grow (tt : Type_table) (mmap_ok : Bool) (pool : pool_struct) (num_elements : Nat) :
    pool_result Int :=
  let r := pool_add_elements tt mmap_ok pool num_elements
  { pool := r.pool, ret := if raw_val r.ret = NULL_REF then -1 else 0, call := r.call }

/-- The function pool_shrink.  `munmap_errno` is `0` when `munmap` succeeds and
otherwise the value it leaves in `errno`. -/
def pool_shrink (tt : Type_table) (munmap_errno : Nat) (p_ref : pool_struct)
    (num_elements : Nat) : pool_result Int :=
  if num_elements < p_ref.full * PAGE_SIZE + p_ref.index then
    { pool := { p_ref with index := sub64 p_ref.index num_elements % 2 ^ 12, full := 0 }
      ret := 0
      call := none }
  else
    let s_pool_size := (type_row tt p_ref.type_id).type_size * PAGE_SIZE % SIZE_MAX1
    let s_pools_to_remove0 := (1 + sub64 num_elements 1 / PAGE_SIZE) % SIZE_MAX1
    let s_pools_to_remove :=
      if p_ref.sub_pool_id < s_pools_to_remove0 then p_ref.sub_pool_id else s_pools_to_remove0
    let index_change := sub64 num_elements (s_pools_to_remove * PAGE_SIZE)
    let remove_size := s_pool_size * s_pools_to_remove % SIZE_MAX1
    let new_sub_pool_id := sub64 p_ref.sub_pool_id s_pools_to_remove
    let pool_start_addr := POOL_IDX_TO_ADDR p_ref.pool_id
    let unmap_addr := (pool_start_addr + (new_sub_pool_id + 1) * s_pool_size) % SIZE_MAX1
    if munmap_errno ≠ 0 then
      { pool := p_ref, ret := (munmap_errno : Int), call := some (unmap_addr, remove_size) }
    else
      let index1 := sub64 p_ref.index index_change % 2 ^ 12
      { pool := { p_ref with
                  sub_pool_id := new_sub_pool_id % 2 ^ 16
                  index := index1
                  full := if index1 = 0 ∧ index_change < PAGE_SIZE then 1 else p_ref.full }
        ret := 0
        call := some (unmap_addr, remove_size) }

/-- The function pool_get_ref of pool_iterator.c; the `assert` on the subpool id
makes the call fail (`none`) when it does not hold. -/
def pool_get_ref (pool : pool_struct) (index : Nat) : Option reference_struct :=
  let sub_pool_id := GLOBAL_INDEX_TO_SUBPOOL_ID index
  let elem_index := GLOBAL_INDEX_TO_SUBPOOL_OFFSET index % 2 ^ 16
  if sub_pool_id >>> 16 ≠ 0 then none
  else some (set_raw_index { pool with sub_pool_id := sub_pool_id % 2 ^ 16 } elem_index)

/-- The handle left after `k` calls of pool_alloc that all succeed. -/
def alloc_n (tt : Type_table) (p : pool_struct) : Nat → pool_struct
  | 0 => p
  | k + 1 => (pool_alloc tt true (alloc_n tt p k)).pool

/-- The cursor of a pool that holds `k` records in subpools filled in order:
the last subpool is marked `full` when `k` is a positive multiple of PAGE_SIZE. -/
def cursor_at (p : pool_struct) (k : Nat) : pool_struct :=
  { p with
    sub_pool_id := if k = 0 then 0 else (k - 1) / 4096
    index := k % 4096
    full := if k ≠ 0 ∧ k % 4096 = 0 then 1 else 0 }

/-- A call made on a pool handle. -/
inductive pool_op where
  | alloc
  | grow (num_elements : Nat)
  | shrink (num_elements : Nat)
  deriving DecidableEq

/-- True of pool_alloc and pool_grow calls. -/
def pool_op.grows : pool_op → Bool
  | .alloc => true
  | .grow _ => true
  | .shrink _ => false

/-- The number of records a growing call asks for. -/
def pool_op.count : pool_op → Nat
  | .alloc => 1
  | .grow n => n
  | .shrink _ => 0

/-- One call with `mmap` and `munmap` succeeding, on a handle together with the
number of bytes mapped for the pool: the new handle, and the byte count plus
the length handed to `mmap`, or minus the length handed to `munmap`. -/
def pool_step (tt : Type_table) (st : pool_struct × Nat) : pool_op → pool_struct × Nat
  | .alloc =>
    let r := pool_alloc tt true st.1
    (r.pool, st.2 + (r.call.map Prod.snd).getD 0)
  | .grow n =>
    let r := pool_grow tt true st.1 n
    (r.pool, st.2 + (r.call.map Prod.snd).getD 0)
  | .shrink n =>
    let r := pool_shrink tt 0 st.1 n
    (r.pool, st.2 - (r.call.map Prod.snd).getD 0)

/-- A sequence of calls, first call first. -/
def pool_run (tt : Type_table) (st : pool_struct × Nat) : List pool_op → pool_struct × Nat
  | [] => st
  | op :: ops => pool_run tt (pool_step tt st op) ops

/-- The state right after a successful pool_create: the handle and the length of
the first mapping. -/
def pool_fresh (tt : Type_table) (next_free type_id : Nat) : pool_struct × Nat :=
  ((pool_create tt next_free true type_id).1, (pool_create tt next_free true type_id).2.2.2)

/-- No growing call of the run carries `sub_pool_id` past 16 bits: the
population never exceeds `2 ^ 16` subpools of PAGE_SIZE records. -/
def no_overflow (tt : Type_table) (st : pool_struct × Nat) : List pool_op → Prop
  | [] => True
  | op :: ops =>
    GET_SIZE_OF_POOL st.1 + op.count ≤ 2 ^ 28 ∧ no_overflow tt (pool_step tt st op) ops

/-- The number of records that a sequence of calls asks for. -/
def requested (ops : List pool_op) : Nat := (ops.map pool_op.count).sum

/-- The cursor of a pool that holds at least one record: the last subpool is
either partly filled, or filled to the brim and marked full. -/
def cursor_inv (p : pool_struct) : Prop :=
  (p.index ≠ 0 ∧ p.index < 4096 ∧ p.full = 0) ∨ (p.index = 0 ∧ p.full = 1)

/-! ## pool.c: field access -/

/-- Byte-addressed memory. -/
abbrev Mem := Nat → Fin 256

/-- Reading an unsigned integer of `n` bytes, least significant byte first. -/
def load (mem : Mem) (addr : Nat) : Nat → Nat
  | 0 => 0
  | n + 1 => (mem addr).val + 256 * load mem (addr + 1) n

/-- Writing an unsigned integer of `n` bytes, least significant byte first. -/
def store (mem : Mem) (addr n v : Nat) : Mem :=
  fun a => if addr ≤ a ∧ a < addr + n then Fin.ofNat (v / 256 ^ (a - addr)) else mem a

/-- The library function memcpy, with all source bytes read before any byte is
written (C leaves the call on overlapping ranges undefined). -/
def memcpy (mem : Mem) (dst src n : Nat) : Mem :=
  fun a => if dst ≤ a ∧ a < dst + n then mem (src + (a - dst)) else mem a

/-- The function get_field: the address of field `field_nr` of the record
`reference`; the `assert` makes the call fail on an extended reference. -/
def get_field (tt : Type_table) (reference : reference_struct) (field_nr : Nat) : Option Nat :=
  if reference.is_extended ≠ 0 then none
  else some ((GET_POOL_ADDR reference +
              GET_SUB_POOL_SIZE tt reference * reference.sub_pool_id +
              GET_FIELD_OFFSET tt reference field_nr +
              GET_FIELD_SIZE tt reference field_nr * reference.index) % SIZE_MAX1)

/-- The function set_field: `data` is the address of the bytes to store.  Yields
the memory after the call and the value returned. -/
def set_field (tt : Type_table) (reference : reference_struct) (field_nr data : Nat)
    (mem : Mem) : Mem × Int :=
  let field_size := GET_FIELD_SIZE tt reference field_nr
  let f_ptr := (GET_POOL_ADDR reference +
                GET_SUB_POOL_SIZE tt reference * reference.sub_pool_id +
                GET_FIELD_OFFSET tt reference field_nr +
                reference.index * field_size) % SIZE_MAX1
  let mem1 :=
    if field_size = 1 then store mem f_ptr 1 (load mem data 1)
    else if field_size = 2 then store mem f_ptr 2 (load mem data 2)
    else if field_size = 4 then store mem f_ptr 4 (load mem data 4)
    else if field_size = 8 then store mem f_ptr 8 (load mem data 8)
    else memcpy mem f_ptr data field_size
  (mem1, 0)

/-- The address the spec gives for field `k` of record `r`:
record base `pool_id * 2^32 + sub_pool_id * (type_size * PAGE)`, plus
`offset * PAGE + field_size * index`, computed without wrap-around. -/
def field_address (tt : Type_table) (r : reference_struct) (k : Nat) : Nat :=
  r.pool_id * 2 ^ 32 + r.sub_pool_id * ((type_row tt r.type_id).type_size * PAGE_SIZE) +
    (field_entry tt r.type_id k).offset * PAGE_SIZE +
    (field_entry tt r.type_id k).field_size * r.index

/-! ## reference_table.c: the expansion table -/

/-- DELETED_VALUE: `((size_t) 1) << 63`. -/
def DELETED_VALUE : Nat := 9223372036854775808

/-- The members of `struct table_entry`. -/
structure table_entry where
  key : Nat
  value : Nat
  deriving DecidableEq

/-- The globals of reference_table.c.  The array `reference_table` lives in the
pool `table_pool`; it is kept here as the list of its `hash_table_size`
entries. -/
structure table_state where
  hash_table_size : Nat
  hash_table_value_count : Nat
  hash_table_del_count : Nat
  reference_table : List table_entry
  deriving DecidableEq

/-- The globals before the first call: all zero, no table. -/
def table_init : table_state := ⟨0, 0, 0, []⟩

/-- The entry `reference_table[idx]`; a read outside the array yields zeros. -/
def table_at (t : List table_entry) (idx : Nat) : table_entry := t.getD idx ⟨0, 0⟩

/-- The step of the linear probe: `idx == size - 1 ? 0 : idx + 1`. -/
def next_idx (size idx : Nat) : Nat := if idx = size - 1 then 0 else idx + 1

/-- The function hash_func on 64-bit words. -/
def hash_func (key0 : Nat) : Nat :=
  let key1 := ((SIZE_MAX1 - 1 - key0) + key0 * 2 ^ 21 % SIZE_MAX1) % SIZE_MAX1
  let key2 := key1 ^^^ (key1 >>> 24)
  let key3 := ((key2 + key2 * 2 ^ 3 % SIZE_MAX1) % SIZE_MAX1 + key2 * 2 ^ 8 % SIZE_MAX1) % SIZE_MAX1
  let key4 := key3 ^^^ (key3 >>> 14)
  let key5 := ((key4 + key4 * 2 ^ 2 % SIZE_MAX1) % SIZE_MAX1 + key4 * 2 ^ 4 % SIZE_MAX1) % SIZE_MAX1
  let key6 := key5 ^^^ (key5 >>> 28)
  (key6 + key6 * 2 ^ 31 % SIZE_MAX1) % SIZE_MAX1

/-- The loop of expand_local_reference with `fuel` iterations left. -/
def expand_loop (size : Nat) (t : List table_entry) (key : Nat) : Nat → Nat → Nat
  | 0, _ => REF_NOT_FOUND
  | fuel + 1, idx =>
    if (table_at t idx).key = key then (table_at t idx).value &&& (SIZE_MAX1 - 1 - DELETED_VALUE)
    else if (table_at t idx).value = 0 then REF_NOT_FOUND
    else expand_loop size t key fuel (next_idx size idx)

/-- The function expand_local_reference; `key` is the `raw_val` of the tag. -/
def expand_local_reference (T : table_state) (key : Nat) : Nat :=
  if key = 0 then REF_NOT_FOUND
  else if T.hash_table_size = 0 then REF_NOT_FOUND
  else expand_loop T.hash_table_size T.reference_table key T.hash_table_size
    (hash_func key % T.hash_table_size)

/-- The inner loop of copy_table with `fuel` iterations left: the entry goes to
the first slot with `key == 0` found from `idx` on, or nowhere. -/
def copy_entry (dst_size : Nat) (e : table_entry) : Nat → Nat → List table_entry →
    List table_entry
  | 0, _, t_dst => t_dst
  | fuel + 1, idx, t_dst =>
    if (table_at t_dst idx).key = 0 then t_dst.set idx e
    else copy_entry dst_size e fuel (next_idx dst_size idx) t_dst

/-- The function copy_table, over the entries of the source still to visit. -/
def copy_table (dst_size : Nat) : List table_entry → List table_entry → List table_entry
  | t_dst, [] => t_dst
  | t_dst, e :: t_src =>
    if e.key ≠ 0 then
      copy_table dst_size (copy_entry dst_size e dst_size (hash_func e.key % dst_size) t_dst) t_src
    else copy_table dst_size t_dst t_src

/-- The function grow_hash_table.  `alloc_ok` tells whether pool_create and
pool_grow succeed for the new table; the pages of a new pool read as zeros.
Yields the globals after the call and the value returned. -/
def grow_hash_table (alloc_ok : Bool) (T : table_state) (new_size : Nat) : table_state × Int :=
  if !alloc_ok then (T, 1)
  else
    let new_table := List.replicate new_size (⟨0, 0⟩ : table_entry)
    ({ hash_table_size := new_size
       hash_table_value_count := T.hash_table_value_count
       hash_table_del_count := 0
       reference_table :=
         copy_table new_size new_table (T.reference_table.take T.hash_table_size) }, 0)

/-- The function cleanup_hash_table. -/
def cleanup_hash_table (T : table_state) : table_state × Int :=
  let clean_copy := List.replicate T.hash_table_size (⟨0, 0⟩ : table_entry)
  ({ T with
     hash_table_del_count := 0
     reference_table :=
       copy_table T.hash_table_size clean_copy (T.reference_table.take T.hash_table_size) }, 0)

/-- The probe loop of compress_absolute_index, which the source leaves
unbounded, with `fuel` iterations left; `first_free_spot` is `none` for the
sentinel REF_NOT_FOUND.  Yields the final `first_free_spot`, or `none` when
the fuel runs out. -/
def compress_loop (size : Nat) (t : List table_entry) (key : Nat) :
    Nat → Nat → Option Nat → Option Nat
  | 0, _, _ => none
  | fuel + 1, idx, first_free_spot =>
    if (table_at t idx).key = key then some idx
    else
      let first_free_spot1 :=
        if (table_at t idx).key = 0 ∧ first_free_spot = none then some idx else first_free_spot
      if first_free_spot1 ≠ none ∧ (table_at t idx).value &&& DELETED_VALUE = 0 then
        first_free_spot1
      else compress_loop size t key fuel (next_idx size idx) first_free_spot1

/-- The function compress_absolute_index.  `fuel` bounds the probe loop and
`alloc_ok` tells whether the allocations of grow_hash_table succeed; the call
does not return (`none`) when the `assert` on grow_hash_table fails or the
probe loop runs out of fuel. -/
def compress_absolute_index (fuel : Nat) (alloc_ok : Bool) (T : table_state)
    (key value : Nat) : Option (table_state × Int) :=
  let resized : Option table_state :=
    if T.hash_table_value_count * 2 % SIZE_MAX1 ≥ T.hash_table_size then
      let new_size := if T.hash_table_size ≠ 0 then T.hash_table_size * 2 % SIZE_MAX1
                      else PAGE_SIZE
      if (grow_hash_table alloc_ok T new_size).2 = 0 then
        some (grow_hash_table alloc_ok T new_size).1
      else none
    else if (T.hash_table_value_count + T.hash_table_del_count) % SIZE_MAX1 * 2 % SIZE_MAX1 ≥
        T.hash_table_size then
      some (cleanup_hash_table T).1
    else some T
  match resized with
  | none => none
  | some T1 =>
    if key = 0 then some (T1, 1)
    else if value &&& DELETED_VALUE ≠ 0 then some (T1, 1)
    else
      match compress_loop T1.hash_table_size T1.reference_table key fuel
          (hash_func key % T1.hash_table_size) none with
      | none => none
      | some first_free_spot =>
        let e := table_at T1.reference_table first_free_spot
        let del_count :=
          if e.key = 0 ∧ DELETED_VALUE &&& e.value ≠ 0 then sub64 T1.hash_table_del_count 1
          else T1.hash_table_del_count
        let value_count :=
          if e.key = 0 then (T1.hash_table_value_count + 1) % SIZE_MAX1
          else T1.hash_table_value_count
        some ({ T1 with
                hash_table_value_count := value_count
                hash_table_del_count := del_count
                reference_table :=
                  T1.reference_table.set first_free_spot ⟨key, DELETED_VALUE ||| value⟩ }, 0)

/-- The loop of delete_reference with `fuel` iterations left: the slot holding
the key, if the probe finds one. -/
def delete_loop (size : Nat) (t : List table_entry) (key : Nat) : Nat → Nat → Option Nat
  | 0, _ => none
  | fuel + 1, idx =>
    if (table_at t idx).key = key then some idx
    else if (table_at t idx).value = 0 then none
    else delete_loop size t key fuel (next_idx size idx)

/-- The function delete_reference. -/
def delete_reference (T : table_state) (key : Nat) : table_state × Int :=
  if key = 0 then (T, 1)
  else if T.hash_table_size = 0 then (T, 1)
  else
    match delete_loop T.hash_table_size T.reference_table key T.hash_table_size
        (hash_func key % T.hash_table_size) with
    | some idx =>
      ({ T with
         reference_table := T.reference_table.set idx ⟨0, DELETED_VALUE⟩
         hash_table_value_count := sub64 T.hash_table_value_count 1
         hash_table_del_count := (T.hash_table_del_count + 1) % SIZE_MAX1 }, 0)
    | none => (T, 1)

/-- The member `pool_id` of a `reference_tag` given as its `raw_val`. -/
def tag_pool_id (key : Nat) : Nat := key / 2 ^ 32 % 2 ^ 16

/-- The loop of delete_all_for_pool over the slots from `i` on, `n` of them. -/
def delete_all_loop (pool_id : Nat) : Nat → Nat → table_state → table_state
  | 0, _, T => T
  | n + 1, i, T =>
    if tag_pool_id (table_at T.reference_table i).key = pool_id then
      delete_all_loop pool_id n (i + 1)
        { T with
          reference_table := T.reference_table.set i ⟨0, DELETED_VALUE⟩
          hash_table_value_count := sub64 T.hash_table_value_count 1
          hash_table_del_count := (T.hash_table_del_count + 1) % SIZE_MAX1 }
    else delete_all_loop pool_id n (i + 1) T

/-- The function delete_all_for_pool. -/
def delete_all_for_pool (T : table_state) (pool : pool_struct) : table_state × Int :=
  if pool.pool_id = 0 then (T, 1)
  else (delete_all_loop pool.pool_id T.hash_table_size 0 T, 0)

/-! ## Well-formed expansion tables -/

/-- The slot `d` steps after slot `h` on the cyclic probe sequence. -/
def probe (size h d : Nat) : Nat := (h + d) % size

/-- The three states of a slot: empty (`key = 0, value = 0`), tombstone
(`key = 0, value = DELETED_VALUE`), live (`key != 0`, top bit of `value` set). -/
def entry_ok (e : table_entry) : Prop :=
  (e.key = 0 ∧ (e.value = 0 ∨ e.value = DELETED_VALUE)) ∨
  (e.key ≠ 0 ∧ DELETED_VALUE ≤ e.value ∧ e.value < SIZE_MAX1)

/-- Every live entry is reached from the home slot of its key over slots that
are not empty. -/
def probe_ok (t : List table_entry) : Prop :=
  ∀ j, j < t.length → (table_at t j).key ≠ 0 →
    ∃ d, d < t.length ∧ probe t.length (hash_func (table_at t j).key % t.length) d = j ∧
      ∀ c, c < d →
        (table_at t (probe t.length (hash_func (table_at t j).key % t.length) c)).value ≠ 0

/-- A table without tombstones: every slot is empty or live. -/
def clean (t : List table_entry) : Prop :=
  ∀ e ∈ t, (e.key = 0 ∧ e.value = 0) ∨ (e.key ≠ 0 ∧ DELETED_VALUE ≤ e.value ∧ e.value < SIZE_MAX1)

/-- The number of live slots. -/
def live_count (t : List table_entry) : Nat := t.countP (fun e => decide (e.key ≠ 0))

/-- The number of tombstone slots. -/
def tomb_count (t : List table_entry) : Nat :=
  t.countP (fun e => decide (e.key = 0 ∧ e.value ≠ 0))

/-- The number of slots holding `key`. -/
def key_count (t : List table_entry) (key : Nat) : Nat := t.countP (fun e => decide (e.key = key))

/-- The state of the globals of reference_table.c between calls: the size
fits `size_t`, the array has `hash_table_size` slots, each empty, tombstone or live, live entries are
reachable by probing, no key is held by two slots, and the two counters count
the live and the tombstone slots. -/
structure table_inv (T : table_state) : Prop where
  bound : T.hash_table_size < SIZE_MAX1
  len : T.reference_table.length = T.hash_table_size
  ok : ∀ e ∈ T.reference_table, entry_ok e
  path : probe_ok T.reference_table
  uniq : ∀ key, key ≠ 0 → key_count T.reference_table key ≤ 1
  live : T.hash_table_value_count = live_count T.reference_table
  dead : T.hash_table_del_count = tomb_count T.reference_table

/-- The first statement of compress_absolute_index on its own: the table after
growing or cleaning up as the counters demand, `none` when the `assert` fails. -/
def resize_step (alloc_ok : Bool) (T : table_state) : Option table_state :=
  if T.hash_table_value_count * 2 % SIZE_MAX1 ≥ T.hash_table_size then
    let new_size := if T.hash_table_size ≠ 0 then T.hash_table_size * 2 % SIZE_MAX1
                    else PAGE_SIZE
    if (grow_hash_table alloc_ok T new_size).2 = 0 then
      some (grow_hash_table alloc_ok T new_size).1
    else none
  else if (T.hash_table_value_count + T.hash_table_del_count) % SIZE_MAX1 * 2 % SIZE_MAX1 ≥
      T.hash_table_size then
    some (cleanup_hash_table T).1
  else some T

/-- The states of the expansion table that calls of its four functions reach
from the initial globals, with the allocations of grow_hash_table succeeding,
the size doubling within `size_t`, and the probe loop of
compress_absolute_index given the fuel for one round over the table. -/
inductive table_reachable : table_state → Prop
  | init : table_reachable table_init
  | compress (T T1 : table_state) (key value fuel : Nat) (ret : Int) :
      table_reachable T → T.hash_table_size * 2 < SIZE_MAX1 → value < SIZE_MAX1 →
      max PAGE_SIZE (2 * T.hash_table_size) ≤ fuel →
      compress_absolute_index fuel true T key value = some (T1, ret) → table_reachable T1
  | delete (T : table_state) (key : Nat) :
      table_reachable T → table_reachable (delete_reference T key).1
  | delete_all (T : table_state) (pool : pool_struct) :
      table_reachable T → table_reachable (delete_all_for_pool T pool).1

/-! ## pool.c: reference fields -/

/-- The `raw_val` of a `local_reference_struct`: `index : 13` (signed, two's
complement), `is_long_ref : 1`, `gc_state : 2`. -/
def local_raw (index : Int) (is_long_ref gc_state : Nat) : Nat :=
  (index % 8192).toNat + is_long_ref % 2 * 8192 + gc_state % 4 * 16384

/-- The signed bit-field `index` of a local reference. -/
def local_index (raw : Nat) : Int :=
  if raw % 8192 < 4096 then (raw % 8192 : Nat) else ((raw % 8192 : Nat) : Int) - 8192

/-- The bit-field `is_long_ref` of a local reference. -/
def local_is_long_ref (raw : Nat) : Nat := raw / 8192 % 2

/-- The `raw_val` of the `reference_tag` made from a reference by overwriting
the member `local_ref`: `local_ref`, `sub_pool_id`, `pool_id`, and as `index`
the 16 bits of `raw_index`. -/
def tag_raw (this : reference_struct) (local_ref : Nat) : Nat :=
  local_ref % 2 ^ 16 + this.sub_pool_id * 2 ^ 16 + this.pool_id * 2 ^ 32 +
    raw_index this * 2 ^ 48

/-- The memory of the pools together with the expansion table. -/
structure world where
  mem : Mem
  table : table_state

/-- The address `that_local_ref_ptr` of set_field_reference and
get_field_reference: the `uint16_t` at position `this.index` of the lane. -/
def local_ref_ptr (tt : Type_table) (this : reference_struct) (field_nr : Nat) : Nat :=
  (GET_POOL_ADDR this + GET_SUB_POOL_SIZE tt this * this.sub_pool_id +
    GET_FIELD_OFFSET tt this field_nr) % SIZE_MAX1 + 2 * this.index

/-- The function set_field_reference.  `fuel` and `alloc_ok` are handed to
compress_absolute_index; the call does not return (`none`) when an `assert`
fails or compress_absolute_index does not return. -/
def set_field_reference (tt : Type_table) (fuel : Nat) (alloc_ok : Bool)
    (this that : reference_struct) (field_nr : Nat) (w : world) : Option (world × Int) :=
  let that_local_ref_ptr := local_ref_ptr tt this field_nr
  if raw_val that = NULL_REF then
    some ({ w with mem := store w.mem that_local_ref_ptr 2 0 }, 0)
  else if this.pool_id ≠ that.pool_id then none
  else
    let this_index := GET_GLOBAL_INDEX_OF_REF this
    let that_index := GET_GLOBAL_INDEX_OF_REF that
    let difference : Int := (that_index : Int) - (this_index : Int)
    let old_ref := load w.mem that_local_ref_ptr 2
    if difference ≥ 4096 ∨ difference ≤ -4096 then
      let loc_ref := local_raw (field_nr : Int) 1 0
      let tag := tag_raw this loc_ref
      match compress_absolute_index fuel alloc_ok w.table tag that_index with
      | none => none
      | some (T1, ret) =>
        if ret ≠ 0 then some ({ w with table := T1 }, 1)
        else some ({ mem := store w.mem that_local_ref_ptr 2 loc_ref, table := T1 }, 0)
    else if local_is_long_ref old_ref ≠ 0 then
      let old_tag := tag_raw this old_ref
      some ({ w with table := (delete_reference w.table old_tag).1 }, 0)
    else
      some ({ w with mem := store w.mem that_local_ref_ptr 2 (local_raw difference 0 0) }, 0)

/-- The function get_field_reference; NULL_REF is returned as `of_raw 0`. -/
def get_field_reference (tt : Type_table) (this : reference_struct) (field_nr : Nat)
    (w : world) : reference_struct :=
  let that_local_ref := load w.mem (local_ref_ptr tt this field_nr) 2
  if that_local_ref = 0 then of_raw NULL_REF
  else
    let found : Option Nat :=
      if local_is_long_ref that_local_ref ≠ 0 then
        let that_index := expand_local_reference w.table (tag_raw this that_local_ref)
        if that_index = REF_NOT_FOUND then none else some that_index
      else
        some (((GET_GLOBAL_INDEX_OF_REF this : Int) + local_index that_local_ref) %
          (SIZE_MAX1 : Int)).toNat
    match found with
    | none => of_raw NULL_REF
    | some that_index =>
      { this with
        sub_pool_id := GLOBAL_INDEX_TO_SUBPOOL_ID that_index % 2 ^ 16
        index := GLOBAL_INDEX_TO_SUBPOOL_OFFSET that_index % 2 ^ 12 }

/-- The rows of the table describe lanes within a record: every row lists
`field_count` fields and every field ends within `type_size` bytes. -/
def lanes_ok (tt : Type_table) : Prop :=
  ∀ row ∈ tt, row.field_offsets.length = row.field_count ∧
    ∀ fo ∈ row.field_offsets, fo.offset + fo.field_size ≤ row.type_size

instance (tt : Type_table) : Decidable (lanes_ok tt) := by
  unfold lanes_ok; infer_instance

/-! ## pool_iterator.c: simple and list iterators -/

/-- NULL_ITERATOR of pool_iterator.h. -/
def NULL_ITERATOR : Nat := 0

/-- ITERATOR_END of pool_iterator.h: NULL_ITERATOR. -/
def ITERATOR_END : Nat := NULL_ITERATOR

/-- ITERATOR_SIMPLE of `enum iterator_type`. -/
def ITERATOR_SIMPLE : Nat := 0

/-- ITERATOR_LIST of `enum iterator_type`. -/
def ITERATOR_LIST : Nat := 1

/-- LOCAL_REF_TYPE of `enum type_class`. -/
def LOCAL_REF_TYPE : Nat := 2

/-- The member `iterator_type` of `struct pool_iterator`: the two bits above
`is_extended`, which are `gc_state` in a reference and in a pool handle. -/
def iterator_type (itr : pool_struct) : Nat := itr.gc_state

/-- The loop of get_reference_count with `n` fields left, from field `i` on:
it stops at the first field whose type is not a local reference. -/
def get_reference_count_loop (tt : Type_table) (type_id : Nat) : Nat → Nat → Nat
  | 0, i => i
  | n + 1, i =>
    if (type_row tt (field_entry tt type_id i).type_id).type_class ≠ LOCAL_REF_TYPE then i
    else get_reference_count_loop tt type_id n (i + 1)

/-- The static function get_reference_count: the number of local reference
fields that a record of the type starts with. -/
def get_reference_count (tt : Type_table) (type_id : Nat) : Nat :=
  get_reference_count_loop tt type_id (type_row tt type_id).field_count 0

/-- The static function iterator_common; NULL_ITERATOR is returned as
`of_raw 0`. -/
def iterator_common (tt : Type_table) (itr : pool_struct) : pool_struct :=
  let self_reference_count := get_reference_count tt itr.type_id
  if self_reference_count = 0 then { itr with gc_state := ITERATOR_SIMPLE }
  else if self_reference_count = 1 then { itr with gc_state := ITERATOR_LIST }
  else of_raw NULL_ITERATOR

/-- The function iterator_from_reference. -/
def iterator_from_reference (tt : Type_table) (ref : reference_struct) : pool_struct :=
  iterator_common tt ref

/-- The function iterator_from_pool: iterator_common on `pool_get_ref(pool, 0)`. -/
def iterator_from_pool (tt : Type_table) (pool : pool_struct) : Option pool_struct :=
  (pool_get_ref pool 0).map (iterator_common tt)

/-- The function iterator_simple_next, which iterator_next calls for an
iterator of type ITERATOR_SIMPLE; `index` and `sub_pool_id` are the two
`uint16_t` locals, ITERATOR_END is returned as `of_raw 0`. -/
def iterator_simple_next (pool_ref iterator : pool_struct) : pool_struct :=
  let index := (iterator.index + 1) % 2 ^ 16
  let sub_pool_id := (iterator.sub_pool_id + GLOBAL_INDEX_TO_SUBPOOL_ID index) % 2 ^ 16
  if sub_pool_id < pool_ref.sub_pool_id ∨
      (sub_pool_id = pool_ref.sub_pool_id ∧ index < pool_ref.index) ∨
      (pool_ref.full ≠ 0 ∧ index < PAGE_SIZE) then
    { iterator with
      index := GLOBAL_INDEX_TO_SUBPOOL_OFFSET index % 2 ^ 12
      sub_pool_id := sub_pool_id }
  else of_raw ITERATOR_END

/-- The function iterator_list_next, which iterator_next calls for an iterator
of type ITERATOR_LIST or ITERATOR_LIST_COMPACT.  The `assert` makes the call
fail (`none`) when the local reference read is a far one. -/
def iterator_list_next (tt : Type_table) (iterator : pool_struct) (mem : Mem) :
    Option pool_struct :=
  let next_raw_val :=
    (GET_POOL_ADDR iterator + GET_SUB_POOL_SIZE tt iterator * iterator.sub_pool_id) % SIZE_MAX1 +
      2 * iterator.index
  let next := load mem next_raw_val 2
  if local_is_long_ref next ≠ 0 then none
  else if local_index next = 0 then some (of_raw ITERATOR_END)
  else
    let global_index :=
      (((GET_GLOBAL_INDEX_OF_REF iterator : Int) + local_index next) % (SIZE_MAX1 : Int)).toNat
    some { iterator with
           sub_pool_id := GLOBAL_INDEX_TO_SUBPOOL_ID global_index % 2 ^ 16
           index := GLOBAL_INDEX_TO_SUBPOOL_OFFSET global_index % 2 ^ 12 }

/-- The function iterator_prev; the `assert` makes the call fail (`none`) for
an iterator that is not of type ITERATOR_SIMPLE. -/
def iterator_prev (iterator : pool_struct) : Option pool_struct :=
  if iterator_type iterator ≠ ITERATOR_SIMPLE then none
  else if iterator.index > 0 then some { iterator with index := iterator.index - 1 }
  else if iterator.sub_pool_id > 0 then
    some { iterator with
           index := (PAGE_SIZE - 1) % 2 ^ 12
           sub_pool_id := iterator.sub_pool_id - 1 }
  else some (of_raw ITERATOR_END)

/-- The handle on the record of absolute index `i`, with the other members of
`it`. -/
def at_index (it : pool_struct) (i : Nat) : pool_struct :=
  { it with sub_pool_id := i / 4096, index := i % 4096 }

/-- The result of `k` calls of iterator_simple_next, each on the result of the
call before. -/
def simple_next_n (pool_ref : pool_struct) : Nat → pool_struct → pool_struct
  | 0, it => it
  | k + 1, it => iterator_simple_next pool_ref (simple_next_n pool_ref k it)

/-! ## pool_iterator.c: insertion and removal in lists -/

/-- The function iterator_list_insert: the record `reference` is linked in
after the record of the iterator.  The `assert` makes the call fail (`none`)
for an iterator that is not of type ITERATOR_LIST; the values returned by the
two set_field_reference calls are dropped. -/
def iterator_list_insert (tt : Type_table) (fuel : Nat) (alloc_ok : Bool)
    (iterator reference : pool_struct) (w : world) : Option (world × Int) :=
  if iterator_type iterator ≠ ITERATOR_LIST then none
  else
    let next := get_field_reference tt iterator 0 w
    match set_field_reference tt fuel alloc_ok reference next 0 w with
    | none => none
    | some (w1, _) =>
      match set_field_reference tt fuel alloc_ok iterator reference 0 w1 with
      | none => none
      | some (w2, _) => some (w2, 0)

/-- The function iterator_list_remove: the record after the one of the
iterator is unlinked; `2` is returned when there is none. -/
def iterator_list_remove (tt : Type_table) (fuel : Nat) (alloc_ok : Bool)
    (iterator : pool_struct) (w : world) : Option (world × Int) :=
  if iterator_type iterator ≠ ITERATOR_LIST then none
  else
    let next := get_field_reference tt iterator 0 w
    if raw_val next = NULL_REF then some (w, 2)
    else
      let next_next := get_field_reference tt next 0 w
      set_field_reference tt fuel alloc_ok iterator next_next 0 w

/-! ## pool_map.c: mapping a function over a field -/

/-- REF_END of pool_private.h: REF_NOT_FOUND. -/
def REF_END : Nat := REF_NOT_FOUND

/-- A `map_function_type` argument: what the call `f(a, b)` makes of the
memory, given the two addresses. -/
abbrev map_function := Nat → Nat → Mem → Mem

/-- The inner loop of field_map over the records of one full subpool, with `n`
iterations left from `j` on: the memory afterwards and the calls of `f`, as
pairs of addresses, first call first. -/
def field_map_page (f : map_function) (a b field_size target_field_size : Nat) :
    Nat → Nat → Mem → Mem × List (Nat × Nat)
  | 0, _, mem => (mem, [])
  | n + 1, j, mem =>
    let pa := (a + j * field_size) % SIZE_MAX1
    let pb := (b + j * target_field_size) % SIZE_MAX1
    let r := field_map_page f a b field_size target_field_size n (j + 1) (f pa pb mem)
    (r.1, (pa, pb) :: r.2)

/-- The outer loop of field_map over the full subpools, with `n` iterations
left from `i` on. -/
def field_map_subpools (f : map_function)
    (a_base b_base sub_pool_size target_sub_pool_size field_size target_field_size : Nat) :
    Nat → Nat → Mem → Mem × List (Nat × Nat)
  | 0, _, mem => (mem, [])
  | n + 1, i, mem =>
    let a := (a_base + i * sub_pool_size) % SIZE_MAX1
    let b := (b_base + i * target_sub_pool_size) % SIZE_MAX1
    let r1 := field_map_page f a b field_size target_field_size PAGE_SIZE 0 mem
    let r2 := field_map_subpools f a_base b_base sub_pool_size target_sub_pool_size field_size
      target_field_size n (i + 1) r1.1
    (r2.1, r1.2 ++ r2.2)

/-- The last loop of field_map, over the records of the subpool that is not
full, with `n` iterations left from `i` on. -/
def field_map_remainder (f : map_function)
    (a_base b_base full_subpools sub_pool_size target_sub_pool_size field_size
      target_field_size : Nat) :
    Nat → Nat → Mem → Mem × List (Nat × Nat)
  | 0, _, mem => (mem, [])
  | n + 1, i, mem =>
    let a := (a_base + full_subpools * sub_pool_size + i * field_size) % SIZE_MAX1
    let b := (b_base + full_subpools * target_sub_pool_size + i * target_field_size) % SIZE_MAX1
    let r := field_map_remainder f a_base b_base full_subpools sub_pool_size target_sub_pool_size
      field_size target_field_size n (i + 1) (f a b mem)
    (r.1, (a, b) :: r.2)

/-- What field_map and field_list_map leave behind: the handle stored through
`B`, the value returned, the memory, and the calls of `f`, first call first. -/
structure map_result where
  pool : pool_struct
  ret : Int
  mem : Mem
  calls : List (Nat × Nat)

/-- The function field_map.  `mmap_ok` tells whether the `mmap` of pool_grow
succeeds. -/
def field_map (tt : Type_table) (mmap_ok : Bool) (f : map_function) (A B : pool_struct)
    (field_no : Nat) (mem : Mem) : map_result :=
  let src_pool := A
  let dst_pool := B
  let pool_size := GET_SIZE_OF_POOL src_pool
  let full_subpools := pool_size / PAGE_SIZE
  let remainder := pool_size % PAGE_SIZE
  let field_size := GET_FIELD_SIZE tt src_pool field_no
  let sub_pool_size := GET_SUB_POOL_SIZE tt src_pool
  let field_offset := GET_FIELD_OFFSET tt src_pool field_no
  let target_field_size := GET_FIELD_SIZE tt dst_pool 0
  let target_sub_pool_size := GET_SUB_POOL_SIZE tt dst_pool
  let g := pool_grow tt mmap_ok B pool_size
  if g.ret ≠ 0 then { pool := g.pool, ret := 1, mem := mem, calls := [] }
  else
    let a_base := (GET_POOL_ADDR src_pool + field_offset) % SIZE_MAX1
    let b_base := GET_POOL_ADDR dst_pool
    let r1 := field_map_subpools f a_base b_base sub_pool_size target_sub_pool_size field_size
      target_field_size full_subpools 0 mem
    let r2 := field_map_remainder f a_base b_base full_subpools sub_pool_size target_sub_pool_size
      field_size target_field_size remainder 0 r1.1
    { pool := g.pool, ret := 0, mem := r2.1, calls := r1.2 ++ r2.2 }

/-- The loop of field_list_map with `fuel` iterations left: `idx` is the
absolute index of the node at hand, `b` the address of the next slot of `B`. -/
def field_list_map_loop (tt : Type_table) (mmap_ok : Bool) (f : map_function)
    (A : reference_struct) (sub_pool_size field_size target_field_size a_pool_start
      a_field_start : Nat) (T : table_state) :
    Nat → Nat → Nat → pool_struct → Mem → Option map_result
  | 0, _, _, _, _ => none
  | fuel + 1, idx, b, B, mem =>
    if idx = REF_END then some { pool := B, ret := 0, mem := mem, calls := [] }
    else
      let r := pool_alloc tt mmap_ok B
      if raw_val r.ret = NULL_REF then some { pool := r.pool, ret := 1, mem := mem, calls := [] }
      else
        let a := (a_field_start + sub_pool_size * GLOBAL_INDEX_TO_SUBPOOL_ID idx +
          field_size * GLOBAL_INDEX_TO_SUBPOOL_OFFSET idx) % SIZE_MAX1
        let mem1 := f a b mem
        let next_loc_ref :=
          (a_pool_start + sub_pool_size * GLOBAL_INDEX_TO_SUBPOOL_ID idx) % SIZE_MAX1 +
            2 * GLOBAL_INDEX_TO_SUBPOOL_OFFSET idx
        let next := load mem1 next_loc_ref 2
        let idx1 :=
          if local_is_long_ref next ≠ 0 then
            expand_local_reference T
              (next + GLOBAL_INDEX_TO_SUBPOOL_ID idx % 2 ^ 16 * 2 ^ 16 + A.pool_id * 2 ^ 32 +
                GLOBAL_INDEX_TO_SUBPOOL_OFFSET idx % 2 ^ 16 * 2 ^ 48)
          else if local_index next = 0 then REF_END
          else (((idx : Int) + local_index next) % (SIZE_MAX1 : Int)).toNat
        match field_list_map_loop tt mmap_ok f A sub_pool_size field_size target_field_size
            a_pool_start a_field_start T fuel idx1 ((b + target_field_size) % SIZE_MAX1)
            r.pool mem1 with
        | none => none
        | some res => some { res with calls := (a, b) :: res.calls }

/-- The function field_list_map; it does not return (`none`) when the loop
runs out of `fuel`. -/
def field_list_map (tt : Type_table) (mmap_ok : Bool) (f : map_function) (fuel : Nat)
    (A : reference_struct) (B : pool_struct) (field_no : Nat) (w : world) : Option map_result :=
  let src_ref := A
  let dst_pool := B
  let sub_pool_size := GET_SUB_POOL_SIZE tt src_ref
  let field_size := GET_FIELD_SIZE tt src_ref field_no
  let field_offset := GET_FIELD_OFFSET tt src_ref field_no
  let target_field_size := GET_FIELD_SIZE tt dst_pool 0
  let a_pool_start := GET_POOL_ADDR src_ref
  let a_field_start := (a_pool_start + field_offset) % SIZE_MAX1
  let b := GET_POOL_ADDR dst_pool
  let idx := GET_GLOBAL_INDEX_OF_REF src_ref
  field_list_map_loop tt mmap_ok f A sub_pool_size field_size target_field_size a_pool_start
    a_field_start w.table fuel idx b B w.mem

/-! ## Lists and trees stored in a pool -/

/-- The absolute index of the record that the local reference stored in field
`field_nr` of the record `this` stands for, in the words of the specification:
the value looked up under the tag of the field for a far reference, none
(REF_NOT_FOUND) for a near reference with index 0, and the index of the record
plus the signed index of the reference otherwise. -/
def stored_index (tt : Type_table) (this : reference_struct) (field_nr : Nat) (w : world) :
    Nat :=
  let raw := load w.mem (local_ref_ptr tt this field_nr) 2
  if local_is_long_ref raw ≠ 0 then expand_local_reference w.table (tag_raw this raw)
  else if local_index raw = 0 then REF_NOT_FOUND
  else (((GET_GLOBAL_INDEX_OF_REF this : Int) + local_index raw) % (SIZE_MAX1 : Int)).toNat

/-- The records of absolute indices `c`, first to last, are a list in the pool
of `A`: field 0 of each stands for the next one, field 0 of the last for none,
and all lie below `2 ^ 28`, the number of records that a pool can hold. -/
def list_chain (tt : Type_table) (w : world) (A : reference_struct) : List Nat → Prop
  | [] => False
  | [i] => i < 2 ^ 28 ∧ stored_index tt (at_index A i) 0 w = REF_NOT_FOUND
  | i :: j :: rest =>
    i < 2 ^ 28 ∧ stored_index tt (at_index A i) 0 w = j ∧ list_chain tt w A (j :: rest)

/-! ## gc.c: collecting a pool

The functions take the answers of the system as arguments: `mmap_ok` tells for
a pool handle whether the `mmap` that pool_alloc calls on it returns the
address asked for, and `munmap_errno` gives for an address range the value that
`munmap` leaves in `errno`, `0` when it succeeds.  Memory is read and written
whether or not it is mapped. -/

/-- ONE_STEP of gc.c: the `raw_val` of the local reference with `index = 1`. -/
def ONE_STEP : Nat := local_raw 1 0 0

/-- OUT_OF_MEM of gc.c: `~((size_t)0u)`. -/
def OUT_OF_MEM : Nat := SIZE_MAX1 - 1

/-- LONG_TYPE_ID of basic_types.h. -/
def LONG_TYPE_ID : Nat := 1

/-- The statics of gc.c: the handle `root_stack_pool`, the counter
`root_stack_size` and the pointer `root_stack`.  The array that `root_stack`
points to lies in memory: entry `i` is the 8 bytes at `root_stack + 8 * i`. -/
structure gc_globals where
  root_stack_pool : pool_struct
  root_stack_size : Nat
  root_stack : Nat

/-- The function pool_to_array of pool.c. -/
def pool_to_array (pool : pool_struct) : Nat := POOL_IDX_TO_ADDR pool.pool_id

/-- The function pool_destroy of pool.c: the handle stored through `pool`, the
value returned and the range handed to `munmap`. -/
def pool_destroy (tt : Type_table) (munmap_errno : Nat × Nat → Nat) (pool : pool_struct) :
    pool_result Int :=
  let sub_pool_size := (type_row tt pool.type_id).type_size * PAGE_SIZE % SIZE_MAX1
  let pool_start := POOL_IDX_TO_ADDR pool.pool_id
  let pool_size := (1 + pool.sub_pool_id) * sub_pool_size % SIZE_MAX1
  if munmap_errno (pool_start, pool_size) ≠ 0 then
    { pool := pool, ret := (munmap_errno (pool_start, pool_size) : Int),
      call := some (pool_start, pool_size) }
  else
    { pool := of_raw NULL_POOL, ret := 0, call := some (pool_start, pool_size) }

/-- The function gc_init: the statics, the new value of NEXT_FREE_POOL_IDX and
the value returned. -/
def gc_init (tt : Type_table) (next_free : Nat) (create_ok : Bool) (g : gc_globals) :
    gc_globals × Nat × Int :=
  let c := pool_create tt next_free create_ok LONG_TYPE_ID
  if raw_val c.1 = NULL_POOL then ({ g with root_stack_pool := c.1 }, c.2.1, 1)
  else ({ g with root_stack_pool := c.1, root_stack := pool_to_array c.1 }, c.2.1, 0)

/-- The function push_root; `root` is the address of the caller's reference. -/
def push_root (tt : Type_table) (mmap_ok : pool_struct → Bool) (g : gc_globals) (root : Nat)
    (mem : Mem) : gc_globals × Mem × Int :=
  let r := pool_alloc tt (mmap_ok g.root_stack_pool) g.root_stack_pool
  if raw_val r.ret = NULL_REF then ({ g with root_stack_pool := r.pool }, mem, 1)
  else
    ({ g with root_stack_pool := r.pool
              root_stack_size := (g.root_stack_size + 1) % SIZE_MAX1 },
      store mem ((g.root_stack + 8 * g.root_stack_size) % SIZE_MAX1) 8 root, 0)

/-- The static function pop_root: the statics after the call and the pointer
returned.  What pool_shrink returns is dropped. -/
def pop_root (tt : Type_table) (munmap_errno : Nat × Nat → Nat) (g : gc_globals) (mem : Mem) :
    gc_globals × Nat :=
  let size1 := sub64 g.root_stack_size 1
  let ret_val := load mem ((g.root_stack + 8 * size1) % SIZE_MAX1) 8
  let errno := ((pool_shrink tt 0 g.root_stack_pool 1).call.map munmap_errno).getD 0
  ({ g with root_stack_pool := (pool_shrink tt errno g.root_stack_pool 1).pool
            root_stack_size := size1 }, ret_val)

/-- The static function copy_data_fields with `n` entries left, from entry `i`
of the array `field_offsets` on. -/
def copy_data_fields (dst_spool src_spool dst_idx src_idx : Nat)
    (field_offsets : List field_offset) : Nat → Nat → Mem → Mem
  | 0, _, mem => mem
  | n + 1, i, mem =>
    let field_size := (field_offsets.getD i ⟨0, 0, 0⟩).field_size
    let dst := (dst_spool + (field_offsets.getD i ⟨0, 0, 0⟩).offset * PAGE_SIZE) % SIZE_MAX1
    let src := (src_spool + (field_offsets.getD i ⟨0, 0, 0⟩).offset * PAGE_SIZE) % SIZE_MAX1
    let dst_field := (dst + field_size * dst_idx) % SIZE_MAX1
    let src_field := (src + field_size * src_idx) % SIZE_MAX1
    let mem1 :=
      if field_size = 1 then store mem dst_field 1 (load mem src_field 1)
      else if field_size = 2 then store mem dst_field 2 (load mem src_field 2)
      else if field_size = 4 then store mem dst_field 4 (load mem src_field 4)
      else if field_size = 8 then store mem dst_field 8 (load mem src_field 8)
      else memcpy mem dst_field src_field field_size
    copy_data_fields dst_spool src_spool dst_idx src_idx field_offsets n (i + 1) mem1

/-- What a move leaves behind: the handle of the destination pool, memory and
expansion table, and the value returned. -/
structure move_result (α : Type) where
  pool : pool_struct
  w : world
  ret : α

/-- The loop of move_list with `fuel` iterations left. -/
def move_list_loop (tt : Type_table) (mmap_ok : pool_struct → Bool) (src : pool_struct)
    (src_base dst_base start_idx : Nat) :
    Nat → pool_struct → Nat → Nat → world → Option (move_result Nat)
  | 0, _, _, _, _ => none
  | fuel + 1, dst_pool, src_idx, dst_idx, w =>
    if src_idx = REF_NOT_FOUND then some { pool := dst_pool, w := w, ret := start_idx }
    else
      let field_offsets := (type_row tt src.type_id).field_offsets
      let field_count := (type_row tt src.type_id).field_count
      let spool_size := GET_SUB_POOL_SIZE tt src
      let src_spool := (src_base + GLOBAL_INDEX_TO_SUBPOOL_ID src_idx * spool_size) % SIZE_MAX1
      let dst_spool := (dst_base + GLOBAL_INDEX_TO_SUBPOOL_ID dst_idx * spool_size) % SIZE_MAX1
      let src_sp_idx := GLOBAL_INDEX_TO_SUBPOOL_OFFSET src_idx
      let dst_sp_idx := GLOBAL_INDEX_TO_SUBPOOL_OFFSET dst_idx
      let next := load w.mem (src_spool + 2 * src_sp_idx) 2
      let tag := next + GLOBAL_INDEX_TO_SUBPOOL_ID src_idx % 2 ^ 16 * 2 ^ 16 +
        src.pool_id * 2 ^ 32 + GLOBAL_INDEX_TO_SUBPOOL_OFFSET src_idx % 2 ^ 16 * 2 ^ 48
      let next_idx :=
        if local_is_long_ref next ≠ 0 then expand_local_reference w.table tag
        else if local_index next ≠ 0 then
          (((src_idx : Int) + local_index next) % (SIZE_MAX1 : Int)).toNat
        else REF_NOT_FOUND
      let T1 := if local_is_long_ref next ≠ 0 then (delete_reference w.table tag).1 else w.table
      let mem1 := store w.mem (dst_spool + 2 * dst_sp_idx) 2
        (if next_idx = REF_NOT_FOUND then 0 else ONE_STEP)
      let mem2 := copy_data_fields dst_spool src_spool dst_sp_idx src_sp_idx
        (field_offsets.drop 1) (sub64 field_count 1) 0 mem1
      if next_idx ≠ REF_NOT_FOUND then
        let r := pool_alloc tt (mmap_ok dst_pool) dst_pool
        if raw_val r.ret = NULL_REF then
          some { pool := r.pool, w := ⟨mem2, T1⟩, ret := OUT_OF_MEM }
        else
          move_list_loop tt mmap_ok src src_base dst_base start_idx fuel r.pool next_idx
            ((dst_idx + 1) % SIZE_MAX1) ⟨mem2, T1⟩
      else
        move_list_loop tt mmap_ok src src_base dst_base start_idx fuel dst_pool next_idx
          dst_idx ⟨mem2, T1⟩

/-- The static function move_list; it does not return (`none`) when the loop
runs out of `fuel`. -/
def move_list (tt : Type_table) (mmap_ok : pool_struct → Bool) (fuel : Nat)
    (dst_pool src_pool : pool_struct) (src_idx : Nat) (w : world) :
    Option (move_result Nat) :=
  let src_base := pool_to_array src_pool
  let dst_base := pool_to_array dst_pool
  let r := pool_alloc tt (mmap_ok dst_pool) dst_pool
  if raw_val r.ret = NULL_REF then some { pool := r.pool, w := w, ret := OUT_OF_MEM }
  else
    move_list_loop tt mmap_ok src_pool src_base dst_base (GET_GLOBAL_INDEX_OF_REF r.ret)
      fuel r.pool src_idx (GET_GLOBAL_INDEX_OF_REF r.ret) w

/-- The loops `for (i = first ; i < field_count ; ++i) set_field(new_root, i,
get_field(root, i))` of move_btree and move_ntree, with `n` fields left from
field `i` on; the `assert` of get_field makes the call fail (`none`). -/
def copy_fields (tt : Type_table) (new_root root : reference_struct) :
    Nat → Nat → Mem → Option Mem
  | 0, _, mem => some mem
  | n + 1, i, mem =>
    match get_field tt root i with
    | none => none
    | some data => copy_fields tt new_root root n (i + 1) (set_field tt new_root i data mem).1

/-- The static function move_btree, with `fuel` bounding the depth of the
recursion; `fuel_c` and `alloc_ok` are handed to set_field_reference.  The
reference returned by pool_alloc is used unchecked, as in the source. -/
def move_btree (tt : Type_table) (mmap_ok : pool_struct → Bool) (fuel_c : Nat) (alloc_ok : Bool)
    (src_pool : pool_struct) :
    Nat → pool_struct → reference_struct → world → Option (move_result reference_struct)
  | 0, _, _, _ => none
  | fuel + 1, dst_pool, root, w =>
    if raw_val root = NULL_REF then some { pool := dst_pool, w := w, ret := of_raw NULL_REF }
    else
      let field_count := (type_row tt src_pool.type_id).field_count
      let old_left := get_field_reference tt root 0 w
      match move_btree tt mmap_ok fuel_c alloc_ok src_pool fuel dst_pool old_left w with
      | none => none
      | some r1 =>
        let a := pool_alloc tt (mmap_ok r1.pool) r1.pool
        let new_root := a.ret
        match copy_fields tt new_root root (field_count - 2) 2 r1.w.mem with
        | none => none
        | some mem2 =>
          match set_field_reference tt fuel_c alloc_ok new_root r1.ret 0 ⟨mem2, r1.w.table⟩ with
          | none => none
          | some (w3, _) =>
            let old_right := get_field_reference tt root 1 w3
            match move_btree tt mmap_ok fuel_c alloc_ok src_pool fuel a.pool old_right w3 with
            | none => none
            | some r4 =>
              match set_field_reference tt fuel_c alloc_ok new_root r4.ret 1 r4.w with
              | none => none
              | some (w5, _) => some { pool := r4.pool, w := w5, ret := new_root }

/-- The children that the second loop of move_ntree collects: the loop over the
reference fields from field `i` on, `n` of them.  Yields `none` when an
`assert` fails, else the state, the pairs of `children` and `new_children`
gathered and whether the loop ran to its end (`false`: pool_alloc returned
NULL_REF and move_ntree returns 1). -/
def move_ntree_children (tt : Type_table) (mmap_ok : pool_struct → Bool) (fuel_c : Nat)
    (alloc_ok : Bool) (root new_root : reference_struct) :
    Nat → Nat → pool_struct → world →
      Option (pool_struct × world × List (reference_struct × reference_struct) × Bool)
  | 0, _, dst_pool, w => some (dst_pool, w, [], true)
  | n + 1, i, dst_pool, w =>
    let child := get_field_reference tt root i w
    if raw_val child ≠ NULL_REF then
      let a := pool_alloc tt (mmap_ok dst_pool) dst_pool
      if raw_val a.ret = NULL_REF then some (a.pool, w, [], false)
      else
        match set_field_reference tt fuel_c alloc_ok new_root a.ret i w with
        | none => none
        | some (w1, _) =>
          match move_ntree_children tt mmap_ok fuel_c alloc_ok root new_root n (i + 1) a.pool w1
            with
          | none => none
          | some (p, w2, cs, finished) => some (p, w2, (child, a.ret) :: cs, finished)
    else move_ntree_children tt mmap_ok fuel_c alloc_ok root new_root n (i + 1) dst_pool w

mutual
/-- The static function move_ntree, with `fuel` bounding the depth of the
recursion. -/
def move_ntree (tt : Type_table) (mmap_ok : pool_struct → Bool) (fuel_c : Nat) (alloc_ok : Bool)
    (field_count ref_field_count : Nat) :
    Nat → pool_struct → reference_struct → reference_struct → world → Option (move_result Int)
  | 0, _, _, _, _ => none
  | fuel + 1, dst_pool, root, new_root, w =>
    match copy_fields tt new_root root (field_count - ref_field_count) ref_field_count w.mem with
    | none => none
    | some mem1 =>
      match move_ntree_children tt mmap_ok fuel_c alloc_ok root new_root ref_field_count 0
          dst_pool ⟨mem1, w.table⟩ with
      | none => none
      | some (p, w2, cs, finished) =>
        if !finished then some { pool := p, w := w2, ret := 1 }
        else
          match move_ntree_each tt mmap_ok fuel_c alloc_ok field_count ref_field_count fuel cs
              p w2 with
          | none => none
          | some (p3, w3) => some { pool := p3, w := w3, ret := 0 }
/-- The last loop of move_ntree: one call for each child gathered, the values
returned dropped. -/
def move_ntree_each (tt : Type_table) (mmap_ok : pool_struct → Bool) (fuel_c : Nat)
    (alloc_ok : Bool) (field_count ref_field_count : Nat) :
    Nat → List (reference_struct × reference_struct) → pool_struct → world →
      Option (pool_struct × world)
  | _, [], dst_pool, w => some (dst_pool, w)
  | fuel, c :: cs, dst_pool, w =>
    match move_ntree tt mmap_ok fuel_c alloc_ok field_count ref_field_count fuel dst_pool
        c.1 c.2 w with
    | none => none
    | some r =>
      move_ntree_each tt mmap_ok fuel_c alloc_ok field_count ref_field_count fuel cs r.pool r.w
end

/-- What collect_pool leaves behind: the handle stored through `pool`, the
statics of gc.c, memory and expansion table, NEXT_FREE_POOL_IDX, the value
returned and the ranges handed to `munmap` by pool_destroy. -/
structure collect_result where
  pool : pool_struct
  g : gc_globals
  w : world
  next_free : Nat
  ret : Int
  unmapped : List (Nat × Nat)

/-- The members of the environment that collect_pool runs in. -/
structure collect_env where
  tt : Type_table
  create_ok : Bool
  mmap_ok : pool_struct → Bool
  munmap_errno : Nat × Nat → Nat
  alloc_ok : Bool
  fuel : Nat

/-- The `while (root_stack_size > 0)` loop of collect_pool for a pool of lists,
with `n` iterations left. -/
def collect_list_roots (e : collect_env) (src : pool_struct) (next_free : Nat) :
    Nat → pool_struct → gc_globals → world → Option collect_result
  | 0, _, _, _ => none
  | n + 1, dst, g, w =>
    if g.root_stack_size = 0 then
      some { pool := dst, g := g, w := w, next_free := next_free, ret := 0,
             unmapped := [(pool_destroy e.tt e.munmap_errno src).call.getD (0, 0)] }
    else
      let g1 := (pop_root e.tt e.munmap_errno g w.mem).1
      let root := (pop_root e.tt e.munmap_errno g w.mem).2
      let root_ref := of_raw (load w.mem root 8)
      let src_idx := GET_GLOBAL_INDEX_OF_REF root_ref
      match move_list e.tt e.mmap_ok e.fuel dst src src_idx w with
      | none => none
      | some r =>
        if r.ret = OUT_OF_MEM then
          some { pool := src, g := g1, w := r.w, next_free := next_free, ret := 2,
                 unmapped := [(pool_destroy e.tt e.munmap_errno r.pool).call.getD (0, 0)] }
        else
          let new_ref : reference_struct :=
            { type_id := src.type_id
              sub_pool_id := GLOBAL_INDEX_TO_SUBPOOL_ID r.ret % 2 ^ 16
              pool_id := r.pool.pool_id
              index := GLOBAL_INDEX_TO_SUBPOOL_OFFSET r.ret % 2 ^ 12
              full := 0, is_extended := 0, gc_state := 0 }
          collect_list_roots e src next_free n r.pool g1
            { r.w with mem := store r.w.mem root 8 (raw_val new_ref) }

/-- The `while (root_stack_size > 0)` loop of collect_pool for a pool of binary
trees, with `n` iterations left. -/
def collect_btree_roots (e : collect_env) (src : pool_struct) (next_free : Nat) :
    Nat → pool_struct → gc_globals → world → Option collect_result
  | 0, _, _, _ => none
  | n + 1, dst, g, w =>
    if g.root_stack_size = 0 then
      some { pool := dst, g := g, w := w, next_free := next_free, ret := 0,
             unmapped := [(pool_destroy e.tt e.munmap_errno src).call.getD (0, 0)] }
    else
      let g1 := (pop_root e.tt e.munmap_errno g w.mem).1
      let root := (pop_root e.tt e.munmap_errno g w.mem).2
      match move_btree e.tt e.mmap_ok e.fuel e.alloc_ok src e.fuel dst
          (of_raw (load w.mem root 8)) w with
      | none => none
      | some r =>
        if raw_val r.ret = NULL_REF then
          some { pool := src, g := g1, w := r.w, next_free := next_free, ret := 2,
                 unmapped := [(pool_destroy e.tt e.munmap_errno r.pool).call.getD (0, 0)] }
        else
          collect_btree_roots e src next_free n r.pool g1
            { r.w with mem := store r.w.mem root 8 (raw_val r.ret) }

/-- The `while (root_stack_size > 0)` loop of collect_pool for the other
pools, with `n` iterations left. -/
def collect_ntree_roots (e : collect_env) (src : pool_struct) (next_free : Nat)
    (field_count num_refs : Nat) :
    Nat → pool_struct → gc_globals → world → Option collect_result
  | 0, _, _, _ => none
  | n + 1, dst, g, w =>
    if g.root_stack_size = 0 then
      some { pool := dst, g := g, w := w, next_free := next_free, ret := 0,
             unmapped := [(pool_destroy e.tt e.munmap_errno src).call.getD (0, 0)] }
    else
      let g1 := (pop_root e.tt e.munmap_errno g w.mem).1
      let root := (pop_root e.tt e.munmap_errno g w.mem).2
      let a := pool_alloc e.tt (e.mmap_ok dst) dst
      match move_ntree e.tt e.mmap_ok e.fuel e.alloc_ok field_count num_refs e.fuel a.pool
          (of_raw (load w.mem root 8)) a.ret w with
      | none => none
      | some r =>
        if r.ret ≠ 0 then
          some { pool := src, g := g1, w := r.w, next_free := next_free, ret := 2,
                 unmapped := [(pool_destroy e.tt e.munmap_errno r.pool).call.getD (0, 0)] }
        else
          collect_ntree_roots e src next_free field_count num_refs n r.pool g1
            { r.w with mem := store r.w.mem root 8 (raw_val a.ret) }

/-- The function collect_pool on the handle `pool` that its argument points
to.  The loop that counts the leading local references is the one of
get_reference_count; the call does not return (`none`) when an `assert` fails
or a loop runs out of fuel. -/
def collect_pool (e : collect_env) (pool : pool_struct) (g : gc_globals) (next_free : Nat)
    (w : world) : Option collect_result :=
  let src := pool
  let c := pool_create e.tt next_free e.create_ok src.type_id
  let dst := c.1
  if raw_val dst = NULL_POOL then
    some { pool := pool, g := g, w := w, next_free := c.2.1, ret := 1, unmapped := [] }
  else
    let field_count := (type_row e.tt src.type_id).field_count
    let num_refs := get_reference_count e.tt src.type_id
    if num_refs = 1 then
      collect_list_roots e src c.2.1 (g.root_stack_size + 1) dst g w
    else if num_refs = 2 then
      collect_btree_roots e src c.2.1 (g.root_stack_size + 1) dst g w
    else
      collect_ntree_roots e src c.2.1 field_count num_refs (g.root_stack_size + 1) dst g w

/-! ## Records of a pool and their bytes -/

/-- The reference that pool_alloc returns for the record of absolute index `i`
of a pool: the members `type_id` and `pool_id` of the pool, the position of the
record, and no flag bit set. -/
def record_ref (pool : pool_struct) (i : Nat) : reference_struct :=
  { type_id := pool.type_id, sub_pool_id := i / 4096, pool_id := pool.pool_id,
    index := i % 4096, full := 0, is_extended := 0, gc_state := 0 }

/-- Every lane of the type ends within the record. -/
def lanes_within (tt : Type_table) (type_id : Nat) : Prop :=
  ∀ k, k < (type_row tt type_id).field_count →
    (field_entry tt type_id k).offset + (field_entry tt type_id k).field_size ≤
      (type_row tt type_id).type_size

instance (tt : Type_table) (type_id : Nat) : Decidable (lanes_within tt type_id) := by
  unfold lanes_within; infer_instance

/-- The lanes of the type follow one another in the order of the fields. -/
def lanes_apart (tt : Type_table) (type_id : Nat) : Prop :=
  ∀ k, k < (type_row tt type_id).field_count → ∀ j, j < k →
    (field_entry tt type_id j).offset + (field_entry tt type_id j).field_size ≤
      (field_entry tt type_id k).offset

instance (tt : Type_table) (type_id : Nat) : Decidable (lanes_apart tt type_id) := by
  unfold lanes_apart; infer_instance

/-- The address `x` is that of a byte of a field of the record `r`. -/
def record_byte (tt : Type_table) (r : reference_struct) (x : Nat) : Prop :=
  ∃ k b, k < (type_row tt r.type_id).field_count ∧
    b < (field_entry tt r.type_id k).field_size ∧ x = field_address tt r k + b

/-- Copying the fields `ks` of the record `rs` to the record `rd`, one memcpy
of `field_size` bytes for each field. -/
def copy_cells (tt : Type_table) (rd rs : reference_struct) (ks : List Nat) (mem : Mem) : Mem :=
  ks.foldl (fun m k => memcpy m (field_address tt rd k) (field_address tt rs k)
    (field_entry tt rd.type_id k).field_size) mem

/-! ## Sequences of calls on the expansion table -/

/-- A call of compress_absolute_index or of delete_reference. -/
inductive table_op where
  | compress (key value : Nat)
  | delete (key : Nat)
  deriving DecidableEq

/-- The globals after one call, with the allocations of grow_hash_table
succeeding and `fuel` bounding the probe loop; `none` when the call does not
return. -/
def table_step (fuel : Nat) (T : table_state) : table_op → Option table_state
  | table_op.compress key value =>
    (compress_absolute_index fuel true T key value).map Prod.fst
  | table_op.delete key => some (delete_reference T key).1

/-- The globals after a sequence of calls. -/
def table_run (fuel : Nat) : table_state → List table_op → Option table_state
  | T, [] => some T
  | T, op :: ops =>
    match table_step fuel T op with
    | none => none
    | some T1 => table_run fuel T1 ops

/-- Every call of compress_absolute_index in the sequence is entered with
`hash_table_value_count * 2 < hash_table_size`. -/
def below_half (fuel : Nat) : table_state → List table_op → Prop
  | _, [] => True
  | T, op :: ops =>
    (∀ key value, op = table_op.compress key value →
      T.hash_table_value_count * 2 < T.hash_table_size) ∧
    ∀ T1, table_step fuel T op = some T1 → below_half fuel T1 ops

/-! ## Arithmetic of the macros -/

theorem and_mask12 (n : Nat) : n &&& 4095 = n % 4096 := by
  have h := Nat.and_pow_two_sub_one_eq_mod n 12
  simpa using h

theorem shift12 (n : Nat) : n >>> 12 = n / 4096 := by
  simp [Nat.shiftRight_eq_div_pow]

theorem shift16 (n : Nat) : n >>> 16 = n / 65536 := by
  simp [Nat.shiftRight_eq_div_pow]

theorem SUB_POOLS_NEEDED_eq (e : Nat) :
    SUB_POOLS_NEEDED e = (if e % 4096 = 0 then 0 else 1) + e / 4096 := by
  unfold SUB_POOLS_NEEDED
  simp only [Nat.reducePow, Nat.reduceSub, and_mask12, shift12]
  split_ifs <;> simp_all

/-- The cursor arithmetic of pool_add_elements: whenever the call succeeds, the
new population is the old one plus `num_elements`, except for the call with
`num_elements = 0` on a handle with `index = 0` and `full = 0`. -/
theorem pool_add_elements_size (tt : Type_table) (p : pool_struct) (n : Nat)
    (hi : p.index < 4096) (hf : p.full ≠ 0 → p.index = 0)
    (hn : ¬ (n = 0 ∧ p.index = 0 ∧ p.full = 0))
    (hov : GET_SIZE_OF_POOL p + n ≤ 2 ^ 28) :
    GET_SIZE_OF_POOL (pool_add_elements tt true p n).pool = GET_SIZE_OF_POOL p + n := by
  obtain ⟨t, s, pid, i, f, e, g⟩ := p
  simp only [pool_add_elements, PAGE_SIZE, GET_SIZE_OF_POOL, SUB_POOLS_NEEDED_eq,
    Nat.reducePow, Bool.not_true, Bool.false_eq_true, if_false] at *
  by_cases hfull : f = 0
  · subst hfull
    simp only [ne_eq, not_true_eq_false, if_false, false_and] at *
    split_ifs <;>
      (try simp only [not_true_eq_false, not_false_eq_true, true_and, false_and, and_true,
        and_false] at *) <;> omega
  · have hidx := hf hfull
    subst hidx
    simp only [ne_eq, hfull, not_false_eq_true, if_true, true_and] at *
    split_ifs <;>
      (try simp only [not_true_eq_false, not_false_eq_true, true_and, false_and, and_true,
        and_false] at *) <;> omega

theorem pool_create_ok (tt : Type_table) (next_free type_id : Nat) :
    (pool_create tt next_free true type_id).1 =
      { type_id := type_id, sub_pool_id := 0, pool_id := next_free, index := 0,
        full := 0, is_extended := 0, gc_state := 0 } := by
  simp [pool_create]

/-- One successful pool_alloc moves the cursor of a pool of `k` records to the
cursor of a pool of `k + 1` records and returns the slot of absolute index `k`. -/
theorem pool_alloc_cursor (tt : Type_table) (p : pool_struct) (k : Nat) (hk : k < 2 ^ 28) :
    (pool_alloc tt true (cursor_at p k)).pool = cursor_at p (k + 1) ∧
    (pool_alloc tt true (cursor_at p k)).ret =
      { p with sub_pool_id := k / 4096, index := k % 4096, full := 0 } := by
  obtain ⟨t, s, pid, i, f, e, g⟩ := p
  simp only [pool_alloc, pool_add_elements, cursor_at, PAGE_SIZE, SUB_POOLS_NEEDED_eq,
    Nat.reducePow, Bool.not_true, Bool.false_eq_true, if_false] at *
  constructor <;> split_ifs <;>
    simp only [pool_struct.mk.injEq, true_and, and_true, and_self] <;>
    (try simp only [not_true_eq_false, not_false_eq_true, true_and, false_and, and_true,
        and_false, ne_eq] at *) <;> omega

theorem alloc_n_cursor (tt : Type_table) (p : pool_struct) (k : Nat) (hk : k ≤ 2 ^ 28) :
    alloc_n tt (cursor_at p 0) k = cursor_at p k := by
  induction k with
  | zero => rfl
  | succ k ih =>
    have hk1 : k < 2 ^ 28 := by omega
    rw [alloc_n, ih (by omega), (pool_alloc_cursor tt p k hk1).1]

theorem raw_val_ne_zero (p : pool_struct) (h : p.pool_id ≠ 0) : raw_val p ≠ 0 := by
  unfold raw_val
  have : 0 < p.pool_id * 2 ^ 32 := Nat.mul_pos (Nat.pos_of_ne_zero h) (by norm_num)
  omega

/-- The members are recovered from the packed word: two well-formed handles
with the same `raw_val` are the same handle. -/
theorem of_raw_raw_val (p : pool_struct) (h : p.wf) : of_raw (raw_val p) = p := by
  obtain ⟨t, s, pid, i, f, e, g⟩ := p
  simp only [pool_struct.wf] at h
  simp only [of_raw, raw_val, Nat.reducePow, pool_struct.mk.injEq]
  omega

theorem pool_get_ref_cursor (p : pool_struct) (k q : Nat) (hk : k < 2 ^ 28)
    (he : p.is_extended = 0) (hg : p.gc_state = 0) :
    pool_get_ref (cursor_at p q) k =
      some { p with sub_pool_id := k / 4096, index := k % 4096, full := 0 } := by
  obtain ⟨t, s, pid, i, f, e, g⟩ := p
  simp only at he hg
  subst he hg
  have h1 : ¬ (k / 4096 / 65536 ≠ 0) := by omega
  simp only [pool_get_ref, GLOBAL_INDEX_TO_SUBPOOL_ID, GLOBAL_INDEX_TO_SUBPOOL_OFFSET,
    Nat.reducePow, Nat.reduceSub, and_mask12, shift12, shift16, h1, if_false, cursor_at,
    set_raw_index, Option.some.injEq, pool_struct.mk.injEq, true_and]
  omega

/-! ## Claims C1 to C5: the population cursor -/

/-- C1 (the code departs from the claim): pool_grow with `num_elements = 0` on a
freshly created, empty pool returns 0 but marks the empty first subpool as
full, so GET_SIZE_OF_POOL goes from 0 to 4096 instead of staying at 0 + 0. -/
theorem C1_pool_grow_zero_on_empty_pool (tt : Type_table) (next_free type_id : Nat) :
    GET_SIZE_OF_POOL (pool_create tt (next_free + 1) true type_id).1 = 0 ∧
    (pool_grow tt true (pool_create tt (next_free + 1) true type_id).1 0).ret = 0 ∧
    (pool_grow tt true (pool_create tt (next_free + 1) true type_id).1 0).pool =
      { type_id := type_id, sub_pool_id := 0, pool_id := next_free + 1, index := 0,
        full := 1, is_extended := 0, gc_state := 0 } ∧
    GET_SIZE_OF_POOL (pool_grow tt true (pool_create tt (next_free + 1) true type_id).1 0).pool
      = 4096 := by
  have hne : raw_val (⟨type_id, 0, next_free + 1, 0, 0, 0, 0⟩ : pool_struct) ≠ 0 :=
    raw_val_ne_zero _ (by simp)
  simp only [pool_create_ok, pool_grow, pool_add_elements, GET_SIZE_OF_POOL, PAGE_SIZE, NULL_REF]
  simp [hne]

/-- C2: for a freshly created pool (pool_create returned a handle other than
NULL_POOL) and every `k < 2 ^ 28`, the call of pool_alloc that follows `k`
successful ones returns a reference that is not NULL_REF, whose absolute index
is `k`, and that equals, member for member and hence as a 64-bit word, what
pool_get_ref yields for index `k` on the handle left by the call. -/
theorem C2_pool_alloc_returns_cursor (tt : Type_table) (next_free type_id k : Nat)
    (hcreated : raw_val (pool_create tt next_free true type_id).1 ≠ NULL_POOL)
    (hk : k < 2 ^ 28) :
    raw_val (pool_alloc tt true
      (alloc_n tt (pool_create tt next_free true type_id).1 k)).ret ≠ NULL_REF ∧
    GET_GLOBAL_INDEX_OF_REF (pool_alloc tt true
      (alloc_n tt (pool_create tt next_free true type_id).1 k)).ret = k ∧
    pool_get_ref (pool_alloc tt true
        (alloc_n tt (pool_create tt next_free true type_id).1 k)).pool k =
      some (pool_alloc tt true (alloc_n tt (pool_create tt next_free true type_id).1 k)).ret ∧
    Option.map raw_val (pool_get_ref (pool_alloc tt true
        (alloc_n tt (pool_create tt next_free true type_id).1 k)).pool k) =
      some (raw_val (pool_alloc tt true
        (alloc_n tt (pool_create tt next_free true type_id).1 k)).ret) := by
  have hfresh : (pool_create tt next_free true type_id).1 =
      cursor_at (pool_create tt next_free true type_id).1 0 := by
    simp [pool_create_ok, cursor_at]
  have hcur := alloc_n_cursor tt (pool_create tt next_free true type_id).1 k (by omega)
  rw [← hfresh] at hcur
  obtain ⟨hp, hr⟩ := pool_alloc_cursor tt (pool_create tt next_free true type_id).1 k hk
  rw [hcur, hp, hr]
  have hget := pool_get_ref_cursor (pool_create tt next_free true type_id).1 k (k + 1) hk
    (by simp [pool_create_ok]) (by simp [pool_create_ok])
  refine ⟨?_, ?_, hget, ?_⟩
  · simp only [pool_create_ok, raw_val, NULL_POOL, NULL_REF, Nat.reducePow] at hcreated ⊢
    omega
  · simp only [GET_GLOBAL_INDEX_OF_REF, PAGE_SIZE]
    omega
  · rw [hget]; rfl

/-- C2 at a concrete input: the 4097th allocation in the pool with id 1 of
type 0. -/
theorem C2_pool_alloc_returns_cursor_witness :
    raw_val (pool_create basic_type_table 1 true 0).1 ≠ NULL_POOL ∧ 4096 < 2 ^ 28 ∧
    GET_GLOBAL_INDEX_OF_REF (pool_alloc basic_type_table true
      (alloc_n basic_type_table (pool_create basic_type_table 1 true 0).1 4096)).ret = 4096 :=
  ⟨by decide, by norm_num,
    (C2_pool_alloc_returns_cursor basic_type_table 1 0 4096 (by decide) (by norm_num)).2.1⟩

/-- C3 (the code departs from the claim): the char pool with id 1 grown to 4097
records and shrunk by one record, `munmap` succeeding.  pool_shrink returns 0,
unmaps the second subpool and leaves the cursor at subpool 0, index 0 with
`full` clear, so the population reads 0 where 4097 - 1 = 4096 records remain. -/
theorem C3_pool_shrink_loses_a_page :
    GET_SIZE_OF_POOL
      (pool_grow basic_type_table true (pool_create basic_type_table 1 true 0).1 4097).pool
      = 4097 ∧
    (pool_shrink basic_type_table 0
      (pool_grow basic_type_table true (pool_create basic_type_table 1 true 0).1 4097).pool
      1).ret = 0 ∧
    (pool_shrink basic_type_table 0
      (pool_grow basic_type_table true (pool_create basic_type_table 1 true 0).1 4097).pool
      1).pool = ⟨0, 0, 1, 0, 0, 0, 0⟩ ∧
    GET_SIZE_OF_POOL (pool_shrink basic_type_table 0
      (pool_grow basic_type_table true (pool_create basic_type_table 1 true 0).1 4097).pool
      1).pool = 0 := by
  decide

/-- The part of C5 that holds: the range that pool_shrink hands to `munmap`
starts at or above the second subpool, for every handle within the range of its
C type and every pool that ends below `2 ^ 64`. -/
theorem pool_shrink_keeps_first_subpool (tt : Type_table) (munmap_errno : Nat)
    (p : pool_struct) (n addr len : Nat) (hs : p.sub_pool_id < 65536)
    (hfit : p.pool_id * 2 ^ 32 +
      (p.sub_pool_id + 1) * ((type_row tt p.type_id).type_size * PAGE_SIZE) < SIZE_MAX1)
    (hcall : (pool_shrink tt munmap_errno p n).call = some (addr, len)) :
    POOL_IDX_TO_ADDR p.pool_id + GET_SUB_POOL_SIZE tt p ≤ addr := by
  obtain ⟨t, s, pid, i, f, e, g⟩ := p
  simp only at hs hfit
  generalize hts : (type_row tt t).type_size * PAGE_SIZE = sps at hfit
  have h1 : sps ≤ (s + 1) * sps := Nat.le_mul_of_pos_left _ (by omega)
  have hsps : sps % SIZE_MAX1 = sps := Nat.mod_eq_of_lt (by omega)
  have hbase : pid * 2 ^ 32 % SIZE_MAX1 = pid * 2 ^ 32 := Nat.mod_eq_of_lt (by omega)
  simp -zeta only [pool_shrink] at hcall
  split_ifs at hcall with hsimple herr
  -- the three ways out of pool_shrink: no call, a failed call, a successful call
  all_goals simp only [Option.some.injEq, Prod.mk.injEq, reduceCtorEq] at hcall
  all_goals
    obtain ⟨ha, _⟩ := hcall
    rw [← ha]
    simp only [POOL_IDX_TO_ADDR, GET_SUB_POOL_SIZE, hts, hsps, hbase]
    generalize hr0 : (1 + sub64 n 1 / PAGE_SIZE) % SIZE_MAX1 = r0
    have hr : (if s < r0 then s else r0) ≤ s := by split_ifs <;> omega
    generalize (if s < r0 then s else r0) = r at hr
    have hsub : sub64 s r = s - r := by
      simp only [sub64, SIZE_MAX1]
      omega
    rw [hsub]
    have h2 : sps ≤ (s - r + 1) * sps := Nat.le_mul_of_pos_left _ (by omega)
    have h3 : (s - r + 1) * sps ≤ (s + 1) * sps := Nat.mul_le_mul_right _ (by omega)
    rw [Nat.mod_eq_of_lt (by omega)]
    omega

/-- C5 (the code departs from the claim): the char pool with id 1 grown to three
full subpools (12288 records) and shrunk by 4097 records.  8191 records remain
and need two subpools, but pool_shrink hands the range of the last two
subpools to `munmap` (8192 bytes from pool base + 4096) and leaves
`sub_pool_id + 1 = 1`, with `index = 4095` and `full` still set.  In a second
run, from 8193 records shrunk by one, the handle is left with
`sub_pool_id + 1 = 2` while its population reads 4096. -/
theorem C5_pool_shrink_unmaps_live_subpool :
    (pool_grow basic_type_table true (pool_create basic_type_table 1 true 0).1 12288).pool
      = ⟨0, 2, 1, 0, 1, 0, 0⟩ ∧
    GET_SIZE_OF_POOL ⟨0, 2, 1, 0, 1, 0, 0⟩ = 12288 ∧
    (pool_shrink basic_type_table 0 ⟨0, 2, 1, 0, 1, 0, 0⟩ 4097).ret = 0 ∧
    (pool_shrink basic_type_table 0 ⟨0, 2, 1, 0, 1, 0, 0⟩ 4097).call
      = some (1 * 2 ^ 32 + 4096, 2 * 4096) ∧
    (pool_shrink basic_type_table 0 ⟨0, 2, 1, 0, 1, 0, 0⟩ 4097).pool
      = ⟨0, 0, 1, 4095, 1, 0, 0⟩ ∧
    (pool_shrink basic_type_table 0 ⟨0, 2, 1, 0, 1, 0, 0⟩ 4097).pool.sub_pool_id + 1 ≠
      max 1 ((GET_SIZE_OF_POOL ⟨0, 2, 1, 0, 1, 0, 0⟩ - 4097 + PAGE_SIZE - 1) / PAGE_SIZE) ∧
    (pool_grow basic_type_table true (pool_create basic_type_table 1 true 0).1 8193).pool
      = ⟨0, 2, 1, 1, 0, 0, 0⟩ ∧
    (pool_shrink basic_type_table 0 ⟨0, 2, 1, 1, 0, 0, 0⟩ 1).ret = 0 ∧
    (pool_shrink basic_type_table 0 ⟨0, 2, 1, 1, 0, 0, 0⟩ 1).pool = ⟨0, 1, 1, 0, 0, 0, 0⟩ ∧
    (pool_shrink basic_type_table 0 ⟨0, 2, 1, 1, 0, 0, 0⟩ 1).pool.sub_pool_id + 1 ≠
      max 1 ((GET_SIZE_OF_POOL (pool_shrink basic_type_table 0 ⟨0, 2, 1, 1, 0, 0, 0⟩ 1).pool
        + PAGE_SIZE - 1) / PAGE_SIZE) := by
  decide

theorem pool_add_elements_inv (tt : Type_table) (p : pool_struct) (n : Nat) :
    cursor_inv (pool_add_elements tt true p n).pool := by
  obtain ⟨t, s, pid, i, f, e, g⟩ := p
  simp only [pool_add_elements, cursor_inv, PAGE_SIZE, Nat.reducePow, Bool.not_true,
    Bool.false_eq_true, if_false]
  split_ifs <;>
    (try simp only [not_true_eq_false, not_false_eq_true, true_and, false_and, and_true,
      and_false, ne_eq] at *) <;> omega

theorem pool_add_elements_type (tt : Type_table) (p : pool_struct) (n : Nat) :
    (pool_add_elements tt true p n).pool.type_id = p.type_id ∧
    (pool_add_elements tt true p n).pool.pool_id = p.pool_id := by
  simp only [pool_add_elements, Bool.not_true, Bool.false_eq_true, if_false]
  split_ifs <;> simp

theorem pool_step_grows (tt : Type_table) (st : pool_struct × Nat) (op : pool_op)
    (h : op.grows = true) :
    pool_step tt st op =
      ((pool_add_elements tt true st.1 op.count).pool,
        st.2 + (((pool_add_elements tt true st.1 op.count).call).map Prod.snd).getD 0) := by
  cases op with
  | alloc => rfl
  | grow n => rfl
  | shrink n => simp [pool_op.grows] at h

theorem pool_run_inv (tt : Type_table) (ops : List pool_op) (st : pool_struct × Nat)
    (hops : ∀ op ∈ ops, op.grows = true) (h : ops ≠ [] ∨ cursor_inv st.1) :
    cursor_inv (pool_run tt st ops).1 := by
  induction ops generalizing st with
  | nil => simpa [pool_run] using h
  | cons op ops ih =>
    rw [pool_run]
    apply ih
    · intro o ho; exact hops o (List.mem_cons_of_mem _ ho)
    · right
      rw [pool_step_grows tt st op (hops op (List.mem_cons_self _ _))]
      exact pool_add_elements_inv tt st.1 op.count

theorem pool_add_elements_mapped (tt : Type_table) (p : pool_struct) (n : Nat)
    (hs : p.sub_pool_id < 65536) (hi : p.index < 4096) (hf : p.full ≠ 0 → p.index = 0)
    (hov : GET_SIZE_OF_POOL p + n ≤ 2 ^ 28)
    (hts : (type_row tt p.type_id).type_size * PAGE_SIZE * 65536 < SIZE_MAX1) :
    (p.sub_pool_id + 1) * GET_SUB_POOL_SIZE tt p +
        (((pool_add_elements tt true p n).call).map Prod.snd).getD 0 =
      ((pool_add_elements tt true p n).pool.sub_pool_id + 1) * GET_SUB_POOL_SIZE tt p ∧
    (pool_add_elements tt true p n).pool.sub_pool_id < 65536 := by
  obtain ⟨t, s, pid, i, f, e, g⟩ := p
  simp only [pool_add_elements, PAGE_SIZE, GET_SIZE_OF_POOL, GET_SUB_POOL_SIZE,
    SUB_POOLS_NEEDED_eq, SIZE_MAX1, Nat.reducePow, Bool.not_true, Bool.false_eq_true,
    if_false] at *
  generalize (type_row tt t).type_size = ts at *
  have hts1 : ts * 4096 < 18446744073709551616 := by omega
  rw [Nat.mod_eq_of_lt hts1]
  by_cases hle : n ≤ (if f ≠ 0 then 0 else 4096 - i)
  · simp only [hle, if_true, Option.map_none', Option.getD_none, Nat.add_zero, and_true, hs]
  · simp only [hle, if_false, Option.map_some', Option.getD_some]
    generalize hq : ((if (n - if f ≠ 0 then 0 else 4096 - i) % 4096 = 0 then 0 else 1) +
      (n - if f ≠ 0 then 0 else 4096 - i) / 4096) = q
    have hq1 : s + q < 65536 := by
      subst hq
      split_ifs at hov hle ⊢ <;>
        (try simp only [not_true_eq_false, not_false_eq_true, true_and, false_and, and_true,
          and_false, ne_eq] at *) <;> omega
    have h1 : q * ts * 4096 < 18446744073709551616 := by
      have : q * (ts * 4096) ≤ 65536 * (ts * 4096) := Nat.mul_le_mul_right _ (by omega)
      have h2 : q * ts * 4096 = q * (ts * 4096) := by ring
      omega
    have h2 : q * ts < 18446744073709551616 := by
      have : q * ts ≤ q * ts * 4096 := Nat.le_mul_of_pos_right _ (by norm_num)
      omega
    rw [Nat.mod_eq_of_lt h2, Nat.mod_eq_of_lt h1, Nat.mod_eq_of_lt hq1]
    constructor
    · ring
    · exact hq1

theorem pool_run_mapped (tt : Type_table) (ops : List pool_op) (st : pool_struct × Nat)
    (hops : ∀ op ∈ ops, op.grows = true)
    (hs : st.1.sub_pool_id < 65536) (hi : st.1.index < 4096)
    (hf : st.1.full ≠ 0 → st.1.index = 0)
    (hm : st.2 = (st.1.sub_pool_id + 1) * GET_SUB_POOL_SIZE tt st.1)
    (hov : no_overflow tt st ops)
    (hts : (type_row tt st.1.type_id).type_size * PAGE_SIZE * 65536 < SIZE_MAX1) :
    (pool_run tt st ops).2 =
      ((pool_run tt st ops).1.sub_pool_id + 1) * GET_SUB_POOL_SIZE tt st.1 := by
  induction ops generalizing st with
  | nil => simpa [pool_run] using hm
  | cons op ops ih =>
    rw [pool_run]
    have hg := hops op (List.mem_cons_self _ _)
    obtain ⟨hov1, hov2⟩ := hov
    have hstep := pool_step_grows tt st op hg
    have hmap := pool_add_elements_mapped tt st.1 op.count hs hi hf hov1 hts
    have hinv := pool_add_elements_inv tt st.1 op.count
    have hty := pool_add_elements_type tt st.1 op.count
    have h1 : (pool_step tt st op).1 = (pool_add_elements tt true st.1 op.count).pool := by
      rw [hstep]
    have h2 : (pool_step tt st op).2 =
        st.2 + (((pool_add_elements tt true st.1 op.count).call).map Prod.snd).getD 0 := by
      rw [hstep]
    have hsp : GET_SUB_POOL_SIZE tt (pool_step tt st op).1 = GET_SUB_POOL_SIZE tt st.1 := by
      rw [h1]; simp only [GET_SUB_POOL_SIZE, hty.1]
    rw [← hsp]
    apply ih
    · intro o ho; exact hops o (List.mem_cons_of_mem _ ho)
    · rw [h1]; exact hmap.2
    · rw [h1]; unfold cursor_inv at hinv; omega
    · rw [h1]; unfold cursor_inv at hinv; omega
    · rw [hsp, h2, h1, hm]; exact hmap.1
    · exact hov2
    · rw [h1, hty.1]; exact hts

/-- A run of pool_alloc and pool_grow calls that each ask for at least one
record adds exactly the records asked for to the population. -/
theorem pool_run_size (tt : Type_table) (ops : List pool_op) (st : pool_struct × Nat)
    (hops : ∀ op ∈ ops, op.grows = true) (hpos : ∀ op ∈ ops, 1 ≤ op.count)
    (hi : st.1.index < 4096) (hf : st.1.full ≠ 0 → st.1.index = 0)
    (hov : no_overflow tt st ops) :
    GET_SIZE_OF_POOL (pool_run tt st ops).1 = GET_SIZE_OF_POOL st.1 + requested ops := by
  induction ops generalizing st with
  | nil => simp [pool_run, requested]
  | cons op ops ih =>
    rw [pool_run]
    have hg := hops op (List.mem_cons_self _ _)
    have hp := hpos op (List.mem_cons_self _ _)
    obtain ⟨hov1, hov2⟩ := hov
    have hstep := pool_step_grows tt st op hg
    have hinv := pool_add_elements_inv tt st.1 op.count
    have hsize := pool_add_elements_size tt st.1 op.count hi hf (by omega) hov1
    have h1 : (pool_step tt st op).1 = (pool_add_elements tt true st.1 op.count).pool := by
      rw [hstep]
    rw [ih (pool_step tt st op) (fun o ho => hops o (List.mem_cons_of_mem _ ho))
      (fun o ho => hpos o (List.mem_cons_of_mem _ ho))
      (by rw [h1]; unfold cursor_inv at hinv; omega)
      (by rw [h1]; unfold cursor_inv at hinv; omega) hov2, h1, hsize]
    simp only [requested, List.map_cons, List.sum_cons]
    omega

theorem pool_run_append (tt : Type_table) (a b : List pool_op) (st : pool_struct × Nat) :
    pool_run tt st (a ++ b) = pool_run tt (pool_run tt st a) b := by
  induction a generalizing st with
  | nil => rfl
  | cons op a ih => simp only [List.cons_append, pool_run]; exact ih _

theorem pool_run_alloc_n (tt : Type_table) (k : Nat) (st : pool_struct × Nat) :
    (pool_run tt st (List.replicate k pool_op.alloc)).1 = alloc_n tt st.1 k := by
  induction k with
  | zero => rfl
  | succ k ih =>
    rw [List.replicate_succ', pool_run_append, alloc_n, ← ih]
    rfl

/-- C4: for a freshly created pool and every sequence of pool_alloc and
pool_grow calls that leaves a population of at least one record, the handle
has `sub_pool_id + 1 = ceil(population / PAGE_SIZE)`; as long as no call
carries `sub_pool_id` past 16 bits and the sizes fit `size_t`, the bytes mapped
by pool_create and the calls amount to exactly `sub_pool_id + 1` subpools, and
the population is the number of records asked for when every call asks for at
least one.  After exactly PAGE_SIZE allocations the handle is at subpool 0, index 0 with
`full` set, and the next allocation maps one more subpool right behind the
first and moves on to subpool 1. -/
theorem C4_mapped_subpools (tt : Type_table) (next_free type_id : Nat) (ops : List pool_op)
    (hops : ∀ op ∈ ops, op.grows = true)
    (hpop : 1 ≤ GET_SIZE_OF_POOL (pool_run tt (pool_fresh tt next_free type_id) ops).1) :
    (pool_run tt (pool_fresh tt next_free type_id) ops).1.sub_pool_id + 1 =
      (GET_SIZE_OF_POOL (pool_run tt (pool_fresh tt next_free type_id) ops).1 + PAGE_SIZE - 1)
        / PAGE_SIZE ∧
    (no_overflow tt (pool_fresh tt next_free type_id) ops →
      (type_row tt type_id).type_size * PAGE_SIZE * 65536 < SIZE_MAX1 →
      (pool_run tt (pool_fresh tt next_free type_id) ops).2 =
        ((pool_run tt (pool_fresh tt next_free type_id) ops).1.sub_pool_id + 1) *
          GET_SUB_POOL_SIZE tt (pool_fresh tt next_free type_id).1) ∧
    (no_overflow tt (pool_fresh tt next_free type_id) ops → (∀ op ∈ ops, 1 ≤ op.count) →
      GET_SIZE_OF_POOL (pool_run tt (pool_fresh tt next_free type_id) ops).1 = requested ops) ∧
    (pool_run tt (pool_fresh tt next_free type_id) (List.replicate 4096 pool_op.alloc)).1 =
      ⟨type_id, 0, next_free, 0, 1, 0, 0⟩ ∧
    (∀ k, k < 4096 → (pool_alloc tt true (alloc_n tt (pool_fresh tt next_free type_id).1 k)).call
      = none) ∧
    (pool_alloc tt true ⟨type_id, 0, next_free, 0, 1, 0, 0⟩).pool =
      ⟨type_id, 1, next_free, 1, 0, 0, 0⟩ ∧
    (pool_alloc tt true ⟨type_id, 0, next_free, 0, 1, 0, 0⟩).call =
      some ((POOL_IDX_TO_ADDR next_free + 1 * PAGE_SIZE * (type_row tt type_id).type_size)
              % SIZE_MAX1,
            (1 * (type_row tt type_id).type_size % SIZE_MAX1) * PAGE_SIZE % SIZE_MAX1) := by
  have hfresh : (pool_fresh tt next_free type_id).1 = ⟨type_id, 0, next_free, 0, 0, 0, 0⟩ := by
    simp [pool_fresh, pool_create_ok]
  have hfresh2 : (pool_fresh tt next_free type_id).2 =
      (type_row tt type_id).type_size * PAGE_SIZE % SIZE_MAX1 := by
    simp [pool_fresh, pool_create]
  have hcur0 : (pool_fresh tt next_free type_id).1 =
      cursor_at (pool_fresh tt next_free type_id).1 0 := by
    simp [hfresh, cursor_at]
  refine ⟨?_, ?_, ?_, ?_, ?_, ?_, ?_⟩
  · cases ops with
    | nil =>
      simp only [pool_run, hfresh, GET_SIZE_OF_POOL, PAGE_SIZE] at hpop
      simp at hpop
    | cons op ops =>
      have hinv := pool_run_inv tt (op :: ops) (pool_fresh tt next_free type_id) hops
        (Or.inl (by simp))
      unfold cursor_inv at hinv
      simp only [GET_SIZE_OF_POOL, PAGE_SIZE]
      rcases hinv with ⟨h1, h2, h3⟩ | ⟨h1, h2⟩
      · simp only [h3, ne_eq, not_true_eq_false, false_and, if_false]; omega
      · simp only [h1, h2, ne_eq, one_ne_zero, not_false_eq_true, and_self, if_true]; omega
  · intro hov hts
    apply pool_run_mapped tt ops _ hops
    · simp [hfresh]
    · simp [hfresh]
    · simp [hfresh]
    · simp [hfresh, hfresh2, GET_SUB_POOL_SIZE]
    · exact hov
    · simpa [hfresh] using hts
  · intro hov hpos
    rw [pool_run_size tt ops _ hops hpos (by simp [hfresh]) (by simp [hfresh]) hov]
    simp [hfresh, GET_SIZE_OF_POOL]
  · rw [pool_run_alloc_n, hcur0, alloc_n_cursor tt _ 4096 (by norm_num)]
    simp [cursor_at, hfresh]
  · intro k hk
    rw [hcur0, alloc_n_cursor tt _ k (by omega)]
    simp only [pool_alloc, pool_add_elements, cursor_at, hfresh, PAGE_SIZE]
    have h1 : k % 4096 = k := Nat.mod_eq_of_lt hk
    have h2 : ¬ (k ≠ 0 ∧ k = 0) := by omega
    simp only [h1, h2, if_false, ne_eq, not_true_eq_false, if_false]
    have h3 : 1 ≤ 4096 - k := by omega
    simp [h3]
  · simp only [pool_alloc, pool_add_elements, PAGE_SIZE, SUB_POOLS_NEEDED_eq]
    simp
  · simp only [pool_alloc, pool_add_elements, PAGE_SIZE, SUB_POOLS_NEEDED_eq]
    simp

/-- C4 at a concrete run: a char pool grown by 4096 records and then by one
allocation. -/
theorem C4_mapped_subpools_witness :
    (∀ op ∈ [pool_op.grow 4096, pool_op.alloc], op.grows = true) ∧
    1 ≤ GET_SIZE_OF_POOL (pool_run basic_type_table (pool_fresh basic_type_table 1 0)
      [pool_op.grow 4096, pool_op.alloc]).1 ∧
    (pool_run basic_type_table (pool_fresh basic_type_table 1 0)
      [pool_op.grow 4096, pool_op.alloc]).1.sub_pool_id + 1 =
      (GET_SIZE_OF_POOL (pool_run basic_type_table (pool_fresh basic_type_table 1 0)
        [pool_op.grow 4096, pool_op.alloc]).1 + PAGE_SIZE - 1) / PAGE_SIZE :=
  ⟨by decide, by decide,
    (C4_mapped_subpools basic_type_table 1 0 [pool_op.grow 4096, pool_op.alloc]
      (by decide) (by decide)).1⟩

theorem mod_add_mul_mod (a b c d e f g m : Nat) :
    (a % m + (b * c % m) * d + e * f % m + g) % m = (a + d * (b * c) + e * f + g) % m := by
  have h1 : (a % m + (b * c % m) * d + e * f % m + g) ≡ (a + d * (b * c) + e * f + g) [MOD m] := by
    apply Nat.ModEq.add _ (Nat.ModEq.refl g)
    apply Nat.ModEq.add _ (Nat.mod_modEq _ _)
    apply Nat.ModEq.add (Nat.mod_modEq _ _)
    rw [Nat.mul_comm d]
    exact Nat.ModEq.mul_right _ (Nat.mod_modEq _ _)
  exact h1

theorem get_field_eq (tt : Type_table) (r : reference_struct) (k : Nat)
    (he : r.is_extended = 0) :
    get_field tt r k = some (field_address tt r k % SIZE_MAX1) := by
  simp only [get_field, he, ne_eq, not_true_eq_false, if_false, GET_POOL_ADDR,
    GET_SUB_POOL_SIZE, GET_FIELD_OFFSET, GET_FIELD_SIZE, field_address, Option.some.injEq]
  rw [mod_add_mul_mod]

theorem load_lt (mem : Mem) (addr n : Nat) : load mem addr n < 256 ^ n := by
  induction n generalizing addr with
  | zero => simp [load]
  | succ n ih =>
    have h1 := ih (addr + 1)
    have h2 := (mem addr).isLt
    rw [load, pow_succ]
    omega

theorem load_byte (mem : Mem) (addr n i : Nat) (hi : i < n) :
    load mem addr n / 256 ^ i % 256 = (mem (addr + i)).val := by
  induction n generalizing addr i with
  | zero => omega
  | succ n ih =>
    rw [load]
    have h2 := (mem addr).isLt
    cases i with
    | zero => simp
    | succ i =>
      have h1 := ih (addr + 1) i (by omega)
      rw [pow_succ, Nat.mul_comm (256 ^ i) 256, ← Nat.div_div_eq_div_mul]
      have h3 : ((mem addr).val + 256 * load mem (addr + 1) n) / 256 = load mem (addr + 1) n := by
        omega
      rw [h3, h1]
      congr 2
      omega

theorem store_load_eq_memcpy (mem : Mem) (dst src n : Nat) :
    store mem dst n (load mem src n) = memcpy mem dst src n := by
  funext a
  simp only [store, memcpy]
  split_ifs with h
  · apply Fin.ext
    simp only [Fin.ofNat, Fin.val_mk]
    have := load_byte mem src n (a - dst) (by omega)
    simpa using this
  · rfl

/-- What set_field does to memory, for every field size: the `field_size` bytes
at `data` are copied to the field address. -/
theorem set_field_eq_memcpy (tt : Type_table) (r : reference_struct) (k data : Nat) (mem : Mem) :
    (set_field tt r k data mem).1 =
      memcpy mem (field_address tt r k % SIZE_MAX1) data (field_entry tt r.type_id k).field_size
    ∧ (set_field tt r k data mem).2 = 0 := by
  have haddr : (GET_POOL_ADDR r + GET_SUB_POOL_SIZE tt r * r.sub_pool_id +
      GET_FIELD_OFFSET tt r k + r.index * (field_entry tt r.type_id k).field_size) % SIZE_MAX1 =
      field_address tt r k % SIZE_MAX1 := by
    simp only [GET_POOL_ADDR, GET_SUB_POOL_SIZE, GET_FIELD_OFFSET, field_address]
    rw [mod_add_mul_mod, Nat.mul_comm r.index]
  simp -zeta only [set_field, GET_FIELD_SIZE, and_true]
  rw [haddr]
  split_ifs with h1 h2 h4 h8
  · rw [h1, store_load_eq_memcpy]
  · rw [h2, store_load_eq_memcpy]
  · rw [h4, store_load_eq_memcpy]
  · rw [h8, store_load_eq_memcpy]
  · rfl

theorem lanes_ok_entry (tt : Type_table) (h : lanes_ok tt) (type_id k : Nat)
    (ht : type_id < tt.length) (hk : k < (type_row tt type_id).field_count) :
    (field_entry tt type_id k).offset + (field_entry tt type_id k).field_size ≤
      (type_row tt type_id).type_size := by
  have hrow : type_row tt type_id = tt[type_id] := by
    simp [type_row, List.getD_eq_getElem?_getD, List.getElem?_eq_getElem ht]
  obtain ⟨hlen, hall⟩ := h tt[type_id] (List.getElem_mem ht)
  rw [hrow] at hk ⊢
  have hk2 : k < tt[type_id].field_offsets.length := by omega
  have hent : field_entry tt type_id k = tt[type_id].field_offsets[k] := by
    simp [field_entry, hrow, List.getD_eq_getElem?_getD, List.getElem?_eq_getElem hk2]
  rw [hent]
  exact hall _ (List.getElem_mem hk2)

/-! ## The type table built by init_type_table -/

mutual
theorem get_size_and_field_count_eq : ∀ t : type_info,
    (leaf_sizes t).sum < SIZE_MAX1 → (leaf_sizes t).length < SIZE_MAX1 →
    get_size_and_field_count t = ((leaf_sizes t).sum, (leaf_sizes t).length)
  | .primitive _ sz, _, _ => by simp [get_size_and_field_count, leaf_sizes]
  | .global_ref _ _, _, _ => by simp [get_size_and_field_count, leaf_sizes]
  | .local_ref _ _, _, _ => by simp [get_size_and_field_count, leaf_sizes]
  | .composite _ fs, h1, h2 => by
    have := size_and_count_loop_eq fs (0, 0) (by simpa [leaf_sizes] using h1)
      (by simpa [leaf_sizes] using h2)
    simpa [get_size_and_field_count, leaf_sizes] using this
theorem size_and_count_loop_eq : ∀ (fs : List type_info) (acc : Nat × Nat),
    acc.1 + (leaf_sizes_list fs).sum < SIZE_MAX1 →
    acc.2 + (leaf_sizes_list fs).length < SIZE_MAX1 →
    size_and_count_loop fs acc =
      (acc.1 + (leaf_sizes_list fs).sum, acc.2 + (leaf_sizes_list fs).length)
  | [], acc, _, _ => by simp [size_and_count_loop, leaf_sizes_list]
  | f :: fs, acc, h1, h2 => by
    simp only [leaf_sizes_list, List.sum_append, List.length_append] at h1 h2
    have hf := get_size_and_field_count_eq f (by omega) (by omega)
    have e1 : (acc.1 + (leaf_sizes f).sum) % SIZE_MAX1 = acc.1 + (leaf_sizes f).sum :=
      Nat.mod_eq_of_lt (by omega)
    have e2 : (acc.2 + (leaf_sizes f).length) % SIZE_MAX1 = acc.2 + (leaf_sizes f).length :=
      Nat.mod_eq_of_lt (by omega)
    have := size_and_count_loop_eq fs (acc.1 + (leaf_sizes f).sum, acc.2 + (leaf_sizes f).length)
      (by simp only; omega) (by simp only; omega)
    rw [size_and_count_loop, hf]
    simp only [e1, e2, this, leaf_sizes_list, List.sum_append, List.length_append]
    simp [Nat.add_assoc]
end

mutual
theorem fill_in_offsets_bounds : ∀ (t : type_info) (b : Nat),
    b + (leaf_sizes t).sum < SIZE_MAX1 →
    (fill_in_offsets t b).2 = b + (leaf_sizes t).sum ∧
    (fill_in_offsets t b).1.length = (leaf_sizes t).length ∧
    ∀ fo ∈ (fill_in_offsets t b).1,
      b ≤ fo.offset ∧ fo.offset + fo.field_size ≤ b + (leaf_sizes t).sum
  | .primitive _ sz, b, h => by
    simp only [leaf_sizes, List.sum_cons, List.sum_nil, Nat.add_zero] at h
    simp [fill_in_offsets, leaf_sizes, Nat.mod_eq_of_lt h]
  | .global_ref _ _, b, h => by
    simp only [leaf_sizes, List.sum_cons, List.sum_nil, Nat.add_zero] at h
    simp [fill_in_offsets, leaf_sizes, Nat.mod_eq_of_lt h]
  | .local_ref _ _, b, h => by
    simp only [leaf_sizes, List.sum_cons, List.sum_nil, Nat.add_zero] at h
    simp [fill_in_offsets, leaf_sizes, Nat.mod_eq_of_lt h]
  | .composite _ fs, b, h => by
    have := fill_in_offsets_loop_bounds fs b (by simpa [leaf_sizes] using h)
    simpa [fill_in_offsets, leaf_sizes] using this
theorem fill_in_offsets_loop_bounds : ∀ (fs : List type_info) (b : Nat),
    b + (leaf_sizes_list fs).sum < SIZE_MAX1 →
    (fill_in_offsets_loop fs b).2 = b + (leaf_sizes_list fs).sum ∧
    (fill_in_offsets_loop fs b).1.length = (leaf_sizes_list fs).length ∧
    ∀ fo ∈ (fill_in_offsets_loop fs b).1,
      b ≤ fo.offset ∧ fo.offset + fo.field_size ≤ b + (leaf_sizes_list fs).sum
  | [], b, _ => by simp [fill_in_offsets_loop, leaf_sizes_list]
  | f :: fs, b, h => by
    simp only [leaf_sizes_list, List.sum_append, List.length_append] at h ⊢
    obtain ⟨h1, h2, h3⟩ := fill_in_offsets_bounds f b (by omega)
    obtain ⟨g1, g2, g3⟩ := fill_in_offsets_loop_bounds fs (fill_in_offsets f b).2
      (by rw [h1]; omega)
    rw [fill_in_offsets_loop]
    refine ⟨?_, ?_, ?_⟩
    · show (fill_in_offsets_loop fs (fill_in_offsets f b).2).2 = _
      rw [g1, h1]; omega
    · simp only [List.length_append, h2, g2]
    · intro fo hfo
      simp only [List.mem_append] at hfo
      rcases hfo with hfo | hfo
      · have := h3 fo hfo; omega
      · have := g3 fo hfo; rw [h1] at this; omega
end

/-- The table that the tests register is the one init_type_table builds from
the descriptors of test/test_type_info.c. -/
theorem basic_type_table_built : init_type_table true basic_type_infos = some basic_type_table := by
  decide

/-- Every table built by init_type_table from descriptors whose sizes and field
counts fit `size_t` keeps each field within the record: `field_count` entries
per row, each with `offset + field_size <= type_size`. -/
theorem init_type_table_lanes_ok (type_infos : List type_info) (tt : Type_table)
    (hfit : ∀ t ∈ type_infos,
      (leaf_sizes t).sum < SIZE_MAX1 ∧ (leaf_sizes t).length < SIZE_MAX1)
    (h : init_type_table true type_infos = some tt) : lanes_ok tt := by
  unfold init_type_table at h
  split_ifs at h with h1
  simp only [Bool.not_true, Bool.false_eq_true, Option.some.injEq] at h
  subst h
  intro row hrow
  rw [List.mem_map] at hrow
  obtain ⟨t, ht, rfl⟩ := hrow
  obtain ⟨hs, hl⟩ := hfit t ht
  have hsz := get_size_and_field_count_eq t hs hl
  obtain ⟨_, f2, f3⟩ := fill_in_offsets_bounds t 0 (by omega)
  simp only [type_table_row, hsz]
  refine ⟨f2, ?_⟩
  intro fo hfo
  have := (f3 fo hfo).2
  omega

/-! ## Claims C6 to C8: field addresses and field writes -/

/-- C6: for a reference that is not extended, get_field returns the address
`pool_id * 2^32 + sub_pool_id * (type_size * PAGE) + offset * PAGE +
field_size * index`, computed in 64-bit pointer arithmetic, hence exactly that
number whenever it is below `2 ^ 64`; set_field copies the `field_size` bytes
of its buffer to that same address and touches no other byte. -/
theorem C6_get_field_address (tt : Type_table) (r : reference_struct) (k : Nat)
    (he : r.is_extended = 0) :
    get_field tt r k = some (field_address tt r k % SIZE_MAX1) ∧
    (field_address tt r k < SIZE_MAX1 → get_field tt r k = some (field_address tt r k)) ∧
    (∀ data mem a,
      (set_field tt r k data mem).1 a =
        if field_address tt r k % SIZE_MAX1 ≤ a ∧
           a < field_address tt r k % SIZE_MAX1 + (field_entry tt r.type_id k).field_size
        then mem (data + (a - field_address tt r k % SIZE_MAX1)) else mem a) := by
  refine ⟨get_field_eq tt r k he, ?_, ?_⟩
  · intro h
    rw [get_field_eq tt r k he, Nat.mod_eq_of_lt h]
  · intro data mem a
    rw [(set_field_eq_memcpy tt r k data mem).1]
    rfl

/-- C6 at a concrete input: field 2 (second long) of the list record at subpool 3,
index 5 of pool 2. -/
theorem C6_get_field_address_witness :
    (⟨7, 3, 2, 5, 0, 0, 0⟩ : reference_struct).is_extended = 0 ∧
    get_field basic_type_table ⟨7, 3, 2, 5, 0, 0, 0⟩ 2 =
      some (2 * 2 ^ 32 + 3 * (18 * 4096) + 10 * 4096 + 8 * 5) :=
  ⟨rfl, ((C6_get_field_address basic_type_table ⟨7, 3, 2, 5, 0, 0, 0⟩ 2 rfl).2.1
    (by decide))⟩

/-- C7: in a pool built by pool_create and any pool_alloc and pool_grow calls,
for a type whose table row describes lanes within the record and a mapped
range that ends below `2 ^ 64`, every field `k < field_count` of every
occupied slot (absolute index below the population) lies within
`[pool_base, pool_base + (sub_pool_id + 1) * type_size * PAGE)`. -/
theorem C7_get_field_in_mapped_range (tt : Type_table) (next_free type_id : Nat)
    (ops : List pool_op) (r : reference_struct) (k : Nat)
    (hops : ∀ op ∈ ops, op.grows = true)
    (htab : lanes_ok tt) (hty : type_id < tt.length)
    (hk : k < (type_row tt type_id).field_count)
    (hrt : r.type_id = type_id) (hrp : r.pool_id = next_free)
    (hri : r.index < PAGE_SIZE) (hre : r.is_extended = 0)
    (hocc : GET_GLOBAL_INDEX_OF_REF r <
      GET_SIZE_OF_POOL (pool_run tt (pool_fresh tt next_free type_id) ops).1)
    (hfit : next_free * 2 ^ 32 +
      ((pool_run tt (pool_fresh tt next_free type_id) ops).1.sub_pool_id + 1) *
        ((type_row tt type_id).type_size * PAGE_SIZE) < SIZE_MAX1) :
    ∃ a, get_field tt r k = some a ∧
      GET_POOL_ADDR (pool_run tt (pool_fresh tt next_free type_id) ops).1 ≤ a ∧
      a + GET_FIELD_SIZE tt r k ≤
        GET_POOL_ADDR (pool_run tt (pool_fresh tt next_free type_id) ops).1 +
          ((pool_run tt (pool_fresh tt next_free type_id) ops).1.sub_pool_id + 1) *
            ((type_row tt type_id).type_size * PAGE_SIZE) := by
  have hfresh : (pool_fresh tt next_free type_id).1 = ⟨type_id, 0, next_free, 0, 0, 0, 0⟩ := by
    simp [pool_fresh, pool_create_ok]
  have hlane := lanes_ok_entry tt htab type_id k hty hk
  -- the handle keeps its pool id, and its cursor bounds the subpool of `r`
  have hpid : ∀ (l : List pool_op) (st : pool_struct × Nat), (∀ op ∈ l, op.grows = true) →
      (pool_run tt st l).1.pool_id = st.1.pool_id := by
    intro l
    induction l with
    | nil => intro st _; rfl
    | cons op l ih =>
      intro st hl
      rw [pool_run, ih _ (fun o ho => hl o (List.mem_cons_of_mem _ ho)),
        pool_step_grows tt st op (hl op (List.mem_cons_self _ _))]
      exact (pool_add_elements_type tt st.1 op.count).2
  have hpool := hpid ops (pool_fresh tt next_free type_id) hops
  rw [hfresh] at hpool
  simp only at hpool
  have hsub : r.sub_pool_id ≤ (pool_run tt (pool_fresh tt next_free type_id) ops).1.sub_pool_id := by
    cases ops with
    | nil =>
      simp only [pool_run, hfresh, GET_SIZE_OF_POOL, PAGE_SIZE] at hocc
      simp at hocc
    | cons op ops =>
      have hinv := pool_run_inv tt (op :: ops) (pool_fresh tt next_free type_id) hops
        (Or.inl (by simp))
      unfold cursor_inv at hinv
      simp only [GET_SIZE_OF_POOL, GET_GLOBAL_INDEX_OF_REF, PAGE_SIZE] at hocc hri
      rcases hinv with ⟨h1, h2, h3⟩ | ⟨h1, h2⟩
      · simp only [h3, ne_eq, not_true_eq_false, false_and, if_false] at hocc; omega
      · simp only [h1, h2, ne_eq, one_ne_zero, not_false_eq_true, and_self, if_true] at hocc
        omega
  generalize (pool_run tt (pool_fresh tt next_free type_id) ops).1 = p at *
  simp only [GET_POOL_ADDR, GET_FIELD_SIZE, hpool, hrt]
  subst hrt hrp
  generalize hts : (type_row tt r.type_id).type_size = ts at *
  generalize hfo : (field_entry tt r.type_id k).offset = off at *
  generalize hfs : (field_entry tt r.type_id k).field_size = fs at *
  simp only [PAGE_SIZE, SIZE_MAX1] at *
  have h1 : fs * r.index + fs ≤ fs * 4096 := by
    have : fs * (r.index + 1) ≤ fs * 4096 := Nat.mul_le_mul_left _ (by omega)
    rw [Nat.mul_add, Nat.mul_one] at this
    exact this
  have h2 : off * 4096 + fs * 4096 ≤ ts * 4096 := by
    rw [← Nat.add_mul]; exact Nat.mul_le_mul_right _ hlane
  have h3 : r.sub_pool_id * (ts * 4096) + ts * 4096 ≤ (p.sub_pool_id + 1) * (ts * 4096) := by
    have : (r.sub_pool_id + 1) * (ts * 4096) ≤ (p.sub_pool_id + 1) * (ts * 4096) :=
      Nat.mul_le_mul_right _ (by omega)
    rw [Nat.add_mul, Nat.one_mul] at this
    exact this
  have hF : field_address tt r k =
      r.pool_id * 2 ^ 32 + r.sub_pool_id * (ts * 4096) + off * 4096 + fs * r.index := by
    simp only [field_address, hts, hfo, hfs, PAGE_SIZE]
  have hlt : field_address tt r k < 18446744073709551616 := by rw [hF]; omega
  have hbase : r.pool_id * 2 ^ 32 % 18446744073709551616 = r.pool_id * 2 ^ 32 := by
    apply Nat.mod_eq_of_lt; omega
  refine ⟨field_address tt r k, ?_, ?_, ?_⟩
  · have := get_field_eq tt r k hre
    rw [this]
    simp only [SIZE_MAX1, Nat.mod_eq_of_lt hlt]
  · rw [hbase, hF]; omega
  · rw [hbase, hF]; omega

/-- C7 at a concrete input: the long pool with id 1 grown to 5000 records and
the record at subpool 1, index 3. -/
theorem C7_get_field_in_mapped_range_witness :
    (∀ op ∈ [pool_op.grow 5000], op.grows = true) ∧ lanes_ok basic_type_table ∧
    1 < basic_type_table.length ∧ 0 < (type_row basic_type_table 1).field_count ∧
    GET_GLOBAL_INDEX_OF_REF ⟨1, 1, 1, 3, 0, 0, 0⟩ <
      GET_SIZE_OF_POOL (pool_run basic_type_table (pool_fresh basic_type_table 1 1)
        [pool_op.grow 5000]).1 ∧
    ∃ a, get_field basic_type_table ⟨1, 1, 1, 3, 0, 0, 0⟩ 0 = some a ∧
      GET_POOL_ADDR (pool_run basic_type_table (pool_fresh basic_type_table 1 1)
        [pool_op.grow 5000]).1 ≤ a ∧
      a + GET_FIELD_SIZE basic_type_table ⟨1, 1, 1, 3, 0, 0, 0⟩ 0 ≤
        GET_POOL_ADDR (pool_run basic_type_table (pool_fresh basic_type_table 1 1)
          [pool_op.grow 5000]).1 +
          ((pool_run basic_type_table (pool_fresh basic_type_table 1 1)
            [pool_op.grow 5000]).1.sub_pool_id + 1) *
            ((type_row basic_type_table 1).type_size * PAGE_SIZE) :=
  ⟨by decide, by decide, by decide, by decide, by decide,
    C7_get_field_in_mapped_range basic_type_table 1 1 [pool_op.grow 5000]
      ⟨1, 1, 1, 3, 0, 0, 0⟩ 0 (by decide) (by decide) (by decide) (by decide) rfl rfl
      (by decide) rfl (by decide) (by decide)⟩

/-- C8: after set_field, whatever the field size, each of the `field_size`
bytes at the address get_field returns equals the byte of the buffer at the
same position, and set_field returns 0. -/
theorem C8_set_field_read_back (tt : Type_table) (r : reference_struct) (k data : Nat)
    (mem : Mem) (he : r.is_extended = 0) :
    (set_field tt r k data mem).2 = 0 ∧
    ∃ a, get_field tt r k = some a ∧
      ∀ i, i < GET_FIELD_SIZE tt r k → (set_field tt r k data mem).1 (a + i) = mem (data + i) := by
  refine ⟨(set_field_eq_memcpy tt r k data mem).2, field_address tt r k % SIZE_MAX1,
    get_field_eq tt r k he, ?_⟩
  intro i hi
  rw [(set_field_eq_memcpy tt r k data mem).1]
  simp only [GET_FIELD_SIZE] at hi
  simp only [memcpy]
  rw [if_pos ⟨by omega, by omega⟩]
  congr 1
  omega

/-- C8 at a concrete input: the second long of a list record, written from the
buffer at address 100. -/
theorem C8_set_field_read_back_witness :
    (⟨7, 3, 2, 5, 0, 0, 0⟩ : reference_struct).is_extended = 0 ∧
    (set_field basic_type_table ⟨7, 3, 2, 5, 0, 0, 0⟩ 2 100 (fun a => Fin.ofNat a)).2 = 0 :=
  ⟨rfl, (C8_set_field_read_back basic_type_table ⟨7, 3, 2, 5, 0, 0, 0⟩ 2 100
    (fun a => Fin.ofNat a) rfl).1⟩

theorem load_store_two (mem : Mem) (ptr v : Nat) :
    load (store mem ptr 2 v) ptr 2 = v % 65536 := by
  simp only [load, store]
  have h1 : ptr ≤ ptr ∧ ptr < ptr + 2 := by omega
  have h2 : ptr ≤ ptr + 1 ∧ ptr + 1 < ptr + 2 := by omega
  rw [if_pos h1, if_pos h2]
  simp only [Fin.ofNat, Nat.sub_self, Nat.add_sub_cancel_left, pow_zero, pow_one, Nat.div_one]
  omega

theorem local_raw_near (d : Int) (h1 : -4096 < d) (h2 : d < 4096) :
    local_raw d 0 0 < 8192 ∧ local_index (local_raw d 0 0) = d ∧
    local_is_long_ref (local_raw d 0 0) = 0 ∧ (local_raw d 0 0 = 0 ↔ d = 0) := by
  simp only [local_raw, local_index, local_is_long_ref]
  omega

/-! ## The top bit of a stored value -/

theorem and_deleted (v : Nat) : v &&& DELETED_VALUE = 0 ↔ v / DELETED_VALUE % 2 = 0 := by
  have h := Nat.and_two_pow v 63
  have h2 : (2 : Nat) ^ 63 = DELETED_VALUE := by norm_num [DELETED_VALUE]
  rw [h2] at h
  rw [h, Nat.testBit_to_div_mod, h2]
  by_cases hb : v / DELETED_VALUE % 2 = 1
  · simp [hb, DELETED_VALUE]
  · have : v / DELETED_VALUE % 2 = 0 := by omega
    simp [this]

theorem and_deleted_comm (v : Nat) : DELETED_VALUE &&& v = v &&& DELETED_VALUE :=
  Nat.land_comm _ _

theorem or_deleted (v : Nat) (hv : v < DELETED_VALUE) : DELETED_VALUE ||| v = DELETED_VALUE + v := by
  have h := Nat.mul_add_lt_is_or (i := 63) (b := v) (by simpa [DELETED_VALUE] using hv) 1
  simp only [Nat.mul_one] at h
  have h2 : (2 : Nat) ^ 63 = DELETED_VALUE := by norm_num [DELETED_VALUE]
  rw [h2] at h
  exact h.symm

theorem and_not_deleted (x : Nat) : x &&& (SIZE_MAX1 - 1 - DELETED_VALUE) = x % DELETED_VALUE := by
  have h := Nat.and_pow_two_sub_one_eq_mod x 63
  have h2 : (2 : Nat) ^ 63 = DELETED_VALUE := by norm_num [DELETED_VALUE]
  have h3 : SIZE_MAX1 - 1 - DELETED_VALUE = 2 ^ 63 - 1 := by norm_num [DELETED_VALUE, SIZE_MAX1]
  rw [h3, h, h2]

/-! ## The probe sequence -/

theorem probe_lt (n h d : Nat) (hn : 0 < n) : probe n h d < n := Nat.mod_lt _ hn

theorem next_probe (n h d : Nat) (hn : 0 < n) : next_idx n (probe n h d) = probe n h (d + 1) := by
  unfold next_idx probe
  have h1 : (h + (d + 1)) % n = ((h + d) % n + 1) % n := by
    rw [← Nat.add_assoc, Nat.mod_add_mod]
  have h2 : (h + d) % n < n := Nat.mod_lt _ hn
  rw [h1]
  split_ifs with h3
  · rw [h3, Nat.sub_add_cancel hn, Nat.mod_self]
  · exact (Nat.mod_eq_of_lt (by omega)).symm

theorem probe_zero (n h : Nat) (hh : h < n) : probe n h 0 = h := by
  simp [probe, Nat.mod_eq_of_lt hh]

theorem probe_surj (n h j : Nat) (hh : h < n) (hj : j < n) : ∃ d, d < n ∧ probe n h d = j := by
  by_cases hle : h ≤ j
  · refine ⟨j - h, by omega, ?_⟩
    unfold probe
    rw [Nat.add_sub_cancel' hle, Nat.mod_eq_of_lt hj]
  · refine ⟨j + n - h, by omega, ?_⟩
    unfold probe
    have : h + (j + n - h) = j + n := by omega
    rw [this, Nat.add_mod_right, Nat.mod_eq_of_lt hj]

theorem probe_inj (n h d1 d2 : Nat) (h1 : d1 < n) (h2 : d2 < n)
    (he : probe n h d1 = probe n h d2) : d1 = d2 := by
  unfold probe at he
  have hm : d1 ≡ d2 [MOD n] := Nat.ModEq.add_left_cancel' h he
  have := hm
  unfold Nat.ModEq at this
  rwa [Nat.mod_eq_of_lt h1, Nat.mod_eq_of_lt h2] at this

theorem table_at_set (t : List table_entry) (i j : Nat) (e : table_entry) (hi : i < t.length) :
    table_at (t.set i e) j = if j = i then e else table_at t j := by
  unfold table_at
  simp only [List.getD_eq_getElem?_getD, List.getElem?_set]
  split_ifs with h1 h2 h3
  · simp
  · omega
  · subst h3; exact absurd rfl h1
  · rfl

theorem table_at_mem (t : List table_entry) (j : Nat) (hj : j < t.length) : table_at t j ∈ t := by
  unfold table_at
  rw [List.getD_eq_getElem?_getD, List.getElem?_eq_getElem hj]
  exact List.getElem_mem hj

theorem table_at_eq (t : List table_entry) (j : Nat) (hj : j < t.length) : table_at t j = t[j] := by
  unfold table_at
  rw [List.getD_eq_getElem?_getD, List.getElem?_eq_getElem hj]
  rfl

/-- The lookup loop returns the value of the first slot holding the key when
no empty slot comes before it. -/
theorem expand_loop_found (n : Nat) (t : List table_entry) (key h d : Nat) (hn : 0 < n)
    (hd : (table_at t (probe n h d)).key = key)
    (hpath : ∀ c, c < d → (table_at t (probe n h c)).key ≠ key ∧
      (table_at t (probe n h c)).value ≠ 0) :
    ∀ fuel c, c ≤ d → d - c < fuel →
      expand_loop n t key fuel (probe n h c) =
        (table_at t (probe n h d)).value &&& (SIZE_MAX1 - 1 - DELETED_VALUE) := by
  intro fuel
  induction fuel with
  | zero => intro c _ h2; omega
  | succ fuel ih =>
    intro c hc hf
    rw [expand_loop]
    by_cases hcd : c = d
    · subst hcd
      rw [if_pos hd]
    · have hlt : c < d := by omega
      obtain ⟨hk, hv⟩ := hpath c hlt
      rw [if_neg hk, if_neg hv, next_probe n h c hn]
      exact ih (c + 1) (by omega) (by omega)

/-- The probe loop of compress_absolute_index stops at the first slot that
holds the key or is empty, and yields the slot holding the key or else the
first slot with `key = 0` on the way. -/
theorem compress_loop_spec (n : Nat) (t : List table_entry) (key h ds : Nat) (hn : 0 < n)
    (hnostop : ∀ c, c < ds → (table_at t (probe n h c)).key ≠ key ∧
      (table_at t (probe n h c)).value &&& DELETED_VALUE ≠ 0)
    (hstop : (table_at t (probe n h ds)).key = key ∨
      ((table_at t (probe n h ds)).key = 0 ∧
        (table_at t (probe n h ds)).value &&& DELETED_VALUE = 0)) :
    ∀ fuel c ff, c ≤ ds → ds - c < fuel →
      (ff = none → ∀ c', c' < c → (table_at t (probe n h c')).key ≠ 0) →
      (∀ f, ff = some f → ∃ dF, dF < c ∧ f = probe n h dF ∧
        (table_at t (probe n h dF)).key = 0 ∧
        ∀ c', c' < dF → (table_at t (probe n h c')).key ≠ 0) →
      ∃ dF, dF ≤ ds ∧ compress_loop n t key fuel (probe n h c) ff = some (probe n h dF) ∧
        (((table_at t (probe n h ds)).key = key ∧ dF = ds) ∨
         ((table_at t (probe n h ds)).key ≠ key ∧ (table_at t (probe n h dF)).key = 0 ∧
           ∀ c', c' < dF → (table_at t (probe n h c')).key ≠ 0)) := by
  intro fuel
  induction fuel with
  | zero => intro c ff _ h2; omega
  | succ fuel ih =>
    intro c ff hc hf hff1 hff2
    rw [compress_loop]
    by_cases hcd : c = ds
    · subst hcd
      by_cases hk : (table_at t (probe n h c)).key = key
      · rw [if_pos hk]
        exact ⟨c, le_refl _, rfl, Or.inl ⟨hk, rfl⟩⟩
      · rw [if_neg hk]
        rcases hstop with hs | ⟨hs0, hsv⟩
        · exact absurd hs hk
        · cases ff with
          | none =>
            have e1 : (if (table_at t (probe n h c)).key = 0 ∧ (none : Option Nat) = none
                then some (probe n h c) else none) = some (probe n h c) := if_pos ⟨hs0, rfl⟩
            rw [e1]
            rw [if_pos ⟨by simp, hsv⟩]
            exact ⟨c, le_refl _, rfl, Or.inr ⟨hk, hs0, hff1 rfl⟩⟩
          | some f =>
            obtain ⟨dF, h1, h2, h3, h4⟩ := hff2 f rfl
            have e1 : (if (table_at t (probe n h c)).key = 0 ∧ (some f : Option Nat) = none
                then some (probe n h c) else some f) = some f := if_neg (by simp)
            rw [e1]
            rw [if_pos ⟨by simp, hsv⟩]
            exact ⟨dF, by omega, by rw [h2], Or.inr ⟨hk, h3, h4⟩⟩
    · have hlt : c < ds := by omega
      obtain ⟨hk, hv⟩ := hnostop c hlt
      rw [if_neg hk]
      simp only [hv, and_false, if_false]
      rw [next_probe n h c hn]
      apply ih (c + 1) _ (by omega) (by omega)
      · intro hnone c' hc'
        by_cases hz : (table_at t (probe n h c)).key = 0
        · cases ff with
          | none => simp [hz] at hnone
          | some f => simp at hnone
        · cases ff with
          | none =>
            by_cases hcc : c' = c
            · subst hcc; exact hz
            · exact hff1 rfl c' (by omega)
          | some f => simp at hnone
      · intro f hsome
        cases ff with
        | none =>
          by_cases hz : (table_at t (probe n h c)).key = 0
          · simp only [hz, and_self, if_true, Option.some.injEq] at hsome
            exact ⟨c, by omega, hsome.symm, hz, hff1 rfl⟩
          · simp [hz] at hsome
        | some f0 =>
          simp only [reduceCtorEq, and_false, if_false, Option.some.injEq] at hsome
          obtain ⟨dF, h1, h2, h3, h4⟩ := hff2 f0 rfl
          exact ⟨dF, by omega, by rw [← hsome, h2], h3, h4⟩

/-! ## Counting slots -/

theorem countP_two_le {α : Type} (p : α → Bool) (t : List α) (i j : Nat) (hij : i < j)
    (hj : j < t.length) (hi : p (t[i]) = true) (hjp : p (t[j]) = true) : 2 ≤ t.countP p := by
  have hsplit : t = t.take j ++ t.drop j := (List.take_append_drop j t).symm
  have h1 : 0 < (t.take j).countP p := by
    rw [List.countP_pos_iff]
    refine ⟨t[i], ?_, hi⟩
    rw [List.mem_take_iff_getElem]
    exact ⟨i, by rw [Nat.min_eq_left (by omega)]; exact hij, rfl⟩
  have h2 : 0 < (t.drop j).countP p := by
    rw [List.countP_pos_iff]
    refine ⟨t[j], ?_, hjp⟩
    rw [List.mem_drop_iff_getElem]
    exact ⟨0, by simpa using hj, by simp⟩
  rw [hsplit, List.countP_append]
  omega

theorem key_count_pos (t : List table_entry) (key j : Nat) (hj : j < t.length)
    (hk : (table_at t j).key = key) : 0 < key_count t key := by
  unfold key_count
  rw [List.countP_pos_iff]
  exact ⟨table_at t j, table_at_mem t j hj, by simpa using hk⟩

theorem key_count_zero (t : List table_entry) (key : Nat)
    (h : ∀ j, j < t.length → (table_at t j).key ≠ key) : key_count t key = 0 := by
  unfold key_count
  rw [List.countP_eq_zero]
  intro e he
  obtain ⟨j, hj, rfl⟩ := List.mem_iff_getElem.1 he
  have := h j hj
  rw [table_at_eq t j hj] at this
  simpa using this

/-- Two slots holding one key show up in the count of that key. -/
theorem key_count_two (t : List table_entry) (key i j : Nat) (hne : i ≠ j)
    (hi : i < t.length) (hj : j < t.length)
    (hki : (table_at t i).key = key) (hkj : (table_at t j).key = key) : 2 ≤ key_count t key := by
  rw [table_at_eq t i hi] at hki
  rw [table_at_eq t j hj] at hkj
  unfold key_count
  rcases Nat.lt_or_gt_of_ne hne with h | h
  · exact countP_two_le _ t i j h hj (by simpa using hki) (by simpa using hkj)
  · exact countP_two_le _ t j i h hi (by simpa using hkj) (by simpa using hki)

theorem key_count_set (t : List table_entry) (key i : Nat) (e : table_entry) (hi : i < t.length) :
    key_count (t.set i e) key =
      key_count t key - (if (table_at t i).key = key then 1 else 0) +
        (if e.key = key then 1 else 0) := by
  unfold key_count
  rw [List.countP_set _ _ _ _ hi, table_at_eq t i hi]
  simp

theorem live_count_set (t : List table_entry) (i : Nat) (e : table_entry) (hi : i < t.length) :
    live_count (t.set i e) =
      live_count t - (if (table_at t i).key ≠ 0 then 1 else 0) + (if e.key ≠ 0 then 1 else 0) := by
  unfold live_count
  rw [List.countP_set _ _ _ _ hi, table_at_eq t i hi]
  simp

theorem tomb_count_set (t : List table_entry) (i : Nat) (e : table_entry) (hi : i < t.length) :
    tomb_count (t.set i e) =
      tomb_count t - (if (table_at t i).key = 0 ∧ (table_at t i).value ≠ 0 then 1 else 0) +
        (if e.key = 0 ∧ e.value ≠ 0 then 1 else 0) := by
  unfold tomb_count
  rw [List.countP_set _ _ _ _ hi, table_at_eq t i hi]
  simp

theorem countP_three {α : Type} (p q r : α → Bool) (t : List α)
    (h : ∀ a, (if p a then 1 else 0) + (if q a then 1 else 0) + (if r a then 1 else 0) = 1) :
    t.countP p + t.countP q + t.countP r = t.length := by
  induction t with
  | nil => rfl
  | cons a t ih =>
    rw [List.countP_cons, List.countP_cons, List.countP_cons, List.length_cons]
    have := h a
    omega

/-- Live slots, tombstones and empty slots make up the table. -/
theorem count_split (t : List table_entry) :
    live_count t + tomb_count t + t.countP (fun e => decide (e.key = 0 ∧ e.value = 0))
      = t.length := by
  unfold live_count tomb_count
  apply countP_three
  intro e
  by_cases hk : e.key = 0 <;> by_cases hv : e.value = 0 <;> simp [hk, hv]

theorem live_count_pos (t : List table_entry) (j : Nat) (hj : j < t.length)
    (hk : (table_at t j).key ≠ 0) : 0 < live_count t := by
  unfold live_count
  rw [List.countP_pos_iff]
  exact ⟨table_at t j, table_at_mem t j hj, by simpa using hk⟩

theorem tomb_count_pos (t : List table_entry) (j : Nat) (hj : j < t.length)
    (hk : (table_at t j).key = 0) (hv : (table_at t j).value ≠ 0) : 0 < tomb_count t := by
  unfold tomb_count
  rw [List.countP_pos_iff]
  exact ⟨table_at t j, table_at_mem t j hj, by simp [hk, hv]⟩

/-- A table whose live and tombstone slots do not fill it has an empty slot. -/
theorem exists_empty (t : List table_entry) (h : live_count t + tomb_count t < t.length) :
    ∃ j, j < t.length ∧ (table_at t j).key = 0 ∧ (table_at t j).value = 0 := by
  have hs := count_split t
  have hpos : 0 < t.countP (fun e => decide (e.key = 0 ∧ e.value = 0)) := by omega
  rw [List.countP_pos_iff] at hpos
  obtain ⟨e, he, hp⟩ := hpos
  obtain ⟨j, hj, rfl⟩ := List.mem_iff_getElem.1 he
  refine ⟨j, hj, ?_⟩
  rw [table_at_eq t j hj]
  simpa using hp

/-! ## Rebuilding the table: copy_table -/

theorem copy_entry_loop (n : Nat) (t : List table_entry) (e : table_entry) (h d : Nat)
    (hn : 0 < n) (hd : (table_at t (probe n h d)).key = 0)
    (hpath : ∀ c, c < d → (table_at t (probe n h c)).key ≠ 0) :
    ∀ fuel c, c ≤ d → d - c < fuel →
      copy_entry n e fuel (probe n h c) t = t.set (probe n h d) e := by
  intro fuel
  induction fuel with
  | zero => intro c _ h2; omega
  | succ fuel ih =>
    intro c hc hf
    rw [copy_entry]
    by_cases hcd : c = d
    · subst hcd
      rw [if_pos hd]
    · rw [if_neg (hpath c (by omega)), next_probe n h c hn]
      exact ih (c + 1) (by omega) (by omega)

/-- The inner loop of copy_table puts the entry into the first slot with
`key = 0` on its probe sequence, when there is one. -/
theorem copy_entry_spec (n : Nat) (t : List table_entry) (e : table_entry) (h : Nat)
    (hn : 0 < n) (hh : h < n) (hempty : ∃ j, j < n ∧ (table_at t j).key = 0) :
    ∃ d, d < n ∧ copy_entry n e n h t = t.set (probe n h d) e ∧
      (table_at t (probe n h d)).key = 0 ∧
      ∀ c, c < d → (table_at t (probe n h c)).key ≠ 0 := by
  obtain ⟨j, hj, hj0⟩ := hempty
  obtain ⟨d0, hd0, hpd0⟩ := probe_surj n h j hh hj
  have hex : ∃ d, (table_at t (probe n h d)).key = 0 := ⟨d0, by rw [hpd0]; exact hj0⟩
  have hle : Nat.find hex ≤ d0 := Nat.find_min' hex (by rw [hpd0]; exact hj0)
  refine ⟨Nat.find hex, by omega, ?_, Nat.find_spec hex, fun c hc => Nat.find_min hex hc⟩
  have := copy_entry_loop n t e h (Nat.find hex) hn (Nat.find_spec hex)
    (fun c hc => Nat.find_min hex hc) n 0 (Nat.zero_le _) (by omega)
  rwa [probe_zero n h hh] at this

theorem clean_entry_ok (t : List table_entry) (h : clean t) : ∀ e ∈ t, entry_ok e := by
  intro e he
  rcases h e he with ⟨h1, h2⟩ | h3
  · exact Or.inl ⟨h1, Or.inl h2⟩
  · exact Or.inr h3

theorem clean_tomb_count (t : List table_entry) (h : clean t) : tomb_count t = 0 := by
  unfold tomb_count
  rw [List.countP_eq_zero]
  intro e he
  rcases h e he with ⟨h1, h2⟩ | ⟨h3, _⟩
  · simp [h1, h2]
  · simp [h3]

theorem clean_set (t : List table_entry) (i : Nat) (e : table_entry) (h : clean t)
    (he : e.key ≠ 0 ∧ DELETED_VALUE ≤ e.value ∧ e.value < SIZE_MAX1) : clean (t.set i e) := by
  intro x hx
  rcases List.mem_or_eq_of_mem_set hx with h1 | h1
  · exact h x h1
  · subst h1; exact Or.inr he

/-- Putting a live entry with a new key into the first free slot of its probe
sequence keeps the table well-formed. -/
theorem insert_keeps (t : List table_entry) (e : table_entry) (d : Nat)
    (hn : 0 < t.length) (hd : d < t.length) (hcl : clean t) (hp : probe_ok t)
    (he : e.key ≠ 0 ∧ DELETED_VALUE ≤ e.value ∧ e.value < SIZE_MAX1)
    (hpath : ∀ c, c < d →
      (table_at t (probe t.length (hash_func e.key % t.length) c)).key ≠ 0) :
    probe_ok (t.set (probe t.length (hash_func e.key % t.length) d) e) := by
  have hi : probe t.length (hash_func e.key % t.length) d < t.length := probe_lt _ _ _ hn
  intro j hj hk
  rw [List.length_set] at hj ⊢
  rw [table_at_set t _ j e hi] at hk ⊢
  have hval : e.value ≠ 0 := by
    have := he.2.1
    simp only [DELETED_VALUE] at this
    omega
  split_ifs at hk ⊢ with hji
  · refine ⟨d, hd, hji.symm, ?_⟩
    intro c hc
    rw [table_at_set t _ _ e hi]
    have hne : probe t.length (hash_func e.key % t.length) c ≠
        probe t.length (hash_func e.key % t.length) d := by
      intro heq
      have := probe_inj _ _ c d (by omega) hd heq
      omega
    rw [if_neg hne]
    have hkc := hpath c hc
    rcases hcl _ (table_at_mem t _ (probe_lt _ _ c hn)) with ⟨h1, _⟩ | ⟨_, h2, _⟩
    · exact absurd h1 hkc
    · simp only [DELETED_VALUE] at h2; omega
  · obtain ⟨dj, hdj, hpj, hpathj⟩ := hp j hj hk
    refine ⟨dj, hdj, hpj, ?_⟩
    intro c hc
    rw [table_at_set t _ _ e hi]
    split_ifs
    · exact hval
    · exact hpathj c hc

theorem key_count_cons (e : table_entry) (t : List table_entry) (key : Nat) :
    key_count (e :: t) key = key_count t key + (if e.key = key then 1 else 0) := by
  unfold key_count
  rw [List.countP_cons]
  simp

theorem live_count_cons (e : table_entry) (t : List table_entry) :
    live_count (e :: t) = live_count t + (if e.key ≠ 0 then 1 else 0) := by
  unfold live_count
  rw [List.countP_cons]
  simp

/-- The function copy_table moves every live entry of the source into the
destination and keeps the destination well-formed, when the keys are distinct
and the destination has room. -/
theorem copy_table_spec (n : Nat) (src : List table_entry) :
    ∀ dst : List table_entry, 0 < n → dst.length = n → clean dst → probe_ok dst →
      (∀ e ∈ src, entry_ok e) →
      (∀ key, key ≠ 0 → key_count dst key + key_count src key ≤ 1) →
      live_count dst + live_count src < n →
      (copy_table n dst src).length = n ∧ clean (copy_table n dst src) ∧
      probe_ok (copy_table n dst src) ∧
      live_count (copy_table n dst src) = live_count dst + live_count src ∧
      (∀ key, key ≠ 0 →
        key_count (copy_table n dst src) key = key_count dst key + key_count src key) := by
  induction src with
  | nil =>
    intro dst _ hlen hcl hp _ _ _
    simp only [copy_table]
    refine ⟨hlen, hcl, hp, by simp [live_count], ?_⟩
    intro key _
    simp [key_count]
  | cons e src ih =>
    intro dst hn hlen hcl hp hsrc hu hroom
    have hsrc1 : ∀ x ∈ src, entry_ok x := fun x hx => hsrc x (List.mem_cons_of_mem _ hx)
    rw [copy_table]
    by_cases hk : e.key = 0
    · rw [if_neg (by simpa using hk)]
      have hl : live_count (e :: src) = live_count src := by
        rw [live_count_cons]; simp [hk]
      have hkc : ∀ key, key ≠ 0 → key_count (e :: src) key = key_count src key := by
        intro key hkey
        rw [key_count_cons, hk, if_neg (fun h => hkey h.symm)]
        rfl
      rw [hl] at hroom ⊢
      have := ih dst hn hlen hcl hp hsrc1
        (fun key hkey => by rw [← hkc key hkey]; exact hu key hkey) hroom
      refine ⟨this.1, this.2.1, this.2.2.1, this.2.2.2.1, ?_⟩
      intro key hkey
      rw [this.2.2.2.2 key hkey, hkc key hkey]
    · rw [if_pos hk]
      have hl : live_count (e :: src) = live_count src + 1 := by
        rw [live_count_cons]; simp [hk]
      have helive : e.key ≠ 0 ∧ DELETED_VALUE ≤ e.value ∧ e.value < SIZE_MAX1 := by
        rcases hsrc e (List.mem_cons_self _ _) with ⟨h1, _⟩ | h2
        · exact absurd h1 hk
        · exact h2
      have hnew : key_count dst e.key = 0 := by
        have := hu e.key hk
        rw [key_count_cons] at this
        simp only [if_true] at this
        omega
      have hempty : ∃ j, j < n ∧ (table_at dst j).key = 0 := by
        have h1 := clean_tomb_count dst hcl
        obtain ⟨j, hj, hj0, _⟩ := exists_empty dst (by omega)
        exact ⟨j, by omega, hj0⟩
      have hh : hash_func e.key % n < n := Nat.mod_lt _ hn
      obtain ⟨d, hd, hcopy, hd0, hpath⟩ := copy_entry_spec n dst e _ hn hh hempty
      rw [hcopy]
      subst hlen
      have hi : probe dst.length (hash_func e.key % dst.length) d < dst.length :=
        probe_lt _ _ _ hn
      have hl1 : live_count (dst.set (probe dst.length (hash_func e.key % dst.length) d) e) =
          live_count dst + 1 := by
        rw [live_count_set dst _ e hi]
        simp [hd0, hk]
      have hk1 : ∀ key, key ≠ 0 →
          key_count (dst.set (probe dst.length (hash_func e.key % dst.length) d) e) key =
            key_count dst key + (if e.key = key then 1 else 0) := by
        intro key hkey
        rw [key_count_set dst key _ e hi, hd0, if_neg (fun h => hkey h.symm)]
        rfl
      have := ih (dst.set (probe dst.length (hash_func e.key % dst.length) d) e) hn
        (List.length_set _ _ _) (clean_set dst _ e hcl helive)
        (insert_keeps dst e d hn hd hcl hp helive hpath) hsrc1
        (fun key hkey => by
          have := hu key hkey
          rw [key_count_cons] at this
          rw [hk1 key hkey]
          omega)
        (by rw [hl1]; omega)
      refine ⟨this.1, this.2.1, this.2.2.1, ?_, ?_⟩
      · rw [this.2.2.2.1, hl1, hl]; omega
      · intro key hkey
        rw [this.2.2.2.2 key hkey, hk1 key hkey, key_count_cons]
        omega

/-! ## compress_absolute_index -/

theorem compress_unfold (fuel : Nat) (alloc_ok : Bool) (T : table_state) (key value : Nat) :
    compress_absolute_index fuel alloc_ok T key value =
      match resize_step alloc_ok T with
      | none => none
      | some T1 =>
        if key = 0 then some (T1, 1)
        else if value &&& DELETED_VALUE ≠ 0 then some (T1, 1)
        else
          match compress_loop T1.hash_table_size T1.reference_table key fuel
              (hash_func key % T1.hash_table_size) none with
          | none => none
          | some first_free_spot =>
            some ({ T1 with
                    hash_table_value_count :=
                      if (table_at T1.reference_table first_free_spot).key = 0 then
                        (T1.hash_table_value_count + 1) % SIZE_MAX1
                      else T1.hash_table_value_count
                    hash_table_del_count :=
                      if (table_at T1.reference_table first_free_spot).key = 0 ∧
                          DELETED_VALUE &&& (table_at T1.reference_table first_free_spot).value ≠ 0
                      then sub64 T1.hash_table_del_count 1
                      else T1.hash_table_del_count
                    reference_table :=
                      T1.reference_table.set first_free_spot ⟨key, DELETED_VALUE ||| value⟩ }, 0) :=
  rfl

theorem replicate_clean (n : Nat) : clean (List.replicate n (⟨0, 0⟩ : table_entry)) := by
  intro e he
  rw [List.mem_replicate] at he
  rw [he.2]
  exact Or.inl ⟨rfl, rfl⟩

theorem replicate_probe_ok (n : Nat) : probe_ok (List.replicate n (⟨0, 0⟩ : table_entry)) := by
  intro j hj hk
  rw [List.length_replicate] at hj
  exfalso
  apply hk
  unfold table_at
  rw [List.getD_eq_getElem?_getD, List.getElem?_replicate]
  simp [hj]

theorem replicate_key_count (n key : Nat) (hk : key ≠ 0) :
    key_count (List.replicate n (⟨0, 0⟩ : table_entry)) key = 0 := by
  unfold key_count
  rw [List.countP_eq_zero]
  intro e he
  rw [List.mem_replicate] at he
  rw [he.2]
  simpa using fun h => hk h.symm

theorem replicate_live_count (n : Nat) :
    live_count (List.replicate n (⟨0, 0⟩ : table_entry)) = 0 := by
  unfold live_count
  rw [List.countP_eq_zero]
  intro e he
  rw [List.mem_replicate] at he
  rw [he.2]
  simp

theorem live_tomb_le (t : List table_entry) : live_count t + tomb_count t ≤ t.length := by
  have := count_split t
  omega

/-- Rebuilding a well-formed table into a zeroed array with room for its live
entries gives a well-formed table without tombstones that holds every key as
often as before. -/
theorem rebuild_spec (T : table_state) (new_size : Nat) (hinv : table_inv T)
    (hb : new_size < SIZE_MAX1) (hroom : live_count T.reference_table < new_size) :
    table_inv ⟨new_size, T.hash_table_value_count, 0,
      copy_table new_size (List.replicate new_size ⟨0, 0⟩)
        (T.reference_table.take T.hash_table_size)⟩ ∧
    live_count (copy_table new_size (List.replicate new_size ⟨0, 0⟩)
        (T.reference_table.take T.hash_table_size)) +
      tomb_count (copy_table new_size (List.replicate new_size ⟨0, 0⟩)
        (T.reference_table.take T.hash_table_size)) < new_size ∧
    ∀ key, key ≠ 0 →
      key_count (copy_table new_size (List.replicate new_size ⟨0, 0⟩)
        (T.reference_table.take T.hash_table_size)) key = key_count T.reference_table key := by
  have htake : T.reference_table.take T.hash_table_size = T.reference_table := by
    rw [← hinv.len]; exact List.take_length _
  rw [htake]
  have hn : 0 < new_size := by omega
  have hspec := copy_table_spec new_size T.reference_table (List.replicate new_size ⟨0, 0⟩) hn
    (List.length_replicate _ _) (replicate_clean _) (replicate_probe_ok _) hinv.ok
    (fun key hkey => by rw [replicate_key_count _ _ hkey, Nat.zero_add]; exact hinv.uniq key hkey)
    (by rw [replicate_live_count, Nat.zero_add]; exact hroom)
  obtain ⟨h1, h2, h3, h4, h5⟩ := hspec
  rw [replicate_live_count, Nat.zero_add] at h4
  have h6 := clean_tomb_count _ h2
  refine ⟨⟨hb, h1, clean_entry_ok _ h2, h3, ?_, ?_, ?_⟩, ?_, ?_⟩
  · intro key hkey
    rw [h5 key hkey, replicate_key_count _ _ hkey, Nat.zero_add]
    exact hinv.uniq key hkey
  · show T.hash_table_value_count = _
    rw [h4]; exact hinv.live
  · show 0 = _
    rw [h6]
  · rw [h4, h6]; omega
  · intro key hkey
    rw [h5 key hkey, replicate_key_count _ _ hkey, Nat.zero_add]

/-- The resizing step of compress_absolute_index yields a well-formed table
with at least one empty slot, holding every key as often as before. -/
theorem resize_step_spec (T : table_state) (hinv : table_inv T)
    (hsize : T.hash_table_size * 2 < SIZE_MAX1) :
    ∃ T1, resize_step true T = some T1 ∧ table_inv T1 ∧ 0 < T1.hash_table_size ∧
      T1.hash_table_size ≤ max PAGE_SIZE (2 * T.hash_table_size) ∧
      live_count T1.reference_table + tomb_count T1.reference_table < T1.hash_table_size ∧
      ∀ key, key ≠ 0 → key_count T1.reference_table key = key_count T.reference_table key := by
  have hlt := live_tomb_le T.reference_table
  rw [hinv.len, ← hinv.live, ← hinv.dead] at hlt
  have hm1 : T.hash_table_value_count * 2 % SIZE_MAX1 = T.hash_table_value_count * 2 := by
    apply Nat.mod_eq_of_lt; omega
  have hm2 : (T.hash_table_value_count + T.hash_table_del_count) % SIZE_MAX1 * 2 % SIZE_MAX1 =
      (T.hash_table_value_count + T.hash_table_del_count) * 2 := by
    have e1 : (T.hash_table_value_count + T.hash_table_del_count) % SIZE_MAX1 =
        T.hash_table_value_count + T.hash_table_del_count := Nat.mod_eq_of_lt (by omega)
    rw [e1]
    exact Nat.mod_eq_of_lt (by omega)
  unfold resize_step
  rw [hm1, hm2]
  by_cases hg : T.hash_table_value_count * 2 ≥ T.hash_table_size
  · rw [if_pos hg]
    simp only [grow_hash_table, Bool.not_true, Bool.false_eq_true, if_false, if_true]
    by_cases h0 : T.hash_table_size = 0
    · have hroom : live_count T.reference_table < PAGE_SIZE := by
        rw [← hinv.live]; simp only [PAGE_SIZE]; omega
      obtain ⟨hi, he, hk⟩ := rebuild_spec T PAGE_SIZE hinv (by simp [PAGE_SIZE, SIZE_MAX1]) hroom
      simp only [h0, ne_eq, not_true_eq_false, if_false]
      rw [h0] at hi he hk
      refine ⟨_, rfl, hi, by simp [PAGE_SIZE], by simp, he, hk⟩
    · have hroom : live_count T.reference_table < T.hash_table_size * 2 := by
        rw [← hinv.live]; omega
      obtain ⟨hi, he, hk⟩ := rebuild_spec T (T.hash_table_size * 2) hinv hsize hroom
      simp only [h0, ne_eq, not_false_eq_true, if_true, Nat.mod_eq_of_lt hsize]
      refine ⟨_, rfl, hi, by simp; omega, ?_, he, hk⟩
      simp only [PAGE_SIZE]; omega
  · rw [if_neg hg]
    by_cases hc : (T.hash_table_value_count + T.hash_table_del_count) * 2 ≥ T.hash_table_size
    · rw [if_pos hc]
      have hroom : live_count T.reference_table < T.hash_table_size := by
        rw [← hinv.live]; omega
      obtain ⟨hi, he, hk⟩ := rebuild_spec T T.hash_table_size hinv hinv.bound hroom
      simp only [cleanup_hash_table]
      refine ⟨_, rfl, hi, by simp; omega, ?_, he, hk⟩
      simp only [PAGE_SIZE]; omega
    · rw [if_neg hc]
      refine ⟨T, rfl, hinv, by omega, ?_, ?_, fun _ _ => rfl⟩
      · simp only [PAGE_SIZE]; omega
      · rw [← hinv.live, ← hinv.dead]; omega

theorem and_deleted_of_entry (e : table_entry) (h : entry_ok e) :
    (e.value &&& DELETED_VALUE = 0 ↔ e.value = 0) ∧
    (e.value &&& DELETED_VALUE = 0 → e.key = 0) := by
  rw [and_deleted]
  simp only [entry_ok, DELETED_VALUE, SIZE_MAX1] at *
  rcases h with ⟨h1, h2 | h2⟩ | ⟨h1, h2, h3⟩
  · rw [h2]; simp [h1]
  · rw [h2]; simp
  · constructor
    · constructor
      · intro h; omega
      · intro h; omega
    · intro h; omega

/-- In a well-formed table with an empty slot, the probe loop of
compress_absolute_index returns: the slot it yields lies on the probe sequence
of the key behind slots that are not empty and hold other keys, and it either
holds the key already or has `key = 0` while no slot holds the key. -/
theorem compress_loop_result (T1 : table_state) (key fuel : Nat) (hinv : table_inv T1)
    (hn : 0 < T1.hash_table_size)
    (hroom : live_count T1.reference_table + tomb_count T1.reference_table <
      T1.hash_table_size)
    (hkey : key ≠ 0) (hfuel : T1.hash_table_size ≤ fuel) :
    ∃ dF, dF < T1.hash_table_size ∧
      compress_loop T1.hash_table_size T1.reference_table key fuel
        (hash_func key % T1.hash_table_size) none =
        some (probe T1.hash_table_size (hash_func key % T1.hash_table_size) dF) ∧
      (∀ c, c < dF →
        (table_at T1.reference_table
          (probe T1.hash_table_size (hash_func key % T1.hash_table_size) c)).key ≠ key ∧
        (table_at T1.reference_table
          (probe T1.hash_table_size (hash_func key % T1.hash_table_size) c)).value ≠ 0) ∧
      ((table_at T1.reference_table
          (probe T1.hash_table_size (hash_func key % T1.hash_table_size) dF)).key = key ∨
       ((table_at T1.reference_table
          (probe T1.hash_table_size (hash_func key % T1.hash_table_size) dF)).key = 0 ∧
        key_count T1.reference_table key = 0)) := by
  obtain ⟨size, vc, dc, t⟩ := T1
  have hlen : t.length = size := hinv.len
  simp only at hn hroom hfuel hlen ⊢
  subst hlen
  have hok : ∀ j, j < t.length → entry_ok (table_at t j) :=
    fun j hj => hinv.ok _ (table_at_mem t j hj)
  have hh : hash_func key % t.length < t.length := Nat.mod_lt _ hn
  generalize hhdef : hash_func key % t.length = h at *
  obtain ⟨j, hj, hj0, hjv⟩ := exists_empty t hroom
  obtain ⟨d0, hd0, hpd0⟩ := probe_surj t.length h j hh hj
  have hex : ∃ d, (table_at t (probe t.length h d)).key = key ∨
      ((table_at t (probe t.length h d)).key = 0 ∧
        (table_at t (probe t.length h d)).value &&& DELETED_VALUE = 0) :=
    ⟨d0, Or.inr (by rw [hpd0, hj0, hjv]; simp)⟩
  have hds : Nat.find hex ≤ d0 := Nat.find_min' hex (Or.inr (by rw [hpd0, hj0, hjv]; simp))
  have hstop := Nat.find_spec hex
  have hnostop : ∀ c, c < Nat.find hex → (table_at t (probe t.length h c)).key ≠ key ∧
      (table_at t (probe t.length h c)).value &&& DELETED_VALUE ≠ 0 := by
    intro c hc
    have hmin := Nat.find_min hex hc
    have hc_ok := hok _ (probe_lt t.length h c hn)
    have hbit := and_deleted_of_entry _ hc_ok
    constructor
    · intro hk; exact hmin (Or.inl hk)
    · intro hv; exact hmin (Or.inr ⟨hbit.2 hv, hv⟩)
  generalize Nat.find hex = ds at hds hstop hnostop
  obtain ⟨dF, hdF, hres, hcase⟩ := compress_loop_spec t.length t key h ds hn hnostop hstop
    fuel 0 none (Nat.zero_le _) (by omega) (fun _ c' hc' => absurd hc' (Nat.not_lt_zero _))
    (fun f hf => by simp at hf)
  rw [probe_zero t.length h hh] at hres
  refine ⟨dF, by omega, hres, ?_, ?_⟩
  · intro c hc
    obtain ⟨h1, h2⟩ := hnostop c (by omega)
    refine ⟨h1, ?_⟩
    intro hv0
    rw [hv0] at h2
    simp at h2
  · rcases hcase with ⟨hk, hdeq⟩ | ⟨hk, hF0, _⟩
    · left; rw [hdeq]; exact hk
    · right
      refine ⟨hF0, ?_⟩
      apply key_count_zero
      intro i hi hik
      have hik0 : (table_at t i).key ≠ 0 := by rw [hik]; exact hkey
      obtain ⟨d, hd, hpd, hpath⟩ := hinv.path i hi hik0
      simp only at hpd hpath
      rw [hik, hhdef] at hpd hpath
      rcases Nat.lt_trichotomy d ds with hlt | heq | hgt
      · have := (hnostop d hlt).1
        rw [hpd] at this
        exact this hik
      · rw [heq] at hpd
        rw [hpd] at hk
        exact hk hik
      · have hv := hpath ds hgt
        rcases hstop with hs | ⟨_, hs⟩
        · exact hk hs
        · have hbit := and_deleted_of_entry _ (hok _ (probe_lt t.length h ds hn))
          exact hv (hbit.1.1 hs)

/-- Writing a live entry for `key` into the slot found by the probe loop: the
table stays well-formed, the key is then held by exactly that slot, and a
lookup of the key yields the value written. -/
theorem write_slot_spec (T1 : table_state) (key value dF : Nat) (hinv : table_inv T1)
    (hn : 0 < T1.hash_table_size)
    (hroom : live_count T1.reference_table + tomb_count T1.reference_table <
      T1.hash_table_size)
    (hsz : T1.hash_table_size < SIZE_MAX1)
    (hkey : key ≠ 0) (hval : value < DELETED_VALUE) (hdF : dF < T1.hash_table_size)
    (hpath : ∀ c, c < dF →
      (table_at T1.reference_table
        (probe T1.hash_table_size (hash_func key % T1.hash_table_size) c)).key ≠ key ∧
      (table_at T1.reference_table
        (probe T1.hash_table_size (hash_func key % T1.hash_table_size) c)).value ≠ 0)
    (hslot : (table_at T1.reference_table
        (probe T1.hash_table_size (hash_func key % T1.hash_table_size) dF)).key = key ∨
      ((table_at T1.reference_table
        (probe T1.hash_table_size (hash_func key % T1.hash_table_size) dF)).key = 0 ∧
        key_count T1.reference_table key = 0)) :
    table_inv
      { T1 with
        hash_table_value_count :=
          if (table_at T1.reference_table
              (probe T1.hash_table_size (hash_func key % T1.hash_table_size) dF)).key = 0 then
            (T1.hash_table_value_count + 1) % SIZE_MAX1
          else T1.hash_table_value_count
        hash_table_del_count :=
          if (table_at T1.reference_table
              (probe T1.hash_table_size (hash_func key % T1.hash_table_size) dF)).key = 0 ∧
              DELETED_VALUE &&& (table_at T1.reference_table
                (probe T1.hash_table_size (hash_func key % T1.hash_table_size) dF)).value ≠ 0
          then sub64 T1.hash_table_del_count 1
          else T1.hash_table_del_count
        reference_table :=
          T1.reference_table.set
            (probe T1.hash_table_size (hash_func key % T1.hash_table_size) dF)
            ⟨key, DELETED_VALUE ||| value⟩ } ∧
    key_count (T1.reference_table.set
        (probe T1.hash_table_size (hash_func key % T1.hash_table_size) dF)
        ⟨key, DELETED_VALUE ||| value⟩) key = 1 ∧
    expand_loop T1.hash_table_size (T1.reference_table.set
        (probe T1.hash_table_size (hash_func key % T1.hash_table_size) dF)
        ⟨key, DELETED_VALUE ||| value⟩) key T1.hash_table_size
        (hash_func key % T1.hash_table_size) = value := by
  obtain ⟨size, vc, dc, t⟩ := T1
  have hlen : t.length = size := hinv.len
  have hlive : vc = live_count t := hinv.live
  have hdead : dc = tomb_count t := hinv.dead
  simp only at hn hroom hdF hpath hslot hlen hsz ⊢
  subst hlen
  have hh : hash_func key % t.length < t.length := Nat.mod_lt _ hn
  generalize hhdef : hash_func key % t.length = h at *
  have hi : probe t.length h dF < t.length := probe_lt _ _ _ hn
  have hor := or_deleted value hval
  have hnew_ok : entry_ok ⟨key, DELETED_VALUE ||| value⟩ := by
    right
    refine ⟨hkey, ?_, ?_⟩
    · show DELETED_VALUE ≤ DELETED_VALUE ||| value
      rw [hor]; omega
    · show DELETED_VALUE ||| value < SIZE_MAX1
      rw [hor]; simp only [DELETED_VALUE, SIZE_MAX1] at *; omega
  have hnew_val : (DELETED_VALUE ||| value) ≠ 0 := by
    rw [hor]; simp only [DELETED_VALUE]; omega
  have hslot_ok := hinv.ok _ (table_at_mem t _ hi)
  have hkc : key_count (t.set (probe t.length h dF) ⟨key, DELETED_VALUE ||| value⟩) key = 1 := by
    rw [key_count_set t key _ _ hi]
    simp only [if_true]
    rcases hslot with hk | ⟨hk0, hcnt⟩
    · have h1 := key_count_pos t key _ hi hk
      have h2 := hinv.uniq key hkey
      simp only at h2
      rw [if_pos hk]; omega
    · rw [hcnt]; split_ifs <;> omega
  refine ⟨⟨hsz, ?_, ?_, ?_, ?_, ?_, ?_⟩, hkc, ?_⟩
  · show (t.set _ _).length = t.length
    exact List.length_set _ _ _
  · intro e he
    rcases List.mem_or_eq_of_mem_set he with h1 | h1
    · exact hinv.ok e h1
    · rw [h1]; exact hnew_ok
  · -- probing still reaches every live entry
    intro j hj hk
    simp only at hj hk ⊢
    rw [List.length_set] at hj ⊢
    rw [table_at_set t _ j _ hi] at hk ⊢
    split_ifs at hk ⊢ with hji
    · refine ⟨dF, hdF, ?_, ?_⟩
      · simp only [hhdef]; exact hji.symm
      · intro c hc
        simp only [hhdef]
        rw [table_at_set t _ _ _ hi]
        have hne : probe t.length h c ≠ probe t.length h dF := by
          intro heq
          have := probe_inj _ _ c dF (by omega) hdF heq
          omega
        rw [if_neg hne]
        exact (hpath c hc).2
    · obtain ⟨dj, hdj, hpj, hpathj⟩ := hinv.path j hj hk
      refine ⟨dj, hdj, hpj, ?_⟩
      intro c hc
      rw [table_at_set t _ _ _ hi]
      split_ifs
      · exact hnew_val
      · exact hpathj c hc
  · intro k hk
    simp only
    by_cases hkk : k = key
    · rw [hkk, hkc]
    · rw [key_count_set t k _ _ hi]
      have e2 : (if (⟨key, DELETED_VALUE ||| value⟩ : table_entry).key = k then 1 else 0) = 0 :=
        if_neg (fun h => hkk h.symm)
      rw [e2]
      have := hinv.uniq k hk
      simp only at this
      split_ifs <;> omega
  · -- the live counter
    simp only
    rw [live_count_set t _ _ hi]
    simp only [ne_eq, hkey, not_false_eq_true, if_true]
    have hle := live_tomb_le t
    by_cases hk0 : (table_at t (probe t.length h dF)).key = 0
    · rw [if_pos hk0, if_neg (by simpa using hk0), hlive, Nat.mod_eq_of_lt (by omega)]
      omega
    · rw [if_neg hk0, if_pos hk0, hlive]
      have := live_count_pos t _ hi hk0
      omega
  · -- the tombstone counter
    simp only
    rw [tomb_count_set t _ _ hi]
    simp only [hkey, false_and, if_false, Nat.add_zero]
    have hle := live_tomb_le t
    rcases hslot_ok with ⟨h1, h2 | h2⟩ | ⟨h1, h2, h3⟩
    · simp [h1, h2, hdead]
    · have hpos := tomb_count_pos t _ hi h1 (by rw [h2]; simp [DELETED_VALUE])
      have hb : DELETED_VALUE &&& (table_at t (probe t.length h dF)).value ≠ 0 := by
        rw [h2]; simp [DELETED_VALUE]
      have hv : (table_at t (probe t.length h dF)).value ≠ 0 := by rw [h2]; simp [DELETED_VALUE]
      rw [if_pos ⟨h1, hb⟩, if_pos ⟨h1, hv⟩, hdead]
      simp only [sub64]
      rw [Nat.mod_eq_of_lt (by omega : tomb_count t < SIZE_MAX1)]
      simp only [SIZE_MAX1] at *
      omega
    · rw [if_neg (fun h => h1 h.1), if_neg (fun h => h1 h.1), hdead]
      rfl
  · -- the lookup
    have hfound := expand_loop_found t.length
      (t.set (probe t.length h dF) ⟨key, DELETED_VALUE ||| value⟩) key h dF hn
      (by rw [table_at_set t _ _ _ hi, if_pos rfl])
      (fun c hc => by
        have hne : probe t.length h c ≠ probe t.length h dF := by
          intro heq
          have := probe_inj _ _ c dF (by omega) hdF heq
          omega
        rw [table_at_set t _ _ _ hi, if_neg hne]
        exact hpath c hc)
      t.length 0 (Nat.zero_le _) (by omega)
    rw [probe_zero t.length h hh] at hfound
    rw [hfound, table_at_set t _ _ _ hi, if_pos rfl, and_not_deleted]
    show (DELETED_VALUE ||| value) % DELETED_VALUE = value
    rw [hor, Nat.add_mod_left, Nat.mod_eq_of_lt hval]

/-- compress_absolute_index on a well-formed table, for a key other than 0 and
a value without the top bit, with enough fuel for one round over the resized
table: it returns 0 and leaves a well-formed table in which exactly one slot
holds the key, that slot holds `DELETED_VALUE | value`, and a lookup of the key
yields `value`. -/
theorem compress_spec (T : table_state) (key value fuel : Nat) (hinv : table_inv T)
    (hsize : T.hash_table_size * 2 < SIZE_MAX1) (hkey : key ≠ 0)
    (hval : value < DELETED_VALUE) (hfuel : max PAGE_SIZE (2 * T.hash_table_size) ≤ fuel) :
    ∃ T1, compress_absolute_index fuel true T key value = some (T1, 0) ∧ table_inv T1 ∧
      key_count T1.reference_table key = 1 ∧
      (∀ e ∈ T1.reference_table, e.key = key → e.value = DELETED_VALUE ||| value) ∧
      expand_local_reference T1 key = value := by
  obtain ⟨T0, hres, hinv0, hn0, hle0, hroom0, _⟩ := resize_step_spec T hinv hsize
  have hbit : value &&& DELETED_VALUE = 0 := by
    rw [and_deleted]
    have : value / DELETED_VALUE = 0 := Nat.div_eq_of_lt hval
    rw [this]
  obtain ⟨dF, hdF, hloop, hpath, hslot⟩ :=
    compress_loop_result T0 key fuel hinv0 hn0 hroom0 hkey (by omega)
  have hsz : T0.hash_table_size < SIZE_MAX1 := by
    simp only [PAGE_SIZE, SIZE_MAX1] at *; omega
  obtain ⟨hinv1, hcnt, hexp⟩ :=
    write_slot_spec T0 key value dF hinv0 hn0 hroom0 hsz hkey hval hdF hpath hslot
  rw [compress_unfold, hres]
  simp only [hkey, if_false, hbit, ne_eq, not_true_eq_false, hloop]
  refine ⟨_, rfl, hinv1, hcnt, ?_, ?_⟩
  · -- the only slot holding the key is the one written
    intro e he hek
    simp only at he
    have hi : probe T0.hash_table_size (hash_func key % T0.hash_table_size) dF <
        T0.reference_table.length := by
      rw [hinv0.len]; exact probe_lt _ _ _ hn0
    obtain ⟨j, hj, hje⟩ := List.mem_iff_getElem.1 he
    have hjt : table_at (T0.reference_table.set
        (probe T0.hash_table_size (hash_func key % T0.hash_table_size) dF)
        ⟨key, DELETED_VALUE ||| value⟩) j = e := by
      rw [table_at_eq _ j hj]; exact hje
    by_cases hjf : j = probe T0.hash_table_size (hash_func key % T0.hash_table_size) dF
    · rw [table_at_set _ _ _ _ hi, if_pos hjf] at hjt
      rw [← hjt]
    · exfalso
      have hlen2 : probe T0.hash_table_size (hash_func key % T0.hash_table_size) dF <
          (T0.reference_table.set
            (probe T0.hash_table_size (hash_func key % T0.hash_table_size) dF)
            ⟨key, DELETED_VALUE ||| value⟩).length := by
        rw [List.length_set]; exact hi
      have h2 := key_count_two _ key j _ hjf hj hlen2 (by rw [hjt]; exact hek)
        (by rw [table_at_set _ _ _ _ hi, if_pos rfl])
      omega
  · simp only [expand_local_reference, hkey, if_false]
    rw [if_neg (by omega)]
    exact hexp

/-- The table before the first call is well-formed. -/
theorem table_init_inv : table_inv table_init := by
  refine ⟨by simp [table_init, SIZE_MAX1], rfl, ?_, ?_, ?_, rfl, rfl⟩
  · intro e he; simp [table_init] at he
  · intro j hj; simp [table_init] at hj
  · intro key _; simp [table_init, key_count]

/-! ## Deleting entries and the reachable states of the table -/

/-- Turning a live slot into a tombstone, with the counters adjusted as
delete_reference and delete_all_for_pool do, keeps the table well-formed. -/
theorem tombstone_keeps (T : table_state) (i : Nat) (hinv : table_inv T)
    (hi : i < T.hash_table_size) (hk : (table_at T.reference_table i).key ≠ 0) :
    table_inv
      { T with
        reference_table := T.reference_table.set i ⟨0, DELETED_VALUE⟩
        hash_table_value_count := sub64 T.hash_table_value_count 1
        hash_table_del_count := (T.hash_table_del_count + 1) % SIZE_MAX1 } := by
  obtain ⟨size, vc, dc, t⟩ := T
  have hlen : t.length = size := hinv.len
  have hlive : vc = live_count t := hinv.live
  have hdead : dc = tomb_count t := hinv.dead
  have hb : size < SIZE_MAX1 := hinv.bound
  simp only at hi hk ⊢
  subst hlen
  have hle := live_tomb_le t
  have hpos := live_count_pos t i hi hk
  refine ⟨hb, ?_, ?_, ?_, ?_, ?_, ?_⟩
  · show (t.set _ _).length = t.length
    exact List.length_set _ _ _
  · intro e he
    rcases List.mem_or_eq_of_mem_set he with h1 | h1
    · exact hinv.ok e h1
    · rw [h1]; exact Or.inl ⟨rfl, Or.inr rfl⟩
  · intro j hj hkj
    simp only at hj hkj ⊢
    rw [List.length_set] at hj ⊢
    rw [table_at_set t _ j _ hi] at hkj ⊢
    split_ifs at hkj ⊢ with hji
    · exact absurd rfl hkj
    · obtain ⟨dj, hdj, hpj, hpathj⟩ := hinv.path j hj hkj
      refine ⟨dj, hdj, hpj, ?_⟩
      intro c hc
      rw [table_at_set t _ _ _ hi]
      split_ifs
      · simp [DELETED_VALUE]
      · exact hpathj c hc
  · intro k hkk
    simp only
    rw [key_count_set t k _ _ hi]
    have e2 : (if (⟨0, DELETED_VALUE⟩ : table_entry).key = k then 1 else 0) = 0 :=
      if_neg (fun h => hkk h.symm)
    rw [e2]
    have := hinv.uniq k hkk
    simp only at this
    split_ifs <;> omega
  · simp only
    rw [live_count_set t _ _ hi, if_pos hk]
    simp only [ne_eq, not_true_eq_false, if_false, Nat.add_zero, sub64, hlive]
    simp only [SIZE_MAX1] at *
    omega
  · simp only
    rw [tomb_count_set t _ _ hi, if_neg (fun h => hk h.1)]
    have e3 : (if (⟨0, DELETED_VALUE⟩ : table_entry).key = 0 ∧
        (⟨0, DELETED_VALUE⟩ : table_entry).value ≠ 0 then 1 else 0) = 1 :=
      if_pos ⟨rfl, by simp [DELETED_VALUE]⟩
    rw [e3, hdead]
    simp only [SIZE_MAX1] at *
    omega

theorem delete_loop_some (n : Nat) (t : List table_entry) (key : Nat) (hn : 0 < n) :
    ∀ fuel idx r, idx < n → delete_loop n t key fuel idx = some r →
      r < n ∧ (table_at t r).key = key := by
  intro fuel
  induction fuel with
  | zero => intro idx r _ h; simp [delete_loop] at h
  | succ fuel ih =>
    intro idx r hidx h
    rw [delete_loop] at h
    split_ifs at h with h1 h2
    · simp only [Option.some.injEq] at h
      subst h
      exact ⟨hidx, h1⟩
    · apply ih (next_idx n idx) r _ h
      unfold next_idx
      split_ifs <;> omega

/-- The function delete_reference keeps the table well-formed. -/
theorem delete_reference_inv (T : table_state) (key : Nat) (hinv : table_inv T) :
    table_inv (delete_reference T key).1 := by
  unfold delete_reference
  split_ifs with h1 h2
  · exact hinv
  · exact hinv
  · have hn : 0 < T.hash_table_size := by omega
    cases hloop : delete_loop T.hash_table_size T.reference_table key T.hash_table_size
        (hash_func key % T.hash_table_size) with
    | none => exact hinv
    | some idx =>
      obtain ⟨hidx, hkey⟩ := delete_loop_some _ _ key hn _ _ idx (Nat.mod_lt _ hn) hloop
      exact tombstone_keeps T idx hinv hidx (by rw [hkey]; exact h1)

theorem delete_all_loop_inv (pool_id : Nat) (hp : pool_id ≠ 0) :
    ∀ n i T, table_inv T → i + n ≤ T.hash_table_size →
      table_inv (delete_all_loop pool_id n i T) ∧
      (delete_all_loop pool_id n i T).hash_table_size = T.hash_table_size := by
  intro n
  induction n with
  | zero => intro i T hinv _; exact ⟨hinv, rfl⟩
  | succ n ih =>
    intro i T hinv hle
    rw [delete_all_loop]
    split_ifs with hmatch
    · have hk : (table_at T.reference_table i).key ≠ 0 := by
        intro h0
        rw [h0] at hmatch
        simp [tag_pool_id] at hmatch
        exact hp hmatch.symm
      have := ih (i + 1) _ (tombstone_keeps T i hinv (by omega) hk) (by simp only; omega)
      exact ⟨this.1, this.2⟩
    · exact ih (i + 1) T hinv (by omega)

/-- The function delete_all_for_pool keeps the table well-formed. -/
theorem delete_all_for_pool_inv (T : table_state) (pool : pool_struct) (hinv : table_inv T) :
    table_inv (delete_all_for_pool T pool).1 := by
  unfold delete_all_for_pool
  split_ifs with h
  · exact hinv
  · exact (delete_all_loop_inv pool.pool_id h T.hash_table_size 0 T hinv (by omega)).1

/-- Every call of compress_absolute_index that returns, whatever it returns,
leaves a well-formed table. -/
theorem compress_inv (T T1 : table_state) (key value fuel : Nat) (ret : Int)
    (hinv : table_inv T) (hsize : T.hash_table_size * 2 < SIZE_MAX1)
    (hvalue : value < SIZE_MAX1)
    (hfuel : max PAGE_SIZE (2 * T.hash_table_size) ≤ fuel)
    (h : compress_absolute_index fuel true T key value = some (T1, ret)) : table_inv T1 := by
  obtain ⟨T0, hres, hinv0, hn0, hle0, hroom0, _⟩ := resize_step_spec T hinv hsize
  rw [compress_unfold, hres] at h
  simp only at h
  split_ifs at h with hk hv
  · simp only [Option.some.injEq, Prod.mk.injEq] at h
    rw [← h.1]; exact hinv0
  · simp only [Option.some.injEq, Prod.mk.injEq] at h
    rw [← h.1]; exact hinv0
  · have hval : value < DELETED_VALUE := by
      have := (and_deleted value).1 (by simpa using hv)
      simp only [DELETED_VALUE, SIZE_MAX1] at *
      omega
    obtain ⟨dF, hdF, hloop, hpath, hslot⟩ :=
      compress_loop_result T0 key fuel hinv0 hn0 hroom0 hk (by omega)
    obtain ⟨hinv1, _, _⟩ :=
      write_slot_spec T0 key value dF hinv0 hn0 hroom0 hinv0.bound hk hval hdF hpath hslot
    rw [hloop] at h
    simp only [Option.some.injEq, Prod.mk.injEq] at h
    rw [← h.1]; exact hinv1

/-- Every reachable state of the expansion table is well-formed. -/
theorem table_reachable_inv (T : table_state) (h : table_reachable T) : table_inv T := by
  induction h with
  | init => exact table_init_inv
  | compress T T1 key value fuel ret _ hsize hvalue hfuel hc ih =>
    exact compress_inv T T1 key value fuel ret ih hsize hvalue hfuel hc
  | delete T key _ ih => exact delete_reference_inv T key ih
  | delete_all T pool _ ih => exact delete_all_for_pool_inv T pool ih

/-! ## Claims C9 and C10: reference fields -/

/-- C9 as stated fails when `b` is the record `a` itself (delta 0 lies within
the bound): for the list record at index 5 of pool 1, in zeroed memory and
with an empty expansion table, set_field_reference returns 0 and stores the
16-bit zero, and get_field_reference then returns NULL_REF, whose absolute
index is 0 and not 5. -/
theorem C9_self_reference_reads_null :
    ∃ w1, set_field_reference basic_type_table 0 true ⟨7, 0, 1, 5, 0, 0, 0⟩
        ⟨7, 0, 1, 5, 0, 0, 0⟩ 0 ⟨fun _ => 0, table_init⟩ = some (w1, 0) ∧
      load w1.mem (local_ref_ptr basic_type_table ⟨7, 0, 1, 5, 0, 0, 0⟩ 0) 2 = 0 ∧
      raw_val (get_field_reference basic_type_table ⟨7, 0, 1, 5, 0, 0, 0⟩ 0 w1) = NULL_REF ∧
      GET_GLOBAL_INDEX_OF_REF (get_field_reference basic_type_table ⟨7, 0, 1, 5, 0, 0, 0⟩ 0 w1)
        ≠ GET_GLOBAL_INDEX_OF_REF ⟨7, 0, 1, 5, 0, 0, 0⟩ :=
  ⟨⟨store (fun _ => 0) (local_ref_ptr basic_type_table ⟨7, 0, 1, 5, 0, 0, 0⟩ 0) 2
      (local_raw 0 0 0), table_init⟩, by rfl, by decide, by decide, by decide⟩

/-- C9 (amended): for two different records `a`, `b` of one pool whose absolute
indices differ by less than PAGE_SIZE (up to `PAGE_SIZE - 1` either way), when
field `k` of `a` does not hold a far reference, set_field_reference returns 0
and leaves the expansion table as it was, the 16-bit word stored has
`is_long_ref = 0`, and get_field_reference then yields the handle `a` with the
subpool and index of `b`, whose absolute index is that of `b`. -/
theorem C9_near_reference_round_trip (tt : Type_table) (fuel : Nat) (alloc_ok : Bool)
    (a b : reference_struct) (k : Nat) (w : world)
    (hpool : a.pool_id = b.pool_id) (hb : raw_val b ≠ NULL_REF)
    (hai : a.index < 4096) (hbi : b.index < 4096) (hbs : b.sub_pool_id < 65536)
    (hlo : (GET_GLOBAL_INDEX_OF_REF a : Int) - GET_GLOBAL_INDEX_OF_REF b < PAGE_SIZE)
    (hhi : (GET_GLOBAL_INDEX_OF_REF b : Int) - GET_GLOBAL_INDEX_OF_REF a < PAGE_SIZE)
    (hne : GET_GLOBAL_INDEX_OF_REF a ≠ GET_GLOBAL_INDEX_OF_REF b)
    (hold : local_is_long_ref (load w.mem (local_ref_ptr tt a k) 2) = 0) :
    ∃ w1, set_field_reference tt fuel alloc_ok a b k w = some (w1, 0) ∧
      w1.table = w.table ∧
      local_is_long_ref (load w1.mem (local_ref_ptr tt a k) 2) = 0 ∧
      get_field_reference tt a k w1 = { a with sub_pool_id := b.sub_pool_id, index := b.index } ∧
      GET_GLOBAL_INDEX_OF_REF (get_field_reference tt a k w1) = GET_GLOBAL_INDEX_OF_REF b := by
  simp only [PAGE_SIZE, Nat.cast_ofNat] at hlo hhi
  have hd := local_raw_near ((GET_GLOBAL_INDEX_OF_REF b : Int) - GET_GLOBAL_INDEX_OF_REF a)
    (by omega) (by omega)
  obtain ⟨hd1, hd2, hd3, hd4⟩ := hd
  have hfar : ¬ ((GET_GLOBAL_INDEX_OF_REF b : Int) - GET_GLOBAL_INDEX_OF_REF a ≥ 4096 ∨
      (GET_GLOBAL_INDEX_OF_REF b : Int) - GET_GLOBAL_INDEX_OF_REF a ≤ -4096) := by omega
  refine ⟨⟨store w.mem (local_ref_ptr tt a k) 2
    (local_raw ((GET_GLOBAL_INDEX_OF_REF b : Int) - GET_GLOBAL_INDEX_OF_REF a) 0 0), w.table⟩,
    ?_, rfl, ?_, ?_⟩
  · simp only [set_field_reference, hb, if_false, hpool, ne_eq, not_true_eq_false, hfar, hold]
  · simp only [load_store_two]
    rw [Nat.mod_eq_of_lt (by omega)]
    exact hd3
  · have hnz : local_raw ((GET_GLOBAL_INDEX_OF_REF b : Int) - GET_GLOBAL_INDEX_OF_REF a) 0 0 ≠ 0 := by
      intro h0
      have := hd4.1 h0
      omega
    have hget : get_field_reference tt a k ⟨store w.mem (local_ref_ptr tt a k) 2
        (local_raw ((GET_GLOBAL_INDEX_OF_REF b : Int) - GET_GLOBAL_INDEX_OF_REF a) 0 0), w.table⟩ =
        { a with sub_pool_id := b.sub_pool_id, index := b.index } := by
      simp only [get_field_reference, load_store_two]
      rw [Nat.mod_eq_of_lt (by omega : local_raw _ 0 0 < 65536)]
      simp only [hnz, if_false, hd3, ne_eq, not_true_eq_false, hd2]
      have hsum : (((GET_GLOBAL_INDEX_OF_REF a : Int) +
          ((GET_GLOBAL_INDEX_OF_REF b : Int) - GET_GLOBAL_INDEX_OF_REF a)) %
          (SIZE_MAX1 : Int)).toNat = GET_GLOBAL_INDEX_OF_REF b := by
        simp only [GET_GLOBAL_INDEX_OF_REF, PAGE_SIZE, SIZE_MAX1] at *
        omega
      rw [hsum]
      simp only [GLOBAL_INDEX_TO_SUBPOOL_ID, GLOBAL_INDEX_TO_SUBPOOL_OFFSET,
        GET_GLOBAL_INDEX_OF_REF, PAGE_SIZE, Nat.reducePow, Nat.reduceSub, and_mask12, shift12]
      have e1 : (b.sub_pool_id * 4096 + b.index) / 4096 % 65536 = b.sub_pool_id := by omega
      have e2 : (b.sub_pool_id * 4096 + b.index) % 4096 % 4096 = b.index := by omega
      rw [e1, e2]
    refine ⟨hget, ?_⟩
    rw [hget]
    simp only [GET_GLOBAL_INDEX_OF_REF]

/-- C9 (amended) at a concrete input: the first list record set to refer to the
record 4095 slots further on. -/
theorem C9_near_reference_round_trip_witness :
    ∃ w1, set_field_reference basic_type_table 0 true ⟨7, 0, 1, 0, 0, 0, 0⟩
        ⟨7, 0, 1, 4095, 0, 0, 0⟩ 0 ⟨fun _ => 0, table_init⟩ = some (w1, 0) ∧
      GET_GLOBAL_INDEX_OF_REF (get_field_reference basic_type_table ⟨7, 0, 1, 0, 0, 0, 0⟩ 0 w1)
        = 4095 := by
  obtain ⟨w1, h1, _, _, _, h5⟩ := C9_near_reference_round_trip basic_type_table 0 true
    ⟨7, 0, 1, 0, 0, 0, 0⟩ ⟨7, 0, 1, 4095, 0, 0, 0⟩ 0 ⟨fun _ => 0, table_init⟩
    rfl (by decide) (by decide) (by decide) (by decide) (by decide) (by decide) (by decide)
    (by decide)
  exact ⟨w1, h1, h5⟩

theorem local_raw_far (k : Nat) (hk : k < 4096) :
    local_raw (k : Int) 1 0 = k + 8192 ∧ local_is_long_ref (local_raw (k : Int) 1 0) = 1 ∧
    local_index (local_raw (k : Int) 1 0) = k := by
  simp only [local_raw, local_index, local_is_long_ref]
  omega

/-- C10: for two records `a`, `b` of one pool (handles that differ in subpool
and index only) whose absolute indices differ by PAGE_SIZE or more, either way,
and a field number `k` that the 13-bit index can hold, on a well-formed
expansion table and with fuel for one round of probing: set_field_reference
returns 0 and stores the local reference with `is_long_ref = 1` and
`index = k`; get_field_reference then returns `b`; the table stays well-formed
and exactly one slot holds the key made of `a`'s pool id, subpool id and index
and of the stored local reference, its value being `abs(b)` under the top bit
that marks a live entry, so that the lookup yields `abs(b)`. -/
theorem C10_far_reference_round_trip (tt : Type_table) (fuel : Nat) (a b : reference_struct)
    (k : Nat) (w : world)
    (hinv : table_inv w.table) (hsize : w.table.hash_table_size * 2 < SIZE_MAX1)
    (hfuel : max PAGE_SIZE (2 * w.table.hash_table_size) ≤ fuel)
    (hb : b.wf) (hbn : b.pool_id ≠ 0) (hk : k < 4096)
    (htype : a.type_id = b.type_id) (hpool : a.pool_id = b.pool_id)
    (hfull : a.full = b.full) (hext : a.is_extended = b.is_extended)
    (hgc : a.gc_state = b.gc_state)
    (hfar : GET_GLOBAL_INDEX_OF_REF a + PAGE_SIZE ≤ GET_GLOBAL_INDEX_OF_REF b ∨
      GET_GLOBAL_INDEX_OF_REF b + PAGE_SIZE ≤ GET_GLOBAL_INDEX_OF_REF a) :
    ∃ w1, set_field_reference tt fuel true a b k w = some (w1, 0) ∧
      load w1.mem (local_ref_ptr tt a k) 2 = local_raw (k : Int) 1 0 ∧
      local_is_long_ref (load w1.mem (local_ref_ptr tt a k) 2) = 1 ∧
      local_index (load w1.mem (local_ref_ptr tt a k) 2) = k ∧
      get_field_reference tt a k w1 = b ∧
      table_inv w1.table ∧
      key_count w1.table.reference_table (tag_raw a (local_raw (k : Int) 1 0)) = 1 ∧
      (∀ e ∈ w1.table.reference_table, e.key = tag_raw a (local_raw (k : Int) 1 0) →
        e.value = DELETED_VALUE ||| GET_GLOBAL_INDEX_OF_REF b ∧
        e.value &&& (SIZE_MAX1 - 1 - DELETED_VALUE) = GET_GLOBAL_INDEX_OF_REF b) ∧
      expand_local_reference w1.table (tag_raw a (local_raw (k : Int) 1 0)) =
        GET_GLOBAL_INDEX_OF_REF b := by
  obtain ⟨hl1, hl2, hl3⟩ := local_raw_far k hk
  have hbnz : raw_val b ≠ NULL_REF := raw_val_ne_zero b hbn
  have hbw := hb
  simp only [pool_struct.wf] at hbw
  have hkey : tag_raw a (local_raw (k : Int) 1 0) ≠ 0 := by
    simp only [tag_raw, hl1, Nat.reducePow]
    omega
  have hval : GET_GLOBAL_INDEX_OF_REF b < DELETED_VALUE := by
    simp only [GET_GLOBAL_INDEX_OF_REF, PAGE_SIZE, DELETED_VALUE]
    omega
  obtain ⟨T1, hc, hinv1, hcnt, hent, hexp⟩ :=
    compress_spec w.table (tag_raw a (local_raw (k : Int) 1 0)) (GET_GLOBAL_INDEX_OF_REF b) fuel
      hinv hsize hkey hval hfuel
  have hdiff : ((GET_GLOBAL_INDEX_OF_REF b : Int) - (GET_GLOBAL_INDEX_OF_REF a : Int) ≥ 4096 ∨
      (GET_GLOBAL_INDEX_OF_REF b : Int) - (GET_GLOBAL_INDEX_OF_REF a : Int) ≤ -4096) := by
    simp only [PAGE_SIZE] at hfar
    omega
  have hload : load (store w.mem (local_ref_ptr tt a k) 2 (local_raw (k : Int) 1 0))
      (local_ref_ptr tt a k) 2 = local_raw (k : Int) 1 0 := by
    rw [load_store_two, hl1]
    omega
  refine ⟨⟨store w.mem (local_ref_ptr tt a k) 2 (local_raw (k : Int) 1 0), T1⟩, ?_, hload, ?_,
    ?_, ?_, hinv1, hcnt, ?_, hexp⟩
  · simp only [set_field_reference, hbnz, if_false, hpool, ne_eq, not_true_eq_false, hdiff,
      if_true, hc]
  · rw [hload]; exact hl2
  · rw [hload]; exact hl3
  · simp only [get_field_reference, hload]
    have hnz : local_raw (k : Int) 1 0 ≠ 0 := by rw [hl1]; omega
    have hnf : GET_GLOBAL_INDEX_OF_REF b ≠ REF_NOT_FOUND := by
      simp only [GET_GLOBAL_INDEX_OF_REF, PAGE_SIZE, REF_NOT_FOUND, SIZE_MAX1]
      omega
    simp only [hnz, if_false, hl2, ne_eq, one_ne_zero, not_false_eq_true, if_true, hexp, hnf]
    simp only [GLOBAL_INDEX_TO_SUBPOOL_ID, GLOBAL_INDEX_TO_SUBPOOL_OFFSET,
      GET_GLOBAL_INDEX_OF_REF, PAGE_SIZE, Nat.reducePow, Nat.reduceSub, and_mask12, shift12]
    have e1 : (b.sub_pool_id * 4096 + b.index) / 4096 % 65536 = b.sub_pool_id := by omega
    have e2 : (b.sub_pool_id * 4096 + b.index) % 4096 % 4096 = b.index := by omega
    rw [e1, e2]
    obtain ⟨bt, bs, bp, bi, bf, be, bg⟩ := b
    obtain ⟨at1, as1, ap, ai, af, ae, ag⟩ := a
    simp only at htype hpool hfull hext hgc
    subst htype hpool hfull hext hgc
    rfl
  · intro e he hek
    have hv := hent e he hek
    refine ⟨hv, ?_⟩
    rw [hv, and_not_deleted, or_deleted _ hval, Nat.add_mod_left, Nat.mod_eq_of_lt hval]

/-- C10 at a concrete input, as in test/test_pool.c: the second list record of
pool 1 set to refer to the record of absolute index 5000, on the table before
its first use. -/
theorem C10_far_reference_round_trip_witness :
    ∃ w1, set_field_reference basic_type_table 4096 true ⟨7, 0, 1, 1, 0, 0, 0⟩
        ⟨7, 1, 1, 904, 0, 0, 0⟩ 0 ⟨fun _ => 0, table_init⟩ = some (w1, 0) ∧
      get_field_reference basic_type_table ⟨7, 0, 1, 1, 0, 0, 0⟩ 0 w1 = ⟨7, 1, 1, 904, 0, 0, 0⟩ ∧
      key_count w1.table.reference_table (tag_raw ⟨7, 0, 1, 1, 0, 0, 0⟩ (local_raw 0 1 0)) = 1 := by
  obtain ⟨w1, h1, _, _, _, h5, _, h7, _⟩ := C10_far_reference_round_trip basic_type_table 4096
    ⟨7, 0, 1, 1, 0, 0, 0⟩ ⟨7, 1, 1, 904, 0, 0, 0⟩ 0 ⟨fun _ => 0, table_init⟩
    table_init_inv (by decide) (by decide) (by decide) (by decide) (by decide)
    rfl rfl rfl rfl rfl (by decide)
  exact ⟨w1, h1, h5, h7⟩

/-! ## Lookups and live entries of a well-formed table -/

/-- The lookup loop yields REF_NOT_FOUND when no slot holds the key. -/
theorem expand_loop_absent (n : Nat) (t : List table_entry) (key : Nat)
    (h : ∀ j, (table_at t j).key ≠ key) :
    ∀ fuel idx, expand_loop n t key fuel idx = REF_NOT_FOUND := by
  intro fuel
  induction fuel with
  | zero => intro idx; rfl
  | succ fuel ih =>
    intro idx
    rw [expand_loop, if_neg (h idx)]
    split_ifs
    · rfl
    · exact ih _

theorem table_at_key_of_count (t : List table_entry) (key : Nat) (hkey : key ≠ 0)
    (h : key_count t key = 0) : ∀ j, (table_at t j).key ≠ key := by
  intro j hj
  by_cases hlt : j < t.length
  · have := key_count_pos t key j hlt hj
    omega
  · unfold table_at at hj
    rw [List.getD_eq_getElem?_getD, List.getElem?_eq_none (by omega)] at hj
    exact hkey hj.symm

/-- A lookup of a key that no slot holds yields REF_NOT_FOUND. -/
theorem expand_absent (T : table_state) (key : Nat)
    (h : key_count T.reference_table key = 0) :
    expand_local_reference T key = REF_NOT_FOUND := by
  unfold expand_local_reference
  split_ifs with h1 h2
  · rfl
  · rfl
  · exact expand_loop_absent _ _ key (table_at_key_of_count _ key h1 h) _ _

/-- A lookup of a key held by a slot of a well-formed table yields the value of
that slot without its top bit. -/
theorem expand_present (T : table_state) (e : table_entry) (hinv : table_inv T)
    (hkey : e.key ≠ 0) (hmem : e ∈ T.reference_table) :
    expand_local_reference T e.key = e.value % DELETED_VALUE := by
  obtain ⟨size, vc, dc, t⟩ := T
  have hlen : t.length = size := hinv.len
  simp only at hmem hlen
  subst hlen
  obtain ⟨j, hj, hje⟩ := List.mem_iff_getElem.1 hmem
  have hn : 0 < t.length := by omega
  have hjt : table_at t j = e := by rw [table_at_eq t j hj]; exact hje
  obtain ⟨d, hd, hpd, hpath⟩ := hinv.path j hj (by rw [hjt]; exact hkey)
  simp only at hd hpd hpath
  rw [hjt] at hpd hpath
  have hh : hash_func e.key % t.length < t.length := Nat.mod_lt _ hn
  have hfound := expand_loop_found t.length t e.key (hash_func e.key % t.length) d hn
    (by rw [hpd, hjt])
    (fun c hc => by
      refine ⟨?_, hpath c hc⟩
      intro hk
      have hne : probe t.length (hash_func e.key % t.length) c ≠ j := by
        intro heq
        rw [← hpd] at heq
        have := probe_inj _ _ c d (by omega) hd heq
        omega
      have h2 := key_count_two t e.key _ j hne (probe_lt _ _ _ hn) hj hk (by rw [hjt])
      have h1 := hinv.uniq e.key hkey
      simp only at h1
      omega)
    t.length 0 (Nat.zero_le _) (by omega)
  rw [probe_zero _ _ hh] at hfound
  simp only [expand_local_reference, hkey, if_false]
  rw [if_neg (by omega), hfound, hpd, hjt, and_not_deleted]

/-- In well-formed tables the result of a lookup depends on the live entries
with that key only. -/
theorem expand_congr (T T1 : table_state) (key : Nat) (hinv : table_inv T)
    (hinv1 : table_inv T1)
    (h : ∀ e : table_entry, e.key ≠ 0 → e.key = key →
      (e ∈ T1.reference_table ↔ e ∈ T.reference_table)) :
    expand_local_reference T1 key = expand_local_reference T key := by
  by_cases hkey : key = 0
  · simp [expand_local_reference, hkey]
  have h : ∀ e : table_entry, e.key = key →
      (e ∈ T1.reference_table ↔ e ∈ T.reference_table) :=
    fun e he => h e (by rw [he]; exact hkey) he
  by_cases hc : key_count T.reference_table key = 0
  · have hc1 : key_count T1.reference_table key = 0 := by
      unfold key_count at hc ⊢
      rw [List.countP_eq_zero] at hc ⊢
      intro e he
      by_cases hek : e.key = key
      · exact hc e ((h e hek).1 he)
      · simpa using hek
    rw [expand_absent T key hc, expand_absent T1 key hc1]
  · have hpos : 0 < key_count T.reference_table key := by omega
    unfold key_count at hpos
    rw [List.countP_pos_iff] at hpos
    obtain ⟨e, he, hek⟩ := hpos
    have hek1 : e.key = key := by simpa using hek
    have h1 := expand_present T e hinv (by rw [hek1]; exact hkey) he
    have h2 := expand_present T1 e hinv1 (by rw [hek1]; exact hkey) ((h e hek1).2 he)
    rw [hek1] at h1 h2
    rw [h1, h2]


/-- Membership after overwriting one slot, for an entry unlike the one that
was overwritten. -/
theorem mem_set_other (t : List table_entry) (i : Nat) (e x : table_entry) (hi : i < t.length)
    (hx : x ≠ table_at t i) : x ∈ t.set i e ↔ x = e ∨ x ∈ t := by
  constructor
  · intro h
    rcases List.mem_or_eq_of_mem_set h with h1 | h1
    · exact Or.inr h1
    · exact Or.inl h1
  · intro h
    rcases h with h | h
    · have := table_at_mem (t.set i e) i (by rw [List.length_set]; exact hi)
      rw [table_at_set t i i e hi, if_pos rfl] at this
      rw [h]; exact this
    · obtain ⟨j, hj, hje⟩ := List.mem_iff_getElem.1 h
      have hjt : table_at t j = x := by rw [table_at_eq t j hj]; exact hje
      have hji : j ≠ i := by
        intro heq
        rw [heq] at hjt
        exact hx hjt.symm
      have := table_at_mem (t.set i e) j (by rw [List.length_set]; exact hj)
      rw [table_at_set t i j e hi, if_neg hji, hjt] at this
      exact this

/-- The function copy_table leaves in the destination exactly the live entries
of the destination and of the source. -/
theorem copy_table_mem (n : Nat) (src : List table_entry) :
    ∀ dst : List table_entry, 0 < n → dst.length = n → clean dst → probe_ok dst →
      (∀ e ∈ src, entry_ok e) →
      (∀ key, key ≠ 0 → key_count dst key + key_count src key ≤ 1) →
      live_count dst + live_count src < n →
      ∀ x : table_entry, x.key ≠ 0 → (x ∈ copy_table n dst src ↔ x ∈ dst ∨ x ∈ src) := by
  induction src with
  | nil =>
    intro dst _ _ _ _ _ _ _ x _
    simp [copy_table]
  | cons e src ih =>
    intro dst hn hlen hcl hp hsrc hu hroom x hx
    have hsrc1 : ∀ y ∈ src, entry_ok y := fun y hy => hsrc y (List.mem_cons_of_mem _ hy)
    rw [copy_table]
    by_cases hk : e.key = 0
    · rw [if_neg (by simpa using hk)]
      have hl : live_count (e :: src) = live_count src := by
        rw [live_count_cons]; simp [hk]
      have hkc : ∀ key, key ≠ 0 → key_count (e :: src) key = key_count src key := by
        intro key hkey
        rw [key_count_cons, hk, if_neg (fun h => hkey h.symm)]
        rfl
      rw [hl] at hroom
      rw [ih dst hn hlen hcl hp hsrc1
        (fun key hkey => by rw [← hkc key hkey]; exact hu key hkey) hroom x hx]
      have hne : x ≠ e := fun h => hx (by rw [h]; exact hk)
      simp [hne]
    · rw [if_pos hk]
      have hl : live_count (e :: src) = live_count src + 1 := by
        rw [live_count_cons]; simp [hk]
      have helive : e.key ≠ 0 ∧ DELETED_VALUE ≤ e.value ∧ e.value < SIZE_MAX1 := by
        rcases hsrc e (List.mem_cons_self _ _) with ⟨h1, _⟩ | h2
        · exact absurd h1 hk
        · exact h2
      have hempty : ∃ j, j < n ∧ (table_at dst j).key = 0 := by
        have h1 := clean_tomb_count dst hcl
        obtain ⟨j, hj, hj0, _⟩ := exists_empty dst (by omega)
        exact ⟨j, by omega, hj0⟩
      have hh : hash_func e.key % n < n := Nat.mod_lt _ hn
      obtain ⟨d, hd, hcopy, hd0, hpath⟩ := copy_entry_spec n dst e _ hn hh hempty
      rw [hcopy]
      subst hlen
      have hi : probe dst.length (hash_func e.key % dst.length) d < dst.length :=
        probe_lt _ _ _ hn
      have hl1 : live_count (dst.set (probe dst.length (hash_func e.key % dst.length) d) e) =
          live_count dst + 1 := by
        rw [live_count_set dst _ e hi]
        simp [hd0, hk]
      have hk1 : ∀ key, key ≠ 0 →
          key_count (dst.set (probe dst.length (hash_func e.key % dst.length) d) e) key =
            key_count dst key + (if e.key = key then 1 else 0) := by
        intro key hkey
        rw [key_count_set dst key _ e hi, hd0, if_neg (fun h => hkey h.symm)]
        rfl
      rw [ih (dst.set (probe dst.length (hash_func e.key % dst.length) d) e) hn
        (List.length_set _ _ _) (clean_set dst _ e hcl helive)
        (insert_keeps dst e d hn hd hcl hp helive hpath) hsrc1
        (fun key hkey => by
          have := hu key hkey
          rw [key_count_cons] at this
          rw [hk1 key hkey]
          omega)
        (by rw [hl1]; omega) x hx]
      rw [mem_set_other dst _ e x hi (fun h => hx (by rw [h]; exact hd0)), List.mem_cons]
      tauto

theorem mem_replicate_zero (n : Nat) (x : table_entry) (hx : x.key ≠ 0) :
    ¬ x ∈ List.replicate n (⟨0, 0⟩ : table_entry) := by
  intro h
  rw [List.mem_replicate] at h
  exact hx (by rw [h.2])

/-- Rebuilding a well-formed table keeps its live entries, key and value. -/
theorem rebuild_mem (T : table_state) (new_size : Nat) (hinv : table_inv T)
    (hroom : live_count T.reference_table < new_size) (x : table_entry) (hx : x.key ≠ 0) :
    x ∈ copy_table new_size (List.replicate new_size ⟨0, 0⟩)
        (T.reference_table.take T.hash_table_size) ↔ x ∈ T.reference_table := by
  have htake : T.reference_table.take T.hash_table_size = T.reference_table := by
    rw [← hinv.len]; exact List.take_length _
  rw [htake]
  have hn : 0 < new_size := by omega
  rw [copy_table_mem new_size T.reference_table (List.replicate new_size ⟨0, 0⟩) hn
    (List.length_replicate _ _) (replicate_clean _) (replicate_probe_ok _) hinv.ok
    (fun key hkey => by rw [replicate_key_count _ _ hkey, Nat.zero_add]; exact hinv.uniq key hkey)
    (by rw [replicate_live_count, Nat.zero_add]; exact hroom) x hx]
  have := mem_replicate_zero new_size x hx
  tauto

/-- What the resizing step of compress_absolute_index changes: the live
entries and their counter stay; the capacity is doubled, or set to PAGE_SIZE
when it was 0, if `live * 2 >= capacity`, and stays otherwise; the tombstones
go, and their counter is reset, whenever the table is rebuilt. -/
theorem resize_step_effect (T : table_state) (hinv : table_inv T)
    (hsize : T.hash_table_size * 2 < SIZE_MAX1) :
    ∃ T1, resize_step true T = some T1 ∧
      T1.hash_table_value_count = T.hash_table_value_count ∧
      (∀ x : table_entry, x.key ≠ 0 → (x ∈ T1.reference_table ↔ x ∈ T.reference_table)) ∧
      (T.hash_table_value_count * 2 ≥ T.hash_table_size →
        T1.hash_table_size =
          (if T.hash_table_size ≠ 0 then T.hash_table_size * 2 else PAGE_SIZE) ∧
        T1.hash_table_del_count = 0) ∧
      (T.hash_table_value_count * 2 < T.hash_table_size →
        (T.hash_table_value_count + T.hash_table_del_count) * 2 ≥ T.hash_table_size →
        T1.hash_table_size = T.hash_table_size ∧ T1.hash_table_del_count = 0) ∧
      (T.hash_table_value_count * 2 < T.hash_table_size →
        (T.hash_table_value_count + T.hash_table_del_count) * 2 < T.hash_table_size →
        T1 = T) := by
  have hlt := live_tomb_le T.reference_table
  rw [hinv.len, ← hinv.live, ← hinv.dead] at hlt
  have hm1 : T.hash_table_value_count * 2 % SIZE_MAX1 = T.hash_table_value_count * 2 := by
    apply Nat.mod_eq_of_lt; omega
  have hm2 : (T.hash_table_value_count + T.hash_table_del_count) % SIZE_MAX1 * 2 % SIZE_MAX1 =
      (T.hash_table_value_count + T.hash_table_del_count) * 2 := by
    have e1 : (T.hash_table_value_count + T.hash_table_del_count) % SIZE_MAX1 =
        T.hash_table_value_count + T.hash_table_del_count := Nat.mod_eq_of_lt (by omega)
    rw [e1]
    exact Nat.mod_eq_of_lt (by omega)
  unfold resize_step
  rw [hm1, hm2]
  by_cases hg : T.hash_table_value_count * 2 ≥ T.hash_table_size
  · rw [if_pos hg]
    simp only [grow_hash_table, Bool.not_true, Bool.false_eq_true, if_false, if_true]
    by_cases h0 : T.hash_table_size = 0
    · have hroom : live_count T.reference_table < PAGE_SIZE := by
        rw [← hinv.live]; simp only [PAGE_SIZE]; omega
      simp only [h0, ne_eq, not_true_eq_false, if_false]
      refine ⟨_, rfl, rfl, ?_, ?_, ?_, ?_⟩
      · intro x hx
        have := rebuild_mem T PAGE_SIZE hinv hroom x hx
        rw [h0] at this
        exact this
      · intro _; exact ⟨rfl, rfl⟩
      · intro h1; omega
      · intro h1; omega
    · have hroom : live_count T.reference_table < T.hash_table_size * 2 := by
        rw [← hinv.live]; omega
      simp only [h0, ne_eq, not_false_eq_true, if_true, Nat.mod_eq_of_lt hsize]
      refine ⟨_, rfl, rfl, ?_, ?_, ?_, ?_⟩
      · intro x hx
        exact rebuild_mem T (T.hash_table_size * 2) hinv hroom x hx
      · intro _; exact ⟨rfl, rfl⟩
      · intro h1; omega
      · intro h1; omega
  · rw [if_neg hg]
    by_cases hc : (T.hash_table_value_count + T.hash_table_del_count) * 2 ≥ T.hash_table_size
    · rw [if_pos hc]
      have hroom : live_count T.reference_table < T.hash_table_size := by
        rw [← hinv.live]; omega
      simp only [cleanup_hash_table]
      refine ⟨_, rfl, rfl, ?_, ?_, ?_, ?_⟩
      · intro x hx
        exact rebuild_mem T T.hash_table_size hinv hroom x hx
      · intro h1; omega
      · intro _ _; exact ⟨rfl, rfl⟩
      · intro _ h2; omega
    · rw [if_neg hc]
      refine ⟨T, rfl, rfl, fun _ _ => Iff.rfl, ?_, ?_, fun _ _ => rfl⟩
      · intro h1; omega
      · intro _ h2; omega

/-! ## What compress_absolute_index and delete_reference change -/

/-- What a successful compress_absolute_index changes besides the slot of the
key: the capacity is the one left by the resizing step, the live counter goes
up by one exactly when the key was not in the table, and the live entries of
all other keys stay. -/
theorem compress_effect (T : table_state) (key value fuel : Nat) (hinv : table_inv T)
    (hsize : T.hash_table_size * 2 < SIZE_MAX1) (hkey : key ≠ 0)
    (hval : value < DELETED_VALUE) (hfuel : max PAGE_SIZE (2 * T.hash_table_size) ≤ fuel) :
    ∃ T0 T1, resize_step true T = some T0 ∧
      compress_absolute_index fuel true T key value = some (T1, 0) ∧
      T1.hash_table_size = T0.hash_table_size ∧
      T1.hash_table_value_count =
        T.hash_table_value_count + (if key_count T.reference_table key = 0 then 1 else 0) ∧
      (∀ x : table_entry, x.key ≠ 0 → x.key ≠ key →
        (x ∈ T1.reference_table ↔ x ∈ T.reference_table)) := by
  obtain ⟨T0, hres, hinv0, hn0, hle0, hroom0, hkc⟩ := resize_step_spec T hinv hsize
  obtain ⟨T0', hres', hvc, hmem, _⟩ := resize_step_effect T hinv hsize
  rw [hres] at hres'
  simp only [Option.some.injEq] at hres'
  subst hres'
  have hbit : value &&& DELETED_VALUE = 0 := by
    rw [and_deleted]
    have : value / DELETED_VALUE = 0 := Nat.div_eq_of_lt hval
    rw [this]
  obtain ⟨dF, hdF, hloop, hpath, hslot⟩ :=
    compress_loop_result T0 key fuel hinv0 hn0 hroom0 hkey (by omega)
  have hi : probe T0.hash_table_size (hash_func key % T0.hash_table_size) dF <
      T0.reference_table.length := by
    rw [hinv0.len]; exact probe_lt _ _ _ hn0
  have hc := compress_unfold fuel true T key value
  rw [hres] at hc
  simp only [hkey, if_false, hbit, ne_eq, not_true_eq_false, hloop] at hc
  obtain ⟨size0, vc0, dc0, t0⟩ := T0
  simp only at hc hi hslot hkc hvc hmem hinv0
  refine ⟨_, _, hres, hc, ?_, ?_, ?_⟩
  · simp only
  · simp only
    rcases hslot with hk | ⟨hk0, hcnt⟩
    · have hpos := key_count_pos t0 key _ hi hk
      rw [hkc key hkey] at hpos
      rw [if_neg (by rw [hk]; exact hkey), if_neg (by omega), hvc]
      rfl
    · rw [hkc key hkey] at hcnt
      rw [if_pos hk0, if_pos hcnt, hvc]
      apply Nat.mod_eq_of_lt
      have h1 := live_tomb_le T.reference_table
      have h2 := hinv.live
      have h3 := hinv.len
      have h4 : 1 < SIZE_MAX1 := by simp [SIZE_MAX1]
      omega
  · intro x hx hxk
    simp only
    rw [mem_set_other t0 _ _ x hi (by
      intro h
      rcases hslot with hk | ⟨hk0, _⟩
      · exact hxk (by rw [h]; exact hk)
      · exact hx (by rw [h]; exact hk0))]
    rw [← hmem x hx]
    constructor
    · intro h
      rcases h with h | h
      · exact absurd (by rw [h]) hxk
      · exact h
    · intro h; exact Or.inr h

theorem sub64_pred (a : Nat) (h1 : 0 < a) (h2 : a < SIZE_MAX1) : sub64 a 1 + 1 = a := by
  simp only [sub64, SIZE_MAX1] at *
  omega

theorem delete_loop_found (n : Nat) (t : List table_entry) (key h d : Nat) (hn : 0 < n)
    (hd : (table_at t (probe n h d)).key = key)
    (hpath : ∀ c, c < d → (table_at t (probe n h c)).key ≠ key ∧
      (table_at t (probe n h c)).value ≠ 0) :
    ∀ fuel c, c ≤ d → d - c < fuel →
      delete_loop n t key fuel (probe n h c) = some (probe n h d) := by
  intro fuel
  induction fuel with
  | zero => intro c _ h2; omega
  | succ fuel ih =>
    intro c hc hf
    rw [delete_loop]
    by_cases hcd : c = d
    · subst hcd
      rw [if_pos hd]
    · have hlt : c < d := by omega
      obtain ⟨hk, hv⟩ := hpath c hlt
      rw [if_neg hk, if_neg hv, next_probe n h c hn]
      exact ih (c + 1) (by omega) (by omega)

/-- In a well-formed table the loop of delete_reference finds the slot of a
key that the table holds. -/
theorem delete_loop_present (T : table_state) (key : Nat) (hinv : table_inv T)
    (hkey : key ≠ 0) (hpos : 0 < key_count T.reference_table key) :
    ∃ idx, idx < T.hash_table_size ∧ (table_at T.reference_table idx).key = key ∧
      delete_loop T.hash_table_size T.reference_table key T.hash_table_size
        (hash_func key % T.hash_table_size) = some idx := by
  obtain ⟨size, vc, dc, t⟩ := T
  have hlen : t.length = size := hinv.len
  simp only at hpos hlen ⊢
  subst hlen
  unfold key_count at hpos
  rw [List.countP_pos_iff] at hpos
  obtain ⟨e, he, hek⟩ := hpos
  have hek1 : e.key = key := by simpa using hek
  obtain ⟨j, hj, hje⟩ := List.mem_iff_getElem.1 he
  have hn : 0 < t.length := by omega
  have hjt : table_at t j = e := by rw [table_at_eq t j hj]; exact hje
  obtain ⟨d, hd, hpd, hpath⟩ := hinv.path j hj (by rw [hjt, hek1]; exact hkey)
  simp only at hd hpd hpath
  rw [hjt, hek1] at hpd hpath
  have hh : hash_func key % t.length < t.length := Nat.mod_lt _ hn
  have hfound := delete_loop_found t.length t key (hash_func key % t.length) d hn
    (by rw [hpd, hjt, hek1])
    (fun c hc => by
      refine ⟨?_, hpath c hc⟩
      intro hk
      have hne : probe t.length (hash_func key % t.length) c ≠ j := by
        intro heq
        rw [← hpd] at heq
        have := probe_inj _ _ c d (by omega) hd heq
        omega
      have h2 := key_count_two t key _ j hne (probe_lt _ _ _ hn) hj hk (by rw [hjt, hek1])
      have h1 := hinv.uniq key hkey
      simp only at h1
      omega)
    t.length 0 (Nat.zero_le _) (by omega)
  rw [probe_zero _ _ hh] at hfound
  exact ⟨j, hj, by rw [hjt, hek1], by rw [hfound, hpd]⟩

/-- Deleting a key that the table holds: delete_reference returns 0, no slot
holds the key afterwards, the live entries of all other keys stay, the
capacity stays and the live counter goes down by one. -/
theorem delete_reference_present (T : table_state) (key : Nat) (hinv : table_inv T)
    (hkey : key ≠ 0) (hpos : 0 < key_count T.reference_table key) :
    (delete_reference T key).2 = 0 ∧
    key_count (delete_reference T key).1.reference_table key = 0 ∧
    (∀ x : table_entry, x.key ≠ 0 → x.key ≠ key →
      (x ∈ (delete_reference T key).1.reference_table ↔ x ∈ T.reference_table)) ∧
    (delete_reference T key).1.hash_table_size = T.hash_table_size ∧
    (delete_reference T key).1.hash_table_value_count + 1 = T.hash_table_value_count := by
  obtain ⟨idx, hidx, hik, hloop⟩ := delete_loop_present T key hinv hkey hpos
  have hlen := hinv.len
  have hlive := hinv.live
  have hb := hinv.bound
  have hu := hinv.uniq key hkey
  obtain ⟨size, vc, dc, t⟩ := T
  simp only at hidx hik hloop hlen hlive hb hu hpos ⊢
  have hi : idx < t.length := by omega
  have hn : size ≠ 0 := by omega
  have hdel : delete_reference ⟨size, vc, dc, t⟩ key =
      (⟨size, sub64 vc 1, (dc + 1) % SIZE_MAX1, t.set idx ⟨0, DELETED_VALUE⟩⟩, 0) := by
    unfold delete_reference
    simp only
    rw [if_neg hkey, if_neg hn, hloop]
  rw [hdel]
  simp only
  refine ⟨trivial, ?_, ?_, trivial, ?_⟩
  · rw [key_count_set _ key _ _ hi, if_pos hik]
    have e2 : (if (⟨0, DELETED_VALUE⟩ : table_entry).key = key then 1 else 0) = 0 :=
      if_neg (fun h => hkey h.symm)
    rw [e2]
    omega
  · intro x hx hxk
    rw [mem_set_other _ _ _ x hi (fun h => hxk (by rw [h]; exact hik))]
    constructor
    · intro h
      rcases h with h | h
      · exact absurd (by rw [h]) hx
      · exact h
    · intro h; exact Or.inr h
  · have h1 := live_tomb_le t
    have h5 := live_count_pos t idx hi (by rw [hik]; exact hkey)
    exact sub64_pred _ (by omega) (by omega)

/-- Deleting the key 0 or a key that no slot holds: delete_reference returns 1
and leaves the table as it was. -/
theorem delete_reference_absent (T : table_state) (key : Nat)
    (h : key = 0 ∨ key_count T.reference_table key = 0) : delete_reference T key = (T, 1) := by
  unfold delete_reference
  split_ifs with h1 h2
  · rfl
  · rfl
  · have hc : key_count T.reference_table key = 0 := by
      rcases h with h | h
      · exact absurd h h1
      · exact h
    cases hloop : delete_loop T.hash_table_size T.reference_table key T.hash_table_size
        (hash_func key % T.hash_table_size) with
    | none => rfl
    | some idx =>
      exfalso
      have hn : 0 < T.hash_table_size := by omega
      obtain ⟨_, hk⟩ := delete_loop_some _ _ key hn _ _ idx (Nat.mod_lt _ hn) hloop
      exact table_at_key_of_count _ key h1 hc idx hk

/-- After delete_reference no slot holds the key, whatever the call returned. -/
theorem delete_reference_gone (T : table_state) (key : Nat) (hinv : table_inv T)
    (hkey : key ≠ 0) : key_count (delete_reference T key).1.reference_table key = 0 := by
  by_cases hc : key_count T.reference_table key = 0
  · rw [delete_reference_absent T key (Or.inr hc)]
    exact hc
  · exact (delete_reference_present T key hinv hkey (by omega)).2.1

/-! ## What delete_all_for_pool changes -/

/-- The table left by the loop of delete_all_for_pool: every slot it visits
whose key carries the pool id is a tombstone, every other slot is as before. -/
theorem delete_all_loop_table (pool_id : Nat) :
    ∀ n i T, i + n ≤ T.reference_table.length →
      (delete_all_loop pool_id n i T).reference_table.length = T.reference_table.length ∧
      ∀ j, table_at (delete_all_loop pool_id n i T).reference_table j =
        if i ≤ j ∧ j < i + n ∧ tag_pool_id (table_at T.reference_table j).key = pool_id
        then ⟨0, DELETED_VALUE⟩ else table_at T.reference_table j := by
  intro n
  induction n with
  | zero =>
    intro i T _
    refine ⟨rfl, ?_⟩
    intro j
    rw [delete_all_loop, if_neg (by omega)]
  | succ n ih =>
    intro i T hle
    obtain ⟨size, vc, dc, t⟩ := T
    simp only at hle ⊢
    rw [delete_all_loop]
    simp only
    have hi : i < t.length := by omega
    split_ifs with hmatch
    · obtain ⟨h1, h2⟩ := ih (i + 1)
        ⟨size, sub64 vc 1, (dc + 1) % SIZE_MAX1, t.set i ⟨0, DELETED_VALUE⟩⟩
        (by simp only [List.length_set]; omega)
      simp only [List.length_set] at h1 h2
      refine ⟨h1, ?_⟩
      intro j
      rw [h2 j, table_at_set t i j _ hi]
      by_cases hji : j = i
      · subst hji
        rw [if_neg (by omega), if_pos rfl, if_pos ⟨le_refl _, by omega, hmatch⟩]
      · rw [if_neg hji]
        by_cases hm : tag_pool_id (table_at t j).key = pool_id
        · by_cases hr : i + 1 ≤ j ∧ j < i + 1 + n
          · rw [if_pos ⟨hr.1, hr.2, hm⟩, if_pos ⟨by omega, by omega, hm⟩]
          · rw [if_neg (fun h => hr ⟨h.1, h.2.1⟩), if_neg (fun h => hr ⟨by omega, by omega⟩)]
        · rw [if_neg (fun h => hm h.2.2), if_neg (fun h => hm h.2.2)]
    · obtain ⟨h1, h2⟩ := ih (i + 1) ⟨size, vc, dc, t⟩ (by simp only; omega)
      simp only at h1 h2
      refine ⟨h1, ?_⟩
      intro j
      rw [h2 j]
      by_cases hji : j = i
      · subst hji
        rw [if_neg (by omega), if_neg (fun h => hmatch h.2.2)]
      · by_cases hm : tag_pool_id (table_at t j).key = pool_id
        · by_cases hr : i + 1 ≤ j ∧ j < i + 1 + n
          · rw [if_pos ⟨hr.1, hr.2, hm⟩, if_pos ⟨by omega, by omega, hm⟩]
          · rw [if_neg (fun h => hr ⟨h.1, h.2.1⟩), if_neg (fun h => hr ⟨by omega, by omega⟩)]
        · rw [if_neg (fun h => hm h.2.2), if_neg (fun h => hm h.2.2)]

theorem mem_iff_table_at (t : List table_entry) (x : table_entry) :
    x ∈ t ↔ ∃ j, j < t.length ∧ table_at t j = x := by
  constructor
  · intro h
    obtain ⟨j, hj, hje⟩ := List.mem_iff_getElem.1 h
    exact ⟨j, hj, by rw [table_at_eq t j hj]; exact hje⟩
  · rintro ⟨j, hj, rfl⟩
    exact table_at_mem t j hj

/-- After delete_all_for_pool the live entries are those of before whose key
does not carry the pool id. -/
theorem delete_all_for_pool_mem (T : table_state) (pool : pool_struct) (hinv : table_inv T)
    (hp : pool.pool_id ≠ 0) (x : table_entry) (hx : x.key ≠ 0) :
    x ∈ (delete_all_for_pool T pool).1.reference_table ↔
      x ∈ T.reference_table ∧ tag_pool_id x.key ≠ pool.pool_id := by
  have hlen := hinv.len
  unfold delete_all_for_pool
  rw [if_neg hp]
  obtain ⟨h1, h2⟩ := delete_all_loop_table pool.pool_id T.hash_table_size 0 T (by omega)
  simp only
  rw [mem_iff_table_at, mem_iff_table_at, h1]
  constructor
  · rintro ⟨j, hj, hjx⟩
    rw [h2 j] at hjx
    split_ifs at hjx with hc
    · exfalso; apply hx; rw [← hjx]
    · refine ⟨⟨j, hj, hjx⟩, ?_⟩
      intro hm
      apply hc
      refine ⟨Nat.zero_le _, by omega, ?_⟩
      rw [hjx]; exact hm
  · rintro ⟨⟨j, hj, hjx⟩, hm⟩
    refine ⟨j, hj, ?_⟩
    rw [h2 j, if_neg]
    · exact hjx
    · intro hc
      apply hm
      rw [← hjx]; exact hc.2.2

/-! ## Claim C11: from a far reference back to a near one -/

/-- Setting a far reference: the world that set_field_reference leaves when the
target lies PAGE_SIZE or more records away. -/
theorem set_field_reference_far (tt : Type_table) (fuel : Nat) (a b : reference_struct)
    (k : Nat) (w : world)
    (hinv : table_inv w.table) (hsize : w.table.hash_table_size * 2 < SIZE_MAX1)
    (hfuel : max PAGE_SIZE (2 * w.table.hash_table_size) ≤ fuel)
    (hbn : raw_val b ≠ NULL_REF) (hbs : b.sub_pool_id < 65536) (hbi : b.index < 4096)
    (hk : k < 4096) (hpool : a.pool_id = b.pool_id)
    (hfar : GET_GLOBAL_INDEX_OF_REF a + PAGE_SIZE ≤ GET_GLOBAL_INDEX_OF_REF b ∨
      GET_GLOBAL_INDEX_OF_REF b + PAGE_SIZE ≤ GET_GLOBAL_INDEX_OF_REF a) :
    ∃ T1, set_field_reference tt fuel true a b k w =
        some (⟨store w.mem (local_ref_ptr tt a k) 2 (local_raw (k : Int) 1 0), T1⟩, 0) ∧
      table_inv T1 ∧
      T1.hash_table_size ≤ max PAGE_SIZE (2 * w.table.hash_table_size) ∧
      key_count T1.reference_table (tag_raw a (local_raw (k : Int) 1 0)) = 1 ∧
      expand_local_reference T1 (tag_raw a (local_raw (k : Int) 1 0)) =
        GET_GLOBAL_INDEX_OF_REF b := by
  obtain ⟨hl1, hl2, hl3⟩ := local_raw_far k hk
  have hkey : tag_raw a (local_raw (k : Int) 1 0) ≠ 0 := by
    simp only [tag_raw, hl1, Nat.reducePow]
    omega
  have hval : GET_GLOBAL_INDEX_OF_REF b < DELETED_VALUE := by
    simp only [GET_GLOBAL_INDEX_OF_REF, PAGE_SIZE, DELETED_VALUE]
    omega
  obtain ⟨T1, hc, hinv1, hcnt, _, hexp⟩ :=
    compress_spec w.table (tag_raw a (local_raw (k : Int) 1 0)) (GET_GLOBAL_INDEX_OF_REF b) fuel
      hinv hsize hkey hval hfuel
  obtain ⟨T0, T1', hres, hc', hsz, _, _⟩ :=
    compress_effect w.table (tag_raw a (local_raw (k : Int) 1 0)) (GET_GLOBAL_INDEX_OF_REF b)
      fuel hinv hsize hkey hval hfuel
  rw [hc] at hc'
  simp only [Option.some.injEq, Prod.mk.injEq, and_true] at hc'
  subst hc'
  obtain ⟨T0', hres', _, _, hle0, _, _⟩ := resize_step_spec w.table hinv hsize
  rw [hres] at hres'
  simp only [Option.some.injEq] at hres'
  subst hres'
  have hdiff : ((GET_GLOBAL_INDEX_OF_REF b : Int) - (GET_GLOBAL_INDEX_OF_REF a : Int) ≥ 4096 ∨
      (GET_GLOBAL_INDEX_OF_REF b : Int) - (GET_GLOBAL_INDEX_OF_REF a : Int) ≤ -4096) := by
    simp only [PAGE_SIZE] at hfar
    omega
  refine ⟨T1, ?_, hinv1, by omega, hcnt, hexp⟩
  simp only [set_field_reference, hbn, if_false, hpool, ne_eq, not_true_eq_false, hdiff,
    if_true, hc]

/-- C11 (the code departs from the claim): field `k` of record `a` is set to
the far record `b` and then to the near record `c`.  Both calls return 0 and
the second deletes the expansion-table entry of the field, but it leaves the
memory as it was: the field still holds the far encoding
`{index = k, is_long_ref = 1}`, for which no entry exists any more, and
get_field_reference returns NULL_REF where the claim has a handle of `c`. -/
theorem C11_far_to_near_writes_nothing (tt : Type_table) (fuel : Nat)
    (a b c : reference_struct) (k : Nat) (w : world)
    (hinv : table_inv w.table) (hsize : w.table.hash_table_size * 2 < SIZE_MAX1)
    (hfuel : max PAGE_SIZE (2 * w.table.hash_table_size) ≤ fuel)
    (hbn : raw_val b ≠ NULL_REF) (hbs : b.sub_pool_id < 65536) (hbi : b.index < 4096)
    (hk : k < 4096) (hpoolb : a.pool_id = b.pool_id)
    (hfar : GET_GLOBAL_INDEX_OF_REF a + PAGE_SIZE ≤ GET_GLOBAL_INDEX_OF_REF b ∨
      GET_GLOBAL_INDEX_OF_REF b + PAGE_SIZE ≤ GET_GLOBAL_INDEX_OF_REF a)
    (hcn : raw_val c ≠ NULL_REF) (hpoolc : a.pool_id = c.pool_id)
    (hlo : GET_GLOBAL_INDEX_OF_REF a < GET_GLOBAL_INDEX_OF_REF c + PAGE_SIZE)
    (hhi : GET_GLOBAL_INDEX_OF_REF c < GET_GLOBAL_INDEX_OF_REF a + PAGE_SIZE) :
    ∃ w1 w2, set_field_reference tt fuel true a b k w = some (w1, 0) ∧
      local_is_long_ref (load w1.mem (local_ref_ptr tt a k) 2) = 1 ∧
      key_count w1.table.reference_table (tag_raw a (local_raw (k : Int) 1 0)) = 1 ∧
      set_field_reference tt fuel true a c k w1 = some (w2, 0) ∧
      w2.mem = w1.mem ∧
      load w2.mem (local_ref_ptr tt a k) 2 = local_raw (k : Int) 1 0 ∧
      local_is_long_ref (load w2.mem (local_ref_ptr tt a k) 2) = 1 ∧
      key_count w2.table.reference_table (tag_raw a (local_raw (k : Int) 1 0)) = 0 ∧
      get_field_reference tt a k w2 = of_raw NULL_REF ∧
      raw_val (get_field_reference tt a k w2) ≠ raw_val c := by
  obtain ⟨hl1, hl2, hl3⟩ := local_raw_far k hk
  obtain ⟨T1, hset1, hinv1, _, hcnt1, _⟩ :=
    set_field_reference_far tt fuel a b k w hinv hsize hfuel hbn hbs hbi hk hpoolb hfar
  have hkey : tag_raw a (local_raw (k : Int) 1 0) ≠ 0 := by
    simp only [tag_raw, hl1, Nat.reducePow]
    omega
  have hload : load (store w.mem (local_ref_ptr tt a k) 2 (local_raw (k : Int) 1 0))
      (local_ref_ptr tt a k) 2 = local_raw (k : Int) 1 0 := by
    rw [load_store_two, hl1]
    omega
  have hnear : ¬ ((GET_GLOBAL_INDEX_OF_REF c : Int) - (GET_GLOBAL_INDEX_OF_REF a : Int) ≥ 4096 ∨
      (GET_GLOBAL_INDEX_OF_REF c : Int) - (GET_GLOBAL_INDEX_OF_REF a : Int) ≤ -4096) := by
    simp only [PAGE_SIZE] at hlo hhi
    omega
  have hgone := delete_reference_gone T1 (tag_raw a (local_raw (k : Int) 1 0)) hinv1 hkey
  have hnz : local_raw (k : Int) 1 0 ≠ 0 := by rw [hl1]; omega
  have hget : get_field_reference tt a k
      ⟨store w.mem (local_ref_ptr tt a k) 2 (local_raw (k : Int) 1 0),
        (delete_reference T1 (tag_raw a (local_raw (k : Int) 1 0))).1⟩ = of_raw NULL_REF := by
    simp only [get_field_reference, hload]
    simp only [hnz, if_false, hl2, ne_eq, one_ne_zero, not_false_eq_true, if_true,
      expand_absent _ _ hgone]
  refine ⟨⟨store w.mem (local_ref_ptr tt a k) 2 (local_raw (k : Int) 1 0), T1⟩,
    ⟨store w.mem (local_ref_ptr tt a k) 2 (local_raw (k : Int) 1 0),
      (delete_reference T1 (tag_raw a (local_raw (k : Int) 1 0))).1⟩,
    hset1, ?_, hcnt1, ?_, rfl, hload, ?_, hgone, hget, ?_⟩
  · rw [hload]; exact hl2
  · simp only [set_field_reference, hcn, if_false, hpoolc, ne_eq, not_true_eq_false, hnear,
      hload, hl2, one_ne_zero, not_false_eq_true, if_true]
  · rw [hload]; exact hl2
  · rw [hget]
    intro h
    apply hcn
    rw [← h]
    rfl

/-- C11 at a concrete input: the second list record of pool 1 set to refer to
the record of absolute index 5000 and then to the third record, starting from
zeroed memory and the table before its first use. -/
theorem C11_far_to_near_writes_nothing_witness :
    ∃ w1 w2, set_field_reference basic_type_table 4096 true ⟨7, 0, 1, 1, 0, 0, 0⟩
        ⟨7, 1, 1, 904, 0, 0, 0⟩ 0 ⟨fun _ => 0, table_init⟩ = some (w1, 0) ∧
      set_field_reference basic_type_table 4096 true ⟨7, 0, 1, 1, 0, 0, 0⟩
        ⟨7, 0, 1, 2, 0, 0, 0⟩ 0 w1 = some (w2, 0) ∧
      get_field_reference basic_type_table ⟨7, 0, 1, 1, 0, 0, 0⟩ 0 w2 = of_raw NULL_REF := by
  obtain ⟨w1, w2, h1, _, _, h4, _, _, _, _, h9, _⟩ :=
    C11_far_to_near_writes_nothing basic_type_table 4096
      ⟨7, 0, 1, 1, 0, 0, 0⟩ ⟨7, 1, 1, 904, 0, 0, 0⟩ ⟨7, 0, 1, 2, 0, 0, 0⟩ 0
      ⟨fun _ => 0, table_init⟩ table_init_inv (by decide) (by decide) (by decide) (by decide)
      (by decide) (by decide) rfl (by decide) (by decide) rfl (by decide) (by decide)
  exact ⟨w1, w2, h1, h4, h9⟩

/-! ## Claims C12 to C15: the expansion table -/

/-- C12: on a well-formed expansion table (every reachable state is one), for a
key other than 0 and values `v`, `v1` without the top bit, with the
allocations of grow_hash_table succeeding and fuel for the probe loop:
compress_absolute_index returns 0 and expand_local_reference then yields `v`;
a second compress_absolute_index of the key with `v1` returns 0 as well,
expand_local_reference then yields `v1`, and the live counter and the number of
live slots are the same as after the first call, one slot holding the key. -/
theorem C12_compress_expand_round_trip (T : table_state) (key v v1 fuel : Nat)
    (hinv : table_inv T) (hsize : T.hash_table_size * 4 < SIZE_MAX1) (hkey : key ≠ 0)
    (hv : v < DELETED_VALUE) (hv1 : v1 < DELETED_VALUE)
    (hfuel : max (2 * PAGE_SIZE) (4 * T.hash_table_size) ≤ fuel) :
    ∃ T1 T2, compress_absolute_index fuel true T key v = some (T1, 0) ∧
      expand_local_reference T1 key = v ∧
      compress_absolute_index fuel true T1 key v1 = some (T2, 0) ∧
      expand_local_reference T2 key = v1 ∧
      T2.hash_table_value_count = T1.hash_table_value_count ∧
      live_count T2.reference_table = live_count T1.reference_table ∧
      key_count T2.reference_table key = 1 := by
  have hp : PAGE_SIZE = 4096 := rfl
  have hm : SIZE_MAX1 = 18446744073709551616 := rfl
  obtain ⟨T1, hc1, hinv1, hcnt1, _, hexp1⟩ :=
    compress_spec T key v fuel hinv (by omega) hkey hv (by omega)
  obtain ⟨T0, T1', hres, hc1', hsz, _, _⟩ :=
    compress_effect T key v fuel hinv (by omega) hkey hv (by omega)
  rw [hc1] at hc1'
  simp only [Option.some.injEq, Prod.mk.injEq, and_true] at hc1'
  subst hc1'
  obtain ⟨T0', hres', _, _, hle0, _, _⟩ := resize_step_spec T hinv (by omega)
  rw [hres] at hres'
  simp only [Option.some.injEq] at hres'
  subst hres'
  have hs1 : T1.hash_table_size * 2 < SIZE_MAX1 := by omega
  have hf1 : max PAGE_SIZE (2 * T1.hash_table_size) ≤ fuel := by omega
  obtain ⟨T2, hc2, hinv2, hcnt2, _, hexp2⟩ :=
    compress_spec T1 key v1 fuel hinv1 hs1 hkey hv1 hf1
  obtain ⟨_, T2', _, hc2', _, hvc2, _⟩ :=
    compress_effect T1 key v1 fuel hinv1 hs1 hkey hv1 hf1
  rw [hc2] at hc2'
  simp only [Option.some.injEq, Prod.mk.injEq, and_true] at hc2'
  subst hc2'
  rw [hcnt1, if_neg (by omega), Nat.add_zero] at hvc2
  refine ⟨T1, T2, hc1, hexp1, hc2, hexp2, hvc2, ?_, hcnt2⟩
  rw [← hinv2.live, ← hinv1.live, hvc2]

/-- C12 at a concrete input, as in test/test_reference_table.c: the key
0xbeefdeadbeef stored with 424242 and then with 42 in the table before its
first use. -/
theorem C12_compress_expand_round_trip_witness :
    ∃ T1 T2, compress_absolute_index 8192 true table_init 209937442389743 424242 = some (T1, 0) ∧
      expand_local_reference T1 209937442389743 = 424242 ∧
      compress_absolute_index 8192 true T1 209937442389743 42 = some (T2, 0) ∧
      expand_local_reference T2 209937442389743 = 42 ∧
      T2.hash_table_value_count = T1.hash_table_value_count := by
  obtain ⟨T1, T2, h1, h2, h3, h4, h5, _⟩ := C12_compress_expand_round_trip table_init
    209937442389743 424242 42 8192 table_init_inv (by decide) (by decide) (by decide)
    (by decide) (by decide)
  exact ⟨T1, T2, h1, h2, h3, h4, h5⟩

/-- C13: on a well-formed expansion table, delete_reference of a key held by a
slot returns 0, expand_local_reference then yields REF_NOT_FOUND, and a second
delete_reference of the key returns 1; delete_reference of the key 0 or of a
key that no slot holds returns 1, leaves the table as it was, and
expand_local_reference yields REF_NOT_FOUND; so it is on a table of capacity
0. -/
theorem C13_delete_reference (T : table_state) (key : Nat) (hinv : table_inv T) :
    (key ≠ 0 → 0 < key_count T.reference_table key →
      (delete_reference T key).2 = 0 ∧
      expand_local_reference (delete_reference T key).1 key = REF_NOT_FOUND ∧
      (delete_reference (delete_reference T key).1 key).2 = 1 ∧
      expand_local_reference (delete_reference (delete_reference T key).1 key).1 key =
        REF_NOT_FOUND) ∧
    ((key = 0 ∨ key_count T.reference_table key = 0) →
      (delete_reference T key).2 = 1 ∧ (delete_reference T key).1 = T ∧
      expand_local_reference T key = REF_NOT_FOUND) ∧
    (T.hash_table_size = 0 →
      (delete_reference T key).2 = 1 ∧ expand_local_reference T key = REF_NOT_FOUND) := by
  refine ⟨?_, ?_, ?_⟩
  · intro hkey hpos
    have hgone := delete_reference_gone T key hinv hkey
    have h2 := delete_reference_absent (delete_reference T key).1 key (Or.inr hgone)
    refine ⟨(delete_reference_present T key hinv hkey hpos).1, expand_absent _ key hgone, ?_, ?_⟩
    · rw [h2]
    · rw [h2]; exact expand_absent _ key hgone
  · intro h
    rw [delete_reference_absent T key h]
    refine ⟨rfl, rfl, ?_⟩
    rcases h with h | h
    · simp [expand_local_reference, h]
    · exact expand_absent T key h
  · intro h0
    constructor
    · unfold delete_reference
      split_ifs <;> rfl
    · unfold expand_local_reference
      split_ifs <;> rfl

/-- C13 at concrete inputs, as in test/test_reference_table.c: the key
0xbabe04040404 on the table before its first use, which holds no key, and the
key 0xbeefdeadbeef after it was stored there. -/
theorem C13_delete_reference_witness :
    (delete_reference table_init 205325273924612).2 = 1 ∧
    expand_local_reference table_init 205325273924612 = REF_NOT_FOUND ∧
    ∃ T1, compress_absolute_index 4096 true table_init 209937442389743 424242 = some (T1, 0) ∧
      (delete_reference T1 209937442389743).2 = 0 ∧
      expand_local_reference (delete_reference T1 209937442389743).1 209937442389743 =
        REF_NOT_FOUND := by
  obtain ⟨T1, hc, hinv1, hcnt, _⟩ := compress_spec table_init 209937442389743 424242 4096
    table_init_inv (by decide) (by decide) (by decide) (by decide)
  have h := (C13_delete_reference T1 209937442389743 hinv1).1 (by decide) (by omega)
  exact ⟨((C13_delete_reference table_init 205325273924612 table_init_inv).2.1 (Or.inr rfl)).1,
    ((C13_delete_reference table_init 205325273924612 table_init_inv).2.1 (Or.inr rfl)).2.2,
    T1, hc, h.1, h.2.1⟩

/-- C14 as stated fails on the first failing call of test/test_reference_table.c:
compress_absolute_index of the key 0xbeefdeadbeef with the value REF_NOT_FOUND
on the table before its first use returns 1, yet the capacity has gone from 0
to 4096. -/
theorem C14_failed_compress_grows_table :
    ∃ T1, compress_absolute_index 0 true table_init 209937442389743 REF_NOT_FOUND =
        some (T1, 1) ∧
      table_init.hash_table_size = 0 ∧ T1.hash_table_size = 4096 := by
  refine ⟨⟨4096, 0, 0, List.replicate 4096 ⟨0, 0⟩⟩, ?_, rfl, rfl⟩
  have hv : REF_NOT_FOUND &&& DELETED_VALUE ≠ 0 := by decide
  have hr : resize_step true table_init = some ⟨4096, 0, 0, List.replicate 4096 ⟨0, 0⟩⟩ := by
    rfl
  rw [compress_unfold, hr]
  simp only [hv, ne_eq, not_false_eq_true, if_true]
  rfl

/-- C14 (amended): on a well-formed expansion table, with the allocations of
grow_hash_table succeeding, compress_absolute_index returns, and it returns
nonzero exactly when the key is 0 or the value has the top bit set, as
REF_NOT_FOUND has.  A failing call leaves the table that the resizing step
produces: the live counter, the number of live slots and the result of
expand_local_reference for every key are as before the call, while the
capacity is doubled (set to PAGE_SIZE from 0) when `live * 2 >= capacity`, and
the tombstone counter is reset to 0 whenever
`(live + tombstones) * 2 >= capacity`. -/
theorem C14_failed_compress_keeps_entries (T : table_state) (key value fuel : Nat)
    (hinv : table_inv T) (hsize : T.hash_table_size * 2 < SIZE_MAX1)
    (hvalue : value < SIZE_MAX1) (hfuel : max PAGE_SIZE (2 * T.hash_table_size) ≤ fuel) :
    ∃ T1 ret, compress_absolute_index fuel true T key value = some (T1, ret) ∧
      (ret ≠ 0 ↔ (key = 0 ∨ value &&& DELETED_VALUE ≠ 0)) ∧
      (value &&& DELETED_VALUE ≠ 0 ↔ DELETED_VALUE ≤ value) ∧
      REF_NOT_FOUND &&& DELETED_VALUE ≠ 0 ∧
      (ret ≠ 0 →
        resize_step true T = some T1 ∧
        T1.hash_table_value_count = T.hash_table_value_count ∧
        live_count T1.reference_table = live_count T.reference_table ∧
        (∀ k, expand_local_reference T1 k = expand_local_reference T k) ∧
        (T.hash_table_value_count * 2 ≥ T.hash_table_size →
          T1.hash_table_size =
            (if T.hash_table_size ≠ 0 then T.hash_table_size * 2 else PAGE_SIZE) ∧
          T1.hash_table_del_count = 0) ∧
        (T.hash_table_value_count * 2 < T.hash_table_size →
          (T.hash_table_value_count + T.hash_table_del_count) * 2 ≥ T.hash_table_size →
          T1.hash_table_size = T.hash_table_size ∧ T1.hash_table_del_count = 0) ∧
        (T.hash_table_value_count * 2 < T.hash_table_size →
          (T.hash_table_value_count + T.hash_table_del_count) * 2 < T.hash_table_size →
          T1 = T)) := by
  have hbit : value &&& DELETED_VALUE ≠ 0 ↔ DELETED_VALUE ≤ value := by
    rw [ne_eq, and_deleted]
    simp only [DELETED_VALUE, SIZE_MAX1] at *
    omega
  obtain ⟨T0, hres, hinv0, _, _, _, _⟩ := resize_step_spec T hinv hsize
  obtain ⟨T0', hres', hvc, hmem, hg1, hg2, hg3⟩ := resize_step_effect T hinv hsize
  rw [hres] at hres'
  simp only [Option.some.injEq] at hres'
  subst hres'
  have hfail : resize_step true T = some T0 ∧
      T0.hash_table_value_count = T.hash_table_value_count ∧
      live_count T0.reference_table = live_count T.reference_table ∧
      (∀ k, expand_local_reference T0 k = expand_local_reference T k) ∧
      (T.hash_table_value_count * 2 ≥ T.hash_table_size →
        T0.hash_table_size =
          (if T.hash_table_size ≠ 0 then T.hash_table_size * 2 else PAGE_SIZE) ∧
        T0.hash_table_del_count = 0) ∧
      (T.hash_table_value_count * 2 < T.hash_table_size →
        (T.hash_table_value_count + T.hash_table_del_count) * 2 ≥ T.hash_table_size →
        T0.hash_table_size = T.hash_table_size ∧ T0.hash_table_del_count = 0) ∧
      (T.hash_table_value_count * 2 < T.hash_table_size →
        (T.hash_table_value_count + T.hash_table_del_count) * 2 < T.hash_table_size →
        T0 = T) := by
    refine ⟨hres, hvc, ?_, ?_, hg1, hg2, hg3⟩
    · rw [← hinv0.live, ← hinv.live, hvc]
    · intro k
      exact expand_congr T T0 k hinv hinv0 (fun e he _ => hmem e he)
  by_cases hk : key = 0
  · refine ⟨T0, 1, ?_, ?_, hbit, by decide, fun _ => hfail⟩
    · rw [compress_unfold, hres]
      simp only [hk, if_true]
    · simp [hk]
  by_cases hv : value &&& DELETED_VALUE ≠ 0
  · refine ⟨T0, 1, ?_, ?_, hbit, by decide, fun _ => hfail⟩
    · rw [compress_unfold, hres]
      simp only [hk, if_false, hv, ne_eq, not_false_eq_true, if_true]
    · simp [hv]
  · have hval : value < DELETED_VALUE := by
      have := hbit.not.1 hv
      omega
    obtain ⟨T1, hc, _⟩ := compress_spec T key value fuel hinv hsize hk hval hfuel
    refine ⟨T1, 0, hc, ?_, hbit, by decide, fun h => absurd rfl h⟩
    simp [hk, hv]

/-- C14 (amended) at a concrete input: the key 0 on the table before its first
use. -/
theorem C14_failed_compress_keeps_entries_witness :
    ∃ T1 ret, compress_absolute_index 4096 true table_init 0 424242 = some (T1, ret) ∧
      (ret ≠ 0 ↔ ((0 : Nat) = 0 ∨ 424242 &&& DELETED_VALUE ≠ 0)) := by
  obtain ⟨T1, ret, h1, h2, _⟩ := C14_failed_compress_keeps_entries table_init 0 424242 4096
    table_init_inv (by decide) (by decide) (by decide)
  exact ⟨T1, ret, h1, h2⟩

/-- C15: on a well-formed expansion table, delete_all_for_pool returns 1 and
changes nothing when the `pool_id` of the handle is 0; otherwise it returns 0,
expand_local_reference then yields REF_NOT_FOUND for every key whose `pool_id`
member is that of the handle and what it yielded before for every other key,
and the two counters are the numbers of live and of tombstone slots. -/
theorem C15_delete_all_for_pool (T : table_state) (pool : pool_struct) (hinv : table_inv T) :
    (pool.pool_id = 0 →
      (delete_all_for_pool T pool).2 = 1 ∧ (delete_all_for_pool T pool).1 = T) ∧
    (pool.pool_id ≠ 0 →
      (delete_all_for_pool T pool).2 = 0 ∧
      (∀ k, tag_pool_id k = pool.pool_id →
        expand_local_reference (delete_all_for_pool T pool).1 k = REF_NOT_FOUND) ∧
      (∀ k, tag_pool_id k ≠ pool.pool_id →
        expand_local_reference (delete_all_for_pool T pool).1 k = expand_local_reference T k) ∧
      (delete_all_for_pool T pool).1.hash_table_value_count =
        live_count (delete_all_for_pool T pool).1.reference_table ∧
      (delete_all_for_pool T pool).1.hash_table_del_count =
        tomb_count (delete_all_for_pool T pool).1.reference_table ∧
      (delete_all_for_pool T pool).1.hash_table_size = T.hash_table_size) := by
  have hinv1 := delete_all_for_pool_inv T pool hinv
  constructor
  · intro h0
    unfold delete_all_for_pool
    rw [if_pos h0]
    exact ⟨rfl, rfl⟩
  · intro hp
    have hmem := delete_all_for_pool_mem T pool hinv hp
    refine ⟨?_, ?_, ?_, hinv1.live, hinv1.dead, ?_⟩
    · unfold delete_all_for_pool
      rw [if_neg hp]
    · intro k hk
      have hk0 : k ≠ 0 := by
        intro h
        rw [h] at hk
        simp [tag_pool_id] at hk
        exact hp hk.symm
      apply expand_absent
      unfold key_count
      rw [List.countP_eq_zero]
      intro e he
      by_cases hek : e.key = k
      · exfalso
        have := (hmem e (by rw [hek]; exact hk0)).1 he
        rw [hek] at this
        exact this.2 hk
      · simpa using hek
    · intro k hk
      apply expand_congr T _ k hinv hinv1
      intro e he hek
      rw [hmem e he, hek]
      constructor
      · intro h; exact h.1
      · intro h; exact ⟨h, hk⟩
    · unfold delete_all_for_pool
      rw [if_neg hp]
      exact (delete_all_loop_inv pool.pool_id hp T.hash_table_size 0 T hinv (by omega)).2

/-- C15 at a concrete input, as in test/test_reference_table.c: the handle
0xbabe00000000 on the table that holds the key 0xbabe00000001. -/
theorem C15_delete_all_for_pool_witness :
    ∃ T1, compress_absolute_index 4096 true table_init 205325206552577 7 = some (T1, 0) ∧
      expand_local_reference T1 205325206552577 = 7 ∧
      (delete_all_for_pool T1 (of_raw 205325206552576)).2 = 0 ∧
      expand_local_reference (delete_all_for_pool T1 (of_raw 205325206552576)).1
        205325206552577 = REF_NOT_FOUND := by
  obtain ⟨T1, hc, hinv1, _, _, hexp⟩ := compress_spec table_init 205325206552577 7 4096
    table_init_inv (by decide) (by decide) (by decide) (by decide)
  have h := (C15_delete_all_for_pool T1 (of_raw 205325206552576) hinv1).2 (by decide)
  exact ⟨T1, hc, hexp, h.1, h.2.1 205325206552577 (by decide)⟩

/-! ## Claims C16 and C17: sizes, counts and offsets of a type -/

theorem running_offsets_append (b : Nat) (s1 s2 : List Nat) :
    running_offsets b (s1 ++ s2) = running_offsets b s1 ++ running_offsets (b + s1.sum) s2 := by
  induction s1 generalizing b with
  | nil => simp [running_offsets]
  | cons s ss ih =>
    show b :: running_offsets (b + s) (ss ++ s2) = _
    rw [ih, List.sum_cons, Nat.add_assoc]
    rfl

theorem running_offsets_length (b : Nat) (ss : List Nat) :
    (running_offsets b ss).length = ss.length := by
  induction ss generalizing b with
  | nil => rfl
  | cons s ss ih => simp [running_offsets, ih]

/-- Entry `i` of the running sums is `b` plus the sizes before position `i`. -/
theorem running_offsets_getD (ss : List Nat) :
    ∀ (b i : Nat), i < ss.length → (running_offsets b ss).getD i 0 = b + (ss.take i).sum := by
  induction ss with
  | nil => intro b i hi; simp at hi
  | cons s ss ih =>
    intro b i hi
    cases i with
    | zero => simp [running_offsets]
    | succ i =>
      simp only [running_offsets, List.getD_cons_succ, List.take_succ_cons, List.sum_cons]
      rw [ih (b + s) i (by simpa using hi)]
      omega

mutual
theorem fill_in_offsets_layout : ∀ (t : type_info) (b : Nat),
    b + (leaf_sizes t).sum < SIZE_MAX1 →
    (fill_in_offsets t b).1.map field_offset.type_id = leaf_ids t ∧
    (fill_in_offsets t b).1.map field_offset.field_size = leaf_sizes t ∧
    (fill_in_offsets t b).1.map field_offset.offset = running_offsets b (leaf_sizes t)
  | .primitive _ sz, b, _ => by
    simp [fill_in_offsets, leaf_sizes, leaf_ids, running_offsets]
  | .global_ref _ _, b, _ => by
    simp [fill_in_offsets, leaf_sizes, leaf_ids, running_offsets]
  | .local_ref _ _, b, _ => by
    simp [fill_in_offsets, leaf_sizes, leaf_ids, running_offsets]
  | .composite _ fs, b, h => by
    have := fill_in_offsets_loop_layout fs b (by simpa [leaf_sizes] using h)
    simpa [fill_in_offsets, leaf_sizes, leaf_ids] using this
theorem fill_in_offsets_loop_layout : ∀ (fs : List type_info) (b : Nat),
    b + (leaf_sizes_list fs).sum < SIZE_MAX1 →
    (fill_in_offsets_loop fs b).1.map field_offset.type_id = leaf_ids_list fs ∧
    (fill_in_offsets_loop fs b).1.map field_offset.field_size = leaf_sizes_list fs ∧
    (fill_in_offsets_loop fs b).1.map field_offset.offset =
      running_offsets b (leaf_sizes_list fs)
  | [], b, _ => by simp [fill_in_offsets_loop, leaf_sizes_list, leaf_ids_list, running_offsets]
  | f :: fs, b, h => by
    simp only [leaf_sizes_list, List.sum_append] at h
    obtain ⟨h1, h2, h3⟩ := fill_in_offsets_layout f b (by omega)
    obtain ⟨b1, _, _⟩ := fill_in_offsets_bounds f b (by omega)
    obtain ⟨g1, g2, g3⟩ := fill_in_offsets_loop_layout fs (fill_in_offsets f b).2
      (by rw [b1]; omega)
    rw [fill_in_offsets_loop]
    simp only [List.map_append, leaf_ids_list, leaf_sizes_list, running_offsets_append]
    rw [h1, h2, h3, g1, g2, g3, b1]
    exact ⟨rfl, rfl, rfl⟩
end

mutual
theorem fill_in_offsets_count_eq : ∀ t : type_info,
    (leaf_sizes t).length < SIZE_MAX1 → fill_in_offsets_count t = (leaf_sizes t).length
  | .primitive _ _, _ => by simp [fill_in_offsets_count, leaf_sizes]
  | .global_ref _ _, _ => by simp [fill_in_offsets_count, leaf_sizes]
  | .local_ref _ _, _ => by simp [fill_in_offsets_count, leaf_sizes]
  | .composite _ fs, h => by
    have := fill_in_offsets_count_loop_eq fs 0 (by simpa [leaf_sizes] using h)
    simpa [fill_in_offsets_count, leaf_sizes] using this
theorem fill_in_offsets_count_loop_eq : ∀ (fs : List type_info) (acc : Nat),
    acc + (leaf_sizes_list fs).length < SIZE_MAX1 →
    fill_in_offsets_count_loop fs acc = acc + (leaf_sizes_list fs).length
  | [], acc, _ => by simp [fill_in_offsets_count_loop, leaf_sizes_list]
  | f :: fs, acc, h => by
    simp only [leaf_sizes_list, List.length_append] at h
    have hf := fill_in_offsets_count_eq f (by omega)
    have := fill_in_offsets_count_loop_eq fs (acc + (leaf_sizes f).length) (by omega)
    rw [fill_in_offsets_count_loop, hf, Nat.mod_eq_of_lt (by omega), this]
    simp only [leaf_sizes_list, List.length_append]
    omega
end

/-- In a table built by init_type_table, field 0 of every type starts the
record. -/
theorem init_type_table_first_offset (type_infos : List type_info) (tt : Type_table)
    (hfit : ∀ t ∈ type_infos,
      (leaf_sizes t).sum < SIZE_MAX1 ∧ (leaf_sizes t).length < SIZE_MAX1)
    (h : init_type_table true type_infos = some tt) (type_id : Nat) :
    (field_entry tt type_id 0).offset = 0 := by
  unfold init_type_table at h
  split_ifs at h with h1
  simp only [Bool.not_true, Bool.false_eq_true, Option.some.injEq] at h
  subst h
  unfold field_entry type_row
  by_cases hlt : type_id < type_infos.length
  · have hrow : (List.map type_table_row type_infos).getD type_id ⟨0, 0, 0, 0, []⟩ =
        type_table_row type_infos[type_id] := by
      rw [List.getD_eq_getElem?_getD, List.getElem?_map, List.getElem?_eq_getElem hlt]
      rfl
    rw [hrow]
    obtain ⟨hs, _⟩ := hfit _ (List.getElem_mem hlt)
    have hl := (fill_in_offsets_layout type_infos[type_id] 0 (by omega)).2.2
    simp only [type_table_row]
    generalize (fill_in_offsets type_infos[type_id] 0).1 = es at hl
    generalize leaf_sizes type_infos[type_id] = ss at hl
    cases es with
    | nil => rfl
    | cons e es =>
      cases ss with
      | nil => simp [running_offsets] at hl
      | cons s ss =>
        simp only [List.map_cons, running_offsets, List.cons.injEq] at hl
        simp only [List.getD_cons_zero]
        exact hl.1
  · have hrow : (List.map type_table_row type_infos).getD type_id ⟨0, 0, 0, 0, []⟩ =
        ⟨0, 0, 0, 0, []⟩ := by
      rw [List.getD_eq_getElem?_getD, List.getElem?_eq_none (by simp; omega)]
      rfl
    rw [hrow]
    rfl

/-- C16: for every type descriptor whose total size and number of leaves fit
`size_t`, get_size_and_field_count yields the sum of the sizes of the primitive
and reference leaves (8 for a global reference, 2 for a local reference) and
the number of leaves; char + char + char + long gives (11, 4) and long with
two of those gives (30, 9). -/
theorem C16_get_size_and_field_count (t : type_info)
    (hsum : (leaf_sizes t).sum < SIZE_MAX1) (hlen : (leaf_sizes t).length < SIZE_MAX1) :
    get_size_and_field_count t = ((leaf_sizes t).sum, (leaf_sizes t).length) ∧
    get_size_and_field_count (.global_ref 2 0) = (8, 1) ∧
    get_size_and_field_count (.local_ref 6 7) = (2, 1) ∧
    get_size_and_field_count (.primitive 12 16) = (16, 1) ∧
    get_size_and_field_count
      (.composite 3 [.primitive 0 1, .primitive 0 1, .primitive 0 1, .primitive 1 8]) = (11, 4) ∧
    get_size_and_field_count
      (.composite 4 [.primitive 1 8,
        .composite 3 [.primitive 0 1, .primitive 0 1, .primitive 0 1, .primitive 1 8],
        .composite 3 [.primitive 0 1, .primitive 0 1, .primitive 0 1, .primitive 1 8]]) =
      (30, 9) :=
  ⟨get_size_and_field_count_eq t hsum hlen, by decide, by decide, by decide, by decide,
    by decide⟩

/-- C16 at a concrete input: the octary tree node type of the tests, eight
local references and two longs. -/
theorem C16_get_size_and_field_count_witness :
    get_size_and_field_count
      (.composite 11 [.local_ref 10 11, .local_ref 10 11, .local_ref 10 11, .local_ref 10 11,
        .local_ref 10 11, .local_ref 10 11, .local_ref 10 11, .local_ref 10 11,
        .primitive 1 8, .primitive 1 8]) = (32, 10) :=
  (C16_get_size_and_field_count
    (.composite 11 [.local_ref 10 11, .local_ref 10 11, .local_ref 10 11, .local_ref 10 11,
      .local_ref 10 11, .local_ref 10 11, .local_ref 10 11, .local_ref 10 11,
      .primitive 1 8, .primitive 1 8]) (by decide) (by decide)).1

/-- C17: for every type descriptor and base offset whose sum fits `size_t`,
fill_in_offsets writes one entry per leaf in declaration order, each with the
type id and size of its leaf and with `offset = b +` the sizes of the entries
before it, so that every entry starts where the one before ends; it returns the
field count of get_size_and_field_count, which is the number of entries, and
leaves `*base_offset = b + size`. -/
theorem C17_fill_in_offsets (t : type_info) (b : Nat)
    (hsum : b + (leaf_sizes t).sum < SIZE_MAX1) (hlen : (leaf_sizes t).length < SIZE_MAX1) :
    (fill_in_offsets t b).1.map field_offset.type_id = leaf_ids t ∧
    (fill_in_offsets t b).1.map field_offset.field_size = leaf_sizes t ∧
    (∀ i, i < (fill_in_offsets t b).1.length →
      ((fill_in_offsets t b).1.map field_offset.offset).getD i 0 =
        b + (((fill_in_offsets t b).1.map field_offset.field_size).take i).sum) ∧
    (∀ i, i + 1 < (fill_in_offsets t b).1.length →
      ((fill_in_offsets t b).1.map field_offset.offset).getD (i + 1) 0 =
        ((fill_in_offsets t b).1.map field_offset.offset).getD i 0 +
          ((fill_in_offsets t b).1.map field_offset.field_size).getD i 0) ∧
    fill_in_offsets_count t = (get_size_and_field_count t).2 ∧
    fill_in_offsets_count t = (fill_in_offsets t b).1.length ∧
    (fill_in_offsets t b).2 = b + (get_size_and_field_count t).1 := by
  obtain ⟨h1, h2, h3⟩ := fill_in_offsets_layout t b hsum
  obtain ⟨b1, b2, _⟩ := fill_in_offsets_bounds t b hsum
  have hsz := get_size_and_field_count_eq t (by omega) hlen
  have hcnt := fill_in_offsets_count_eq t hlen
  have hidx : ∀ i, i < (fill_in_offsets t b).1.length →
      ((fill_in_offsets t b).1.map field_offset.offset).getD i 0 =
        b + (((fill_in_offsets t b).1.map field_offset.field_size).take i).sum := by
    intro i hi
    rw [h3, h2]
    exact running_offsets_getD (leaf_sizes t) b i (by omega)
  refine ⟨h1, h2, hidx, ?_, ?_, ?_, ?_⟩
  · intro i hi
    rw [hidx (i + 1) hi, hidx i (by omega), h2]
    have hi2 : i < (leaf_sizes t).length := by omega
    rw [List.sum_take_succ _ _ hi2, List.getD_eq_getElem _ _ hi2]
    omega
  · rw [hcnt, hsz]
  · rw [hcnt, b2]
  · rw [b1, hsz]

/-- C17 at a concrete input, as in test/test_type_info.c: the composite of a
long and two char + char + char + long composites, from base offset 0. -/
theorem C17_fill_in_offsets_witness :
    (fill_in_offsets
      (.composite 4 [.primitive 1 8,
        .composite 3 [.primitive 0 1, .primitive 0 1, .primitive 0 1, .primitive 1 8],
        .composite 3 [.primitive 0 1, .primitive 0 1, .primitive 0 1, .primitive 1 8]])
      0).1.map field_offset.field_size = [8, 1, 1, 1, 8, 1, 1, 1, 8] ∧
    (fill_in_offsets
      (.composite 4 [.primitive 1 8,
        .composite 3 [.primitive 0 1, .primitive 0 1, .primitive 0 1, .primitive 1 8],
        .composite 3 [.primitive 0 1, .primitive 0 1, .primitive 0 1, .primitive 1 8]])
      0).1.map field_offset.offset = [0, 8, 9, 10, 11, 19, 20, 21, 22] :=
  ⟨(C17_fill_in_offsets
      (.composite 4 [.primitive 1 8,
        .composite 3 [.primitive 0 1, .primitive 0 1, .primitive 0 1, .primitive 1 8],
        .composite 3 [.primitive 0 1, .primitive 0 1, .primitive 0 1, .primitive 1 8]])
      0 (by decide) (by decide)).2.1, by decide⟩

/-! ## Claims C18 to C20: simple and list iterators -/

theorem raw_val_of_raw_zero : raw_val (of_raw 0) = 0 := by decide

/-- The step of a simple iterator, away from the last record of a subpool that
comes right before the last subpool of the pool (and from the last record that
16 bits of `sub_pool_id` can name): the iterator moves to the next record when
there is one and ends otherwise. -/
theorem iterator_simple_next_spec (p it : pool_struct)
    (hps : p.sub_pool_id < 65536) (hpi : p.index < 4096) (hpf : p.full ≠ 0 → p.index = 0)
    (hi : it.index < 4096) (hin : GET_GLOBAL_INDEX_OF_REF it < GET_SIZE_OF_POOL p)
    (hnb : it.index = 4095 → it.sub_pool_id + 1 ≠ p.sub_pool_id ∧ it.sub_pool_id ≠ 65535) :
    iterator_simple_next p it =
      if GET_GLOBAL_INDEX_OF_REF it + 1 < GET_SIZE_OF_POOL p then
        at_index it (GET_GLOBAL_INDEX_OF_REF it + 1)
      else of_raw ITERATOR_END := by
  obtain ⟨pt, ps, pp, pi, pf, pe, pg⟩ := p
  obtain ⟨t, s, pid, x, f, e, g⟩ := it
  simp only [GET_GLOBAL_INDEX_OF_REF, GET_SIZE_OF_POOL, PAGE_SIZE] at hin ⊢
  simp only at hps hpi hpf hi hnb
  simp only [iterator_simple_next, at_index, PAGE_SIZE, GLOBAL_INDEX_TO_SUBPOOL_ID,
    GLOBAL_INDEX_TO_SUBPOOL_OFFSET, shift12, and_mask12, Nat.reducePow, Nat.reduceSub]
  by_cases hf : pf = 0
  · subst hf
    simp only [ne_eq, not_true_eq_false, false_and, if_false, or_false] at hin ⊢
    split_ifs
    all_goals first
      | rfl
      | (exfalso; omega)
      | (simp only [pool_struct.mk.injEq, true_and, and_true]; omega)
  · have hp0 := hpf hf
    subst hp0
    simp only [ne_eq, hf, not_false_eq_true, true_and, and_self, if_true] at hin ⊢
    split_ifs
    all_goals first
      | rfl
      | (exfalso; omega)
      | (simp only [pool_struct.mk.injEq, true_and, and_true]; omega)

/-- The step from the last record of the subpool before the last one: the
iterator ends although the pool holds a further record. -/
theorem iterator_simple_next_boundary (p it : pool_struct)
    (hps : p.sub_pool_id < 65536) (hpi : p.index < 4096) (hinv : cursor_inv p)
    (hx : it.index = 4095) (hs : it.sub_pool_id + 1 = p.sub_pool_id) :
    iterator_simple_next p it = of_raw ITERATOR_END ∧
    GET_GLOBAL_INDEX_OF_REF it + 1 < GET_SIZE_OF_POOL p := by
  obtain ⟨pt, ps, pp, pi, pf, pe, pg⟩ := p
  obtain ⟨t, s, pid, x, f, e, g⟩ := it
  simp only [cursor_inv] at hinv
  simp only at hps hpi hx hs
  simp only [iterator_simple_next, GET_GLOBAL_INDEX_OF_REF, GET_SIZE_OF_POOL,
    PAGE_SIZE, GLOBAL_INDEX_TO_SUBPOOL_ID, GLOBAL_INDEX_TO_SUBPOOL_OFFSET, shift12, and_mask12,
    Nat.reducePow, Nat.reduceSub]
  subst hx
  constructor
  · rw [if_neg (by omega)]
  · rcases hinv with ⟨h1, h2, h3⟩ | ⟨h1, h2⟩
    · subst h3
      simp only [ne_eq, not_true_eq_false, false_and, if_false]
      omega
    · subst h1 h2
      simp only [ne_eq, one_ne_zero, not_false_eq_true, and_self, if_true]
      omega

/-- Iterating from the first record: `k` calls of iterator_simple_next reach
the record of absolute index `k`, as long as `k` stays within the population
and below the first record of the last subpool when the pool has more than one
subpool. -/
theorem simple_next_n_reach (p it : pool_struct)
    (hps : p.sub_pool_id < 65536) (hpi : p.index < 4096) (hpf : p.full ≠ 0 → p.index = 0) :
    ∀ k, k < GET_SIZE_OF_POOL p → (p.sub_pool_id ≠ 0 → k < p.sub_pool_id * 4096) →
      simple_next_n p k (at_index it 0) = at_index it k := by
  intro k
  induction k with
  | zero => intro _ _; rfl
  | succ k ih =>
    intro hk hb
    rw [simple_next_n, ih (by omega) (fun h => by have := hb h; omega)]
    have habs : GET_GLOBAL_INDEX_OF_REF (at_index it k) = k := by
      simp only [GET_GLOBAL_INDEX_OF_REF, at_index, PAGE_SIZE]
      omega
    rw [iterator_simple_next_spec p (at_index it k) hps hpi hpf
      (by simp only [at_index]; omega) (by rw [habs]; omega)
      (by
        simp only [at_index]
        intro h4095
        have hm : GET_SIZE_OF_POOL p ≤ p.sub_pool_id * 4096 + 4096 := by
          simp only [GET_SIZE_OF_POOL, PAGE_SIZE]
          split_ifs <;> omega
        by_cases h0 : p.sub_pool_id = 0
        · omega
        · have := hb h0
          omega)]
    rw [habs, if_pos hk]
    simp only [at_index]

theorem iterator_from_pool_simple (tt : Type_table) (p : pool_struct)
    (h : get_reference_count tt p.type_id = 0) :
    iterator_from_pool tt p = some (at_index ⟨p.type_id, 0, p.pool_id, 0, 0, 0, 0⟩ 0) := by
  obtain ⟨pt, ps, pp, pi, pf, pe, pg⟩ := p
  simp only at h
  have e1 : pool_get_ref ⟨pt, ps, pp, pi, pf, pe, pg⟩ 0 = some ⟨pt, 0, pp, 0, 0, 0, 0⟩ := by
    simp [pool_get_ref, GLOBAL_INDEX_TO_SUBPOOL_ID, GLOBAL_INDEX_TO_SUBPOOL_OFFSET, set_raw_index]
  rw [iterator_from_pool, e1]
  simp only [Option.map_some', iterator_common, h, if_true, ITERATOR_SIMPLE, at_index]

/-- C18 (the code departs from the claim): in a pool of a type without leading
local references that has more than one subpool, built by pool_alloc and
pool_grow calls, the iterator from iterator_from_pool is a simple iterator at
record 0 and `k` calls of iterator_simple_next move it to record `k` for every
`k` below the first record of the last subpool; the call on the last record of
the subpool before returns ITERATOR_END although the pool holds the record that
follows.  Every other step is as claimed: the next record when there is one and
ITERATOR_END at the last record, except that in a pool of `2 ^ 16` subpools the
step from the last record wraps around to record 0. -/
theorem C18_iterator_simple_next_stops_before_last_subpool (tt : Type_table) (p : pool_struct)
    (hps : p.sub_pool_id < 65536) (hpi : p.index < 4096) (hinv : cursor_inv p)
    (hs1 : 1 ≤ p.sub_pool_id) (hrc : get_reference_count tt p.type_id = 0) :
    ∃ it0, iterator_from_pool tt p = some it0 ∧ iterator_type it0 = ITERATOR_SIMPLE ∧
      GET_GLOBAL_INDEX_OF_REF it0 = 0 ∧
      (∀ k, k < p.sub_pool_id * 4096 →
        simple_next_n p k it0 = at_index it0 k ∧ GET_GLOBAL_INDEX_OF_REF (at_index it0 k) = k) ∧
      iterator_simple_next p (simple_next_n p (p.sub_pool_id * 4096 - 1) it0) =
        of_raw ITERATOR_END ∧
      GET_GLOBAL_INDEX_OF_REF (simple_next_n p (p.sub_pool_id * 4096 - 1) it0) + 1 <
        GET_SIZE_OF_POOL p ∧
      (∀ it : pool_struct, it.index < 4096 →
        GET_GLOBAL_INDEX_OF_REF it < GET_SIZE_OF_POOL p →
        (it.index = 4095 → it.sub_pool_id + 1 ≠ p.sub_pool_id ∧ it.sub_pool_id ≠ 65535) →
        iterator_simple_next p it =
          if GET_GLOBAL_INDEX_OF_REF it + 1 < GET_SIZE_OF_POOL p then
            at_index it (GET_GLOBAL_INDEX_OF_REF it + 1)
          else of_raw ITERATOR_END) ∧
      (p.sub_pool_id = 65535 → p.full ≠ 0 →
        iterator_simple_next p (at_index it0 (2 ^ 28 - 1)) = at_index it0 0 ∧
        GET_GLOBAL_INDEX_OF_REF (at_index it0 (2 ^ 28 - 1)) + 1 = GET_SIZE_OF_POOL p) := by
  have hpf : p.full ≠ 0 → p.index = 0 := by
    unfold cursor_inv at hinv
    omega
  have hm : p.sub_pool_id * 4096 < GET_SIZE_OF_POOL p := by
    unfold cursor_inv at hinv
    simp only [GET_SIZE_OF_POOL, PAGE_SIZE]
    split_ifs <;> omega
  have habs : ∀ k, k < 2 ^ 28 →
      GET_GLOBAL_INDEX_OF_REF (at_index (⟨p.type_id, 0, p.pool_id, 0, 0, 0, 0⟩ : pool_struct) k)
        = k := by
    intro k _
    simp only [GET_GLOBAL_INDEX_OF_REF, at_index, PAGE_SIZE]
    omega
  have hreach := simple_next_n_reach p ⟨p.type_id, 0, p.pool_id, 0, 0, 0, 0⟩ hps hpi hpf
  have hlast := hreach (p.sub_pool_id * 4096 - 1) (by omega) (fun _ => by omega)
  refine ⟨at_index ⟨p.type_id, 0, p.pool_id, 0, 0, 0, 0⟩ 0, iterator_from_pool_simple tt p hrc,
    rfl, habs 0 (by norm_num), ?_, ?_, ?_, ?_, ?_⟩
  · intro k hk
    exact ⟨hreach k (by omega) (fun _ => hk), habs k (by omega)⟩
  · rw [hlast]
    exact (iterator_simple_next_boundary p _ hps hpi hinv
      (by simp only [at_index]; omega) (by simp only [at_index]; omega)).1
  · rw [hlast, habs _ (by omega)]
    omega
  · intro it hi hin hnb
    exact iterator_simple_next_spec p it hps hpi hpf hi hin hnb
  · intro h65 hfull
    have hi0 := hpf hfull
    obtain ⟨pt, ps, pp, pi, pf, pe, pg⟩ := p
    simp only at h65 hfull hi0
    subst h65 hi0
    constructor
    · simp only [iterator_simple_next, at_index, PAGE_SIZE, GLOBAL_INDEX_TO_SUBPOOL_ID,
        GLOBAL_INDEX_TO_SUBPOOL_OFFSET, shift12, and_mask12, Nat.reducePow, Nat.reduceSub,
        Nat.reduceDiv, Nat.reduceMod, Nat.reduceAdd]
      simp
    · simp only [GET_GLOBAL_INDEX_OF_REF, GET_SIZE_OF_POOL, at_index, PAGE_SIZE, Nat.reducePow,
        Nat.reduceSub, Nat.reduceDiv, Nat.reduceMod, ne_eq, hfull, not_false_eq_true, and_self,
        if_true]

/-- C18 at a concrete input: the char pool with pool id 1 and 4097 records.
The iterator reaches record 4095 and the next call returns ITERATOR_END, while
record 4096 is in the pool. -/
theorem C18_iterator_simple_next_stops_before_last_subpool_witness :
    ∃ it0, iterator_from_pool basic_type_table ⟨0, 1, 1, 1, 0, 0, 0⟩ = some it0 ∧
      simple_next_n ⟨0, 1, 1, 1, 0, 0, 0⟩ 4095 it0 = at_index it0 4095 ∧
      iterator_simple_next ⟨0, 1, 1, 1, 0, 0, 0⟩ (simple_next_n ⟨0, 1, 1, 1, 0, 0, 0⟩ 4095 it0) =
        of_raw ITERATOR_END ∧
      GET_SIZE_OF_POOL ⟨0, 1, 1, 1, 0, 0, 0⟩ = 4097 := by
  obtain ⟨it0, h1, _, _, h4, h5, _⟩ :=
    C18_iterator_simple_next_stops_before_last_subpool basic_type_table ⟨0, 1, 1, 1, 0, 0, 0⟩
      (by decide) (by decide) (by unfold cursor_inv; decide) (by decide) (by decide)
  exact ⟨it0, h1, (h4 4095 (by decide)).1, h5, by decide⟩

/-- C19 (the code departs from the claim at one iterator): for a simple
iterator, iterator_prev returns ITERATOR_END at absolute index 0 and otherwise
the iterator one record back, with the other members as they were; and
whenever iterator_simple_next returns an iterator, iterator_prev of it is the
iterator it came from, unless that was the record of absolute index
`2 ^ 28 - 1`: from there iterator_simple_next wraps around to record 0 in every
pool of more than one subpool, and iterator_prev of the result is
ITERATOR_END. -/
theorem C19_iterator_prev (p it : pool_struct) (hi : it.index < 4096)
    (hs : it.sub_pool_id < 65536) (ht : iterator_type it = ITERATOR_SIMPLE) :
    (GET_GLOBAL_INDEX_OF_REF it = 0 → iterator_prev it = some (of_raw ITERATOR_END)) ∧
    (GET_GLOBAL_INDEX_OF_REF it ≠ 0 →
      iterator_prev it = some (at_index it (GET_GLOBAL_INDEX_OF_REF it - 1)) ∧
      GET_GLOBAL_INDEX_OF_REF (at_index it (GET_GLOBAL_INDEX_OF_REF it - 1)) + 1 =
        GET_GLOBAL_INDEX_OF_REF it) ∧
    (raw_val (iterator_simple_next p it) ≠ ITERATOR_END →
      ¬ (it.sub_pool_id = 65535 ∧ it.index = 4095) →
      iterator_prev (iterator_simple_next p it) = some it) ∧
    (it.sub_pool_id = 65535 → it.index = 4095 → 1 ≤ p.sub_pool_id →
      iterator_simple_next p it = at_index it 0 ∧
      (it.pool_id ≠ 0 → raw_val (iterator_simple_next p it) ≠ ITERATOR_END) ∧
      iterator_prev (iterator_simple_next p it) = some (of_raw ITERATOR_END) ∧
      some it ≠ some (of_raw ITERATOR_END)) := by
  obtain ⟨pt, ps, pp, pi, pf, pe, pg⟩ := p
  obtain ⟨t, s, pid, x, f, e, g⟩ := it
  simp only [iterator_type, ITERATOR_SIMPLE] at ht
  simp only at hi hs
  subst ht
  refine ⟨?_, ?_, ?_, ?_⟩
  · intro h0
    simp only [GET_GLOBAL_INDEX_OF_REF, PAGE_SIZE] at h0
    have hx : x = 0 := by omega
    have hs0 : s = 0 := by omega
    subst hx hs0
    simp [iterator_prev, iterator_type, ITERATOR_SIMPLE]
  · intro h0
    simp only [GET_GLOBAL_INDEX_OF_REF, PAGE_SIZE, at_index] at h0 ⊢
    constructor
    · simp only [iterator_prev, iterator_type, ITERATOR_SIMPLE, ne_eq, not_true_eq_false,
        if_false, PAGE_SIZE, Nat.reduceSub, Nat.reducePow, Nat.reduceMod]
      by_cases hx : x > 0
      · rw [if_pos hx]
        simp only [Option.some.injEq, pool_struct.mk.injEq, true_and, and_true]
        omega
      · rw [if_neg hx, if_pos (by omega)]
        simp only [Option.some.injEq, pool_struct.mk.injEq, true_and, and_true]
        omega
    · omega
  · intro hne hedge
    simp only at hedge
    simp only [iterator_simple_next, PAGE_SIZE, GLOBAL_INDEX_TO_SUBPOOL_ID,
      GLOBAL_INDEX_TO_SUBPOOL_OFFSET, shift12, and_mask12, Nat.reducePow, Nat.reduceSub] at hne ⊢
    split_ifs at hne ⊢ with hc
    · simp only [iterator_prev, iterator_type, ITERATOR_SIMPLE, ne_eq, not_true_eq_false,
        if_false, PAGE_SIZE, Nat.reduceSub, Nat.reducePow, Nat.reduceMod]
      by_cases hx : x = 4095
      · subst hx
        rw [if_neg (by omega), if_pos (by omega)]
        simp only [Option.some.injEq, pool_struct.mk.injEq, true_and, and_true]
        omega
      · rw [if_pos (by omega)]
        simp only [Option.some.injEq, pool_struct.mk.injEq, true_and, and_true]
        omega
    · exact absurd raw_val_of_raw_zero hne
  · intro h1 h2 h3
    simp only at h1 h2 h3
    subst h1 h2
    have hnext : iterator_simple_next ⟨pt, ps, pp, pi, pf, pe, pg⟩ ⟨t, 65535, pid, 4095, f, e, 0⟩ =
        at_index ⟨t, 65535, pid, 4095, f, e, 0⟩ 0 := by
      simp only [iterator_simple_next, at_index, PAGE_SIZE, GLOBAL_INDEX_TO_SUBPOOL_ID,
        GLOBAL_INDEX_TO_SUBPOOL_OFFSET, shift12, and_mask12, Nat.reducePow, Nat.reduceSub,
        Nat.reduceDiv, Nat.reduceMod, Nat.reduceAdd]
      rw [if_pos (Or.inl (by omega))]
    rw [hnext]
    refine ⟨rfl, ?_, ?_, ?_⟩
    · intro hp
      simp only [at_index, raw_val, ITERATOR_END, NULL_ITERATOR, Nat.reducePow, Nat.reduceDiv,
        Nat.reduceMod] at hp ⊢
      omega
    · simp [iterator_prev, iterator_type, ITERATOR_SIMPLE, at_index]
    · simp [of_raw, ITERATOR_END, NULL_ITERATOR]

/-- C19 at a concrete input: in the char pool with pool id 1 and `2 ^ 28`
records (65536 full subpools), iterator_simple_next on the last record yields
the iterator on record 0, and iterator_prev of that is ITERATOR_END. -/
theorem C19_iterator_prev_witness :
    GET_SIZE_OF_POOL ⟨0, 65535, 1, 0, 1, 0, 0⟩ = 2 ^ 28 ∧
    GET_GLOBAL_INDEX_OF_REF ⟨0, 65535, 1, 4095, 0, 0, 0⟩ = 2 ^ 28 - 1 ∧
    iterator_simple_next ⟨0, 65535, 1, 0, 1, 0, 0⟩ ⟨0, 65535, 1, 4095, 0, 0, 0⟩ =
      at_index ⟨0, 65535, 1, 4095, 0, 0, 0⟩ 0 ∧
    iterator_prev (iterator_simple_next ⟨0, 65535, 1, 0, 1, 0, 0⟩ ⟨0, 65535, 1, 4095, 0, 0, 0⟩) =
      some (of_raw ITERATOR_END) :=
  ⟨by decide, by decide,
    ((C19_iterator_prev ⟨0, 65535, 1, 0, 1, 0, 0⟩ ⟨0, 65535, 1, 4095, 0, 0, 0⟩ (by decide)
      (by decide) rfl).2.2.2 rfl rfl (by decide)).1,
    ((C19_iterator_prev ⟨0, 65535, 1, 0, 1, 0, 0⟩ ⟨0, 65535, 1, 4095, 0, 0, 0⟩ (by decide)
      (by decide) rfl).2.2.2 rfl rfl (by decide)).2.2.1⟩

/-- C20 as stated fails for a reference stored in the far form: the list
iterator on the second record of pool 1 has its field 0 set to the record of
absolute index 5000.  get_field_reference through the iterator designates that
record, but iterator_list_next fails its assertion and returns nothing. -/
theorem C20_far_reference_stops_list_iterator :
    ∃ w1, set_field_reference basic_type_table 4096 true ⟨7, 0, 1, 1, 0, 0, 1⟩
        ⟨7, 1, 1, 904, 0, 0, 0⟩ 0 ⟨fun _ => 0, table_init⟩ = some (w1, 0) ∧
      iterator_type ⟨7, 0, 1, 1, 0, 0, 1⟩ = ITERATOR_LIST ∧
      local_is_long_ref (load w1.mem (local_ref_ptr basic_type_table ⟨7, 0, 1, 1, 0, 0, 1⟩ 0) 2)
        = 1 ∧
      get_field_reference basic_type_table ⟨7, 0, 1, 1, 0, 0, 1⟩ 0 w1 = ⟨7, 1, 1, 904, 0, 0, 1⟩ ∧
      GET_GLOBAL_INDEX_OF_REF (get_field_reference basic_type_table ⟨7, 0, 1, 1, 0, 0, 1⟩ 0 w1)
        = 5000 ∧
      iterator_list_next basic_type_table ⟨7, 0, 1, 1, 0, 0, 1⟩ w1.mem = none := by
  obtain ⟨T1, hset, _, _, _, hexp⟩ := set_field_reference_far basic_type_table 4096
    ⟨7, 0, 1, 1, 0, 0, 1⟩ ⟨7, 1, 1, 904, 0, 0, 0⟩ 0 ⟨fun _ => 0, table_init⟩
    table_init_inv (by decide) (by decide) (by decide) (by decide) (by decide) (by decide) rfl
    (by decide)
  have hptr : local_ref_ptr basic_type_table ⟨7, 0, 1, 1, 0, 0, 1⟩ 0 = 4294967298 := by decide
  have hraw : local_raw ((0 : Nat) : Int) 1 0 = 8192 := by decide
  have habs : GET_GLOBAL_INDEX_OF_REF ⟨7, 1, 1, 904, 0, 0, 0⟩ = 5000 := by decide
  rw [hptr, hraw] at hset
  rw [hraw, habs] at hexp
  have hload : load (store (fun _ => 0) 4294967298 2 8192) 4294967298 2 = 8192 := by
    rw [load_store_two]
  have hget : get_field_reference basic_type_table ⟨7, 0, 1, 1, 0, 0, 1⟩ 0
      ⟨store (fun _ => 0) 4294967298 2 8192, T1⟩ = ⟨7, 1, 1, 904, 0, 0, 1⟩ := by
    simp only [get_field_reference, hptr, hload]
    have h1 : local_is_long_ref 8192 = 1 := by decide
    have h2 : (5000 : Nat) ≠ REF_NOT_FOUND := by decide
    simp only [h1, hexp, h2, ne_eq, one_ne_zero, not_false_eq_true, if_true, if_false]
    decide
  refine ⟨_, hset, rfl, ?_, hget, ?_, ?_⟩
  · rw [hptr]
    show local_is_long_ref (load (store (fun _ => 0) 4294967298 2 8192) 4294967298 2) = 1
    rw [hload]
    decide
  · rw [hget]
    decide
  · show iterator_list_next basic_type_table ⟨7, 0, 1, 1, 0, 0, 1⟩
      (store (fun _ => 0) 4294967298 2 8192) = none
    have hp2 : (GET_POOL_ADDR ⟨7, 0, 1, 1, 0, 0, 1⟩ +
        GET_SUB_POOL_SIZE basic_type_table ⟨7, 0, 1, 1, 0, 0, 1⟩ *
          (⟨7, 0, 1, 1, 0, 0, 1⟩ : pool_struct).sub_pool_id) % SIZE_MAX1 +
        2 * (⟨7, 0, 1, 1, 0, 0, 1⟩ : pool_struct).index = 4294967298 := by decide
    simp only [iterator_list_next, hp2, hload]
    decide

/-- C20 (amended): for a list iterator on a record of a type whose field 0
starts the record, when field 0 holds a local reference in the near form,
iterator_list_next returns ITERATOR_END if its `index` is 0, as for the null
reference, for which get_field_reference returns NULL_REF, and otherwise the
very handle that get_field_reference returns for field 0; when field 0 holds a
reference in the far form, iterator_list_next fails its assertion. -/
theorem C20_iterator_list_next_near (tt : Type_table) (it : pool_struct) (w : world)
    (hoff : (field_entry tt it.type_id 0).offset = 0) :
    (local_is_long_ref (load w.mem (local_ref_ptr tt it 0) 2) = 0 →
      (local_index (load w.mem (local_ref_ptr tt it 0) 2) = 0 →
        iterator_list_next tt it w.mem = some (of_raw ITERATOR_END)) ∧
      (load w.mem (local_ref_ptr tt it 0) 2 = 0 →
        iterator_list_next tt it w.mem = some (of_raw ITERATOR_END) ∧
        get_field_reference tt it 0 w = of_raw NULL_REF) ∧
      (local_index (load w.mem (local_ref_ptr tt it 0) 2) ≠ 0 →
        iterator_list_next tt it w.mem = some (get_field_reference tt it 0 w))) ∧
    (local_is_long_ref (load w.mem (local_ref_ptr tt it 0) 2) ≠ 0 →
      iterator_list_next tt it w.mem = none) := by
  have hptr : (GET_POOL_ADDR it + GET_SUB_POOL_SIZE tt it * it.sub_pool_id) % SIZE_MAX1 +
      2 * it.index = local_ref_ptr tt it 0 := by
    simp only [local_ref_ptr, GET_FIELD_OFFSET, hoff, Nat.zero_mul, Nat.zero_mod, Nat.add_zero]
  constructor
  · intro hnear
    refine ⟨?_, ?_, ?_⟩
    · intro h0
      simp only [iterator_list_next, hptr, hnear, ne_eq, not_true_eq_false, if_false, h0, if_true]
    · intro h0
      constructor
      · have e1 : local_is_long_ref 0 = 0 := by decide
        have e2 : local_index 0 = 0 := by decide
        simp only [iterator_list_next, hptr, h0, e1, e2, ne_eq, not_true_eq_false, if_false,
          if_true]
      · simp only [get_field_reference, h0, if_true]
    · intro hnz
      have hraw : load w.mem (local_ref_ptr tt it 0) 2 ≠ 0 := by
        intro h
        rw [h] at hnz
        exact hnz (by decide)
      simp only [iterator_list_next, get_field_reference, hptr, hnear, ne_eq, not_true_eq_false,
        if_false, hnz, hraw]
  · intro hfar
    simp only [iterator_list_next, hptr, hfar, ne_eq, not_false_eq_true, if_true]

/-- C20 (amended) at a concrete input: the list iterator on the first record of
pool 1 whose field 0 holds the near reference `+3`. -/
theorem C20_iterator_list_next_near_witness :
    iterator_list_next basic_type_table ⟨7, 0, 1, 0, 0, 0, 1⟩
        (store (fun _ => 0) 4294967296 2 3) =
      some (get_field_reference basic_type_table ⟨7, 0, 1, 0, 0, 0, 1⟩ 0
        ⟨store (fun _ => 0) 4294967296 2 3, table_init⟩) ∧
    get_field_reference basic_type_table ⟨7, 0, 1, 0, 0, 0, 1⟩ 0
        ⟨store (fun _ => 0) 4294967296 2 3, table_init⟩ = ⟨7, 0, 1, 3, 0, 0, 1⟩ :=
  ⟨((C20_iterator_list_next_near basic_type_table ⟨7, 0, 1, 0, 0, 0, 1⟩
      ⟨store (fun _ => 0) 4294967296 2 3, table_init⟩ (by decide)).1 (by decide)).2.2
      (by decide), by decide⟩

/-! ## One key at a time: what a table operation leaves of the other keys -/

/-- A successful compress_absolute_index in one statement: the key then yields
the value, every other key yields what it did, and capacity and live counter
are bounded by the ones before. -/
theorem compress_other (T : table_state) (key value fuel : Nat) (hinv : table_inv T)
    (hsize : T.hash_table_size * 2 < SIZE_MAX1) (hkey : key ≠ 0)
    (hval : value < DELETED_VALUE) (hfuel : max PAGE_SIZE (2 * T.hash_table_size) ≤ fuel) :
    ∃ T1, compress_absolute_index fuel true T key value = some (T1, 0) ∧ table_inv T1 ∧
      expand_local_reference T1 key = value ∧
      (∀ k, k ≠ key → expand_local_reference T1 k = expand_local_reference T k) ∧
      T1.hash_table_size ≤ max PAGE_SIZE (2 * T.hash_table_size) ∧
      T1.hash_table_size ≤ max (max PAGE_SIZE T.hash_table_size) (4 * T.hash_table_value_count) ∧
      T.hash_table_size ≤ T1.hash_table_size ∧
      T1.hash_table_value_count ≤ T.hash_table_value_count + 1 := by
  obtain ⟨T1, hc, hinv1, _, _, hexp⟩ := compress_spec T key value fuel hinv hsize hkey hval hfuel
  obtain ⟨T0, T1', hres, hc', hsz, hvc, hmem⟩ :=
    compress_effect T key value fuel hinv hsize hkey hval hfuel
  rw [hc] at hc'
  simp only [Option.some.injEq, Prod.mk.injEq, and_true] at hc'
  subst hc'
  obtain ⟨T0', hres', _, _, hle0, _, _⟩ := resize_step_spec T hinv hsize
  rw [hres] at hres'
  simp only [Option.some.injEq] at hres'
  subst hres'
  obtain ⟨T0', hres', _, _, hg1, hg2, hg3⟩ := resize_step_effect T hinv hsize
  rw [hres] at hres'
  simp only [Option.some.injEq] at hres'
  subst hres'
  have hp : PAGE_SIZE = 4096 := rfl
  refine ⟨T1, hc, hinv1, hexp, ?_, by omega, ?_, ?_, ?_⟩
  · intro k hk
    apply expand_congr T T1 k hinv hinv1
    intro e he hek
    exact hmem e he (by rw [hek]; exact hk)
  · rw [hsz]
    by_cases hg : T.hash_table_value_count * 2 ≥ T.hash_table_size
    · have := (hg1 hg).1
      rw [this]
      split_ifs <;> omega
    · by_cases hg' : (T.hash_table_value_count + T.hash_table_del_count) * 2 ≥ T.hash_table_size
      · have := (hg2 (by omega) hg').1
        omega
      · have := hg3 (by omega) (by omega)
        rw [this]
        omega
  · rw [hsz]
    by_cases hg : T.hash_table_value_count * 2 ≥ T.hash_table_size
    · have := (hg1 hg).1
      rw [this]
      split_ifs <;> omega
    · by_cases hg' : (T.hash_table_value_count + T.hash_table_del_count) * 2 ≥ T.hash_table_size
      · have := (hg2 (by omega) hg').1
        omega
      · have := hg3 (by omega) (by omega)
        rw [this]
  · rw [hvc]
    split_ifs <;> omega

/-- What delete_reference leaves of the other keys: every other key yields
what it did. -/
theorem delete_other (T : table_state) (key : Nat) (hinv : table_inv T) :
    table_inv (delete_reference T key).1 ∧
    (∀ k, k ≠ key →
      expand_local_reference (delete_reference T key).1 k = expand_local_reference T k) ∧
    (delete_reference T key).1.hash_table_size = T.hash_table_size ∧
    (delete_reference T key).1.hash_table_value_count ≤ T.hash_table_value_count := by
  have hinv1 := delete_reference_inv T key hinv
  by_cases h : key = 0 ∨ key_count T.reference_table key = 0
  · rw [delete_reference_absent T key h]
    exact ⟨hinv, fun _ _ => rfl, rfl, le_refl _⟩
  · have hk : key ≠ 0 := fun h0 => h (Or.inl h0)
    have hpos : 0 < key_count T.reference_table key := by
      have : key_count T.reference_table key ≠ 0 := fun h0 => h (Or.inr h0)
      omega
    obtain ⟨_, _, hmem, hsz, hvc⟩ := delete_reference_present T key hinv hk hpos
    refine ⟨hinv1, ?_, hsz, by omega⟩
    intro k hkk
    apply expand_congr T _ k hinv hinv1
    intro e he hek
    exact hmem e he (by rw [hek]; exact hkk)

/-! ## Reference fields: what a write leaves of the rest of the world -/

theorem load_congr (m1 m : Mem) (n : Nat) :
    ∀ addr, (∀ a, addr ≤ a → a < addr + n → m1 a = m a) → load m1 addr n = load m addr n := by
  induction n with
  | zero => intro _ _; rfl
  | succ n ih =>
    intro addr h
    simp only [load]
    rw [h addr (le_refl _) (by omega), ih (addr + 1) (fun a h1 h2 => h a (by omega) (by omega))]

theorem store_other (mem : Mem) (addr n v a : Nat) (h : a < addr ∨ addr + n ≤ a) :
    store mem addr n v a = mem a := by
  simp only [store]
  rw [if_neg (by omega)]

theorem load_store_other (mem : Mem) (addr n v p k : Nat) (h : p + k ≤ addr ∨ addr + n ≤ p) :
    load (store mem addr n v) p k = load mem p k := by
  apply load_congr
  intro a h1 h2
  exact store_other mem addr n v a (by omega)

/-- The handle get_field_reference returns depends on the two bytes of the
field, and on the table through the lookup of the field's tag only. -/
theorem get_field_reference_congr (tt : Type_table) (this : reference_struct) (k : Nat)
    (w w1 : world)
    (hm : load w1.mem (local_ref_ptr tt this k) 2 = load w.mem (local_ref_ptr tt this k) 2)
    (ht : local_is_long_ref (load w.mem (local_ref_ptr tt this k) 2) ≠ 0 →
      expand_local_reference w1.table (tag_raw this (load w.mem (local_ref_ptr tt this k) 2)) =
        expand_local_reference w.table (tag_raw this (load w.mem (local_ref_ptr tt this k) 2))) :
    get_field_reference tt this k w1 = get_field_reference tt this k w := by
  simp only [get_field_reference, hm]
  by_cases h0 : load w.mem (local_ref_ptr tt this k) 2 = 0
  · simp only [h0, if_true]
  · simp only [h0, if_false]
    by_cases hl : local_is_long_ref (load w.mem (local_ref_ptr tt this k) 2) ≠ 0
    · simp only [hl, if_true, ht hl]
    · simp only [hl, if_false]

/-- The absolute index of a handle made by get_field_reference. -/
theorem abs_of_handle (this : reference_struct) (s i : Nat) :
    GET_GLOBAL_INDEX_OF_REF { this with sub_pool_id := s, index := i } = s * 4096 + i := by
  simp only [GET_GLOBAL_INDEX_OF_REF, PAGE_SIZE]

/-- Two tags are equal only when made from the same local reference and from
handles with the same subpool, pool, index and flag bits. -/
theorem tag_raw_inj (a b : reference_struct) (l l1 : Nat) (ha : a.wf) (hb : b.wf)
    (h : tag_raw a l = tag_raw b l1) :
    l % 2 ^ 16 = l1 % 2 ^ 16 ∧
    a.sub_pool_id = b.sub_pool_id ∧ a.pool_id = b.pool_id ∧ a.index = b.index ∧
    a.full = b.full ∧ a.is_extended = b.is_extended ∧ a.gc_state = b.gc_state := by
  simp only [pool_struct.wf] at ha hb
  simp only [tag_raw, raw_index, Nat.reducePow] at h ⊢
  omega

/-- All that a set_field_reference call does when it is not the step from a far
reference back to a near one: it returns 0, writes the two bytes of the field
only, leaves the lookups of all other tags as they were, and
get_field_reference then yields the target, or NULL_REF when the target is
NULL_REF or the record itself. -/
theorem set_field_reference_effect (tt : Type_table) (fuel : Nat) (a b : reference_struct)
    (k : Nat) (w : world)
    (hinv : table_inv w.table) (hsize : w.table.hash_table_size * 2 < SIZE_MAX1)
    (hfuel : max PAGE_SIZE (2 * w.table.hash_table_size) ≤ fuel)
    (hai : a.index < 4096) (hbs : b.sub_pool_id < 65536) (hbi : b.index < 4096) (hk : k < 4096)
    (hpool : raw_val b ≠ NULL_REF → a.pool_id = b.pool_id)
    (hslip : local_is_long_ref (load w.mem (local_ref_ptr tt a k) 2) ≠ 0 →
      raw_val b = NULL_REF ∨
      GET_GLOBAL_INDEX_OF_REF a + PAGE_SIZE ≤ GET_GLOBAL_INDEX_OF_REF b ∨
      GET_GLOBAL_INDEX_OF_REF b + PAGE_SIZE ≤ GET_GLOBAL_INDEX_OF_REF a) :
    ∃ w1, set_field_reference tt fuel true a b k w = some (w1, 0) ∧
      (∀ x, x < local_ref_ptr tt a k ∨ local_ref_ptr tt a k + 2 ≤ x → w1.mem x = w.mem x) ∧
      table_inv w1.table ∧
      (∀ key, key ≠ tag_raw a (local_raw (k : Int) 1 0) →
        expand_local_reference w1.table key = expand_local_reference w.table key) ∧
      w.table.hash_table_size ≤ w1.table.hash_table_size ∧
      w1.table.hash_table_size ≤ max PAGE_SIZE (2 * w.table.hash_table_size) ∧
      w1.table.hash_table_size ≤
        max (max PAGE_SIZE w.table.hash_table_size) (4 * w.table.hash_table_value_count) ∧
      w1.table.hash_table_value_count ≤ w.table.hash_table_value_count + 1 ∧
      get_field_reference tt a k w1 =
        (if raw_val b = NULL_REF ∨ GET_GLOBAL_INDEX_OF_REF a = GET_GLOBAL_INDEX_OF_REF b then
          of_raw NULL_REF
        else { a with sub_pool_id := b.sub_pool_id, index := b.index }) := by
  have hp : PAGE_SIZE = 4096 := rfl
  by_cases hbn : raw_val b = NULL_REF
  · refine ⟨{ w with mem := store w.mem (local_ref_ptr tt a k) 2 0 }, ?_, ?_, hinv,
      fun _ _ => rfl, le_refl _, by show w.table.hash_table_size ≤ _; omega,
      by show w.table.hash_table_size ≤ _; omega,
      by show w.table.hash_table_value_count ≤ _; omega, ?_⟩
    · simp only [set_field_reference, hbn, if_true]
    · intro x hx
      exact store_other _ _ _ _ _ hx
    · simp only [get_field_reference, load_store_two, hbn, true_or, if_true, Nat.zero_mod]
  have hpool1 := hpool hbn
  by_cases hfar : GET_GLOBAL_INDEX_OF_REF a + PAGE_SIZE ≤ GET_GLOBAL_INDEX_OF_REF b ∨
      GET_GLOBAL_INDEX_OF_REF b + PAGE_SIZE ≤ GET_GLOBAL_INDEX_OF_REF a
  · obtain ⟨hl1, hl2, hl3⟩ := local_raw_far k hk
    have hkey : tag_raw a (local_raw (k : Int) 1 0) ≠ 0 := by
      simp only [tag_raw, hl1, Nat.reducePow]
      omega
    have hval : GET_GLOBAL_INDEX_OF_REF b < DELETED_VALUE := by
      simp only [GET_GLOBAL_INDEX_OF_REF, PAGE_SIZE, DELETED_VALUE]
      omega
    obtain ⟨T1, hc, hinv1, hexp, hoth, hle, hle2, hge, hvc⟩ :=
      compress_other w.table (tag_raw a (local_raw (k : Int) 1 0)) (GET_GLOBAL_INDEX_OF_REF b)
        fuel hinv hsize hkey hval hfuel
    have hdiff : ((GET_GLOBAL_INDEX_OF_REF b : Int) - (GET_GLOBAL_INDEX_OF_REF a : Int) ≥ 4096 ∨
        (GET_GLOBAL_INDEX_OF_REF b : Int) - (GET_GLOBAL_INDEX_OF_REF a : Int) ≤ -4096) := by
      simp only [PAGE_SIZE] at hfar
      omega
    have hload : load (store w.mem (local_ref_ptr tt a k) 2 (local_raw (k : Int) 1 0))
        (local_ref_ptr tt a k) 2 = local_raw (k : Int) 1 0 := by
      rw [load_store_two, hl1]
      omega
    have hne : ¬ (raw_val b = NULL_REF ∨ GET_GLOBAL_INDEX_OF_REF a = GET_GLOBAL_INDEX_OF_REF b) := by
      simp only [PAGE_SIZE] at hfar
      intro h
      rcases h with h | h
      · exact hbn h
      · omega
    refine ⟨⟨store w.mem (local_ref_ptr tt a k) 2 (local_raw (k : Int) 1 0), T1⟩, ?_, ?_, hinv1,
      hoth, hge, hle, hle2, hvc, ?_⟩
    · simp only [set_field_reference, hbn, if_false, hpool1, ne_eq, not_true_eq_false, hdiff,
        if_true, hc]
    · intro x hx
      exact store_other _ _ _ _ _ hx
    · rw [if_neg hne]
      simp only [get_field_reference, hload]
      have hnz : local_raw (k : Int) 1 0 ≠ 0 := by rw [hl1]; omega
      have hnf : GET_GLOBAL_INDEX_OF_REF b ≠ REF_NOT_FOUND := by
        simp only [GET_GLOBAL_INDEX_OF_REF, PAGE_SIZE, REF_NOT_FOUND, SIZE_MAX1]
        omega
      simp only [hnz, if_false, hl2, ne_eq, one_ne_zero, not_false_eq_true, if_true, hexp, hnf]
      simp only [GLOBAL_INDEX_TO_SUBPOOL_ID, GLOBAL_INDEX_TO_SUBPOOL_OFFSET,
        GET_GLOBAL_INDEX_OF_REF, PAGE_SIZE, Nat.reducePow, Nat.reduceSub, and_mask12, shift12]
      have e1 : (b.sub_pool_id * 4096 + b.index) / 4096 % 65536 = b.sub_pool_id := by omega
      have e2 : (b.sub_pool_id * 4096 + b.index) % 4096 % 4096 = b.index := by omega
      rw [e1, e2]
  · have hold : local_is_long_ref (load w.mem (local_ref_ptr tt a k) 2) = 0 := by
      by_contra h
      rcases hslip h with h1 | h1
      · exact hbn h1
      · exact hfar h1
    have hlo : -4096 < (GET_GLOBAL_INDEX_OF_REF b : Int) - GET_GLOBAL_INDEX_OF_REF a := by
      simp only [PAGE_SIZE] at hfar
      omega
    have hhi : (GET_GLOBAL_INDEX_OF_REF b : Int) - GET_GLOBAL_INDEX_OF_REF a < 4096 := by
      simp only [PAGE_SIZE] at hfar
      omega
    obtain ⟨hd1, hd2, hd3, hd4⟩ :=
      local_raw_near ((GET_GLOBAL_INDEX_OF_REF b : Int) - GET_GLOBAL_INDEX_OF_REF a) hlo hhi
    have hnfar : ¬ ((GET_GLOBAL_INDEX_OF_REF b : Int) - GET_GLOBAL_INDEX_OF_REF a ≥ 4096 ∨
        (GET_GLOBAL_INDEX_OF_REF b : Int) - GET_GLOBAL_INDEX_OF_REF a ≤ -4096) := by omega
    refine ⟨⟨store w.mem (local_ref_ptr tt a k) 2
      (local_raw ((GET_GLOBAL_INDEX_OF_REF b : Int) - GET_GLOBAL_INDEX_OF_REF a) 0 0), w.table⟩,
      ?_, ?_, hinv, fun _ _ => rfl, le_refl _, by show w.table.hash_table_size ≤ _; omega,
      by show w.table.hash_table_size ≤ _; omega,
      by show w.table.hash_table_value_count ≤ _; omega, ?_⟩
    · simp only [set_field_reference, hbn, if_false, hpool1, ne_eq, not_true_eq_false, hnfar, hold]
    · intro x hx
      exact store_other _ _ _ _ _ hx
    · simp only [get_field_reference, load_store_two]
      rw [Nat.mod_eq_of_lt (by omega : local_raw _ 0 0 < 65536)]
      by_cases heq : GET_GLOBAL_INDEX_OF_REF a = GET_GLOBAL_INDEX_OF_REF b
      · have hz : local_raw ((GET_GLOBAL_INDEX_OF_REF b : Int) - GET_GLOBAL_INDEX_OF_REF a) 0 0 = 0 :=
          hd4.2 (by omega)
        rw [if_pos hz, if_pos (Or.inr heq)]
      · have hnz : local_raw ((GET_GLOBAL_INDEX_OF_REF b : Int) - GET_GLOBAL_INDEX_OF_REF a) 0 0 ≠ 0 := by
          intro h0
          have := hd4.1 h0
          omega
        simp only [hnz, if_false, hd3, ne_eq, not_true_eq_false, hd2, hbn, heq, or_self]
        have hsum : (((GET_GLOBAL_INDEX_OF_REF a : Int) +
            ((GET_GLOBAL_INDEX_OF_REF b : Int) - GET_GLOBAL_INDEX_OF_REF a)) %
            (SIZE_MAX1 : Int)).toNat = GET_GLOBAL_INDEX_OF_REF b := by
          simp only [GET_GLOBAL_INDEX_OF_REF, PAGE_SIZE, SIZE_MAX1] at *
          omega
        rw [hsum]
        simp only [GLOBAL_INDEX_TO_SUBPOOL_ID, GLOBAL_INDEX_TO_SUBPOOL_OFFSET,
          GET_GLOBAL_INDEX_OF_REF, PAGE_SIZE, Nat.reducePow, Nat.reduceSub, and_mask12, shift12]
        have e1 : (b.sub_pool_id * 4096 + b.index) / 4096 % 65536 = b.sub_pool_id := by omega
        have e2 : (b.sub_pool_id * 4096 + b.index) % 4096 % 4096 = b.index := by omega
        rw [e1, e2]

/-! ## Claims C21 and C22: insertion and removal in lists -/

/-- The handle that get_field_reference returns is NULL_REF or the handle given
with another subpool and index, both within their ranges. -/
theorem get_field_reference_shape (tt : Type_table) (this : reference_struct) (k : Nat)
    (w : world) (hp : this.pool_id ≠ 0) :
    (raw_val (get_field_reference tt this k w) = NULL_REF ∧
      get_field_reference tt this k w = of_raw NULL_REF) ∨
    (raw_val (get_field_reference tt this k w) ≠ NULL_REF ∧
      (get_field_reference tt this k w).sub_pool_id < 65536 ∧
      (get_field_reference tt this k w).index < 4096 ∧
      get_field_reference tt this k w =
        { this with sub_pool_id := (get_field_reference tt this k w).sub_pool_id,
                    index := (get_field_reference tt this k w).index }) := by
  have key : ∀ idx : Nat,
      raw_val ({ this with sub_pool_id := GLOBAL_INDEX_TO_SUBPOOL_ID idx % 2 ^ 16,
                           index := GLOBAL_INDEX_TO_SUBPOOL_OFFSET idx % 2 ^ 12 } : pool_struct)
        ≠ NULL_REF ∧
      GLOBAL_INDEX_TO_SUBPOOL_ID idx % 2 ^ 16 < 65536 ∧
      GLOBAL_INDEX_TO_SUBPOOL_OFFSET idx % 2 ^ 12 < 4096 := by
    intro idx
    refine ⟨raw_val_ne_zero _ hp, ?_, ?_⟩
    · exact Nat.mod_lt _ (by norm_num)
    · exact Nat.mod_lt _ (by norm_num)
  unfold get_field_reference
  simp only
  split_ifs with h0 h1 h2
  · exact Or.inl ⟨raw_val_of_raw_zero, rfl⟩
  · exact Or.inl ⟨raw_val_of_raw_zero, rfl⟩
  · exact Or.inr ⟨(key _).1, (key _).2.1, (key _).2.2, rfl⟩
  · exact Or.inr ⟨(key _).1, (key _).2.1, (key _).2.2, rfl⟩

/-- The two bytes of a reference field of two different records of one pool do
not overlap, when the lane of the field lies within the subpool. -/
theorem local_ref_ptr_disjoint (tt : Type_table) (a b : reference_struct) (k : Nat)
    (ha : a.wf) (hb : b.wf) (htype : a.type_id = b.type_id) (hpool : a.pool_id = b.pool_id)
    (hts : (type_row tt a.type_id).type_size < 2 ^ 32)
    (hoff : (field_entry tt a.type_id k).offset + 2 ≤ (type_row tt a.type_id).type_size)
    (hne : GET_GLOBAL_INDEX_OF_REF a ≠ GET_GLOBAL_INDEX_OF_REF b) :
    local_ref_ptr tt a k + 2 ≤ local_ref_ptr tt b k ∨
    local_ref_ptr tt b k + 2 ≤ local_ref_ptr tt a k := by
  simp only [pool_struct.wf] at ha hb
  simp only [local_ref_ptr, GET_POOL_ADDR, GET_SUB_POOL_SIZE, GET_FIELD_OFFSET, ← htype, ← hpool,
    PAGE_SIZE, SIZE_MAX1, Nat.reducePow]
  simp only [GET_GLOBAL_INDEX_OF_REF, PAGE_SIZE] at hne
  generalize (type_row tt a.type_id).type_size = ts at *
  generalize (field_entry tt a.type_id k).offset = off at *
  simp only [Nat.reducePow] at hts
  have e1 : a.pool_id * 4294967296 % 18446744073709551616 = a.pool_id * 4294967296 :=
    Nat.mod_eq_of_lt (by omega)
  have e2 : ts * 4096 % 18446744073709551616 = ts * 4096 := Nat.mod_eq_of_lt (by omega)
  have e3 : off * 4096 % 18446744073709551616 = off * 4096 := Nat.mod_eq_of_lt (by omega)
  rw [e1, e2, e3]
  have ba : ts * 4096 * a.sub_pool_id ≤ ts * 4096 * 65535 :=
    Nat.mul_le_mul_left _ (by omega)
  have bb : ts * 4096 * b.sub_pool_id ≤ ts * 4096 * 65535 :=
    Nat.mul_le_mul_left _ (by omega)
  have e4 : (a.pool_id * 4294967296 + ts * 4096 * a.sub_pool_id + off * 4096) %
      18446744073709551616 = a.pool_id * 4294967296 + ts * 4096 * a.sub_pool_id + off * 4096 :=
    Nat.mod_eq_of_lt (by omega)
  have e5 : (a.pool_id * 4294967296 + ts * 4096 * b.sub_pool_id + off * 4096) %
      18446744073709551616 = a.pool_id * 4294967296 + ts * 4096 * b.sub_pool_id + off * 4096 :=
    Nat.mod_eq_of_lt (by omega)
  rw [e4, e5]
  rcases Nat.lt_trichotomy a.sub_pool_id b.sub_pool_id with h | h | h
  · have : ts * 4096 * (a.sub_pool_id + 1) ≤ ts * 4096 * b.sub_pool_id :=
      Nat.mul_le_mul_left _ (by omega)
    rw [Nat.mul_add] at this
    omega
  · rw [h]
    omega
  · have : ts * 4096 * (b.sub_pool_id + 1) ≤ ts * 4096 * a.sub_pool_id :=
      Nat.mul_le_mul_left _ (by omega)
    rw [Nat.mul_add] at this
    omega

/-- C21 as stated fails when the record to insert is already the successor:
the list iterator on record 0 of pool 1 has record 1 as its successor, and
record 1 is inserted after it.  The call returns 0, but field 0 of record 1
then holds the 16-bit zero and get_field_reference returns NULL_REF for it,
where the claim has the record that the iterator designated before, record 1. -/
theorem C21_insert_successor_again :
    ∃ w2, iterator_list_insert basic_type_table 0 true ⟨7, 0, 1, 0, 0, 0, 1⟩
        ⟨7, 0, 1, 1, 0, 0, 0⟩ ⟨store (fun _ => 0) 4294967296 2 1, table_init⟩ = some (w2, 0) ∧
      get_field_reference basic_type_table ⟨7, 0, 1, 0, 0, 0, 1⟩ 0
        ⟨store (fun _ => 0) 4294967296 2 1, table_init⟩ = ⟨7, 0, 1, 1, 0, 0, 1⟩ ∧
      get_field_reference basic_type_table ⟨7, 0, 1, 0, 0, 0, 1⟩ 0 w2 = ⟨7, 0, 1, 1, 0, 0, 1⟩ ∧
      get_field_reference basic_type_table ⟨7, 0, 1, 1, 0, 0, 0⟩ 0 w2 = of_raw NULL_REF := by
  have hptr0 : local_ref_ptr basic_type_table ⟨7, 0, 1, 0, 0, 0, 1⟩ 0 = 4294967296 := by decide
  have hptr1 : local_ref_ptr basic_type_table ⟨7, 0, 1, 1, 0, 0, 0⟩ 0 = 4294967298 := by decide
  have hl0 : load (store (fun _ => 0) 4294967296 2 1) 4294967296 2 = 1 := by
    rw [load_store_two]
  have hget0 : get_field_reference basic_type_table ⟨7, 0, 1, 0, 0, 0, 1⟩ 0
      ⟨store (fun _ => 0) 4294967296 2 1, table_init⟩ = ⟨7, 0, 1, 1, 0, 0, 1⟩ := by
    simp only [get_field_reference, hptr0, hl0]
    decide
  have hl1 : load (store (fun _ => 0) 4294967296 2 1) 4294967298 2 = 0 := by
    rw [load_store_other _ _ _ _ _ _ (by omega)]
    rfl
  have hset1 : set_field_reference basic_type_table 0 true ⟨7, 0, 1, 1, 0, 0, 0⟩
      ⟨7, 0, 1, 1, 0, 0, 1⟩ 0 ⟨store (fun _ => 0) 4294967296 2 1, table_init⟩ =
      some (⟨store (store (fun _ => 0) 4294967296 2 1) 4294967298 2 0, table_init⟩, 0) := by
    simp only [set_field_reference, hptr1, hl1]
    rw [if_neg (by decide), if_neg (by decide), if_neg (by decide), if_neg (by decide)]
    have hv : local_raw ((GET_GLOBAL_INDEX_OF_REF ⟨7, 0, 1, 1, 0, 0, 1⟩ : Int) -
        (GET_GLOBAL_INDEX_OF_REF ⟨7, 0, 1, 1, 0, 0, 0⟩ : Int)) 0 0 = 0 := by decide
    rw [hv]
  have hl2 : load (store (store (fun _ => 0) 4294967296 2 1) 4294967298 2 0) 4294967296 2 = 1 := by
    rw [load_store_other _ _ _ _ _ _ (by omega), hl0]
  have hset2 : set_field_reference basic_type_table 0 true ⟨7, 0, 1, 0, 0, 0, 1⟩
      ⟨7, 0, 1, 1, 0, 0, 0⟩ 0
      ⟨store (store (fun _ => 0) 4294967296 2 1) 4294967298 2 0, table_init⟩ =
      some (⟨store (store (store (fun _ => 0) 4294967296 2 1) 4294967298 2 0) 4294967296 2 1,
        table_init⟩, 0) := by
    simp only [set_field_reference, hptr0, hl2]
    rw [if_neg (by decide), if_neg (by decide), if_neg (by decide), if_neg (by decide)]
    have hv : local_raw ((GET_GLOBAL_INDEX_OF_REF ⟨7, 0, 1, 1, 0, 0, 0⟩ : Int) -
        (GET_GLOBAL_INDEX_OF_REF ⟨7, 0, 1, 0, 0, 0, 1⟩ : Int)) 0 0 = 1 := by decide
    rw [hv]
  refine ⟨⟨store (store (store (fun _ => 0) 4294967296 2 1) 4294967298 2 0) 4294967296 2 1,
    table_init⟩, ?_, hget0, ?_, ?_⟩
  · simp only [iterator_list_insert, hget0, hset1, hset2]
    rw [if_neg (by decide)]
  · simp only [get_field_reference, hptr0, load_store_two]
    decide
  · simp only [get_field_reference, hptr1]
    rw [load_store_other _ _ _ _ _ _ (by omega), load_store_two]
    decide

theorem outside_of_disjoint (p q x : Nat) (hd : p + 2 ≤ q ∨ q + 2 ≤ p) (h1 : p ≤ x)
    (h2 : x < p + 2) : x < q ∨ q + 2 ≤ x := by omega

theorem table_bound_step (s s1 fuel : Nat) (h : s * 4 < SIZE_MAX1)
    (hf : max (2 * PAGE_SIZE) (4 * s) ≤ fuel) (hle : s1 ≤ max PAGE_SIZE (2 * s)) :
    s * 2 < SIZE_MAX1 ∧ max PAGE_SIZE (2 * s) ≤ fuel ∧
    s1 * 2 < SIZE_MAX1 ∧ max PAGE_SIZE (2 * s1) ≤ fuel := by
  have hpg : PAGE_SIZE = 4096 := rfl
  have hmx : SIZE_MAX1 = 18446744073709551616 := rfl
  omega

/-- C21 (amended): for a list iterator `it` and a record `ref` of the same pool
other than the iterator's record, when `ref` is not already the successor of
`it` and neither of the two calls of set_field_reference has to replace a far
reference by a near one: iterator_list_insert returns 0, get_field_reference
then yields `ref` for field 0 of `it`, and for field 0 of `ref` the record that
field 0 of `it` designated before, or NULL_REF if that was NULL_REF; the
memory outside the two bytes of field 0 of the two records is unchanged, and
so are the lookups of the tags of all other fields. -/
theorem C21_iterator_list_insert (tt : Type_table) (fuel : Nat) (it ref : pool_struct)
    (w : world)
    (hinv : table_inv w.table) (hsize : w.table.hash_table_size * 4 < SIZE_MAX1)
    (hfuel : max (2 * PAGE_SIZE) (4 * w.table.hash_table_size) ≤ fuel)
    (hit : it.wf) (href : ref.wf) (hlist : iterator_type it = ITERATOR_LIST)
    (hp0 : it.pool_id ≠ 0) (hpool : it.pool_id = ref.pool_id) (htype : it.type_id = ref.type_id)
    (hts : (type_row tt it.type_id).type_size < 2 ^ 32)
    (hoff : (field_entry tt it.type_id 0).offset + 2 ≤ (type_row tt it.type_id).type_size)
    (hne : GET_GLOBAL_INDEX_OF_REF it ≠ GET_GLOBAL_INDEX_OF_REF ref)
    (hnext : raw_val (get_field_reference tt it 0 w) = NULL_REF ∨
      GET_GLOBAL_INDEX_OF_REF (get_field_reference tt it 0 w) ≠ GET_GLOBAL_INDEX_OF_REF ref)
    (hfar_it : local_is_long_ref (load w.mem (local_ref_ptr tt it 0) 2) ≠ 0 →
      GET_GLOBAL_INDEX_OF_REF it + PAGE_SIZE ≤ GET_GLOBAL_INDEX_OF_REF ref ∨
      GET_GLOBAL_INDEX_OF_REF ref + PAGE_SIZE ≤ GET_GLOBAL_INDEX_OF_REF it)
    (hfar_ref : local_is_long_ref (load w.mem (local_ref_ptr tt ref 0) 2) ≠ 0 →
      raw_val (get_field_reference tt it 0 w) = NULL_REF ∨
      GET_GLOBAL_INDEX_OF_REF ref + PAGE_SIZE ≤
        GET_GLOBAL_INDEX_OF_REF (get_field_reference tt it 0 w) ∨
      GET_GLOBAL_INDEX_OF_REF (get_field_reference tt it 0 w) + PAGE_SIZE ≤
        GET_GLOBAL_INDEX_OF_REF ref) :
    ∃ w2, iterator_list_insert tt fuel true it ref w = some (w2, 0) ∧
      get_field_reference tt it 0 w2 =
        { it with sub_pool_id := ref.sub_pool_id, index := ref.index } ∧
      GET_GLOBAL_INDEX_OF_REF (get_field_reference tt it 0 w2) = GET_GLOBAL_INDEX_OF_REF ref ∧
      (raw_val (get_field_reference tt it 0 w) = NULL_REF →
        get_field_reference tt ref 0 w2 = of_raw NULL_REF) ∧
      (raw_val (get_field_reference tt it 0 w) ≠ NULL_REF →
        get_field_reference tt ref 0 w2 =
          { ref with sub_pool_id := (get_field_reference tt it 0 w).sub_pool_id,
                     index := (get_field_reference tt it 0 w).index } ∧
        GET_GLOBAL_INDEX_OF_REF (get_field_reference tt ref 0 w2) =
          GET_GLOBAL_INDEX_OF_REF (get_field_reference tt it 0 w)) ∧
      (∀ x, (x < local_ref_ptr tt it 0 ∨ local_ref_ptr tt it 0 + 2 ≤ x) →
        (x < local_ref_ptr tt ref 0 ∨ local_ref_ptr tt ref 0 + 2 ≤ x) → w2.mem x = w.mem x) ∧
      (∀ key, key ≠ tag_raw it (local_raw 0 1 0) → key ≠ tag_raw ref (local_raw 0 1 0) →
        expand_local_reference w2.table key = expand_local_reference w.table key) := by
  have hb0 := table_bound_step _ _ fuel hsize hfuel (le_max_right PAGE_SIZE _)
  have hitw := hit
  have hrefw := href
  simp only [pool_struct.wf] at hitw hrefw
  have hdisj := local_ref_ptr_disjoint tt it ref 0 hit href htype hpool hts hoff hne
  -- the successor before the call
  generalize hn0 : get_field_reference tt it 0 w = next0 at hnext hfar_ref ⊢
  have hshape := get_field_reference_shape tt it 0 w hp0
  rw [hn0] at hshape
  have hnr : next0.sub_pool_id < 65536 ∧ next0.index < 4096 := by
    rcases hshape with ⟨_, h⟩ | ⟨_, h1, h2, _⟩
    · rw [h]; exact ⟨by decide, by decide⟩
    · exact ⟨h1, h2⟩
  have hnp : raw_val next0 ≠ NULL_REF → ref.pool_id = next0.pool_id := by
    intro h
    rcases hshape with ⟨h0, _⟩ | ⟨_, _, _, h3⟩
    · exact absurd h0 h
    · rw [h3, ← hpool]
  -- the first call
  obtain ⟨w1, hs1, hm1, hinv1, ht1, _, hle1, _, _, hg1⟩ :=
    set_field_reference_effect tt fuel ref next0 0 w hinv hb0.1 hb0.2.1
      hrefw.2.2.2.1 hnr.1 hnr.2 (by norm_num) hnp hfar_ref
  have hb1 := table_bound_step _ _ fuel hsize hfuel hle1
  -- the second call
  have hold : load w1.mem (local_ref_ptr tt it 0) 2 = load w.mem (local_ref_ptr tt it 0) 2 := by
    apply load_congr
    intro x h1 h2
    exact hm1 x (outside_of_disjoint _ _ x hdisj h1 h2)
  have hrn : raw_val ref ≠ NULL_REF := raw_val_ne_zero ref (by rw [← hpool]; exact hp0)
  obtain ⟨w2, hs2, hm2, hinv2, ht2, _, _, _, _, hg2⟩ :=
    set_field_reference_effect tt fuel it ref 0 w1 hinv1 hb1.2.2.1 hb1.2.2.2
      hitw.2.2.2.1 hrefw.2.1 hrefw.2.2.2.1 (by norm_num) (fun _ => hpool)
      (by rw [hold]; intro h; exact Or.inr (hfar_it h))
  have hget_it : get_field_reference tt it 0 w2 =
      { it with sub_pool_id := ref.sub_pool_id, index := ref.index } := by
    rw [hg2, if_neg]
    intro h
    rcases h with h | h
    · exact hrn h
    · exact hne h
  -- the field of `ref` after the second call
  have hget_ref : get_field_reference tt ref 0 w2 = get_field_reference tt ref 0 w1 := by
    apply get_field_reference_congr
    · apply load_congr
      intro x h1 h2
      exact hm2 x (outside_of_disjoint _ _ x hdisj.symm h1 h2)
    · intro _
      apply ht2
      intro h
      have h3 := tag_raw_inj ref it _ _ href hit h
      apply hne
      simp only [GET_GLOBAL_INDEX_OF_REF]
      rw [h3.2.1, h3.2.2.2.1]
  refine ⟨w2, ?_, hget_it, ?_, ?_, ?_, ?_, ?_⟩
  · simp only [iterator_list_insert, hlist, ne_eq, not_true_eq_false, if_false, hn0, hs1, hs2]
  · rw [hget_it]
    simp only [GET_GLOBAL_INDEX_OF_REF]
  · intro h0
    rw [hget_ref, hg1, if_pos (Or.inl h0)]
  · intro h0
    have hne2 : ¬ (raw_val next0 = NULL_REF ∨
        GET_GLOBAL_INDEX_OF_REF ref = GET_GLOBAL_INDEX_OF_REF next0) := by
      intro h
      rcases h with h | h
      · exact h0 h
      · rcases hnext with h1 | h1
        · exact h0 h1
        · exact h1 h.symm
    rw [hget_ref, hg1, if_neg hne2]
    refine ⟨rfl, ?_⟩
    simp only [GET_GLOBAL_INDEX_OF_REF]
  · intro x h1 h2
    rw [hm2 x h1, hm1 x h2]
  · intro key h1 h2
    rw [ht2 key h1, ht1 key h2]

/-- C21 (amended) at a concrete input: the list record 2 of pool 1 is inserted
after record 0, whose successor is record 1. -/
theorem C21_iterator_list_insert_witness :
    ∃ w2, iterator_list_insert basic_type_table 8192 true ⟨7, 0, 1, 0, 0, 0, 1⟩
        ⟨7, 0, 1, 2, 0, 0, 0⟩ ⟨store (fun _ => 0) 4294967296 2 1, table_init⟩ = some (w2, 0) ∧
      GET_GLOBAL_INDEX_OF_REF (get_field_reference basic_type_table ⟨7, 0, 1, 0, 0, 0, 1⟩ 0 w2)
        = 2 ∧
      GET_GLOBAL_INDEX_OF_REF (get_field_reference basic_type_table ⟨7, 0, 1, 2, 0, 0, 0⟩ 0 w2)
        = 1 := by
  have hptr0 : local_ref_ptr basic_type_table ⟨7, 0, 1, 0, 0, 0, 1⟩ 0 = 4294967296 := by decide
  have hptr2 : local_ref_ptr basic_type_table ⟨7, 0, 1, 2, 0, 0, 0⟩ 0 = 4294967300 := by decide
  have hl0 : load (store (fun _ => 0) 4294967296 2 1) 4294967296 2 = 1 := by
    rw [load_store_two]
  have hl2 : load (store (fun _ => 0) 4294967296 2 1) 4294967300 2 = 0 := by
    rw [load_store_other _ _ _ _ _ _ (by omega)]
    rfl
  have hget0 : get_field_reference basic_type_table ⟨7, 0, 1, 0, 0, 0, 1⟩ 0
      ⟨store (fun _ => 0) 4294967296 2 1, table_init⟩ = ⟨7, 0, 1, 1, 0, 0, 1⟩ := by
    simp only [get_field_reference, hptr0, hl0]
    decide
  obtain ⟨w2, h1, _, h3, _, h5, _⟩ := C21_iterator_list_insert basic_type_table 8192
    ⟨7, 0, 1, 0, 0, 0, 1⟩ ⟨7, 0, 1, 2, 0, 0, 0⟩ ⟨store (fun _ => 0) 4294967296 2 1, table_init⟩
    table_init_inv (by decide) (by decide) (by decide) (by decide) rfl (by decide) rfl rfl
    (by decide) (by decide) (by decide)
    (by rw [hget0]; exact Or.inr (by decide))
    (by rw [hptr0, hl0]; intro h; exact absurd rfl h)
    (by rw [hptr2, hl2]; intro h; exact absurd rfl h)
  rw [hget0] at h5
  exact ⟨w2, h1, h3, (h5 (by decide)).2⟩

/-- C22 as stated fails when the record after the successor is the iterator's
own record: the list iterator on record 5 of pool 1 has record 6 as its
successor, whose successor is record 5.  iterator_list_remove returns 0, but
it stores the 16-bit zero and get_field_reference then returns NULL_REF for
field 0 of the iterator, where the claim has record 5. -/
theorem C22_remove_in_a_cycle :
    ∃ w1, iterator_list_remove basic_type_table 0 true ⟨7, 0, 1, 5, 0, 0, 1⟩
        ⟨store (store (fun _ => 0) 4294967306 2 1) 4294967308 2 8191, table_init⟩ =
        some (w1, 0) ∧
      get_field_reference basic_type_table ⟨7, 0, 1, 5, 0, 0, 1⟩ 0
        ⟨store (store (fun _ => 0) 4294967306 2 1) 4294967308 2 8191, table_init⟩ =
        ⟨7, 0, 1, 6, 0, 0, 1⟩ ∧
      get_field_reference basic_type_table ⟨7, 0, 1, 6, 0, 0, 1⟩ 0
        ⟨store (store (fun _ => 0) 4294967306 2 1) 4294967308 2 8191, table_init⟩ =
        ⟨7, 0, 1, 5, 0, 0, 1⟩ ∧
      get_field_reference basic_type_table ⟨7, 0, 1, 5, 0, 0, 1⟩ 0 w1 = of_raw NULL_REF := by
  have hptr5 : local_ref_ptr basic_type_table ⟨7, 0, 1, 5, 0, 0, 1⟩ 0 = 4294967306 := by decide
  have hptr6 : local_ref_ptr basic_type_table ⟨7, 0, 1, 6, 0, 0, 1⟩ 0 = 4294967308 := by decide
  have hl5 : load (store (store (fun _ => 0) 4294967306 2 1) 4294967308 2 8191) 4294967306 2
      = 1 := by
    rw [load_store_other _ _ _ _ _ _ (by omega), load_store_two]
  have hl6 : load (store (store (fun _ => 0) 4294967306 2 1) 4294967308 2 8191) 4294967308 2
      = 8191 := by
    rw [load_store_two]
  have hget5 : get_field_reference basic_type_table ⟨7, 0, 1, 5, 0, 0, 1⟩ 0
      ⟨store (store (fun _ => 0) 4294967306 2 1) 4294967308 2 8191, table_init⟩ =
      ⟨7, 0, 1, 6, 0, 0, 1⟩ := by
    simp only [get_field_reference, hptr5, hl5]
    decide
  have hget6 : get_field_reference basic_type_table ⟨7, 0, 1, 6, 0, 0, 1⟩ 0
      ⟨store (store (fun _ => 0) 4294967306 2 1) 4294967308 2 8191, table_init⟩ =
      ⟨7, 0, 1, 5, 0, 0, 1⟩ := by
    simp only [get_field_reference, hptr6, hl6]
    decide
  have hset : set_field_reference basic_type_table 0 true ⟨7, 0, 1, 5, 0, 0, 1⟩
      ⟨7, 0, 1, 5, 0, 0, 1⟩ 0
      ⟨store (store (fun _ => 0) 4294967306 2 1) 4294967308 2 8191, table_init⟩ =
      some (⟨store (store (store (fun _ => 0) 4294967306 2 1) 4294967308 2 8191) 4294967306 2 0,
        table_init⟩, 0) := by
    simp only [set_field_reference, hptr5, hl5]
    rw [if_neg (by decide), if_neg (by decide), if_neg (by decide), if_neg (by decide)]
    have hv : local_raw ((GET_GLOBAL_INDEX_OF_REF ⟨7, 0, 1, 5, 0, 0, 1⟩ : Int) -
        (GET_GLOBAL_INDEX_OF_REF ⟨7, 0, 1, 5, 0, 0, 1⟩ : Int)) 0 0 = 0 := by decide
    rw [hv]
  refine ⟨⟨store (store (store (fun _ => 0) 4294967306 2 1) 4294967308 2 8191) 4294967306 2 0,
    table_init⟩, ?_, hget5, hget6, ?_⟩
  · simp only [iterator_list_remove, hget5, hget6, hset]
    rw [if_neg (by decide), if_neg (by decide)]
  · simp only [get_field_reference, hptr5, load_store_two]
    decide

/-- C22 (amended): for a list iterator `it`, iterator_list_remove returns 2 and
changes nothing when get_field_reference yields NULL_REF for field 0 of `it`.
Otherwise, with `next` the record that field 0 of `it` designates and `nn` the
one that field 0 of `next` designates (through the handle that
get_field_reference returned), when `nn` is not the record of `it` itself and
the call does not have to replace a far reference by a near one:
iterator_list_remove returns 0 and get_field_reference then yields `nn` for
field 0 of `it`, or NULL_REF if `nn` was NULL_REF; the memory outside the two
bytes of field 0 of `it` is unchanged, which leaves the fields of the record
removed as they were, and so are the lookups of the tags of all other fields.
The call takes no pool handle: the population is not touched. -/
theorem C22_iterator_list_remove (tt : Type_table) (fuel : Nat) (it : pool_struct) (w : world)
    (hinv : table_inv w.table) (hsize : w.table.hash_table_size * 2 < SIZE_MAX1)
    (hfuel : max PAGE_SIZE (2 * w.table.hash_table_size) ≤ fuel)
    (hit : it.wf) (hlist : iterator_type it = ITERATOR_LIST) (hp0 : it.pool_id ≠ 0) :
    (raw_val (get_field_reference tt it 0 w) = NULL_REF →
      iterator_list_remove tt fuel true it w = some (w, 2)) ∧
    (raw_val (get_field_reference tt it 0 w) ≠ NULL_REF →
      (raw_val (get_field_reference tt (get_field_reference tt it 0 w) 0 w) = NULL_REF ∨
        GET_GLOBAL_INDEX_OF_REF (get_field_reference tt (get_field_reference tt it 0 w) 0 w) ≠
          GET_GLOBAL_INDEX_OF_REF it) →
      (local_is_long_ref (load w.mem (local_ref_ptr tt it 0) 2) ≠ 0 →
        raw_val (get_field_reference tt (get_field_reference tt it 0 w) 0 w) = NULL_REF ∨
        GET_GLOBAL_INDEX_OF_REF it + PAGE_SIZE ≤
          GET_GLOBAL_INDEX_OF_REF (get_field_reference tt (get_field_reference tt it 0 w) 0 w) ∨
        GET_GLOBAL_INDEX_OF_REF (get_field_reference tt (get_field_reference tt it 0 w) 0 w) +
          PAGE_SIZE ≤ GET_GLOBAL_INDEX_OF_REF it) →
      ∃ w1, iterator_list_remove tt fuel true it w = some (w1, 0) ∧
        (raw_val (get_field_reference tt (get_field_reference tt it 0 w) 0 w) = NULL_REF →
          get_field_reference tt it 0 w1 = of_raw NULL_REF) ∧
        (raw_val (get_field_reference tt (get_field_reference tt it 0 w) 0 w) ≠ NULL_REF →
          get_field_reference tt it 0 w1 =
            { it with
              sub_pool_id :=
                (get_field_reference tt (get_field_reference tt it 0 w) 0 w).sub_pool_id,
              index := (get_field_reference tt (get_field_reference tt it 0 w) 0 w).index } ∧
          GET_GLOBAL_INDEX_OF_REF (get_field_reference tt it 0 w1) =
            GET_GLOBAL_INDEX_OF_REF
              (get_field_reference tt (get_field_reference tt it 0 w) 0 w)) ∧
        (∀ x, x < local_ref_ptr tt it 0 ∨ local_ref_ptr tt it 0 + 2 ≤ x → w1.mem x = w.mem x) ∧
        (∀ key, key ≠ tag_raw it (local_raw 0 1 0) →
          expand_local_reference w1.table key = expand_local_reference w.table key)) := by
  have hitw := hit
  simp only [pool_struct.wf] at hitw
  constructor
  · intro h0
    simp only [iterator_list_remove, hlist, ne_eq, not_true_eq_false, if_false, h0, if_true]
  · intro h0
    generalize hn0 : get_field_reference tt it 0 w = next0 at h0 ⊢
    have hshape := get_field_reference_shape tt it 0 w hp0
    rw [hn0] at hshape
    have hnp : next0.pool_id = it.pool_id := by
      rcases hshape with ⟨h, _⟩ | ⟨_, _, _, h3⟩
      · exact absurd h h0
      · rw [h3]
    generalize hn1 : get_field_reference tt next0 0 w = nn
    intro hnn hslip
    have hshape1 := get_field_reference_shape tt next0 0 w (by rw [hnp]; exact hp0)
    rw [hn1] at hshape1
    have hnr : nn.sub_pool_id < 65536 ∧ nn.index < 4096 := by
      rcases hshape1 with ⟨_, h⟩ | ⟨_, h1, h2, _⟩
      · rw [h]; exact ⟨by decide, by decide⟩
      · exact ⟨h1, h2⟩
    have hnnp : raw_val nn ≠ NULL_REF → it.pool_id = nn.pool_id := by
      intro h
      rcases hshape1 with ⟨h1, _⟩ | ⟨_, _, _, h3⟩
      · exact absurd h1 h
      · rw [h3, hnp]
    obtain ⟨w1, hs1, hm1, _, ht1, _, _, _, _, hg1⟩ :=
      set_field_reference_effect tt fuel it nn 0 w hinv hsize hfuel
        hitw.2.2.2.1 hnr.1 hnr.2 (by norm_num) hnnp hslip
    refine ⟨w1, ?_, ?_, ?_, hm1, ht1⟩
    · simp only [iterator_list_remove, hlist, ne_eq, not_true_eq_false, if_false, hn0, h0, hn1,
        hs1]
    · intro h
      rw [hg1, if_pos (Or.inl h)]
    · intro h
      have hne2 : ¬ (raw_val nn = NULL_REF ∨
          GET_GLOBAL_INDEX_OF_REF it = GET_GLOBAL_INDEX_OF_REF nn) := by
        intro h2
        rcases h2 with h2 | h2
        · exact h h2
        · rcases hnn with h1 | h1
          · exact h h1
          · exact h1 h2.symm
      rw [hg1, if_neg hne2]
      refine ⟨rfl, ?_⟩
      simp only [GET_GLOBAL_INDEX_OF_REF]

/-- C22 (amended) at a concrete input: the list iterator on record 0 of pool 1,
whose successor is record 1 with successor record 2. -/
theorem C22_iterator_list_remove_witness :
    ∃ w1, iterator_list_remove basic_type_table 4096 true ⟨7, 0, 1, 0, 0, 0, 1⟩
        ⟨store (store (fun _ => 0) 4294967296 2 1) 4294967298 2 1, table_init⟩ = some (w1, 0) ∧
      GET_GLOBAL_INDEX_OF_REF (get_field_reference basic_type_table ⟨7, 0, 1, 0, 0, 0, 1⟩ 0 w1)
        = 2 := by
  have hptr0 : local_ref_ptr basic_type_table ⟨7, 0, 1, 0, 0, 0, 1⟩ 0 = 4294967296 := by decide
  have hptr1 : local_ref_ptr basic_type_table ⟨7, 0, 1, 1, 0, 0, 1⟩ 0 = 4294967298 := by decide
  have hl0 : load (store (store (fun _ => 0) 4294967296 2 1) 4294967298 2 1) 4294967296 2
      = 1 := by
    rw [load_store_other _ _ _ _ _ _ (by omega), load_store_two]
  have hl1 : load (store (store (fun _ => 0) 4294967296 2 1) 4294967298 2 1) 4294967298 2
      = 1 := by
    rw [load_store_two]
  have hget0 : get_field_reference basic_type_table ⟨7, 0, 1, 0, 0, 0, 1⟩ 0
      ⟨store (store (fun _ => 0) 4294967296 2 1) 4294967298 2 1, table_init⟩ =
      ⟨7, 0, 1, 1, 0, 0, 1⟩ := by
    simp only [get_field_reference, hptr0, hl0]
    decide
  have hget1 : get_field_reference basic_type_table ⟨7, 0, 1, 1, 0, 0, 1⟩ 0
      ⟨store (store (fun _ => 0) 4294967296 2 1) 4294967298 2 1, table_init⟩ =
      ⟨7, 0, 1, 2, 0, 0, 1⟩ := by
    simp only [get_field_reference, hptr1, hl1]
    decide
  have h := (C22_iterator_list_remove basic_type_table 4096 ⟨7, 0, 1, 0, 0, 0, 1⟩
    ⟨store (store (fun _ => 0) 4294967296 2 1) 4294967298 2 1, table_init⟩
    table_init_inv (by decide) (by decide) (by decide) rfl (by decide)).2
  rw [hget0, hget1, hptr0, hl0] at h
  obtain ⟨w1, h1, _, h3, _⟩ := h (by decide) (Or.inr (by decide))
    (fun hc => absurd rfl hc)
  exact ⟨w1, h1, (h3 (by decide)).2⟩

/-! ## Addresses computed step by step -/

theorem addr_steps (P O S F i j M : Nat) :
    (((P % M + O % M) % M + i * (S % M)) % M + j * F) % M = (P + i * S + O + F * j) % M := by
  apply (ZMod.natCast_eq_natCast_iff' _ _ _).1
  simp only [ZMod.natCast_mod, Nat.cast_add, Nat.cast_mul, Nat.cast_zero]
  ring

theorem addr_steps_remainder (P O S F i j M : Nat) :
    ((P % M + O % M) % M + i * (S % M) + j * F) % M = (P + i * S + O + F * j) % M := by
  apply (ZMod.natCast_eq_natCast_iff' _ _ _).1
  simp only [ZMod.natCast_mod, Nat.cast_add, Nat.cast_mul, Nat.cast_zero]
  ring

theorem addr_steps_target (P S F i j M : Nat) :
    ((P % M + i * (S % M)) % M + j * F) % M = (P + i * S + 0 + F * j) % M := by
  apply (ZMod.natCast_eq_natCast_iff' _ _ _).1
  simp only [ZMod.natCast_mod, Nat.cast_add, Nat.cast_mul, Nat.cast_zero]
  ring

theorem addr_steps_target_remainder (P S F i j M : Nat) :
    (P % M + i * (S % M) + j * F) % M = (P + i * S + 0 + F * j) % M := by
  apply (ZMod.natCast_eq_natCast_iff' _ _ _).1
  simp only [ZMod.natCast_mod, Nat.cast_add, Nat.cast_mul, Nat.cast_zero]
  ring

/-! ## The calls of field_map -/

theorem field_map_page_calls (f : map_function) (a b fs tfs : Nat) :
    ∀ n j mem, (field_map_page f a b fs tfs n j mem).2 =
      (List.range n).map (fun t => ((a + (j + t) * fs) % SIZE_MAX1,
        (b + (j + t) * tfs) % SIZE_MAX1)) := by
  intro n
  induction n with
  | zero => intro j mem; rfl
  | succ n ih =>
    intro j mem
    rw [field_map_page, List.range_succ_eq_map, List.map_cons, List.map_map]
    simp only [ih, Nat.add_zero, List.cons.injEq, true_and]
    apply List.map_congr_left
    intro t _
    simp only [Function.comp, Nat.succ_eq_add_one]
    rw [show j + 1 + t = j + (t + 1) by omega]

theorem field_map_subpools_calls (f : map_function) (a_base b_base sps tsps fs tfs : Nat) :
    ∀ n i mem, (field_map_subpools f a_base b_base sps tsps fs tfs n i mem).2 =
      (List.range (n * PAGE_SIZE)).map (fun t =>
        (((a_base + (i * PAGE_SIZE + t) / PAGE_SIZE * sps) % SIZE_MAX1 +
            (i * PAGE_SIZE + t) % PAGE_SIZE * fs) % SIZE_MAX1,
          ((b_base + (i * PAGE_SIZE + t) / PAGE_SIZE * tsps) % SIZE_MAX1 +
            (i * PAGE_SIZE + t) % PAGE_SIZE * tfs) % SIZE_MAX1)) := by
  intro n
  induction n with
  | zero => intro i mem; simp [field_map_subpools]
  | succ n ih =>
    intro i mem
    have hleft : (field_map_page f ((a_base + i * sps) % SIZE_MAX1)
        ((b_base + i * tsps) % SIZE_MAX1) fs tfs PAGE_SIZE 0 mem).2 =
        (List.range PAGE_SIZE).map (fun t =>
          (((a_base + (i * PAGE_SIZE + t) / PAGE_SIZE * sps) % SIZE_MAX1 +
              (i * PAGE_SIZE + t) % PAGE_SIZE * fs) % SIZE_MAX1,
            ((b_base + (i * PAGE_SIZE + t) / PAGE_SIZE * tsps) % SIZE_MAX1 +
              (i * PAGE_SIZE + t) % PAGE_SIZE * tfs) % SIZE_MAX1)) := by
      rw [field_map_page_calls]
      apply List.map_congr_left
      intro t ht
      have ht1 : t < PAGE_SIZE := List.mem_range.1 ht
      have e1 : (i * PAGE_SIZE + t) / PAGE_SIZE = i := by
        simp only [PAGE_SIZE] at ht1 ⊢
        omega
      have e2 : (i * PAGE_SIZE + t) % PAGE_SIZE = t := by
        simp only [PAGE_SIZE] at ht1 ⊢
        omega
      rw [e1, e2, Nat.zero_add]
    have hsucc : field_map_subpools f a_base b_base sps tsps fs tfs (n + 1) i mem =
      ((field_map_subpools f a_base b_base sps tsps fs tfs n (i + 1)
          (field_map_page f ((a_base + i * sps) % SIZE_MAX1) ((b_base + i * tsps) % SIZE_MAX1)
            fs tfs PAGE_SIZE 0 mem).1).1,
        (field_map_page f ((a_base + i * sps) % SIZE_MAX1) ((b_base + i * tsps) % SIZE_MAX1)
            fs tfs PAGE_SIZE 0 mem).2 ++
        (field_map_subpools f a_base b_base sps tsps fs tfs n (i + 1)
          (field_map_page f ((a_base + i * sps) % SIZE_MAX1) ((b_base + i * tsps) % SIZE_MAX1)
            fs tfs PAGE_SIZE 0 mem).1).2) := rfl
    rw [hsucc]
    simp only
    rw [hleft, ih, show (n + 1) * PAGE_SIZE = PAGE_SIZE + n * PAGE_SIZE by
      rw [Nat.add_mul, Nat.one_mul, Nat.add_comm], List.range_add, List.map_append, List.map_map]
    have hright : ∀ t, (i + 1) * PAGE_SIZE + t = i * PAGE_SIZE + (PAGE_SIZE + t) := by
      intro t
      rw [Nat.add_mul, Nat.one_mul, Nat.add_assoc]
    simp only [Function.comp_def, hright]

theorem field_map_remainder_calls (f : map_function)
    (a_base b_base full sps tsps fs tfs : Nat) :
    ∀ n i mem, (field_map_remainder f a_base b_base full sps tsps fs tfs n i mem).2 =
      (List.range n).map (fun t => ((a_base + full * sps + (i + t) * fs) % SIZE_MAX1,
        (b_base + full * tsps + (i + t) * tfs) % SIZE_MAX1)) := by
  intro n
  induction n with
  | zero => intro i mem; rfl
  | succ n ih =>
    intro i mem
    rw [field_map_remainder, List.range_succ_eq_map, List.map_cons, List.map_map]
    simp only [ih, Nat.add_zero, List.cons.injEq, true_and]
    apply List.map_congr_left
    intro t _
    simp only [Function.comp, Nat.succ_eq_add_one]
    rw [show i + 1 + t = i + (t + 1) by omega]

theorem pool_grow_ret (tt : Type_table) (B : pool_struct) (n : Nat) (hB : B.pool_id ≠ 0) :
    (pool_grow tt true B n).ret = 0 := by
  simp only [pool_grow]
  rw [if_neg]
  unfold pool_add_elements
  simp only [Bool.not_true, Bool.false_eq_true, if_false]
  split_ifs <;> exact raw_val_ne_zero _ hB

/-- The calls of `f` made by field_map: one for each absolute index below the
population of `A`, in order, with the addresses of field `field_no` of that
record of `A` and of field 0 of that record of `B`. -/
theorem field_map_calls (tt : Type_table) (f : map_function) (A B : pool_struct) (k : Nat)
    (mem : Mem) (hB : B.pool_id ≠ 0) (hoff : (field_entry tt B.type_id 0).offset = 0) :
    (field_map tt true f A B k mem).ret = 0 ∧
    (field_map tt true f A B k mem).pool = (pool_grow tt true B (GET_SIZE_OF_POOL A)).pool ∧
    (field_map tt true f A B k mem).calls =
      (List.range (GET_SIZE_OF_POOL A)).map (fun i =>
        (field_address tt (at_index A i) k % SIZE_MAX1,
          field_address tt (at_index B i) 0 % SIZE_MAX1)) := by
  have hg := pool_grow_ret tt B (GET_SIZE_OF_POOL A) hB
  have hp : PAGE_SIZE = 4096 := rfl
  simp only [field_map, hg, ne_eq, not_true_eq_false, if_false, true_and]
  rw [field_map_subpools_calls, field_map_remainder_calls]
  generalize GET_SIZE_OF_POOL A = m
  have hG : ∀ x, (((((GET_POOL_ADDR A + GET_FIELD_OFFSET tt A k) % SIZE_MAX1 +
        (0 * PAGE_SIZE + x) / PAGE_SIZE * GET_SUB_POOL_SIZE tt A) % SIZE_MAX1 +
        (0 * PAGE_SIZE + x) % PAGE_SIZE * GET_FIELD_SIZE tt A k) % SIZE_MAX1,
      ((GET_POOL_ADDR B + (0 * PAGE_SIZE + x) / PAGE_SIZE * GET_SUB_POOL_SIZE tt B) % SIZE_MAX1 +
        (0 * PAGE_SIZE + x) % PAGE_SIZE * GET_FIELD_SIZE tt B 0) % SIZE_MAX1) : Nat × Nat) =
      (field_address tt (at_index A x) k % SIZE_MAX1,
        field_address tt (at_index B x) 0 % SIZE_MAX1) := by
    intro x
    simp only [GET_POOL_ADDR, GET_FIELD_OFFSET, GET_SUB_POOL_SIZE, GET_FIELD_SIZE, field_address,
      at_index, hoff, Nat.zero_mul, Nat.zero_add, hp]
    rw [addr_steps, addr_steps_target]
  have hR : ∀ t, t < m % PAGE_SIZE →
      ((((GET_POOL_ADDR A + GET_FIELD_OFFSET tt A k) % SIZE_MAX1 +
        m / PAGE_SIZE * GET_SUB_POOL_SIZE tt A + (0 + t) * GET_FIELD_SIZE tt A k) % SIZE_MAX1,
      (GET_POOL_ADDR B + m / PAGE_SIZE * GET_SUB_POOL_SIZE tt B +
        (0 + t) * GET_FIELD_SIZE tt B 0) % SIZE_MAX1) : Nat × Nat) =
      (field_address tt (at_index A (m / PAGE_SIZE * PAGE_SIZE + t)) k % SIZE_MAX1,
        field_address tt (at_index B (m / PAGE_SIZE * PAGE_SIZE + t)) 0 % SIZE_MAX1) := by
    intro t ht
    have ht1 : t < 4096 := by
      have := Nat.mod_lt m (by norm_num : 0 < 4096)
      rw [hp] at ht
      omega
    have e1 : (m / 4096 * 4096 + t) / 4096 = m / 4096 := by omega
    have e2 : (m / 4096 * 4096 + t) % 4096 = t := by omega
    simp only [GET_POOL_ADDR, GET_FIELD_OFFSET, GET_SUB_POOL_SIZE, GET_FIELD_SIZE, field_address,
      at_index, hoff, Nat.zero_mul, Nat.zero_add, hp, e1, e2]
    rw [addr_steps_remainder, addr_steps_target_remainder]
  have hm : m = m / PAGE_SIZE * PAGE_SIZE + m % PAGE_SIZE := (Nat.div_add_mod' m PAGE_SIZE).symm
  conv_rhs => rw [hm, List.range_add, List.map_append, List.map_map]
  simp only [hG]
  rw [List.append_cancel_left_eq]
  apply List.map_congr_left
  intro t ht
  simp only [Function.comp]
  exact hR t (List.mem_range.1 ht)

/-! ## Claim C29: field_map -/

/-- What pool_get_ref returns for an index that a pool can hold. -/
theorem pool_get_ref_members (p : pool_struct) (i : Nat) (hi : i < 2 ^ 28) :
    ∃ r, pool_get_ref p i = some r ∧ r.type_id = p.type_id ∧ r.pool_id = p.pool_id ∧
      r.sub_pool_id = i / 4096 ∧ r.index = i % 4096 ∧ r.full = 0 ∧ r.is_extended = 0 ∧
      r.gc_state = 0 := by
  have h1 : ¬ (i / 4096 / 65536 ≠ 0) := by omega
  refine ⟨set_raw_index { p with sub_pool_id := i / 4096 % 2 ^ 16 } (i % 4096 % 2 ^ 16), ?_, ?_⟩
  · simp only [pool_get_ref, GLOBAL_INDEX_TO_SUBPOOL_ID, GLOBAL_INDEX_TO_SUBPOOL_OFFSET,
      Nat.reducePow, Nat.reduceSub, and_mask12, shift12, shift16, h1, if_false]
  · simp only [set_raw_index, Nat.reducePow, true_and]
    omega

/-- The address of a field depends on the type, the pool, the subpool and the
index of the handle only. -/
theorem field_address_congr (tt : Type_table) (r r1 : reference_struct) (k : Nat)
    (h1 : r.type_id = r1.type_id) (h2 : r.pool_id = r1.pool_id)
    (h3 : r.sub_pool_id = r1.sub_pool_id) (h4 : r.index = r1.index) :
    field_address tt r k = field_address tt r1 k := by
  simp only [field_address, h1, h2, h3, h4]

theorem pool_size_le (A : pool_struct) (hs : A.sub_pool_id < 65536) (hi : A.index < 4096) :
    GET_SIZE_OF_POOL A ≤ 2 ^ 28 := by
  simp only [GET_SIZE_OF_POOL, PAGE_SIZE]
  split_ifs <;> omega

/-- C29 (the code departs from the claim for an empty source pool): for a
source pool `A` and an empty destination pool `B` whose field 0 starts the
record, with the mapping of pool_grow succeeding, field_map returns 0 and
calls `f` exactly once for each absolute index below the population of `A`,
in order, with the address that get_field yields for field `field_no` of that
record of `A` and the one it yields for field 0 of that record of `B`; the
population of `B` is then that of `A` when `A` holds a record.  For an empty
`A` no call is made, but pool_grow by 0 marks the empty subpool of `B` as full,
and the population of `B` reads 4096. -/
theorem C29_field_map (tt : Type_table) (f : map_function) (A B : pool_struct) (k : Nat)
    (mem : Mem) (hAs : A.sub_pool_id < 65536) (hAi : A.index < 4096)
    (hB : B.pool_id ≠ 0) (hBs : B.sub_pool_id = 0) (hBi : B.index = 0) (hBf : B.full = 0)
    (hoff : (field_entry tt B.type_id 0).offset = 0) :
    (field_map tt true f A B k mem).ret = 0 ∧
    (field_map tt true f A B k mem).calls.length = GET_SIZE_OF_POOL A ∧
    (∀ i, i < GET_SIZE_OF_POOL A →
      ∃ ra rb, pool_get_ref A i = some ra ∧
        get_field tt ra k = some ((field_map tt true f A B k mem).calls.getD i (0, 0)).1 ∧
        pool_get_ref (field_map tt true f A B k mem).pool i = some rb ∧
        get_field tt rb 0 = some ((field_map tt true f A B k mem).calls.getD i (0, 0)).2) ∧
    (1 ≤ GET_SIZE_OF_POOL A →
      GET_SIZE_OF_POOL (field_map tt true f A B k mem).pool = GET_SIZE_OF_POOL A) ∧
    (GET_SIZE_OF_POOL A = 0 →
      (field_map tt true f A B k mem).calls = [] ∧
      GET_SIZE_OF_POOL B = 0 ∧
      (field_map tt true f A B k mem).pool = { B with full := 1 } ∧
      GET_SIZE_OF_POOL (field_map tt true f A B k mem).pool = 4096) := by
  obtain ⟨hret, hpool, hcalls⟩ := field_map_calls tt f A B k mem hB hoff
  have hm := pool_size_le A hAs hAi
  have hB0 : GET_SIZE_OF_POOL B = 0 := by
    simp only [GET_SIZE_OF_POOL, hBs, hBi, hBf]
    simp
  refine ⟨hret, ?_, ?_, ?_, ?_⟩
  · rw [hcalls, List.length_map, List.length_range]
  · intro i hi
    obtain ⟨ra, hra, a1, a2, a3, a4, _, a6, _⟩ := pool_get_ref_members A i (by omega)
    obtain ⟨rb, hrb, b1, b2, b3, b4, _, b6, _⟩ :=
      pool_get_ref_members (field_map tt true f A B k mem).pool i (by omega)
    have hty := pool_add_elements_type tt B (GET_SIZE_OF_POOL A)
    have hget : (field_map tt true f A B k mem).calls.getD i (0, 0) =
        (field_address tt (at_index A i) k % SIZE_MAX1,
          field_address tt (at_index B i) 0 % SIZE_MAX1) := by
      rw [hcalls, List.getD_eq_getElem _ _ (by rw [List.length_map, List.length_range]; exact hi),
        List.getElem_map, List.getElem_range]
    refine ⟨ra, rb, hra, ?_, hrb, ?_⟩
    · rw [hget, get_field_eq tt ra k a6]
      simp only
      rw [field_address_congr tt ra (at_index A i) k a1 a2 a3 a4]
    · rw [hget, get_field_eq tt rb 0 b6]
      simp only
      rw [field_address_congr tt rb (at_index B i) 0 (by rw [b1, hpool]; exact hty.1)
        (by rw [b2, hpool]; exact hty.2) b3 b4]
  · intro h1
    rw [hpool]
    have := pool_add_elements_size tt B (GET_SIZE_OF_POOL A) (by omega) (by intro h; exact hBi)
      (by intro h; omega) (by omega)
    simp only [pool_grow]
    rw [this, hB0, Nat.zero_add]
  · intro h0
    refine ⟨?_, hB0, ?_, ?_⟩
    · rw [hcalls, h0]
      rfl
    · rw [hpool, h0]
      obtain ⟨t, s, pid, i, fl, e, g⟩ := B
      simp only at hBs hBi hBf
      subst hBs hBi hBf
      simp [pool_grow, pool_add_elements, PAGE_SIZE]
    · rw [hpool, h0]
      obtain ⟨t, s, pid, i, fl, e, g⟩ := B
      simp only at hBs hBi hBf
      subst hBs hBi hBf
      simp [pool_grow, pool_add_elements, PAGE_SIZE, GET_SIZE_OF_POOL]

/-- C29 at concrete inputs: the second field of a list pool of 4097 records
mapped into an empty pool of longs, which then holds 4097 records, and an
empty list pool, after which the pool of longs reads 4096 records. -/
theorem C29_field_map_witness :
    (field_map basic_type_table true (fun _ _ m => m) ⟨7, 1, 1, 1, 0, 0, 0⟩ ⟨1, 0, 2, 0, 0, 0, 0⟩
      1 (fun _ => 0)).calls.length = 4097 ∧
    GET_SIZE_OF_POOL (field_map basic_type_table true (fun _ _ m => m) ⟨7, 1, 1, 1, 0, 0, 0⟩
      ⟨1, 0, 2, 0, 0, 0, 0⟩ 1 (fun _ => 0)).pool = 4097 ∧
    GET_SIZE_OF_POOL (⟨7, 0, 1, 0, 0, 0, 0⟩ : pool_struct) = 0 ∧
    (field_map basic_type_table true (fun _ _ m => m) ⟨7, 0, 1, 0, 0, 0, 0⟩ ⟨1, 0, 2, 0, 0, 0, 0⟩
      1 (fun _ => 0)).ret = 0 ∧
    GET_SIZE_OF_POOL (field_map basic_type_table true (fun _ _ m => m) ⟨7, 0, 1, 0, 0, 0, 0⟩
      ⟨1, 0, 2, 0, 0, 0, 0⟩ 1 (fun _ => 0)).pool = 4096 :=
  ⟨(C29_field_map basic_type_table (fun _ _ m => m) ⟨7, 1, 1, 1, 0, 0, 0⟩ ⟨1, 0, 2, 0, 0, 0, 0⟩
      1 (fun _ => 0) (by decide) (by decide) (by decide) rfl rfl rfl rfl).2.1,
    (C29_field_map basic_type_table (fun _ _ m => m) ⟨7, 1, 1, 1, 0, 0, 0⟩ ⟨1, 0, 2, 0, 0, 0, 0⟩
      1 (fun _ => 0) (by decide) (by decide) (by decide) rfl rfl rfl rfl).2.2.2.1 (by decide),
    by decide,
    (C29_field_map basic_type_table (fun _ _ m => m) ⟨7, 0, 1, 0, 0, 0, 0⟩ ⟨1, 0, 2, 0, 0, 0, 0⟩
      1 (fun _ => 0) (by decide) (by decide) (by decide) rfl rfl rfl rfl).1,
    ((C29_field_map basic_type_table (fun _ _ m => m) ⟨7, 0, 1, 0, 0, 0, 0⟩ ⟨1, 0, 2, 0, 0, 0, 0⟩
      1 (fun _ => 0) (by decide) (by decide) (by decide) rfl rfl rfl rfl).2.2.2.2 (by decide)).2.2.2⟩

/-! ## Lists stored in a pool -/

theorem ref_not_found_big : ¬ REF_NOT_FOUND < 2 ^ 28 := by
  simp only [REF_NOT_FOUND, SIZE_MAX1]
  norm_num

theorem list_chain_head_lt (tt : Type_table) (w : world) (A : reference_struct) (i : Nat)
    (rest : List Nat) (h : list_chain tt w A (i :: rest)) : i < 2 ^ 28 := by
  cases rest with
  | nil => exact h.1
  | cons j rest => exact h.1

/-- A list is determined by its first record. -/
theorem list_chain_unique (tt : Type_table) (w : world) (A : reference_struct) :
    ∀ c c1 : List Nat, list_chain tt w A c → list_chain tt w A c1 → c.head? = c1.head? →
      c = c1 := by
  intro c
  induction c with
  | nil => intro c1 h; exact absurd h (by simp [list_chain])
  | cons i rest ih =>
    intro c1 h h1 hh
    cases c1 with
    | nil => exact absurd h1 (by simp [list_chain])
    | cons i1 rest1 =>
      simp only [List.head?_cons, Option.some.injEq] at hh
      subst hh
      cases rest with
      | nil =>
        cases rest1 with
        | nil => rfl
        | cons j1 r1 =>
          exfalso
          have hj := list_chain_head_lt tt w A j1 r1 h1.2.2
          have e1 := h.2
          have e2 := h1.2.1
          rw [e1] at e2
          rw [← e2] at hj
          exact ref_not_found_big hj
      | cons j r =>
        cases rest1 with
        | nil =>
          exfalso
          have hj := list_chain_head_lt tt w A j r h.2.2
          have e1 := h.2.1
          have e2 := h1.2
          rw [e2] at e1
          rw [← e1] at hj
          exact ref_not_found_big hj
        | cons j1 r1 =>
          have e1 := h.2.1
          have e2 := h1.2.1
          have hjj : j = j1 := by rw [← e1, ← e2]
          subst hjj
          have := ih (j :: r1) h.2.2 h1.2.2 rfl
          rw [this]

theorem list_chain_tail (tt : Type_table) (w : world) (A : reference_struct) (i j : Nat)
    (rest : List Nat) (h : list_chain tt w A (i :: j :: rest)) :
    list_chain tt w A (j :: rest) := h.2.2

/-- From every record of a list on, the rest of the list is a list. -/
theorem list_chain_suffix (tt : Type_table) (w : world) (A : reference_struct) :
    ∀ c : List Nat, list_chain tt w A c → ∀ x ∈ c,
      ∃ s, s.length ≤ c.length ∧ s.head? = some x ∧ list_chain tt w A s := by
  intro c
  induction c with
  | nil => intro h; exact absurd h (by simp [list_chain])
  | cons i rest ih =>
    intro h x hx
    rcases List.mem_cons.1 hx with hx | hx
    · exact ⟨i :: rest, le_refl _, by rw [hx]; rfl, h⟩
    · cases rest with
      | nil => exact absurd hx (List.not_mem_nil _)
      | cons j r =>
        obtain ⟨s, hs1, hs2, hs3⟩ := ih h.2.2 x hx
        exact ⟨s, by simp only [List.length_cons] at hs1 ⊢; omega, hs2, hs3⟩

/-- The records of a list are all different and lie below `2 ^ 28`. -/
theorem list_chain_nodup (tt : Type_table) (w : world) (A : reference_struct) :
    ∀ c : List Nat, list_chain tt w A c → c.Nodup ∧ ∀ x ∈ c, x < 2 ^ 28 := by
  intro c
  induction c with
  | nil => intro h; exact absurd h (by simp [list_chain])
  | cons i rest ih =>
    intro h
    cases rest with
    | nil =>
      refine ⟨List.nodup_singleton i, ?_⟩
      intro x hx
      rw [List.mem_singleton.1 hx]
      exact h.1
    | cons j r =>
      obtain ⟨hnd, hlt⟩ := ih h.2.2
      constructor
      · rw [List.nodup_cons]
        refine ⟨?_, hnd⟩
        intro hmem
        obtain ⟨s, hs1, hs2, hs3⟩ := list_chain_suffix tt w A (j :: r) h.2.2 i hmem
        have := list_chain_unique tt w A s (i :: j :: r) hs3 h (by rw [hs2]; rfl)
        rw [this] at hs1
        simp only [List.length_cons] at hs1
        omega
      · intro x hx
        rcases List.mem_cons.1 hx with hx | hx
        · rw [hx]; exact h.1
        · exact hlt x hx

theorem list_chain_length (tt : Type_table) (w : world) (A : reference_struct) (c : List Nat)
    (h : list_chain tt w A c) : c.length ≤ 2 ^ 28 := by
  obtain ⟨hnd, hlt⟩ := list_chain_nodup tt w A c h
  have h1 : c.toFinset ⊆ Finset.range (2 ^ 28) := by
    intro x hx
    rw [Finset.mem_range]
    exact hlt x (List.mem_toFinset.1 hx)
  have h2 := Finset.card_le_card h1
  rw [List.toFinset_card_of_nodup hnd, Finset.card_range] at h2
  exact h2

/-- Whether records form a list depends on the memory through the two bytes of
field 0 of these records only. -/
theorem list_chain_congr (tt : Type_table) (T : table_state) (A : reference_struct)
    (m m1 : Mem) :
    ∀ c : List Nat,
      (∀ i ∈ c, load m1 (local_ref_ptr tt (at_index A i) 0) 2 =
        load m (local_ref_ptr tt (at_index A i) 0) 2) →
      list_chain tt ⟨m, T⟩ A c → list_chain tt ⟨m1, T⟩ A c := by
  intro c
  induction c with
  | nil => intro _ h; exact h
  | cons i rest ih =>
    intro hm h
    have hi : stored_index tt (at_index A i) 0 ⟨m1, T⟩ = stored_index tt (at_index A i) 0 ⟨m, T⟩ := by
      simp only [stored_index, hm i (List.mem_cons_self _ _)]
    cases rest with
    | nil => exact ⟨h.1, by rw [hi]; exact h.2⟩
    | cons j r =>
      exact ⟨h.1, by rw [hi]; exact h.2.1,
        ih (fun x hx => hm x (List.mem_cons_of_mem _ hx)) h.2.2⟩

/-! ## Claim C30: field_list_map -/

theorem cursor_at_size (p : pool_struct) (k : Nat) : GET_SIZE_OF_POOL (cursor_at p k) = k := by
  simp only [GET_SIZE_OF_POOL, cursor_at, PAGE_SIZE]
  split_ifs <;> omega

theorem cursor_at_zero (B : pool_struct) (hBs : B.sub_pool_id = 0) (hBi : B.index = 0)
    (hBf : B.full = 0) : cursor_at B 0 = B := by
  obtain ⟨t, s, pid, i, fl, e, g⟩ := B
  simp only at hBs hBi hBf
  subst hBs hBi hBf
  rfl

theorem cursor_at_idem (B : pool_struct) (j k : Nat) : cursor_at (cursor_at B j) k = cursor_at B k := by
  rfl

theorem addr_steps_list (P O S F i j M : Nat) :
    ((P % M + O % M) % M + S % M * i + F * j) % M = (P + i * S + O + F * j) % M := by
  apply (ZMod.natCast_eq_natCast_iff' _ _ _).1
  simp only [ZMod.natCast_mod, Nat.cast_add, Nat.cast_mul, Nat.cast_zero]
  ring

theorem addr_slot (P F j M : Nat) :
    (P % M + j * F) % M = (P + j / 4096 * (F * 4096) + 0 * 4096 + F * (j % 4096)) % M := by
  have h : j / 4096 * (F * 4096) + F * (j % 4096) = j * F := by
    have := Nat.div_add_mod j 4096
    calc j / 4096 * (F * 4096) + F * (j % 4096) = F * (4096 * (j / 4096) + j % 4096) := by ring
      _ = j * F := by rw [this, Nat.mul_comm]
  rw [Nat.mod_add_mod, Nat.zero_mul, Nat.add_zero, Nat.add_assoc, h]

/-- The index that the loop of field_list_map goes on with is the one stored
in field 0 of the node at hand. -/
theorem field_list_map_next (tt : Type_table) (A : reference_struct) (idx : Nat) (mem : Mem)
    (T : table_state) (hidx : idx < 2 ^ 28)
    (hf : A.full = 0) (he : A.is_extended = 0) (hg : A.gc_state = 0)
    (hoff : (field_entry tt A.type_id 0).offset = 0) :
    (GET_POOL_ADDR A + GET_SUB_POOL_SIZE tt A * GLOBAL_INDEX_TO_SUBPOOL_ID idx) % SIZE_MAX1 +
        2 * GLOBAL_INDEX_TO_SUBPOOL_OFFSET idx = local_ref_ptr tt (at_index A idx) 0 ∧
    (if local_is_long_ref (load mem (local_ref_ptr tt (at_index A idx) 0) 2) ≠ 0 then
        expand_local_reference T
          (load mem (local_ref_ptr tt (at_index A idx) 0) 2 +
            GLOBAL_INDEX_TO_SUBPOOL_ID idx % 2 ^ 16 * 2 ^ 16 + A.pool_id * 2 ^ 32 +
            GLOBAL_INDEX_TO_SUBPOOL_OFFSET idx % 2 ^ 16 * 2 ^ 48)
      else if local_index (load mem (local_ref_ptr tt (at_index A idx) 0) 2) = 0 then REF_END
      else (((idx : Int) + local_index (load mem (local_ref_ptr tt (at_index A idx) 0) 2)) %
        (SIZE_MAX1 : Int)).toNat) = stored_index tt (at_index A idx) 0 ⟨mem, T⟩ := by
  constructor
  · simp only [local_ref_ptr, GET_POOL_ADDR, GET_SUB_POOL_SIZE, GET_FIELD_OFFSET, at_index, hoff,
      GLOBAL_INDEX_TO_SUBPOOL_ID, GLOBAL_INDEX_TO_SUBPOOL_OFFSET, shift12, and_mask12,
      Nat.reducePow, Nat.reduceSub, Nat.zero_mul, Nat.zero_mod, Nat.add_zero]
  · simp only [stored_index]
    have hraw : load mem (local_ref_ptr tt (at_index A idx) 0) 2 < 256 ^ 2 := load_lt _ _ 2
    generalize load mem (local_ref_ptr tt (at_index A idx) 0) 2 = raw at hraw ⊢
    have htag : raw + GLOBAL_INDEX_TO_SUBPOOL_ID idx % 2 ^ 16 * 2 ^ 16 + A.pool_id * 2 ^ 32 +
        GLOBAL_INDEX_TO_SUBPOOL_OFFSET idx % 2 ^ 16 * 2 ^ 48 = tag_raw (at_index A idx) raw := by
      simp only [tag_raw, raw_index, at_index, hf, he, hg, GLOBAL_INDEX_TO_SUBPOOL_ID,
        GLOBAL_INDEX_TO_SUBPOOL_OFFSET, shift12, and_mask12, Nat.reducePow, Nat.reduceSub]
        at hraw hidx ⊢
      omega
    have habs : GET_GLOBAL_INDEX_OF_REF (at_index A idx) = idx := by
      simp only [GET_GLOBAL_INDEX_OF_REF, at_index, PAGE_SIZE]
      omega
    rw [htag, habs]
    rfl

/-- The loop of field_list_map along a list: one record of `B` is allocated
and one call of `f` made for each record of the list, in order. -/
theorem field_list_map_loop_spec (tt : Type_table) (f : map_function) (A : reference_struct)
    (B0 : pool_struct) (k tfs : Nat) (T : table_state)
    (hf : A.full = 0) (he : A.is_extended = 0) (hg : A.gc_state = 0)
    (hoff : (field_entry tt A.type_id 0).offset = 0) (hB : B0.pool_id ≠ 0) :
    ∀ (c : List Nat) (fuel idx b j : Nat) (mem : Mem),
      ((c = [] ∧ idx = REF_END) ∨ (list_chain tt ⟨mem, T⟩ A c ∧ c.head? = some idx)) →
      (∀ a m t, t < c.length → ∀ i ∈ c,
        load (f a ((b + t * tfs) % SIZE_MAX1) m) (local_ref_ptr tt (at_index A i) 0) 2 =
          load m (local_ref_ptr tt (at_index A i) 0) 2) →
      c.length < fuel → j + c.length ≤ 2 ^ 28 → b < SIZE_MAX1 →
      field_list_map_loop tt true f A (GET_SUB_POOL_SIZE tt A) (GET_FIELD_SIZE tt A k) tfs
          (GET_POOL_ADDR A) ((GET_POOL_ADDR A + GET_FIELD_OFFSET tt A k) % SIZE_MAX1) T
          fuel idx b (cursor_at B0 j) mem =
        some { pool := cursor_at B0 (j + c.length)
               ret := 0
               mem := ((List.range c.length).map (fun t =>
                 (field_address tt (at_index A (c.getD t 0)) k % SIZE_MAX1,
                   (b + t * tfs) % SIZE_MAX1))).foldl (fun m p => f p.1 p.2 m) mem
               calls := (List.range c.length).map (fun t =>
                 (field_address tt (at_index A (c.getD t 0)) k % SIZE_MAX1,
                   (b + t * tfs) % SIZE_MAX1)) } := by
  intro c
  induction c with
  | nil =>
    intro fuel idx b j mem h _ hfuel _ _
    rcases h with ⟨_, h⟩ | ⟨h, _⟩
    · obtain ⟨fuel, rfl⟩ : ∃ n, fuel = n + 1 := ⟨fuel - 1, by simp only [List.length_nil] at hfuel; omega⟩
      simp only [field_list_map_loop, h, if_true, List.length_nil, Nat.add_zero, List.range_zero,
        List.map_nil, List.foldl_nil]
    · exact absurd h (by simp [list_chain])
  | cons i rest ih =>
    intro fuel idx b j mem h hfn hfuel hj hb
    rcases h with ⟨h, _⟩ | ⟨hch, hhd⟩
    · exact absurd h (List.cons_ne_nil _ _)
    simp only [List.head?_cons, Option.some.injEq] at hhd
    subst hhd
    have hi : i < 2 ^ 28 := list_chain_head_lt tt _ A i rest hch
    simp only [List.length_cons] at hfuel hj
    obtain ⟨fuel, rfl⟩ : ∃ n, fuel = n + 1 := ⟨fuel - 1, by omega⟩
    have hne : i ≠ REF_END := by
      intro h
      rw [h] at hi
      exact ref_not_found_big hi
    obtain ⟨ha1, ha2⟩ := pool_alloc_cursor tt B0 j (by omega)
    have hret : raw_val (pool_alloc tt true (cursor_at B0 j)).ret ≠ NULL_REF := by
      rw [ha2]
      exact raw_val_ne_zero _ hB
    obtain ⟨hptr, _⟩ := field_list_map_next tt A i mem T hi hf he hg hoff
    -- the address handed to `f`
    have haddr : ((GET_POOL_ADDR A + GET_FIELD_OFFSET tt A k) % SIZE_MAX1 +
        GET_SUB_POOL_SIZE tt A * GLOBAL_INDEX_TO_SUBPOOL_ID i +
        GET_FIELD_SIZE tt A k * GLOBAL_INDEX_TO_SUBPOOL_OFFSET i) % SIZE_MAX1 =
        field_address tt (at_index A i) k % SIZE_MAX1 := by
      simp only [GET_POOL_ADDR, GET_FIELD_OFFSET, GET_SUB_POOL_SIZE, GET_FIELD_SIZE,
        field_address, at_index, GLOBAL_INDEX_TO_SUBPOOL_ID, GLOBAL_INDEX_TO_SUBPOOL_OFFSET,
        shift12, and_mask12, Nat.reducePow, Nat.reduceSub, PAGE_SIZE]
      rw [addr_steps_list]
    -- the node that follows
    have hnext := (field_list_map_next tt A i
      (f (field_address tt (at_index A i) k % SIZE_MAX1) b mem) T hi hf he hg hoff).2
    have hb0 : (b + 0 * tfs) % SIZE_MAX1 = b := by
      rw [Nat.zero_mul, Nat.add_zero, Nat.mod_eq_of_lt hb]
    have hstep : ∀ t, ((b + tfs) % SIZE_MAX1 + t * tfs) % SIZE_MAX1 =
        (b + (t + 1) * tfs) % SIZE_MAX1 := by
      intro t
      rw [Nat.mod_add_mod, Nat.add_mul, Nat.one_mul, Nat.add_assoc, Nat.add_comm tfs]
    have hfn0 : ∀ a m, ∀ x ∈ i :: rest,
        load (f a b m) (local_ref_ptr tt (at_index A x) 0) 2 =
          load m (local_ref_ptr tt (at_index A x) 0) 2 := by
      intro a m x hx
      have := hfn a m 0 (by simp) x hx
      rw [hb0] at this
      exact this
    have hload := hfn0 (field_address tt (at_index A i) k % SIZE_MAX1) mem i
      (List.mem_cons_self _ _)
    have hst : stored_index tt (at_index A i) 0
        ⟨f (field_address tt (at_index A i) k % SIZE_MAX1) b mem, T⟩ =
        stored_index tt (at_index A i) 0 ⟨mem, T⟩ := by
      simp only [stored_index, hload]
    have hrest : (rest = [] ∧ stored_index tt (at_index A i) 0 ⟨mem, T⟩ = REF_END) ∨
        (list_chain tt ⟨f (field_address tt (at_index A i) k % SIZE_MAX1) b mem, T⟩ A rest ∧
          rest.head? = some (stored_index tt (at_index A i) 0 ⟨mem, T⟩)) := by
      cases rest with
      | nil => exact Or.inl ⟨rfl, hch.2⟩
      | cons j1 r =>
        refine Or.inr ⟨?_, by rw [hch.2.1]; rfl⟩
        apply list_chain_congr tt T A mem _ (j1 :: r) _ hch.2.2
        intro x hx
        exact hfn0 _ _ x (List.mem_cons_of_mem _ hx)
    have hrec := ih fuel (stored_index tt (at_index A i) 0 ⟨mem, T⟩) ((b + tfs) % SIZE_MAX1)
      (j + 1) (f (field_address tt (at_index A i) k % SIZE_MAX1) b mem) hrest
      (fun a m t ht x hx => by
        rw [hstep]
        exact hfn a m (t + 1) (by simp only [List.length_cons]; omega) x
          (List.mem_cons_of_mem _ hx)) (by omega) (by omega)
      (Nat.mod_lt _ (by simp [SIZE_MAX1]))
    rw [field_list_map_loop]
    simp only [hne, if_false, hret, ha1, hptr, haddr, hnext, hst, hrec]
    have hcalls : (field_address tt (at_index A i) k % SIZE_MAX1, b) ::
        (List.range rest.length).map (fun t =>
          (field_address tt (at_index A (rest.getD t 0)) k % SIZE_MAX1,
            ((b + tfs) % SIZE_MAX1 + t * tfs) % SIZE_MAX1)) =
        (List.range (rest.length + 1)).map (fun t =>
          (field_address tt (at_index A ((i :: rest).getD t 0)) k % SIZE_MAX1,
            (b + t * tfs) % SIZE_MAX1)) := by
      rw [List.range_succ_eq_map, List.map_cons, List.map_map]
      simp only [List.getD_cons_zero, Nat.zero_mul, Nat.add_zero, Nat.mod_eq_of_lt hb,
        List.cons.injEq, true_and]
      apply List.map_congr_left
      intro t _
      simp only [Function.comp, Nat.succ_eq_add_one, List.getD_cons_succ, Prod.mk.injEq, true_and]
      exact hstep t
    simp only [List.length_cons, ← hcalls, List.foldl_cons, map_result.mk.injEq, Option.some.injEq,
      and_true, true_and]
    rw [Nat.add_assoc, Nat.add_comm 1]

/-- The index stored in a reference field is the record that
get_field_reference designates: when the index lies below `2 ^ 28`,
get_field_reference yields the handle moved to that record. -/
theorem stored_index_get_field_reference (tt : Type_table) (this : reference_struct) (k : Nat)
    (w : world) (j : Nat) (hj : j < 2 ^ 28) (h : stored_index tt this k w = j) :
    get_field_reference tt this k w = at_index this j := by
  have hnf : j ≠ REF_NOT_FOUND := by
    intro h0
    rw [h0] at hj
    exact ref_not_found_big hj
  simp only [stored_index] at h
  simp only [get_field_reference]
  have e1 : GLOBAL_INDEX_TO_SUBPOOL_ID j % 2 ^ 16 = j / 4096 := by
    simp only [GLOBAL_INDEX_TO_SUBPOOL_ID, shift12]
    omega
  have e2 : GLOBAL_INDEX_TO_SUBPOOL_OFFSET j % 2 ^ 12 = j % 4096 := by
    simp only [GLOBAL_INDEX_TO_SUBPOOL_OFFSET, and_mask12, Nat.reducePow, Nat.reduceSub]
    omega
  by_cases hl : local_is_long_ref (load w.mem (local_ref_ptr tt this k) 2) ≠ 0
  · have h0 : load w.mem (local_ref_ptr tt this k) 2 ≠ 0 := by
      intro h0
      rw [h0] at hl
      exact hl (by decide)
    rw [if_pos hl] at h
    rw [if_neg h0, if_pos hl, h, if_neg hnf]
    simp only [e1, e2, at_index]
  · rw [if_neg hl] at h
    by_cases hi : local_index (load w.mem (local_ref_ptr tt this k) 2) = 0
    · rw [if_pos hi] at h
      exact absurd h.symm hnf
    · rw [if_neg hi] at h
      have h0 : load w.mem (local_ref_ptr tt this k) 2 ≠ 0 := by
        intro h0
        rw [h0] at hi
        exact hi (by decide)
      rw [if_neg h0, if_neg hl, h]
      simp only [e1, e2, at_index]

/-- The last record of a list, when its field 0 holds the 16-bit zero or a far
reference without an entry: get_field_reference yields NULL_REF. -/
theorem stored_index_none (tt : Type_table) (this : reference_struct) (k : Nat) (w : world)
    (h : stored_index tt this k w = REF_NOT_FOUND)
    (hraw : load w.mem (local_ref_ptr tt this k) 2 = 0 ∨
      local_is_long_ref (load w.mem (local_ref_ptr tt this k) 2) ≠ 0) :
    get_field_reference tt this k w = of_raw NULL_REF := by
  simp only [stored_index] at h
  simp only [get_field_reference]
  rcases hraw with h0 | hl
  · rw [if_pos h0]
  · rw [if_pos hl] at h
    by_cases h0 : load w.mem (local_ref_ptr tt this k) 2 = 0
    · rw [if_pos h0]
    · rw [if_neg h0, if_pos hl, h, if_pos rfl]

/-- C30: for a list of one or more records that starts at the record of the
reference `A` (a reference as pool_alloc returns it, with its flag bits clear)
in a pool whose field 0 starts the record, an empty destination pool `B` of a
type with the one field 0, and a function `f` that, called on a slot of `B`,
leaves the reference fields of the list as they are, with the mappings of
pool_alloc succeeding and fuel for the loop: field_list_map returns 0, leaves
`B` with as many records as the
list has, and calls `f` once for each record of the list, in the order of the
list, with the address that get_field yields for field `field_no` of that
record and the one it yields for field 0 of the record of `B` with the
position of the record in the list as its absolute index.  No other call of
`f` is made. -/
theorem C30_field_list_map (tt : Type_table) (f : map_function) (fuel : Nat)
    (A : reference_struct) (B : pool_struct) (k : Nat) (w : world) (c : List Nat)
    (hAf : A.full = 0) (hAe : A.is_extended = 0) (hAg : A.gc_state = 0)
    (hoffA : (field_entry tt A.type_id 0).offset = 0)
    (hB : B.pool_id ≠ 0) (hBs : B.sub_pool_id = 0) (hBi : B.index = 0) (hBf : B.full = 0)
    (hoffB : (field_entry tt B.type_id 0).offset = 0)
    (hone : (type_row tt B.type_id).type_size = (field_entry tt B.type_id 0).field_size)
    (hchain : list_chain tt w A c) (hhead : c.head? = some (GET_GLOBAL_INDEX_OF_REF A))
    (hfn : ∀ a m j, j < c.length → ∀ i ∈ c,
      load (f a ((GET_POOL_ADDR B + j * GET_FIELD_SIZE tt B 0) % SIZE_MAX1) m)
          (local_ref_ptr tt (at_index A i) 0) 2 =
        load m (local_ref_ptr tt (at_index A i) 0) 2)
    (hfuel : c.length < fuel) :
    ∃ res, field_list_map tt true f fuel A B k w = some res ∧ res.ret = 0 ∧
      GET_SIZE_OF_POOL res.pool = c.length ∧ res.calls.length = c.length ∧
      (∀ j, j < c.length →
        ∃ ra rb, pool_get_ref A (c.getD j 0) = some ra ∧
          get_field tt ra k = some (res.calls.getD j (0, 0)).1 ∧
          pool_get_ref res.pool j = some rb ∧
          get_field tt rb 0 = some (res.calls.getD j (0, 0)).2) ∧
      res.mem = res.calls.foldl (fun m p => f p.1 p.2 m) w.mem := by
  have hlen := list_chain_length tt w A c hchain
  have hb : GET_POOL_ADDR B < SIZE_MAX1 := Nat.mod_lt _ (by simp [SIZE_MAX1])
  have hloop := field_list_map_loop_spec tt f A B k (GET_FIELD_SIZE tt B 0) w.table hAf hAe hAg
    hoffA hB c fuel (GET_GLOBAL_INDEX_OF_REF A) (GET_POOL_ADDR B) 0 w.mem
    (Or.inr ⟨hchain, hhead⟩) hfn hfuel (by omega) hb
  rw [cursor_at_zero B hBs hBi hBf, Nat.zero_add] at hloop
  refine ⟨_, hloop, rfl, cursor_at_size B c.length,
    by simp only [List.length_map, List.length_range], ?_, rfl⟩
  intro j hj
  obtain ⟨hnd, hlt⟩ := list_chain_nodup tt w A c hchain
  have hcj : c.getD j 0 < 2 ^ 28 := by
    rw [List.getD_eq_getElem _ _ hj]
    exact hlt _ (List.getElem_mem _)
  obtain ⟨ra, hra, a1, a2, a3, a4, _, a6, _⟩ := pool_get_ref_members A (c.getD j 0) hcj
  obtain ⟨rb, hrb, b1, b2, b3, b4, _, b6, _⟩ :=
    pool_get_ref_members (cursor_at B c.length) j (by omega)
  have hget : ((List.range c.length).map (fun t =>
      (field_address tt (at_index A (c.getD t 0)) k % SIZE_MAX1,
        (GET_POOL_ADDR B + t * GET_FIELD_SIZE tt B 0) % SIZE_MAX1))).getD j (0, 0) =
      (field_address tt (at_index A (c.getD j 0)) k % SIZE_MAX1,
        (GET_POOL_ADDR B + j * GET_FIELD_SIZE tt B 0) % SIZE_MAX1) := by
    rw [List.getD_eq_getElem _ _ (by rw [List.length_map, List.length_range]; exact hj),
      List.getElem_map, List.getElem_range]
  refine ⟨ra, rb, hra, ?_, hrb, ?_⟩
  · simp only [hget]
    rw [get_field_eq tt ra k a6, field_address_congr tt ra (at_index A (c.getD j 0)) k a1 a2 a3 a4]
  · simp only [hget]
    rw [get_field_eq tt rb 0 b6]
    simp only [field_address, b1, b2, b3, b4, cursor_at, hoffB, hone, GET_POOL_ADDR,
      GET_FIELD_SIZE, PAGE_SIZE, Option.some.injEq]
    rw [addr_slot]

/-- C30 at a concrete input: the list of the records 0 and 2 of the list pool
1, with record 1 a hole, mapped into the empty pool 2 of longs by the function
that copies the long it is given. -/
theorem C30_field_list_map_witness :
    ∃ res, field_list_map basic_type_table true (fun a b m => store m b 8 (load m a 8)) 3
        ⟨7, 0, 1, 0, 0, 0, 0⟩ ⟨1, 0, 2, 0, 0, 0, 0⟩ 1
        ⟨store (fun _ => 0) 4294967296 2 2, table_init⟩ = some res ∧
      res.ret = 0 ∧ GET_SIZE_OF_POOL res.pool = 2 ∧ res.calls.length = 2 := by
  have hp0 : local_ref_ptr basic_type_table (at_index ⟨7, 0, 1, 0, 0, 0, 0⟩ 0) 0 = 4294967296 := by
    decide
  have hp2 : local_ref_ptr basic_type_table (at_index ⟨7, 0, 1, 0, 0, 0, 0⟩ 2) 0 = 4294967300 := by
    decide
  have hl0 : load (store (fun _ => 0) 4294967296 2 2) 4294967296 2 = 2 := by
    rw [load_store_two]
  have hl2 : load (store (fun _ => 0) 4294967296 2 2) 4294967300 2 = 0 := by
    rw [load_store_other _ _ _ _ _ _ (by omega)]
    rfl
  have hchain : list_chain basic_type_table ⟨store (fun _ => 0) 4294967296 2 2, table_init⟩
      ⟨7, 0, 1, 0, 0, 0, 0⟩ [0, 2] := by
    refine ⟨by norm_num, ?_, by norm_num, ?_⟩
    · simp only [stored_index, hp0, hl0]
      decide
    · simp only [stored_index, hp2, hl2]
      decide
  obtain ⟨res, h1, h2, h3, h4, _⟩ := C30_field_list_map basic_type_table
    (fun a b m => store m b 8 (load m a 8)) 3 ⟨7, 0, 1, 0, 0, 0, 0⟩ ⟨1, 0, 2, 0, 0, 0, 0⟩ 1
    ⟨store (fun _ => 0) 4294967296 2 2, table_init⟩ [0, 2] rfl rfl rfl rfl (by decide) rfl rfl rfl
    rfl rfl hchain rfl
    (by
      intro a m j hj i hi
      have hb : (GET_POOL_ADDR ⟨1, 0, 2, 0, 0, 0, 0⟩ +
          j * GET_FIELD_SIZE basic_type_table ⟨1, 0, 2, 0, 0, 0, 0⟩ 0) % SIZE_MAX1 =
          8589934592 + j * 8 := by
        have e1 : GET_POOL_ADDR ⟨1, 0, 2, 0, 0, 0, 0⟩ = 8589934592 := by decide
        have e2 : GET_FIELD_SIZE basic_type_table ⟨1, 0, 2, 0, 0, 0, 0⟩ 0 = 8 := by decide
        rw [e1, e2]
        simp only [List.length_cons, List.length_nil] at hj
        simp only [SIZE_MAX1]
        omega
      rw [hb]
      simp only [List.mem_cons, List.mem_singleton, List.not_mem_nil, or_false] at hi
      rcases hi with rfl | rfl
      · rw [hp0]
        exact load_store_other _ _ _ _ _ _ (by omega)
      · rw [hp2]
        exact load_store_other _ _ _ _ _ _ (by omega))
    (by decide)
  exact ⟨res, h1, h2, h3, h4⟩

/-! ## The bytes of the records of a pool -/

theorem cell_arith_sub (s1 s2 S Y1 Y2 : Nat) (h1 : Y1 < S) (h2 : Y2 < S)
    (h : s1 * S + Y1 = s2 * S + Y2) : s1 = s2 ∧ Y1 = Y2 := by
  have key : s1 = s2 := by
    rcases Nat.lt_trichotomy s1 s2 with hlt | heq | hgt
    · have : (s1 + 1) * S ≤ s2 * S := Nat.mul_le_mul_right _ hlt
      rw [Nat.add_mul, Nat.one_mul] at this
      omega
    · exact heq
    · have : (s2 + 1) * S ≤ s1 * S := Nat.mul_le_mul_right _ hgt
      rw [Nat.add_mul, Nat.one_mul] at this
      omega
  subst key
  exact ⟨rfl, by omega⟩

theorem cell_arith_lane (o f i b ts : Nat) (hl : o + f ≤ ts) (hi : i < 4096) (hb : b < f) :
    o * 4096 ≤ o * 4096 + f * i + b ∧ o * 4096 + f * i + b < (o + f) * 4096 ∧
    (o + f) * 4096 ≤ ts * 4096 := by
  have h1 : f * i ≤ f * 4095 := Nat.mul_le_mul_left _ (by omega)
  have h2 : (o + f) * 4096 ≤ ts * 4096 := Nat.mul_le_mul_right _ hl
  rw [Nat.add_mul] at h2 ⊢
  omega

theorem cell_arith_window (s ts Y : Nat) (hw : (s + 1) * (ts * 4096) ≤ 2 ^ 32)
    (hY : Y < ts * 4096) : s * (ts * 4096) + Y < 2 ^ 32 := by
  rw [Nat.add_mul, Nat.one_mul] at hw
  omega

/-- The bytes of a field of a record lie in the subpool of the record, and the
subpool in the address window of the pool when the pool is no larger than the
window. -/
theorem field_address_bounds (tt : Type_table) (r : reference_struct) (k b : Nat)
    (hin : lanes_within tt r.type_id) (hk : k < (type_row tt r.type_id).field_count)
    (hw : (r.sub_pool_id + 1) * ((type_row tt r.type_id).type_size * 4096) ≤ 2 ^ 32)
    (hi : r.index < 4096) (hb : b < (field_entry tt r.type_id k).field_size) :
    r.pool_id * 2 ^ 32 ≤ field_address tt r k + b ∧
    field_address tt r k + b < r.pool_id * 2 ^ 32 + 2 ^ 32 := by
  have hl := hin k hk
  simp only [field_address, PAGE_SIZE]
  generalize (type_row tt r.type_id).type_size = ts at *
  generalize (field_entry tt r.type_id k).offset = o at *
  generalize (field_entry tt r.type_id k).field_size = f at *
  obtain ⟨l1, l2, l3⟩ := cell_arith_lane o f r.index b ts hl hi hb
  have := cell_arith_window r.sub_pool_id ts (o * 4096 + f * r.index + b) hw (by omega)
  omega

/-- Two bytes of fields of records of one type are at the same address only
when they are the same byte of the same field of the same record. -/
theorem cell_disjoint (tt : Type_table) (r1 r2 : reference_struct) (k1 k2 b1 b2 : Nat)
    (htype : r1.type_id = r2.type_id)
    (hin : lanes_within tt r1.type_id) (hap : lanes_apart tt r1.type_id)
    (hk1 : k1 < (type_row tt r1.type_id).field_count)
    (hk2 : k2 < (type_row tt r1.type_id).field_count)
    (hw1 : (r1.sub_pool_id + 1) * ((type_row tt r1.type_id).type_size * 4096) ≤ 2 ^ 32)
    (hw2 : (r2.sub_pool_id + 1) * ((type_row tt r1.type_id).type_size * 4096) ≤ 2 ^ 32)
    (hi1 : r1.index < 4096) (hi2 : r2.index < 4096)
    (hb1 : b1 < (field_entry tt r1.type_id k1).field_size)
    (hb2 : b2 < (field_entry tt r1.type_id k2).field_size)
    (h : field_address tt r1 k1 + b1 = field_address tt r2 k2 + b2) :
    r1.pool_id = r2.pool_id ∧ r1.sub_pool_id = r2.sub_pool_id ∧ r1.index = r2.index ∧
      k1 = k2 ∧ b1 = b2 := by
  have hl1 := hin k1 hk1
  have hl2 := hin k2 hk2
  have hapart : k1 = k2 ∨
      (field_entry tt r1.type_id k1).offset + (field_entry tt r1.type_id k1).field_size ≤
        (field_entry tt r1.type_id k2).offset ∨
      (field_entry tt r1.type_id k2).offset + (field_entry tt r1.type_id k2).field_size ≤
        (field_entry tt r1.type_id k1).offset := by
    rcases Nat.lt_trichotomy k1 k2 with hlt | heq | hgt
    · exact Or.inr (Or.inl (hap k2 hk2 k1 hlt))
    · exact Or.inl heq
    · exact Or.inr (Or.inr (hap k1 hk1 k2 hgt))
  simp only [field_address, PAGE_SIZE, ← htype] at h
  generalize (type_row tt r1.type_id).type_size = ts at *
  obtain ⟨a1, a2, a3⟩ := cell_arith_lane _ _ r1.index b1 ts hl1 hi1 hb1
  obtain ⟨c1, c2, c3⟩ := cell_arith_lane _ _ r2.index b2 ts hl2 hi2 hb2
  have w1 := cell_arith_window r1.sub_pool_id ts _ hw1 (lt_of_lt_of_le a2 a3)
  have w2 := cell_arith_window r2.sub_pool_id ts _ hw2 (lt_of_lt_of_le c2 c3)
  have hp : r1.pool_id = r2.pool_id := by omega
  have hx : r1.sub_pool_id * (ts * 4096) +
      ((field_entry tt r1.type_id k1).offset * 4096 +
        (field_entry tt r1.type_id k1).field_size * r1.index + b1) =
      r2.sub_pool_id * (ts * 4096) +
      ((field_entry tt r1.type_id k2).offset * 4096 +
        (field_entry tt r1.type_id k2).field_size * r2.index + b2) := by
    rw [hp] at h
    omega
  obtain ⟨hs, hy⟩ := cell_arith_sub _ _ _ _ _ (lt_of_lt_of_le a2 a3) (lt_of_lt_of_le c2 c3) hx
  rcases hapart with hk | hlt | hgt
  · subst hk
    generalize (field_entry tt r1.type_id k1).offset = o at *
    generalize (field_entry tt r1.type_id k1).field_size = f at *
    have hy1 : r1.index * f + b1 = r2.index * f + b2 := by
      rw [Nat.mul_comm r1.index, Nat.mul_comm r2.index]
      omega
    obtain ⟨hi, hb⟩ := cell_arith_sub _ _ _ _ _ hb1 hb2 hy1
    exact ⟨hp, hs, hi, rfl, hb⟩
  · have := Nat.mul_le_mul_right 4096 hlt
    omega
  · have := Nat.mul_le_mul_right 4096 hgt
    omega

/-! ## Copying the fields of a record -/

theorem memcpy_other (mem : Mem) (dst src n a : Nat) (h : a < dst ∨ dst + n ≤ a) :
    memcpy mem dst src n a = mem a := by
  simp only [memcpy]
  rw [if_neg (by omega)]

theorem memcpy_at (mem : Mem) (dst src n b : Nat) (h : b < n) :
    memcpy mem dst src n (dst + b) = mem (src + b) := by
  simp only [memcpy]
  rw [if_pos (by omega), Nat.add_sub_cancel_left]

/-- The assignments of copy_data_fields and set_field for the sizes 1, 2, 4 and
8 are copies of that many bytes. -/
theorem copy_switch_eq (mem : Mem) (dst src f : Nat) :
    (if f = 1 then store mem dst 1 (load mem src 1)
      else if f = 2 then store mem dst 2 (load mem src 2)
      else if f = 4 then store mem dst 4 (load mem src 4)
      else if f = 8 then store mem dst 8 (load mem src 8)
      else memcpy mem dst src f) = memcpy mem dst src f := by
  split_ifs with h1 h2 h4 h8
  · rw [h1, store_load_eq_memcpy]
  · rw [h2, store_load_eq_memcpy]
  · rw [h4, store_load_eq_memcpy]
  · rw [h8, store_load_eq_memcpy]
  · rfl

theorem copy_cells_cons (tt : Type_table) (rd rs : reference_struct) (k : Nat) (ks : List Nat)
    (mem : Mem) :
    copy_cells tt rd rs (k :: ks) mem =
      copy_cells tt rd rs ks (memcpy mem (field_address tt rd k) (field_address tt rs k)
        (field_entry tt rd.type_id k).field_size) := rfl

/-- Copying fields leaves every byte outside the fields written as it was. -/
theorem copy_cells_frame (tt : Type_table) (rd rs : reference_struct) (x : Nat) :
    ∀ (ks : List Nat) (mem : Mem),
      (∀ k ∈ ks, x < field_address tt rd k ∨
        field_address tt rd k + (field_entry tt rd.type_id k).field_size ≤ x) →
      copy_cells tt rd rs ks mem x = mem x := by
  intro ks
  induction ks with
  | nil => intro mem _; rfl
  | cons k ks ih =>
    intro mem h
    rw [copy_cells_cons, ih _ (fun k1 hk1 => h k1 (List.mem_cons_of_mem _ hk1)),
      memcpy_other _ _ _ _ _ (h k (List.mem_cons_self _ _))]

/-- Copying fields whose bytes lie apart, from bytes that are not written:
every byte of a field written holds the byte of the source field. -/
theorem copy_cells_content (tt : Type_table) (rd rs : reference_struct) :
    ∀ (ks : List Nat) (mem : Mem), ks.Nodup →
      (∀ k ∈ ks, ∀ j ∈ ks, k ≠ j → ∀ b, b < (field_entry tt rd.type_id k).field_size →
        field_address tt rd k + b < field_address tt rd j ∨
        field_address tt rd j + (field_entry tt rd.type_id j).field_size ≤
          field_address tt rd k + b) →
      (∀ k ∈ ks, ∀ j ∈ ks, ∀ b, b < (field_entry tt rd.type_id k).field_size →
        field_address tt rs k + b < field_address tt rd j ∨
        field_address tt rd j + (field_entry tt rd.type_id j).field_size ≤
          field_address tt rs k + b) →
      ∀ k ∈ ks, ∀ b, b < (field_entry tt rd.type_id k).field_size →
        copy_cells tt rd rs ks mem (field_address tt rd k + b) =
          mem (field_address tt rs k + b) := by
  intro ks
  induction ks with
  | nil => intro mem _ _ _ k hk; exact absurd hk (List.not_mem_nil _)
  | cons k0 ks ih =>
    intro mem hnd hdst hsrc k hk b hb
    rw [copy_cells_cons]
    have hnd1 := List.nodup_cons.1 hnd
    rcases List.mem_cons.1 hk with rfl | hk1
    · rw [copy_cells_frame, memcpy_at _ _ _ _ _ hb]
      intro j hj
      have hne : k ≠ j := fun h => hnd1.1 (h ▸ hj)
      exact hdst k (List.mem_cons_self _ _) j (List.mem_cons_of_mem _ hj) hne b hb
    · rw [ih _ hnd1.2
        (fun a ha c hc hac => hdst a (List.mem_cons_of_mem _ ha) c (List.mem_cons_of_mem _ hc) hac)
        (fun a ha c hc => hsrc a (List.mem_cons_of_mem _ ha) c (List.mem_cons_of_mem _ hc))
        k hk1 b hb]
      apply memcpy_other
      have := hsrc k hk k0 (List.mem_cons_self _ _) b hb
      omega

/-- A byte of a field lies outside every other field of the records of the
type. -/
theorem cell_outside (tt : Type_table) (r1 r2 : reference_struct) (k1 k2 b1 : Nat)
    (htype : r1.type_id = r2.type_id)
    (hin : lanes_within tt r1.type_id) (hap : lanes_apart tt r1.type_id)
    (hk1 : k1 < (type_row tt r1.type_id).field_count)
    (hk2 : k2 < (type_row tt r1.type_id).field_count)
    (hw1 : (r1.sub_pool_id + 1) * ((type_row tt r1.type_id).type_size * 4096) ≤ 2 ^ 32)
    (hw2 : (r2.sub_pool_id + 1) * ((type_row tt r1.type_id).type_size * 4096) ≤ 2 ^ 32)
    (hi1 : r1.index < 4096) (hi2 : r2.index < 4096)
    (hb1 : b1 < (field_entry tt r1.type_id k1).field_size)
    (hne : ¬ (r1.pool_id = r2.pool_id ∧ r1.sub_pool_id = r2.sub_pool_id ∧
      r1.index = r2.index ∧ k1 = k2)) :
    field_address tt r1 k1 + b1 < field_address tt r2 k2 ∨
    field_address tt r2 k2 + (field_entry tt r1.type_id k2).field_size ≤
      field_address tt r1 k1 + b1 := by
  by_contra hc
  apply hne
  have := cell_disjoint tt r1 r2 k1 k2 b1 (field_address tt r1 k1 + b1 - field_address tt r2 k2)
    htype hin hap hk1 hk2 hw1 hw2 hi1 hi2 hb1 (by omega) (by omega)
  exact ⟨this.1, this.2.1, this.2.2.1, this.2.2.2.1⟩

/-- Copying fields of a record writes bytes of that record only. -/
theorem copy_cells_outside (tt : Type_table) (rd rs : reference_struct) (ks : List Nat)
    (mem : Mem) (x : Nat) (hks : ∀ k ∈ ks, k < (type_row tt rd.type_id).field_count)
    (hx : ¬ record_byte tt rd x) : copy_cells tt rd rs ks mem x = mem x := by
  apply copy_cells_frame
  intro k hk
  by_contra hc
  apply hx
  exact ⟨k, x - field_address tt rd k, hks k hk, by omega, by omega⟩

theorem record_ref_index (p : pool_struct) (i : Nat) :
    (record_ref p i).index < 4096 ∧ GET_GLOBAL_INDEX_OF_REF (record_ref p i) = i ∧
    (record_ref p i).type_id = p.type_id ∧ (record_ref p i).pool_id = p.pool_id ∧
    (record_ref p i).sub_pool_id = i / 4096 := by
  refine ⟨Nat.mod_lt _ (by norm_num), ?_, rfl, rfl, rfl⟩
  show i / 4096 * 4096 + i % 4096 = i
  omega

/-- A byte of a record of one pool is no byte of a record of another pool, nor
of another record of the same pool. -/
theorem record_byte_disjoint (tt : Type_table) (p q : pool_struct) (i j x : Nat)
    (htype : p.type_id = q.type_id)
    (hin : lanes_within tt p.type_id) (hap : lanes_apart tt p.type_id)
    (hw1 : (i / 4096 + 1) * ((type_row tt p.type_id).type_size * 4096) ≤ 2 ^ 32)
    (hw2 : (j / 4096 + 1) * ((type_row tt p.type_id).type_size * 4096) ≤ 2 ^ 32)
    (h1 : record_byte tt (record_ref p i) x) (h2 : record_byte tt (record_ref q j) x) :
    p.pool_id = q.pool_id ∧ i = j := by
  obtain ⟨k1, b1, hk1, hb1, e1⟩ := h1
  obtain ⟨k2, b2, hk2, hb2, e2⟩ := h2
  have hq : (record_ref q j).type_id = (record_ref p i).type_id := htype.symm
  rw [hq] at hk2 hb2
  have := cell_disjoint tt (record_ref p i) (record_ref q j) k1 k2 b1 b2 htype hin hap hk1 hk2
    hw1 hw2 (record_ref_index p i).1 (record_ref_index q j).1 hb1 hb2 (by rw [← e1, ← e2])
  simp only [record_ref] at this
  refine ⟨this.1, ?_⟩
  have a := Nat.div_add_mod i 4096
  have b := Nat.div_add_mod j 4096
  omega

/-! ## The addresses that gc.c computes -/

theorem addr_steps_gc (P I S O F M : Nat) :
    (((P % M + I * (S % M)) % M + O) % M + F) % M = (P + I * S + O + F) % M := by
  apply (ZMod.natCast_eq_natCast_iff' _ _ _).1
  simp only [ZMod.natCast_mod, Nat.cast_add, Nat.cast_mul, Nat.cast_zero]

theorem addr_steps_ref (P I S O M : Nat) :
    (P % M + S % M * I + O % M) % M = (P + I * S + O) % M := by
  apply (ZMod.natCast_eq_natCast_iff' _ _ _).1
  simp only [ZMod.natCast_mod, Nat.cast_add, Nat.cast_mul, Nat.cast_zero]
  ring

theorem addr_steps_spool (P I S M : Nat) :
    (P % M + I * (S % M)) % M = (P + I * S + 0) % M := by
  apply (ZMod.natCast_eq_natCast_iff' _ _ _).1
  simp only [ZMod.natCast_mod, Nat.cast_add, Nat.cast_mul, Nat.cast_zero, add_zero]

/-- The bytes of a field end within the address window of the pool. -/
theorem field_address_end (tt : Type_table) (r : reference_struct) (k : Nat)
    (hin : lanes_within tt r.type_id) (hk : k < (type_row tt r.type_id).field_count)
    (hw : (r.sub_pool_id + 1) * ((type_row tt r.type_id).type_size * 4096) ≤ 2 ^ 32)
    (hi : r.index < 4096) :
    field_address tt r k + (field_entry tt r.type_id k).field_size ≤
      r.pool_id * 2 ^ 32 + 2 ^ 32 := by
  have hl := hin k hk
  simp only [field_address, PAGE_SIZE]
  generalize (type_row tt r.type_id).type_size = ts at *
  generalize (field_entry tt r.type_id k).offset = o at *
  generalize (field_entry tt r.type_id k).field_size = f at *
  have h1 : f * (r.index + 1) ≤ f * 4096 := Nat.mul_le_mul_left _ (by omega)
  have h2 : (o + f) * 4096 ≤ ts * 4096 := Nat.mul_le_mul_right _ hl
  rw [Nat.add_mul] at h2
  rw [Nat.mul_add, Nat.mul_one] at h1
  rw [Nat.add_mul, Nat.one_mul] at hw
  rw [Nat.mul_comm f 4096] at h1
  omega

/-- The address that gc.c computes for a field of a record, from the base of
the subpool, is the address of the field. -/
theorem gc_field_address (tt : Type_table) (p : pool_struct) (i k : Nat)
    (hp : p.pool_id < 65536)
    (hin : lanes_within tt p.type_id) (hk : k < (type_row tt p.type_id).field_count)
    (hw : (i / 4096 + 1) * ((type_row tt p.type_id).type_size * 4096) ≤ 2 ^ 32) :
    (((pool_to_array p + GLOBAL_INDEX_TO_SUBPOOL_ID i * GET_SUB_POOL_SIZE tt p) % SIZE_MAX1 +
        (field_entry tt p.type_id k).offset * PAGE_SIZE) % SIZE_MAX1 +
      (field_entry tt p.type_id k).field_size * GLOBAL_INDEX_TO_SUBPOOL_OFFSET i) % SIZE_MAX1 =
    field_address tt (record_ref p i) k := by
  have hend := field_address_end tt (record_ref p i) k hin hk hw (record_ref_index p i).1
  have hlt : field_address tt (record_ref p i) k < SIZE_MAX1 := by
    have : (record_ref p i).pool_id = p.pool_id := rfl
    rw [this] at hend
    simp only [SIZE_MAX1]
    omega
  rw [← Nat.mod_eq_of_lt hlt]
  simp only [pool_to_array, POOL_IDX_TO_ADDR, GET_SUB_POOL_SIZE, GLOBAL_INDEX_TO_SUBPOOL_ID,
    GLOBAL_INDEX_TO_SUBPOOL_OFFSET, shift12, and_mask12, Nat.reducePow, Nat.reduceSub,
    field_address, record_ref]
  rw [addr_steps_gc]

/-- The address of the two bytes of a reference field is the address of the
field. -/
theorem local_ref_ptr_eq (tt : Type_table) (p : pool_struct) (i k : Nat)
    (hp : p.pool_id < 65536)
    (hin : lanes_within tt p.type_id) (hk : k < (type_row tt p.type_id).field_count)
    (hw : (i / 4096 + 1) * ((type_row tt p.type_id).type_size * 4096) ≤ 2 ^ 32)
    (hfs : (field_entry tt p.type_id k).field_size = 2) :
    local_ref_ptr tt (record_ref p i) k = field_address tt (record_ref p i) k := by
  have hend := field_address_end tt (record_ref p i) k hin hk hw (record_ref_index p i).1
  have hty : (record_ref p i).type_id = p.type_id := rfl
  have hpid : (record_ref p i).pool_id = p.pool_id := rfl
  rw [hty, hpid, hfs] at hend
  simp only [local_ref_ptr, GET_POOL_ADDR, GET_SUB_POOL_SIZE, GET_FIELD_OFFSET, field_address,
    hty, hpid, hfs] at hend ⊢
  rw [addr_steps_ref, Nat.mod_eq_of_lt]
  simp only [SIZE_MAX1]
  omega

theorem getD_drop_one (l : List field_offset) (i : Nat) (d : field_offset) :
    (l.drop 1).getD i d = l.getD (i + 1) d := by
  cases l with
  | nil => simp
  | cons a l => simp

/-- The static function copy_data_fields copies the fields after field 0 of
the source record to the destination record. -/
theorem copy_data_fields_eq (tt : Type_table) (D src : pool_struct) (d i : Nat)
    (htype : D.type_id = src.type_id) (hD : D.pool_id < 65536) (hS : src.pool_id < 65536)
    (hin : lanes_within tt src.type_id)
    (hwd : (d / 4096 + 1) * ((type_row tt src.type_id).type_size * 4096) ≤ 2 ^ 32)
    (hwi : (i / 4096 + 1) * ((type_row tt src.type_id).type_size * 4096) ≤ 2 ^ 32) :
    ∀ (n k0 : Nat) (mem : Mem), k0 + 1 + n ≤ (type_row tt src.type_id).field_count →
      copy_data_fields
        ((pool_to_array D + GLOBAL_INDEX_TO_SUBPOOL_ID d * GET_SUB_POOL_SIZE tt src) % SIZE_MAX1)
        ((pool_to_array src + GLOBAL_INDEX_TO_SUBPOOL_ID i * GET_SUB_POOL_SIZE tt src) %
          SIZE_MAX1)
        (GLOBAL_INDEX_TO_SUBPOOL_OFFSET d) (GLOBAL_INDEX_TO_SUBPOOL_OFFSET i)
        ((type_row tt src.type_id).field_offsets.drop 1) n k0 mem =
      copy_cells tt (record_ref D d) (record_ref src i) (List.range' (k0 + 1) n) mem := by
  intro n
  induction n with
  | zero => intro k0 mem _; rfl
  | succ n ih =>
    intro k0 mem hk
    have hsps : GET_SUB_POOL_SIZE tt src = GET_SUB_POOL_SIZE tt D := by
      simp only [GET_SUB_POOL_SIZE, htype]
    have he : (List.drop 1 (type_row tt src.type_id).field_offsets).getD k0 ⟨0, 0, 0⟩ =
        field_entry tt src.type_id (k0 + 1) := by
      rw [getD_drop_one]
      rfl
    have hk1 : k0 + 1 < (type_row tt src.type_id).field_count := by omega
    have a1 := gc_field_address tt src i (k0 + 1) hS hin hk1 hwi
    have a2 := gc_field_address tt D d (k0 + 1) hD (by rw [htype]; exact hin)
      (by rw [htype]; exact hk1) (by rw [htype]; exact hwd)
    rw [← hsps, htype] at a2
    simp only [copy_data_fields, he, copy_switch_eq]
    rw [a1, a2, ih (k0 + 1) _ (by omega), List.range'_succ, copy_cells_cons]
    have : (record_ref D d).type_id = src.type_id := htype
    rw [this]

/-! ## Claim C25: collecting a pool of lists -/

theorem window_mono (a b S : Nat) (hab : a ≤ b) (hb : (b / 4096 + 1) * S ≤ 2 ^ 32) :
    (a / 4096 + 1) * S ≤ 2 ^ 32 := by
  have h1 : a / 4096 ≤ b / 4096 := Nat.div_le_div_right hab
  have h2 : (a / 4096 + 1) * S ≤ (b / 4096 + 1) * S := Nat.mul_le_mul_right _ (by omega)
  omega

/-- The address from which move_list reads the reference of a record, and to
which it writes the one of the copy. -/
theorem gc_ref_cell (tt : Type_table) (p q : pool_struct) (i : Nat)
    (htype : p.type_id = q.type_id)
    (hoff : (field_entry tt p.type_id 0).offset = 0) :
    (pool_to_array p + GLOBAL_INDEX_TO_SUBPOOL_ID i * GET_SUB_POOL_SIZE tt q) % SIZE_MAX1 +
        2 * GLOBAL_INDEX_TO_SUBPOOL_OFFSET i = local_ref_ptr tt (record_ref p i) 0 := by
  have hoff1 : (field_entry tt q.type_id 0).offset = 0 := htype ▸ hoff
  simp only [local_ref_ptr, GET_POOL_ADDR, GET_SUB_POOL_SIZE, GET_FIELD_OFFSET, record_ref,
    pool_to_array, POOL_IDX_TO_ADDR, GLOBAL_INDEX_TO_SUBPOOL_ID, GLOBAL_INDEX_TO_SUBPOOL_OFFSET,
    shift12, and_mask12, Nat.reducePow, Nat.reduceSub, htype, hoff1, Nat.zero_mul, Nat.zero_mod,
    Nat.add_zero]
  rw [Nat.mul_comm (i / 4096)]

/-- The tag that move_list builds and the index it goes on with are those of
the reference stored in field 0 of the record. -/
theorem gc_next_idx (tt : Type_table) (src : pool_struct) (i : Nat) (w : world)
    (hi : i < 2 ^ 28) :
    load w.mem (local_ref_ptr tt (record_ref src i) 0) 2 +
        GLOBAL_INDEX_TO_SUBPOOL_ID i % 2 ^ 16 * 2 ^ 16 + src.pool_id * 2 ^ 32 +
        GLOBAL_INDEX_TO_SUBPOOL_OFFSET i % 2 ^ 16 * 2 ^ 48 =
      tag_raw (record_ref src i) (load w.mem (local_ref_ptr tt (record_ref src i) 0) 2) ∧
    (if local_is_long_ref (load w.mem (local_ref_ptr tt (record_ref src i) 0) 2) ≠ 0 then
        expand_local_reference w.table
          (tag_raw (record_ref src i) (load w.mem (local_ref_ptr tt (record_ref src i) 0) 2))
      else if local_index (load w.mem (local_ref_ptr tt (record_ref src i) 0) 2) ≠ 0 then
        (((i : Int) + local_index (load w.mem (local_ref_ptr tt (record_ref src i) 0) 2)) %
          (SIZE_MAX1 : Int)).toNat
      else REF_NOT_FOUND) = stored_index tt (record_ref src i) 0 w := by
  have hraw : load w.mem (local_ref_ptr tt (record_ref src i) 0) 2 < 256 ^ 2 := load_lt _ _ 2
  constructor
  · generalize load w.mem (local_ref_ptr tt (record_ref src i) 0) 2 = raw at hraw ⊢
    simp only [tag_raw, raw_index, record_ref, GLOBAL_INDEX_TO_SUBPOOL_ID,
      GLOBAL_INDEX_TO_SUBPOOL_OFFSET, shift12, and_mask12, Nat.reducePow, Nat.reduceSub]
      at hraw hi ⊢
    omega
  · simp only [stored_index, (record_ref_index src i).2.1]
    generalize load w.mem (local_ref_ptr tt (record_ref src i) 0) 2 = raw
    by_cases hl : local_is_long_ref raw ≠ 0
    · rw [if_pos hl, if_pos hl]
    · rw [if_neg hl, if_neg hl]
      by_cases h0 : local_index raw = 0
      · rw [if_neg (not_not.2 h0), if_pos h0]
      · rw [if_pos h0, if_neg h0]

theorem one_step_val : ONE_STEP = 1 := by decide

theorem list_chain_world (tt : Type_table) (A : reference_struct) (w w1 : world) :
    ∀ c : List Nat,
      (∀ i ∈ c, stored_index tt (at_index A i) 0 w1 = stored_index tt (at_index A i) 0 w) →
      list_chain tt w A c → list_chain tt w1 A c := by
  intro c
  induction c with
  | nil => intro _ h; exact h
  | cons i rest ih =>
    intro hm h
    have hi := hm i (List.mem_cons_self _ _)
    cases rest with
    | nil =>
      simp only [list_chain] at h ⊢
      exact ⟨h.1, by rw [hi]; exact h.2⟩
    | cons j r =>
      simp only [list_chain] at h ⊢
      exact ⟨h.1, by rw [hi]; exact h.2.1,
        ih (fun x hx => hm x (List.mem_cons_of_mem _ hx)) h.2.2⟩

theorem mem_range_one (fc k : Nat) (h : k ∈ List.range' 1 (fc - 1)) : 1 ≤ k ∧ k < fc := by
  rw [List.mem_range'_1] at h
  omega

/-- What one round of the loop of move_list does to memory: the two bytes of
field 0 of the copy hold the value stored, every other field of the copy holds
the bytes of the field of the source record, and no other byte changes. -/
theorem move_record_effect (tt : Type_table) (src D : pool_struct) (i d v : Nat) (mem : Mem)
    (htype : D.type_id = src.type_id) (hD : D.pool_id < 65536)
    (hne : D.pool_id ≠ src.pool_id)
    (hin : lanes_within tt src.type_id) (hap : lanes_apart tt src.type_id)
    (hfs0 : (field_entry tt src.type_id 0).field_size = 2)
    (hfc : 1 ≤ (type_row tt src.type_id).field_count)
    (hwd : (d / 4096 + 1) * ((type_row tt src.type_id).type_size * 4096) ≤ 2 ^ 32)
    (hwi : (i / 4096 + 1) * ((type_row tt src.type_id).type_size * 4096) ≤ 2 ^ 32) :
    (∀ x, ¬ record_byte tt (record_ref D d) x →
      copy_cells tt (record_ref D d) (record_ref src i)
        (List.range' 1 ((type_row tt src.type_id).field_count - 1))
        (store mem (local_ref_ptr tt (record_ref D d) 0) 2 v) x = mem x) ∧
    load (copy_cells tt (record_ref D d) (record_ref src i)
        (List.range' 1 ((type_row tt src.type_id).field_count - 1))
        (store mem (local_ref_ptr tt (record_ref D d) 0) 2 v))
      (local_ref_ptr tt (record_ref D d) 0) 2 = v % 65536 ∧
    (∀ k, 1 ≤ k → k < (type_row tt src.type_id).field_count →
      ∀ b, b < (field_entry tt src.type_id k).field_size →
        copy_cells tt (record_ref D d) (record_ref src i)
          (List.range' 1 ((type_row tt src.type_id).field_count - 1))
          (store mem (local_ref_ptr tt (record_ref D d) 0) 2 v)
          (field_address tt (record_ref D d) k + b) =
        mem (field_address tt (record_ref src i) k + b)) := by
  have hinD : lanes_within tt D.type_id := by rw [htype]; exact hin
  have hapD : lanes_apart tt D.type_id := by rw [htype]; exact hap
  have hptr : local_ref_ptr tt (record_ref D d) 0 = field_address tt (record_ref D d) 0 :=
    local_ref_ptr_eq tt D d 0 hD hinD (by rw [htype]; omega) (by rw [htype]; exact hwd)
      (by rw [htype]; exact hfs0)
  have hrd : (record_ref D d).type_id = src.type_id := htype
  have hrs : (record_ref src i).type_id = src.type_id := rfl
  have hid := (record_ref_index D d).1
  have his := (record_ref_index src i).1
  -- a byte of field 0 of the copy is no byte of another field of the copy
  have hcell0 : ∀ b, b < 2 → ∀ k ∈ List.range' 1 ((type_row tt src.type_id).field_count - 1),
      field_address tt (record_ref D d) 0 + b < field_address tt (record_ref D d) k ∨
      field_address tt (record_ref D d) k + (field_entry tt (record_ref D d).type_id k).field_size
        ≤ field_address tt (record_ref D d) 0 + b := by
    intro b hb k hk
    obtain ⟨hk1, hk2⟩ := mem_range_one _ _ hk
    exact cell_outside tt (record_ref D d) (record_ref D d) 0 k b rfl hinD hapD
      (by rw [hrd]; omega) (by rw [hrd]; exact hk2) (by rw [hrd]; exact hwd)
      (by rw [hrd]; exact hwd) hid hid (by rw [hrd, hfs0]; exact hb) (by omega)
  refine ⟨?_, ?_, ?_⟩
  · intro x hx
    rw [copy_cells_outside tt _ _ _ _ x
      (fun k hk => by rw [hrd]; exact (mem_range_one _ _ hk).2) hx]
    apply store_other
    by_contra hc
    apply hx
    refine ⟨0, x - local_ref_ptr tt (record_ref D d) 0, by rw [hrd]; omega, ?_, ?_⟩
    · rw [hrd, hfs0]
      omega
    · rw [← hptr]
      omega
  · rw [← load_store_two mem (local_ref_ptr tt (record_ref D d) 0) v]
    apply load_congr
    intro a ha1 ha2
    apply copy_cells_frame
    intro k hk
    have := hcell0 (a - local_ref_ptr tt (record_ref D d) 0) (by omega) k hk
    rw [← hptr] at this
    have e : local_ref_ptr tt (record_ref D d) 0 + (a - local_ref_ptr tt (record_ref D d) 0) = a := by
      omega
    rw [e] at this
    exact this
  · intro k hk1 hk2 b hb
    have hkm : k ∈ List.range' 1 ((type_row tt src.type_id).field_count - 1) := by
      rw [List.mem_range'_1]
      omega
    rw [copy_cells_content tt (record_ref D d) (record_ref src i) _ _ (List.nodup_range' _ _)
      ?_ ?_ k hkm b (by rw [hrd]; exact hb)]
    · apply store_other
      rw [hptr]
      have := cell_outside tt (record_ref src i) (record_ref D d) k 0 b htype.symm hin hap hk2
        (Nat.lt_of_lt_of_le Nat.zero_lt_one hfc) hwi hwd his hid hb (fun h => hne h.1.symm)
      rw [hrs, hfs0] at this
      exact this
    · intro a ha c hc hac b1 hb1
      exact cell_outside tt (record_ref D d) (record_ref D d) a c b1 rfl hinD hapD
        (by rw [hrd]; exact (mem_range_one _ _ ha).2)
        (by rw [hrd]; exact (mem_range_one _ _ hc).2) (by rw [hrd]; exact hwd)
        (by rw [hrd]; exact hwd) hid hid hb1 (fun h => hac h.2.2.2)
    · intro a ha c hc b1 hb1
      have := cell_outside tt (record_ref src i) (record_ref D d) a c b1 htype.symm hin hap
        (mem_range_one _ _ ha).2 (mem_range_one _ _ hc).2 hwi hwd his hid
        (by rw [hrd] at hb1; exact hb1) (fun h => hne h.1.symm)
      rw [hrd]
      exact this

/-- The index stored in a field depends on the two bytes of the field, and on
the table through the lookup of the field's tag only. -/
theorem stored_index_congr (tt : Type_table) (this : reference_struct) (k : Nat) (w w1 : world)
    (hm : load w1.mem (local_ref_ptr tt this k) 2 = load w.mem (local_ref_ptr tt this k) 2)
    (ht : local_is_long_ref (load w.mem (local_ref_ptr tt this k) 2) ≠ 0 →
      expand_local_reference w1.table (tag_raw this (load w.mem (local_ref_ptr tt this k) 2)) =
        expand_local_reference w.table (tag_raw this (load w.mem (local_ref_ptr tt this k) 2))) :
    stored_index tt this k w1 = stored_index tt this k w := by
  simp only [stored_index, hm]
  by_cases hl : local_is_long_ref (load w.mem (local_ref_ptr tt this k) 2) ≠ 0
  · rw [if_pos hl, if_pos hl, ht hl]
  · rw [if_neg hl, if_neg hl]

/-- The two bytes of a reference field are bytes of the record. -/
theorem ref_cell_record_byte (tt : Type_table) (p : pool_struct) (i k a : Nat)
    (hp : p.pool_id < 65536)
    (hin : lanes_within tt p.type_id) (hk : k < (type_row tt p.type_id).field_count)
    (hw : (i / 4096 + 1) * ((type_row tt p.type_id).type_size * 4096) ≤ 2 ^ 32)
    (hfs : (field_entry tt p.type_id k).field_size = 2)
    (h1 : local_ref_ptr tt (record_ref p i) k ≤ a)
    (h2 : a < local_ref_ptr tt (record_ref p i) k + 2) : record_byte tt (record_ref p i) a := by
  have hptr := local_ref_ptr_eq tt p i k hp hin hk hw hfs
  refine ⟨k, a - local_ref_ptr tt (record_ref p i) k, hk, ?_, ?_⟩
  · have : (record_ref p i).type_id = p.type_id := rfl
    rw [this, hfs]
    omega
  · rw [← hptr]
    omega

theorem record_ref_wf (p : pool_struct) (i : Nat) (ht : p.type_id < 65536)
    (hp : p.pool_id < 65536) (hi : i < 2 ^ 28) : (record_ref p i).wf := by
  simp only [pool_struct.wf, record_ref]
  omega

/-- The loop of move_list along a list: the records of the list are copied to
consecutive records of the destination pool, each with the reference to the
next one, the last with the null reference. -/
theorem move_list_loop_spec (tt : Type_table) (mmap_ok : pool_struct → Bool)
    (src D : pool_struct) (start : Nat) (hmm : ∀ p, mmap_ok p = true)
    (htype : D.type_id = src.type_id) (hD : D.pool_id < 65536) (hD0 : D.pool_id ≠ 0)
    (hS : src.pool_id < 65536) (hSt : src.type_id < 65536) (hne : D.pool_id ≠ src.pool_id)
    (hin : lanes_within tt src.type_id) (hap : lanes_apart tt src.type_id)
    (hoff0 : (field_entry tt src.type_id 0).offset = 0)
    (hfs0 : (field_entry tt src.type_id 0).field_size = 2)
    (hfc : 1 ≤ (type_row tt src.type_id).field_count)
    (hfcM : (type_row tt src.type_id).field_count < SIZE_MAX1) :
    ∀ (c : List Nat) (fuel d : Nat) (w : world),
      list_chain tt w (record_ref src 0) c →
      (∀ x ∈ c, (x / 4096 + 1) * ((type_row tt src.type_id).type_size * 4096) ≤ 2 ^ 32) →
      ((d + c.length - 1) / 4096 + 1) * ((type_row tt src.type_id).type_size * 4096) ≤ 2 ^ 32 →
      d + c.length ≤ 2 ^ 28 → table_inv w.table → c.length < fuel →
      ∃ res, move_list_loop tt mmap_ok src (pool_to_array src) (pool_to_array D) start fuel
          (cursor_at D (d + 1)) (c.headD 0) d w = some res ∧
        res.pool = cursor_at D (d + c.length) ∧ res.ret = start ∧ table_inv res.w.table ∧
        (∀ x, (∀ j, j < c.length → ¬ record_byte tt (record_ref D (d + j)) x) →
          res.w.mem x = w.mem x) ∧
        (∀ j, j < c.length →
          load res.w.mem (local_ref_ptr tt (record_ref D (d + j)) 0) 2 =
            if j + 1 < c.length then ONE_STEP else 0) ∧
        (∀ j, j < c.length → ∀ k, 1 ≤ k → k < (type_row tt src.type_id).field_count →
          ∀ b, b < (field_entry tt src.type_id k).field_size →
            res.w.mem (field_address tt (record_ref D (d + j)) k + b) =
              w.mem (field_address tt (record_ref src (c.getD j 0)) k + b)) := by
  have hinD : lanes_within tt D.type_id := by rw [htype]; exact hin
  have hfc0 : 0 < (type_row tt src.type_id).field_count := by omega
  have hsub : sub64 (type_row tt src.type_id).field_count 1 =
      (type_row tt src.type_id).field_count - 1 := by
    simp only [sub64, SIZE_MAX1] at hfcM ⊢
    omega
  intro c
  induction c with
  | nil => intro fuel d w h; exact absurd h (by simp [list_chain])
  | cons i rest ih =>
    intro fuel d w hch hwin hwd hlen hinv hfuel
    simp only [List.length_cons] at hwd hlen hfuel
    obtain ⟨fuel, rfl⟩ : ∃ n, fuel = n + 1 := ⟨fuel - 1, by omega⟩
    have hi28 : i < 2 ^ 28 := list_chain_head_lt tt _ _ i rest hch
    have hiNF : i ≠ REF_NOT_FOUND := by
      intro h
      rw [h] at hi28
      exact ref_not_found_big hi28
    have hwi := hwin i (List.mem_cons_self _ _)
    have hwd0 : (d / 4096 + 1) * ((type_row tt src.type_id).type_size * 4096) ≤ 2 ^ 32 :=
      window_mono d (d + (rest.length + 1) - 1) _ (by omega) hwd
    obtain ⟨hnd, hlt⟩ := list_chain_nodup tt w _ _ hch
    -- one round of the loop
    have hcellS := gc_ref_cell tt src src i rfl hoff0
    have hcellD := gc_ref_cell tt D src d htype (by rw [htype]; exact hoff0)
    obtain ⟨htag, hnext⟩ := gc_next_idx tt src i w hi28
    have hcopy := fun mem => copy_data_fields_eq tt D src d i htype hD hS hin hwd0 hwi
      ((type_row tt src.type_id).field_count - 1) 0 mem (by omega)
    have hd1 : (d + 1) % SIZE_MAX1 = d + 1 := Nat.mod_eq_of_lt (by simp only [SIZE_MAX1]; omega)
    -- what the round does to memory and to the table
    generalize hv : (if stored_index tt (record_ref src i) 0 w = REF_NOT_FOUND then 0
      else ONE_STEP) = v at *
    have hv16 : v % 65536 = v := by
      rw [← hv]
      split_ifs
      · rfl
      · rw [one_step_val]
    obtain ⟨F0, R0, D0⟩ := move_record_effect tt src D i d v w.mem htype hD hne hin hap hfs0 hfc
      hwd0 hwi
    generalize hm2 : copy_cells tt (record_ref D d) (record_ref src i)
      (List.range' 1 ((type_row tt src.type_id).field_count - 1))
      (store w.mem (local_ref_ptr tt (record_ref D d) 0) 2 v) = mem2 at *
    generalize hT1 : (if local_is_long_ref (load w.mem (local_ref_ptr tt (record_ref src i) 0) 2)
        ≠ 0 then
      (delete_reference w.table (tag_raw (record_ref src i)
        (load w.mem (local_ref_ptr tt (record_ref src i) 0) 2))).1 else w.table) = T1 at *
    have hinv1 : table_inv T1 := by
      rw [← hT1]
      split_ifs
      · exact (delete_other _ _ hinv).1
      · exact hinv
    -- a byte of a source record is no byte of the copy
    have hsrc_byte : ∀ x a, (x / 4096 + 1) * ((type_row tt src.type_id).type_size * 4096) ≤ 2 ^ 32 →
        record_byte tt (record_ref src x) a → ¬ record_byte tt (record_ref D d) a := by
      intro x a hwx h1 h2
      exact hne (record_byte_disjoint tt src D x d a htype.symm hin hap hwx hwd0 h1 h2).1.symm
    rw [move_list_loop]
    simp only [List.headD_cons, hiNF, if_false, hcellS, hcellD, htag, hnext, hsub, hcopy, hv, hm2,
      hT1, hmm, hd1]
    cases rest with
    | nil =>
      have hS0 : stored_index tt (record_ref src i) 0 w = REF_NOT_FOUND := hch.2
      have hf1 : 1 ≤ fuel := by
        simp only [List.length_nil] at hfuel
        omega
      obtain ⟨fuel, rfl⟩ : ∃ n, fuel = n + 1 := ⟨fuel - 1, by
        clear * - hf1
        omega⟩
      have hv0 : v = 0 := by rw [← hv, if_pos hS0]
      simp only [hS0, ne_eq, not_true_eq_false, if_false, move_list_loop, if_true,
        List.length_cons, List.length_nil, Nat.zero_add]
      refine ⟨_, rfl, rfl, rfl, hinv1, ?_, ?_, ?_⟩
      · intro x hx
        exact F0 x (hx 0 (by omega))
      · intro j hj
        obtain rfl : j = 0 := by omega
        show load mem2 (local_ref_ptr tt (record_ref D (d + 0)) 0) 2 = _
        rw [Nat.add_zero, R0, hv16, hv0]
        rfl
      · intro j hj k hk1 hk2 b hb
        obtain rfl : j = 0 := by omega
        show mem2 (field_address tt (record_ref D (d + 0)) k + b) = _
        rw [Nat.add_zero, List.getD_cons_zero]
        exact D0 k hk1 hk2 b hb
    | cons j r =>
      have hSj : stored_index tt (record_ref src i) 0 w = j := hch.2.1
      have hj28 : j < 2 ^ 28 := hlt j (by simp)
      have hjNF : j ≠ REF_NOT_FOUND := by
        intro h
        rw [h] at hj28
        exact ref_not_found_big hj28
      have hv1 : v = ONE_STEP := by rw [← hv, hSj, if_neg hjNF]
      obtain ⟨ha1, ha2⟩ := pool_alloc_cursor tt D (d + 1) (by
        simp only [List.length_cons] at hlen
        clear * - hlen
        omega)
      have hret : raw_val (pool_alloc tt true (cursor_at D (d + 1))).ret ≠ NULL_REF := by
        rw [ha2]
        exact raw_val_ne_zero _ hD0
      -- the rest of the list is a list still
      have hch1 : list_chain tt ⟨mem2, T1⟩ (record_ref src 0) (j :: r) := by
        apply list_chain_world tt _ w _ _ _ hch.2.2
        intro x hx
        have hx28 : x < 2 ^ 28 := hlt x (List.mem_cons_of_mem _ hx)
        have hxi : x ≠ i := by
          intro h
          rw [h] at hx
          exact (List.nodup_cons.1 hnd).1 hx
        have hwx := hwin x (List.mem_cons_of_mem _ hx)
        show stored_index tt (record_ref src x) 0 ⟨mem2, T1⟩ =
          stored_index tt (record_ref src x) 0 w
        apply stored_index_congr
        · apply load_congr
          intro a ha1 ha2
          apply F0
          exact hsrc_byte x a hwx (ref_cell_record_byte tt src x 0 a hS hin hfc0 hwx hfs0 ha1 ha2)
        · intro _
          show expand_local_reference T1 _ = _
          rw [← hT1]
          split_ifs
          · apply (delete_other _ _ hinv).2.1
            intro h
            have := tag_raw_inj _ _ _ _ (record_ref_wf src x hSt hS hx28)
              (record_ref_wf src i hSt hS hi28) h
            simp only [record_ref] at this
            omega
          · rfl
      obtain ⟨res, hres, hp, hr, hti, F1, R1, D1⟩ := ih fuel (d + 1) ⟨mem2, T1⟩ hch1
        (fun x hx => hwin x (List.mem_cons_of_mem _ hx))
        (by simp only [List.length_cons] at hwd ⊢
            have e : d + 1 + (r.length + 1) - 1 = d + (r.length + 1 + 1) - 1 := by omega
            rw [e]; exact hwd)
        (by simp only [List.length_cons] at hlen ⊢; omega) hinv1
        (by simp only [List.length_cons] at hfuel ⊢; omega)
      simp only [List.headD_cons] at hres
      simp only [hSj, hjNF, ne_eq, not_false_eq_true, if_true, ha1, hret, if_false, hres]
      -- a byte of the first copy is no byte of a later copy
      have hlater : ∀ a, record_byte tt (record_ref D d) a → ∀ t, t < (j :: r).length →
          ¬ record_byte tt (record_ref D (d + 1 + t)) a := by
        intro a ha t ht h
        simp only [List.length_cons] at ht hwd
        have hwt : ((d + 1 + t) / 4096 + 1) * ((type_row tt src.type_id).type_size * 4096) ≤
            2 ^ 32 := window_mono _ _ _ (by omega) hwd
        have := (record_byte_disjoint tt D D d (d + 1 + t) a rfl hinD (by rw [htype]; exact hap)
          (by rw [htype]; exact hwd0) (by rw [htype]; exact hwt) ha h).2
        omega
      refine ⟨res, rfl, ?_, hr, hti, ?_, ?_, ?_⟩
      · rw [hp]
        simp only [List.length_cons]
        rw [show d + 1 + (r.length + 1) = d + (r.length + 1 + 1) by omega]
      · intro x hx
        rw [F1 x (fun t ht => by
          have := hx (t + 1) (by simp only [List.length_cons] at ht ⊢; omega)
          rw [show d + (t + 1) = d + 1 + t by omega] at this
          exact this)]
        exact F0 x (hx 0 (by simp))
      · intro t ht
        cases t with
        | zero =>
          rw [Nat.add_zero, if_pos (by simp)]
          rw [← hv1, ← hv16, ← R0]
          apply load_congr
          intro a ha1 ha2
          apply F1
          exact hlater a (ref_cell_record_byte tt D d 0 a hD hinD (by rw [htype]; exact hfc0)
            (by rw [htype]; exact hwd0) (by rw [htype]; exact hfs0) ha1 ha2)
        | succ t =>
          have := R1 t (by simp only [List.length_cons] at ht ⊢; omega)
          rw [show d + (t + 1) = d + 1 + t by omega, this]
          simp only [List.length_cons]
          by_cases h : t + 1 < r.length + 1
          · rw [if_pos h, if_pos (by omega)]
          · rw [if_neg h, if_neg (by omega)]
      · intro t ht k hk1 hk2 b hb
        cases t with
        | zero =>
          rw [Nat.add_zero, List.getD_cons_zero, ← D0 k hk1 hk2 b hb]
          apply F1
          exact hlater _ ⟨k, b, by rw [show (record_ref D d).type_id = src.type_id from htype]
                                   exact hk2,
            by rw [show (record_ref D d).type_id = src.type_id from htype]; exact hb, rfl⟩
        | succ t =>
          have := D1 t (by simp only [List.length_cons] at ht ⊢; omega) k hk1 hk2 b hb
          rw [show d + (t + 1) = d + 1 + t by omega, this, List.getD_cons_succ]
          apply F0
          have hmem : (j :: r).getD t 0 ∈ j :: r := by
            rw [List.getD_eq_getElem _ _ (by simp only [List.length_cons] at ht ⊢; omega)]
            exact List.getElem_mem _
          exact hsrc_byte _ _ (hwin _ (List.mem_cons_of_mem _ hmem)) ⟨k, b, hk2, hb, rfl⟩

theorem load_store_suffix (mem : Mem) (p v : Nat) :
    ∀ (m n j : Nat), j + m = n →
      load (store mem p n v) (p + j) m = v / 256 ^ j % 256 ^ m := by
  intro m
  induction m with
  | zero => intro n j _; simp [load, Nat.mod_one]
  | succ m ih =>
    intro n j h
    rw [load, Nat.add_assoc, ih n (j + 1) (by omega)]
    have hb : (store mem p n v (p + j)).val = v / 256 ^ j % 256 := by
      simp only [store]
      rw [if_pos (by omega)]
      simp only [Fin.ofNat, Nat.add_sub_cancel_left]
    rw [hb, pow_succ 256 j, ← Nat.div_div_eq_div_mul, pow_succ 256 m,
      Nat.mul_comm (256 ^ m) 256, Nat.mod_mul, Nat.add_comm]

/-- Reading back what was stored: the value modulo the width of the store. -/
theorem load_store_same (mem : Mem) (p n v : Nat) :
    load (store mem p n v) p n = v % 256 ^ n := by
  have := load_store_suffix mem p v n n 0 (by omega)
  simpa using this

/-- Among distinct numbers, as many as a list has, one is no less than the
length of the list less one. -/
theorem nodup_exists_ge (c : List Nat) (hnd : c.Nodup) (hne : c ≠ []) :
    ∃ x ∈ c, c.length - 1 ≤ x := by
  by_contra hc
  push_neg at hc
  have hsub : c.toFinset ⊆ Finset.range (c.length - 1) := by
    intro x hx
    rw [Finset.mem_range]
    exact hc x (List.mem_toFinset.1 hx)
  have hcard := Finset.card_le_card hsub
  rw [List.toFinset_card_of_nodup hnd, Finset.card_range] at hcard
  have : 0 < c.length := List.length_pos.2 hne
  omega

/-- Records that each hold the reference to the next record, the last one the
null reference, form a list. -/
theorem list_chain_of_steps (tt : Type_table) (p : pool_struct) (w : world) :
    ∀ (n s : Nat), s + n + 1 ≤ 2 ^ 28 →
      (∀ j, j < n + 1 → load w.mem (local_ref_ptr tt (record_ref p (s + j)) 0) 2 =
        if j + 1 < n + 1 then ONE_STEP else 0) →
      list_chain tt w (record_ref p 0) (List.range' s (n + 1)) := by
  intro n
  induction n with
  | zero =>
    intro s hs h
    have h0 := h 0 (by omega)
    rw [Nat.add_zero, if_neg (by omega)] at h0
    show s < 2 ^ 28 ∧ stored_index tt (record_ref p s) 0 w = REF_NOT_FOUND
    refine ⟨by omega, ?_⟩
    simp only [stored_index, h0]
    have e1 : local_is_long_ref 0 = 0 := by decide
    have e2 : local_index 0 = 0 := by decide
    rw [if_neg (by rw [e1]; exact fun h => h rfl), if_pos e2]
  | succ n ih =>
    intro s hs h
    have h0 := h 0 (by omega)
    rw [Nat.add_zero, if_pos (by omega), one_step_val] at h0
    have hrest := ih (s + 1) (by omega) (fun j hj => by
      have := h (j + 1) (by omega)
      rw [show s + (j + 1) = s + 1 + j by omega] at this
      rw [this]
      by_cases hj1 : j + 1 < n + 1
      · rw [if_pos hj1, if_pos (by omega)]
      · rw [if_neg hj1, if_neg (by omega)])
    rw [List.range'_succ, List.range'_succ]
    rw [List.range'_succ] at hrest
    show s < 2 ^ 28 ∧ stored_index tt (record_ref p s) 0 w = s + 1 ∧ _
    refine ⟨by omega, ?_, hrest⟩
    simp only [stored_index, h0, (record_ref_index p s).2.1]
    have e1 : local_is_long_ref 1 = 0 := by decide
    have e2 : local_index 1 = 1 := by decide
    rw [if_neg (by rw [e1]; exact fun h => h rfl), if_neg (by rw [e2]; decide), e2]
    simp only [SIZE_MAX1]
    omega

theorem ref_count_pos (tt : Type_table) (type_id : Nat)
    (h : get_reference_count tt type_id ≠ 0) : 1 ≤ (type_row tt type_id).field_count := by
  by_contra hc
  have h0 : (type_row tt type_id).field_count = 0 := by omega
  apply h
  simp only [get_reference_count, h0, get_reference_count_loop]

theorem pool_size_index (p : pool_struct) (x : Nat) (hi : p.index < 4096)
    (hx : x < GET_SIZE_OF_POOL p) : x / 4096 ≤ p.sub_pool_id := by
  simp only [GET_SIZE_OF_POOL, PAGE_SIZE] at hx
  split_ifs at hx <;> omega

/-- The static function move_list on an empty destination pool. -/
theorem move_list_spec (tt : Type_table) (mmap_ok : pool_struct → Bool)
    (src D : pool_struct) (hmm : ∀ p, mmap_ok p = true)
    (hDs : D.sub_pool_id = 0) (hDi : D.index = 0) (hDf : D.full = 0)
    (htype : D.type_id = src.type_id) (hD : D.pool_id < 65536) (hD0 : D.pool_id ≠ 0)
    (hS : src.pool_id < 65536) (hSt : src.type_id < 65536) (hne : D.pool_id ≠ src.pool_id)
    (hin : lanes_within tt src.type_id) (hap : lanes_apart tt src.type_id)
    (hoff0 : (field_entry tt src.type_id 0).offset = 0)
    (hfs0 : (field_entry tt src.type_id 0).field_size = 2)
    (hfc : 1 ≤ (type_row tt src.type_id).field_count)
    (hfcM : (type_row tt src.type_id).field_count < SIZE_MAX1)
    (c : List Nat) (fuel : Nat) (w : world)
    (hch : list_chain tt w (record_ref src 0) c)
    (hwin : ∀ x ∈ c, (x / 4096 + 1) * ((type_row tt src.type_id).type_size * 4096) ≤ 2 ^ 32)
    (hinv : table_inv w.table) (hfuel : c.length < fuel) :
    ∃ res, move_list tt mmap_ok fuel D src (c.headD 0) w = some res ∧
      res.pool = cursor_at D c.length ∧ res.ret = 0 ∧ table_inv res.w.table ∧
      (∀ x, (∀ j, j < c.length → ¬ record_byte tt (record_ref D j) x) → res.w.mem x = w.mem x) ∧
      (∀ j, j < c.length →
        load res.w.mem (local_ref_ptr tt (record_ref D j) 0) 2 =
          if j + 1 < c.length then ONE_STEP else 0) ∧
      (∀ j, j < c.length → ∀ k, 1 ≤ k → k < (type_row tt src.type_id).field_count →
        ∀ b, b < (field_entry tt src.type_id k).field_size →
          res.w.mem (field_address tt (record_ref D j) k + b) =
            w.mem (field_address tt (record_ref src (c.getD j 0)) k + b)) := by
  obtain ⟨hnd, hlt⟩ := list_chain_nodup tt w _ c hch
  have hcne : c ≠ [] := by
    intro h
    rw [h] at hch
    exact absurd hch (by simp [list_chain])
  have hlen := list_chain_length tt w _ c hch
  obtain ⟨xm, hxm, hge⟩ := nodup_exists_ge c hnd hcne
  have hwd : ((0 + c.length - 1) / 4096 + 1) * ((type_row tt src.type_id).type_size * 4096) ≤
      2 ^ 32 := by
    rw [Nat.zero_add]
    exact window_mono _ xm _ hge (hwin xm hxm)
  obtain ⟨res, hres, hp, hr, hti, F, R, Dt⟩ := move_list_loop_spec tt mmap_ok src D 0 hmm htype hD
    hD0 hS hSt hne hin hap hoff0 hfs0 hfc hfcM c fuel 0 w hch hwin hwd (by omega) hinv hfuel
  have hD0c : cursor_at D 0 = D := cursor_at_zero D hDs hDi hDf
  obtain ⟨ha1, ha2⟩ := pool_alloc_cursor tt D 0 (by norm_num)
  rw [hD0c] at ha1 ha2
  have hret : raw_val (pool_alloc tt true D).ret ≠ NULL_REF := by
    rw [ha2]
    exact raw_val_ne_zero _ hD0
  have hstart : GET_GLOBAL_INDEX_OF_REF (pool_alloc tt true D).ret = 0 := by
    rw [ha2]
    simp only [GET_GLOBAL_INDEX_OF_REF, PAGE_SIZE, Nat.zero_div, Nat.zero_mod, Nat.zero_mul]
  refine ⟨res, ?_, ?_, hr, hti, ?_, ?_, ?_⟩
  · simp only [move_list, hmm, hret, if_false, hstart, ha1]
    exact hres
  · rw [hp, Nat.zero_add]
  · intro x hx
    exact F x (fun j hj => by rw [Nat.zero_add]; exact hx j hj)
  · intro j hj
    have := R j hj
    rw [Nat.zero_add] at this
    exact this
  · intro j hj k hk1 hk2 b hb
    have := Dt j hj k hk1 hk2 b hb
    rw [Nat.zero_add] at this
    exact this

/-- The loop of collect_pool over the roots ends when the root stack is
empty. -/
theorem collect_list_roots_done (e : collect_env) (src : pool_struct) (next_free n : Nat)
    (dst : pool_struct) (g : gc_globals) (w : world) (h : g.root_stack_size = 0) :
    collect_list_roots e src next_free (n + 1) dst g w =
      some { pool := dst, g := g, w := w, next_free := next_free, ret := 0,
             unmapped := [(pool_destroy e.tt e.munmap_errno src).call.getD (0, 0)] } := by
  rw [collect_list_roots, if_pos h]

/-- One round of the loop of collect_pool over the roots of lists, when
move_list returns a start index. -/
theorem collect_list_roots_step (e : collect_env) (src : pool_struct) (next_free n : Nat)
    (dst : pool_struct) (g : gc_globals) (w : world) (r : move_result Nat)
    (h : g.root_stack_size ≠ 0)
    (hr : move_list e.tt e.mmap_ok e.fuel dst src
      (GET_GLOBAL_INDEX_OF_REF (of_raw (load w.mem (pop_root e.tt e.munmap_errno g w.mem).2 8)))
      w = some r)
    (hret : r.ret ≠ OUT_OF_MEM) :
    collect_list_roots e src next_free (n + 1) dst g w =
      collect_list_roots e src next_free n r.pool (pop_root e.tt e.munmap_errno g w.mem).1
        { r.w with mem := store r.w.mem (pop_root e.tt e.munmap_errno g w.mem).2 8 (raw_val
            ({ type_id := src.type_id
               sub_pool_id := GLOBAL_INDEX_TO_SUBPOOL_ID r.ret % 2 ^ 16
               pool_id := r.pool.pool_id
               index := GLOBAL_INDEX_TO_SUBPOOL_OFFSET r.ret % 2 ^ 12
               full := 0, is_extended := 0, gc_state := 0 } : pool_struct)) } := by
  rw [collect_list_roots, if_neg h]
  simp only [hr]
  rw [if_neg hret]

/-- The function collect_pool on a pool of lists, the destination pool
granted, is the loop over the roots. -/
theorem collect_pool_list_eq (e : collect_env) (pool : pool_struct) (g : gc_globals)
    (next_free : Nat) (w : world) (hc : e.create_ok = true) (hnf : next_free ≠ 0)
    (hnum : get_reference_count e.tt pool.type_id = 1) :
    collect_pool e pool g next_free w =
      collect_list_roots e pool ((next_free + 1) % 2 ^ 16) (g.root_stack_size + 1)
        ⟨pool.type_id, 0, next_free, 0, 0, 0, 0⟩ g w := by
  have hcr : raw_val (⟨pool.type_id, 0, next_free, 0, 0, 0, 0⟩ : pool_struct) ≠ NULL_POOL :=
    raw_val_ne_zero _ hnf
  rw [collect_pool]
  simp only [pool_create, hc, Bool.not_true, Bool.false_eq_true, if_false, hcr, hnum, if_true]

/-- C25: collect_pool on a pool of lists (one leading reference field, at the
start of the record, lanes one after the other) that lies within its address
window, with one root pushed that refers to the first of the `L` records of a
list of the pool, the destination pool and its mappings granted: collect_pool
returns 0 and leaves through `pool` the handle of a new pool with exactly `L`
records; the root is rewritten to the record 0 of the new pool; for each `j`
below `L` the record `j` of the new pool holds in field 0 the reference with
`index = 1` (the null reference for the last one), so that the records 0 to
`L - 1` form a list in this order, and in every other field, byte for byte,
what the record `j` of the list held in that field before the call.  The pool
collected is handed to `munmap` from its first to its last subpool. -/
theorem C25_collect_pool_list (e : collect_env) (src : pool_struct) (g : gc_globals)
    (next_free : Nat) (w : world) (root : Nat) (c : List Nat)
    (hcreate : e.create_ok = true) (hmm : ∀ p, e.mmap_ok p = true) (hfuel : c.length < e.fuel)
    (hnum : get_reference_count e.tt src.type_id = 1)
    (hin : lanes_within e.tt src.type_id) (hap : lanes_apart e.tt src.type_id)
    (hoff0 : (field_entry e.tt src.type_id 0).offset = 0)
    (hfs0 : (field_entry e.tt src.type_id 0).field_size = 2)
    (hfcM : (type_row e.tt src.type_id).field_count < SIZE_MAX1)
    (hS : src.pool_id < 65536) (hSt : src.type_id < 65536) (hSi : src.index < 4096)
    (hwindow : (src.sub_pool_id + 1) * ((type_row e.tt src.type_id).type_size * 4096) ≤ 2 ^ 32)
    (hnf0 : next_free ≠ 0) (hnf : next_free < 65536) (hne : next_free ≠ src.pool_id)
    (hinv : table_inv w.table)
    (hsize : g.root_stack_size = 1) (hstack : load w.mem (g.root_stack % SIZE_MAX1) 8 = root)
    (hroot : root + 8 ≤ next_free * 2 ^ 32 ∨ next_free * 2 ^ 32 + 2 ^ 32 ≤ root)
    (hchain : list_chain e.tt w (record_ref src 0) c)
    (hhead : c.head? = some (GET_GLOBAL_INDEX_OF_REF (of_raw (load w.mem root 8))))
    (hrec : ∀ x ∈ c, x < GET_SIZE_OF_POOL src) :
    ∃ res, collect_pool e src g next_free w = some res ∧ res.ret = 0 ∧
      res.pool.pool_id = next_free ∧ res.pool.type_id = src.type_id ∧
      GET_SIZE_OF_POOL res.pool = c.length ∧
      of_raw (load res.w.mem root 8) = record_ref res.pool 0 ∧
      (∀ j, j < c.length →
        load res.w.mem (local_ref_ptr e.tt (record_ref res.pool j) 0) 2 =
          if j + 1 < c.length then ONE_STEP else 0) ∧
      list_chain e.tt res.w (record_ref res.pool 0) (List.range c.length) ∧
      (∀ j, j < c.length → ∀ k, 1 ≤ k → k < (type_row e.tt src.type_id).field_count →
        ∀ b, b < (field_entry e.tt src.type_id k).field_size →
          res.w.mem (field_address e.tt (record_ref res.pool j) k + b) =
            w.mem (field_address e.tt (record_ref src (c.getD j 0)) k + b)) ∧
      res.unmapped = [(POOL_IDX_TO_ADDR src.pool_id,
        (1 + src.sub_pool_id) * ((type_row e.tt src.type_id).type_size * PAGE_SIZE % SIZE_MAX1) %
          SIZE_MAX1)] := by
  obtain ⟨tt, create_ok, mmap_ok, munmap_errno, alloc_ok, fuel⟩ := e
  simp only at hcreate hmm hfuel hnum hin hap hoff0 hfs0 hfcM hwindow hchain ⊢
  subst hcreate
  have hfc : 1 ≤ (type_row tt src.type_id).field_count :=
    ref_count_pos tt src.type_id (by rw [hnum]; decide)
  have hwin : ∀ x ∈ c, (x / 4096 + 1) * ((type_row tt src.type_id).type_size * 4096) ≤ 2 ^ 32 := by
    intro x hx
    have h1 := pool_size_index src x hSi (hrec x hx)
    have h2 : (x / 4096 + 1) * ((type_row tt src.type_id).type_size * 4096) ≤
        (src.sub_pool_id + 1) * ((type_row tt src.type_id).type_size * 4096) :=
      Nat.mul_le_mul_right _ (by omega)
    omega
  obtain ⟨i, rest, rfl⟩ : ∃ i rest, c = i :: rest := by
    cases c with
    | nil => exact absurd hchain (by simp [list_chain])
    | cons i rest => exact ⟨i, rest, rfl⟩
  simp only [List.head?_cons, Option.some.injEq] at hhead
  generalize hDd : (⟨src.type_id, 0, next_free, 0, 0, 0, 0⟩ : pool_struct) = D
  have hDt : D.type_id = src.type_id := by rw [← hDd]
  have hDp : D.pool_id = next_free := by rw [← hDd]
  obtain ⟨r, hr, hp, hret, hti, F, R, Dt⟩ := move_list_spec tt mmap_ok src D hmm
    (by rw [← hDd]) (by rw [← hDd]) (by rw [← hDd]) hDt (by rw [hDp]; exact hnf)
    (by rw [hDp]; exact hnf0) hS hSt (by rw [hDp]; exact hne) hin hap hoff0 hfs0 hfc hfcM
    (i :: rest) fuel w hchain hwin hinv hfuel
  simp only [List.headD_cons] at hr
  have hlen := list_chain_length tt w _ _ hchain
  -- the records of the new pool lie in its window, the root outside
  obtain ⟨hnd, hlt⟩ := list_chain_nodup tt w _ _ hchain
  obtain ⟨xm, hxm, hge⟩ := nodup_exists_ge _ hnd (List.cons_ne_nil i rest)
  have hwj : ∀ j, j < (i :: rest).length →
      (j / 4096 + 1) * ((type_row tt D.type_id).type_size * 4096) ≤ 2 ^ 32 := by
    intro j hj
    rw [hDt]
    exact window_mono j xm _ (by omega) (hwin xm hxm)
  have hinD : lanes_within tt D.type_id := by rw [hDt]; exact hin
  have hout : ∀ j, j < (i :: rest).length → ∀ k, k < (type_row tt src.type_id).field_count →
      ∀ b, b < (field_entry tt src.type_id k).field_size →
        field_address tt (record_ref D j) k + b < root ∨
        root + 8 ≤ field_address tt (record_ref D j) k + b := by
    intro j hj k hk b hb
    have := field_address_bounds tt (record_ref D j) k b hinD (by rw [← hDt] at hk; exact hk)
      (hwj j hj) (record_ref_index D j).1 (by rw [← hDt] at hb; exact hb)
    have e : (record_ref D j).pool_id = next_free := hDp
    rw [e] at this
    omega
  -- the run of collect_pool
  have hcr : raw_val (⟨src.type_id, 0, next_free, 0, 0, 0, 0⟩ : pool_struct) ≠ NULL_POOL :=
    raw_val_ne_zero _ hnf0
  have hpop : (pop_root tt munmap_errno g w.mem).2 = root := by
    simp only [pop_root, hsize, sub64]
    rw [← hstack]
    norm_num [SIZE_MAX1]
  have hpop1 : (pop_root tt munmap_errno g w.mem).1.root_stack_size = 0 := by
    simp only [pop_root, hsize, sub64]
    norm_num [SIZE_MAX1]
  have hnot : (0 : Nat) ≠ OUT_OF_MEM := by decide
  have h1 : collect_pool ⟨tt, true, mmap_ok, munmap_errno, alloc_ok, fuel⟩ src g next_free w =
      collect_list_roots ⟨tt, true, mmap_ok, munmap_errno, alloc_ok, fuel⟩ src
        ((next_free + 1) % 2 ^ 16) (1 + 1) ⟨src.type_id, 0, next_free, 0, 0, 0, 0⟩ g w := by
    rw [collect_pool_list_eq _ _ _ _ _ rfl hnf0 hnum, hsize]
  have h2 := collect_list_roots_step ⟨tt, true, mmap_ok, munmap_errno, alloc_ok, fuel⟩ src
    ((next_free + 1) % 2 ^ 16) 1 ⟨src.type_id, 0, next_free, 0, 0, 0, 0⟩ g w r
    (by rw [hsize]; exact one_ne_zero)
    (by rw [hpop, ← hhead, hDd]; exact hr)
    (by rw [hret]; exact hnot)
  have h3 := collect_list_roots_done ⟨tt, true, mmap_ok, munmap_errno, alloc_ok, fuel⟩ src
    ((next_free + 1) % 2 ^ 16) 0 r.pool (pop_root tt munmap_errno g w.mem).1
    { r.w with mem := store r.w.mem (pop_root tt munmap_errno g w.mem).2 8 (raw_val
        ({ type_id := src.type_id
           sub_pool_id := GLOBAL_INDEX_TO_SUBPOOL_ID r.ret % 2 ^ 16
           pool_id := r.pool.pool_id
           index := GLOBAL_INDEX_TO_SUBPOOL_OFFSET r.ret % 2 ^ 12
           full := 0, is_extended := 0, gc_state := 0 } : pool_struct)) } hpop1
  have hrun := h1.trans (h2.trans h3)
  rw [hpop, hret] at hrun
  refine ⟨_, hrun, ?_⟩
  · have hw8 : ∀ v, load (store r.w.mem root 8 v) root 8 = v % 256 ^ 8 := fun v =>
      load_store_same _ _ _ _
    have hrj : ∀ j, record_ref r.pool j = record_ref D j := by
      intro j
      rw [hp]
      rfl
    have hcells : ∀ j, j < (i :: rest).length →
        load (store r.w.mem root 8 (raw_val
          ({ type_id := src.type_id
             sub_pool_id := GLOBAL_INDEX_TO_SUBPOOL_ID 0 % 2 ^ 16
             pool_id := r.pool.pool_id
             index := GLOBAL_INDEX_TO_SUBPOOL_OFFSET 0 % 2 ^ 12
             full := 0, is_extended := 0, gc_state := 0 } : pool_struct)))
          (local_ref_ptr tt (record_ref r.pool j) 0) 2 =
          if j + 1 < (i :: rest).length then ONE_STEP else 0 := by
      intro j hj
      have hptr := local_ref_ptr_eq tt D j 0 (by rw [hDp]; exact hnf) hinD
        (by rw [hDt]; omega) (hwj j hj) (by rw [hDt]; exact hfs0)
      have o0 := hout j hj 0 (by omega) 0 (by rw [hfs0]; omega)
      have o1 := hout j hj 0 (by omega) 1 (by rw [hfs0]; omega)
      rw [hrj, load_store_other _ _ _ _ _ _ (by rw [hptr]; omega)]
      exact R j hj
    refine ⟨rfl, ?_, ?_, ?_, ?_, ?_, ?_, ?_, ?_⟩
    · show r.pool.pool_id = next_free
      rw [hp]
      exact hDp
    · show r.pool.type_id = src.type_id
      rw [hp]
      exact hDt
    · show GET_SIZE_OF_POOL r.pool = _
      rw [hp, cursor_at_size]
    · show of_raw (load (store r.w.mem root 8 _) root 8) = record_ref r.pool 0
      have e1 : GLOBAL_INDEX_TO_SUBPOOL_ID 0 % 2 ^ 16 = 0 := by decide
      have e2 : GLOBAL_INDEX_TO_SUBPOOL_OFFSET 0 % 2 ^ 12 = 0 := by decide
      rw [hw8, hp, e1, e2]
      have e3 : record_ref (cursor_at D (i :: rest).length) 0 =
          ⟨src.type_id, 0, (cursor_at D (i :: rest).length).pool_id, 0, 0, 0, 0⟩ := by
        simp only [record_ref, cursor_at, hDt, Nat.zero_div, Nat.zero_mod]
      have e4 : (cursor_at D (i :: rest).length).pool_id = next_free := hDp
      rw [e3, e4, Nat.mod_eq_of_lt, of_raw_raw_val]
      · simp only [pool_struct.wf]
        omega
      · simp only [raw_val]
        omega
    · exact hcells
    · rw [List.range_eq_range']
      apply list_chain_of_steps tt _ _ rest.length 0
      · simp only [List.length_cons] at hlen
        omega
      · intro j hj
        rw [Nat.zero_add]
        exact hcells j hj
    · intro j hj k hk1 hk2 b hb
      show store r.w.mem root 8 _ (field_address tt (record_ref r.pool j) k + b) = _
      rw [hrj, store_other _ _ _ _ _ (by have := hout j hj k hk2 b hb; omega)]
      exact Dt j hj k hk1 hk2 b hb
    · show [(pool_destroy tt munmap_errno src).call.getD (0, 0)] = _
      simp only [pool_destroy]
      split_ifs <;> rfl

/-- C25 at a concrete input: the list pool 1 holds three records, of which
record 0 refers to record 2 and record 1 was removed from the list; the root
at address 64 refers to record 0 and is the one entry of the root stack, which
lies in pool 2; the new pool is pool 3. -/
theorem C25_collect_pool_list_witness :
    ∃ res, collect_pool ⟨basic_type_table, true, fun _ => true, fun _ => 0, true, 3⟩
        ⟨7, 0, 1, 3, 0, 0, 0⟩ ⟨⟨1, 0, 2, 1, 0, 0, 0⟩, 1, 8589934592⟩ 3
        ⟨store (store (store (fun _ => 0) 4294967296 2 2) 8589934592 8 64) 64 8 4294967303,
          table_init⟩ = some res ∧
      res.ret = 0 ∧ res.pool.pool_id = 3 ∧ GET_SIZE_OF_POOL res.pool = 2 ∧
      of_raw (load res.w.mem 64 8) = record_ref res.pool 0 := by
  have hroot : load (store (store (store (fun _ => 0) 4294967296 2 2) 8589934592 8 64) 64 8
      4294967303) 64 8 = 4294967303 := by
    rw [load_store_same]
    norm_num
  have hp0 : local_ref_ptr basic_type_table (at_index (record_ref ⟨7, 0, 1, 3, 0, 0, 0⟩ 0) 0) 0 =
      4294967296 := by decide
  have hp2 : local_ref_ptr basic_type_table (at_index (record_ref ⟨7, 0, 1, 3, 0, 0, 0⟩ 0) 2) 0 =
      4294967300 := by decide
  have hl0 : load (store (store (store (fun _ => 0) 4294967296 2 2) 8589934592 8 64) 64 8
      4294967303) 4294967296 2 = 2 := by
    rw [load_store_other _ _ _ _ _ _ (by omega), load_store_other _ _ _ _ _ _ (by omega),
      load_store_two]
  have hl2 : load (store (store (store (fun _ => 0) 4294967296 2 2) 8589934592 8 64) 64 8
      4294967303) 4294967300 2 = 0 := by
    rw [load_store_other _ _ _ _ _ _ (by omega), load_store_other _ _ _ _ _ _ (by omega),
      load_store_other _ _ _ _ _ _ (by omega)]
    rfl
  have hchain : list_chain basic_type_table
      ⟨store (store (store (fun _ => 0) 4294967296 2 2) 8589934592 8 64) 64 8 4294967303,
        table_init⟩ (record_ref ⟨7, 0, 1, 3, 0, 0, 0⟩ 0) [0, 2] := by
    refine ⟨by norm_num, ?_, by norm_num, ?_⟩
    · simp only [stored_index, hp0, hl0]
      decide
    · simp only [stored_index, hp2, hl2]
      decide
  obtain ⟨res, h1, h2, h3, _, h5, h6, _⟩ := C25_collect_pool_list
    ⟨basic_type_table, true, fun _ => true, fun _ => 0, true, 3⟩ ⟨7, 0, 1, 3, 0, 0, 0⟩
    ⟨⟨1, 0, 2, 1, 0, 0, 0⟩, 1, 8589934592⟩ 3
    ⟨store (store (store (fun _ => 0) 4294967296 2 2) 8589934592 8 64) 64 8 4294967303,
      table_init⟩ 64 [0, 2] rfl (fun _ => rfl) (by decide) (by decide) (by decide) (by decide)
    (by decide) (by decide) (by decide) (by decide) (by decide) (by decide) (by decide)
    (by decide) (by decide) (by decide) table_init_inv rfl
    (by
      show load _ (8589934592 % SIZE_MAX1) 8 = 64
      rw [show 8589934592 % SIZE_MAX1 = 8589934592 by decide,
        load_store_other _ _ _ _ _ _ (by omega), load_store_same]
      norm_num) (by decide) hchain
    (by rw [hroot]; decide) (by decide)
  exact ⟨res, h1, h2, h3, h5, h6⟩

/-! ## Claims C33 to C35: the size of the expansion table -/

theorem resize_step_room (T : table_state) (hinv : table_inv T)
    (hsize : T.hash_table_size * 2 < SIZE_MAX1)
    (hcap : T.hash_table_size = 0 ∨ ∃ k, T.hash_table_size = PAGE_SIZE * 2 ^ k)
    (hhalf : (live_count T.reference_table + tomb_count T.reference_table) * 2 <
      T.hash_table_size + 2) :
    ∃ T0, resize_step true T = some T0 ∧ table_inv T0 ∧
      (∃ k, T0.hash_table_size = PAGE_SIZE * 2 ^ k) ∧
      T0.hash_table_size = (if T.hash_table_value_count * 2 ≥ T.hash_table_size then
        max PAGE_SIZE (2 * T.hash_table_size) else T.hash_table_size) ∧
      (live_count T0.reference_table + tomb_count T0.reference_table) * 2 <
        T0.hash_table_size := by
  have hp : PAGE_SIZE = 4096 := rfl
  obtain ⟨T0, hres, hinv0, hn0, hle0, hroom0, _⟩ := resize_step_spec T hinv hsize
  obtain ⟨T0', hres', hvc, _, hgrow, hclean, hsame⟩ := resize_step_effect T hinv hsize
  rw [hres] at hres'
  simp only [Option.some.injEq] at hres'
  subst hres'
  have hl := hinv.live
  have hd := hinv.dead
  have hl0 := hinv0.live
  have hd0 := hinv0.dead
  have hpow : ∀ k : Nat, T.hash_table_size = PAGE_SIZE * 2 ^ k → 4096 ≤ T.hash_table_size :=
    fun k hk => by rw [hk]; exact Nat.le_mul_of_pos_right _ (Nat.two_pow_pos k)
  refine ⟨T0, hres, hinv0, ?_, ?_, ?_⟩
  · by_cases hg : T.hash_table_value_count * 2 ≥ T.hash_table_size
    · obtain ⟨hs, _⟩ := hgrow hg
      rcases hcap with h0 | ⟨k, hk⟩
      · refine ⟨0, ?_⟩
        rw [hs, if_neg (by simpa using h0)]
        simp
      · refine ⟨k + 1, ?_⟩
        have := hpow k hk
        rw [hs, if_pos (by omega), hk, pow_succ]
        ring
    · by_cases hc : (T.hash_table_value_count + T.hash_table_del_count) * 2 ≥
          T.hash_table_size
      · obtain ⟨hs, _⟩ := hclean (by omega) hc
        rcases hcap with h0 | ⟨k, hk⟩
        · omega
        · exact ⟨k, hs.trans hk⟩
      · have := hsame (by omega) (by omega)
        rcases hcap with h0 | ⟨k, hk⟩
        · omega
        · exact ⟨k, by rw [this]; exact hk⟩
  · by_cases hg : T.hash_table_value_count * 2 ≥ T.hash_table_size
    · obtain ⟨hs, _⟩ := hgrow hg
      rw [if_pos hg, hs]
      rcases hcap with h0 | ⟨k, hk⟩
      · rw [if_neg (by simpa using h0), h0]
        simp
      · have := hpow k hk
        rw [if_pos (by omega)]
        omega
    · rw [if_neg hg]
      by_cases hc : (T.hash_table_value_count + T.hash_table_del_count) * 2 ≥
          T.hash_table_size
      · exact (hclean (by omega) hc).1
      · rw [hsame (by omega) (by omega)]
  · by_cases hg : T.hash_table_value_count * 2 ≥ T.hash_table_size
    · obtain ⟨hs, hdc⟩ := hgrow hg
      rw [← hl0, ← hd0, hdc, hvc, hs]
      rcases hcap with h0 | ⟨k, hk⟩
      · rw [if_neg (by simpa using h0)]
        omega
      · have := hpow k hk
        rw [if_pos (by omega)]
        omega
    · by_cases hc : (T.hash_table_value_count + T.hash_table_del_count) * 2 ≥
          T.hash_table_size
      · obtain ⟨hs, hdc⟩ := hclean (by omega) hc
        rw [← hl0, ← hd0, hdc, hvc, hs]
        omega
      · have := hsame (by omega) (by omega)
        rw [this]
        omega

theorem compress_room (T T1 : table_state) (key value fuel : Nat) (ret : Int)
    (hinv : table_inv T) (hsize : T.hash_table_size * 2 < SIZE_MAX1)
    (hvalue : value < SIZE_MAX1)
    (hfuel : max PAGE_SIZE (2 * T.hash_table_size) ≤ fuel)
    (hcap : T.hash_table_size = 0 ∨ ∃ k, T.hash_table_size = PAGE_SIZE * 2 ^ k)
    (hhalf : (live_count T.reference_table + tomb_count T.reference_table) * 2 <
      T.hash_table_size + 2)
    (h : compress_absolute_index fuel true T key value = some (T1, ret)) :
    ∃ T0, resize_step true T = some T0 ∧ T1.hash_table_size = T0.hash_table_size ∧
      (∃ k, T1.hash_table_size = PAGE_SIZE * 2 ^ k) ∧
      (live_count T1.reference_table + tomb_count T1.reference_table) * 2 <
        T1.hash_table_size + 2 := by
  obtain ⟨T0, hres, hinv0, hk0, _, hroom0⟩ := resize_step_room T hinv hsize hcap hhalf
  have hinv1 := compress_inv T T1 key value fuel ret hinv hsize hvalue hfuel h
  refine ⟨T0, hres, ?_⟩
  rw [compress_unfold, hres] at h
  simp only at h
  split_ifs at h with hk hv
  · simp only [Option.some.injEq, Prod.mk.injEq] at h
    rw [← h.1]
    exact ⟨rfl, hk0, by omega⟩
  · simp only [Option.some.injEq, Prod.mk.injEq] at h
    rw [← h.1]
    exact ⟨rfl, hk0, by omega⟩
  · cases hloop : compress_loop T0.hash_table_size T0.reference_table key fuel
        (hash_func key % T0.hash_table_size) none with
    | none => rw [hloop] at h; simp at h
    | some f =>
      rw [hloop] at h
      simp only [Option.some.injEq, Prod.mk.injEq] at h
      obtain ⟨h1, _⟩ := h
      subst h1
      refine ⟨rfl, hk0, ?_⟩
      simp only
      by_cases hf : f < T0.reference_table.length
      · rw [live_count_set _ _ _ hf, tomb_count_set _ _ _ hf]
        have e1 : (if (⟨key, DELETED_VALUE ||| value⟩ : table_entry).key ≠ 0 then 1 else 0)
            = 1 := if_pos hk
        have e2 : (if (⟨key, DELETED_VALUE ||| value⟩ : table_entry).key = 0 ∧
            (⟨key, DELETED_VALUE ||| value⟩ : table_entry).value ≠ 0 then 1 else 0) = 0 :=
          if_neg (fun h => hk h.1)
        rw [e1, e2]
        omega
      · rw [List.set_eq_of_length_le (by omega)]
        omega

theorem tombstone_sum (t : List table_entry) (i : Nat) (hi : i < t.length)
    (hk : (table_at t i).key ≠ 0) :
    live_count (t.set i ⟨0, DELETED_VALUE⟩) + tomb_count (t.set i ⟨0, DELETED_VALUE⟩) =
      live_count t + tomb_count t := by
  have hpos := live_count_pos t i hi hk
  rw [live_count_set t i _ hi, tomb_count_set t i _ hi]
  have e0 : (if (table_at t i).key ≠ 0 then 1 else 0) = 1 := if_pos hk
  have e3 : (if (table_at t i).key = 0 ∧ (table_at t i).value ≠ 0 then 1 else 0) = 0 :=
    if_neg (fun h => hk h.1)
  have e1 : (if (⟨0, DELETED_VALUE⟩ : table_entry).key ≠ 0 then 1 else 0) = 0 :=
    if_neg (fun h => h rfl)
  have e2 : (if (⟨0, DELETED_VALUE⟩ : table_entry).key = 0 ∧
      (⟨0, DELETED_VALUE⟩ : table_entry).value ≠ 0 then 1 else 0) = 1 :=
    if_pos ⟨rfl, by simp [DELETED_VALUE]⟩
  rw [e0, e3, e1, e2]
  omega

theorem delete_reference_sum (T : table_state) (key : Nat) (hinv : table_inv T) :
    live_count (delete_reference T key).1.reference_table +
      tomb_count (delete_reference T key).1.reference_table =
      live_count T.reference_table + tomb_count T.reference_table := by
  unfold delete_reference
  split_ifs with h1 h2
  · rfl
  · rfl
  · have hn : 0 < T.hash_table_size := by omega
    cases hloop : delete_loop T.hash_table_size T.reference_table key T.hash_table_size
        (hash_func key % T.hash_table_size) with
    | none => rfl
    | some idx =>
      obtain ⟨hidx, hkey⟩ := delete_loop_some _ _ key hn _ _ idx (Nat.mod_lt _ hn) hloop
      exact tombstone_sum T.reference_table idx (by rw [hinv.len]; exact hidx)
        (by rw [hkey]; exact h1)

theorem delete_all_loop_sum (pool_id : Nat) (hp : pool_id ≠ 0) :
    ∀ n i T, table_inv T → i + n ≤ T.hash_table_size →
      live_count (delete_all_loop pool_id n i T).reference_table +
        tomb_count (delete_all_loop pool_id n i T).reference_table =
        live_count T.reference_table + tomb_count T.reference_table := by
  intro n
  induction n with
  | zero => intro i T _ _; rfl
  | succ n ih =>
    intro i T hinv hle
    rw [delete_all_loop]
    split_ifs with hmatch
    · have hk : (table_at T.reference_table i).key ≠ 0 := by
        intro h0
        rw [h0] at hmatch
        simp [tag_pool_id] at hmatch
        exact hp hmatch.symm
      rw [ih (i + 1) _ (tombstone_keeps T i hinv (by omega) hk) (by simp only; omega)]
      exact tombstone_sum T.reference_table i (by rw [hinv.len]; omega) hk
    · exact ih (i + 1) T hinv (by omega)

theorem delete_all_for_pool_sum (T : table_state) (pool : pool_struct) (hinv : table_inv T) :
    live_count (delete_all_for_pool T pool).1.reference_table +
      tomb_count (delete_all_for_pool T pool).1.reference_table =
      live_count T.reference_table + tomb_count T.reference_table ∧
    (delete_all_for_pool T pool).1.hash_table_size = T.hash_table_size := by
  unfold delete_all_for_pool
  split_ifs with h
  · exact ⟨rfl, rfl⟩
  · exact ⟨delete_all_loop_sum pool.pool_id h T.hash_table_size 0 T hinv (by omega),
      (delete_all_loop_inv pool.pool_id h T.hash_table_size 0 T hinv (by omega)).2⟩

/-- In every reachable state of the expansion table the capacity is 0 or
PAGE_SIZE times a power of two, and twice the number of live and tombstone
slots is below the capacity plus 2. -/
theorem table_reachable_size (T : table_state) (h : table_reachable T) :
    (T.hash_table_size = 0 ∨ ∃ k, T.hash_table_size = PAGE_SIZE * 2 ^ k) ∧
    (live_count T.reference_table + tomb_count T.reference_table) * 2 <
      T.hash_table_size + 2 := by
  induction h with
  | init => exact ⟨Or.inl rfl, by decide⟩
  | compress T T1 key value fuel ret hr hsize hvalue hfuel hc ih =>
    obtain ⟨T0, _, _, hk, hroom⟩ := compress_room T T1 key value fuel ret
      (table_reachable_inv T hr) hsize hvalue hfuel ih.1 ih.2 hc
    exact ⟨Or.inr hk, hroom⟩
  | delete T key hr ih =>
    have hinv := table_reachable_inv T hr
    rw [(delete_other T key hinv).2.2.1, delete_reference_sum T key hinv]
    exact ih
  | delete_all T pool hr ih =>
    have hinv := table_reachable_inv T hr
    rw [(delete_all_for_pool_sum T pool hinv).1, (delete_all_for_pool_sum T pool hinv).2]
    exact ih

theorem compress_size (T T0 T1 : table_state) (key value fuel : Nat) (alloc_ok : Bool)
    (ret : Int) (hres : resize_step alloc_ok T = some T0)
    (h : compress_absolute_index fuel alloc_ok T key value = some (T1, ret)) :
    T1.hash_table_size = T0.hash_table_size := by
  rw [compress_unfold, hres] at h
  simp only at h
  split_ifs at h with hk hv
  · simp only [Option.some.injEq, Prod.mk.injEq] at h
    rw [← h.1]
  · simp only [Option.some.injEq, Prod.mk.injEq] at h
    rw [← h.1]
  · cases hloop : compress_loop T0.hash_table_size T0.reference_table key fuel
        (hash_func key % T0.hash_table_size) none with
    | none => rw [hloop] at h; simp at h
    | some f =>
      rw [hloop] at h
      simp only [Option.some.injEq, Prod.mk.injEq] at h
      rw [← h.1]

theorem compress_returns (T : table_state) (key value fuel : Nat) (hinv : table_inv T)
    (hsize : T.hash_table_size * 2 < SIZE_MAX1) (hvalue : value < SIZE_MAX1)
    (hfuel : max PAGE_SIZE (2 * T.hash_table_size) ≤ fuel) :
    ∃ T1 ret, compress_absolute_index fuel true T key value = some (T1, ret) := by
  obtain ⟨T0, hres, _⟩ := resize_step_spec T hinv hsize
  by_cases hk : key = 0
  · refine ⟨T0, 1, ?_⟩
    rw [compress_unfold, hres]
    simp [hk]
  · by_cases hv : value &&& DELETED_VALUE ≠ 0
    · refine ⟨T0, 1, ?_⟩
      rw [compress_unfold, hres]
      simp [hk, hv]
    · have hval : value < DELETED_VALUE := by
        have := (and_deleted value).1 (by simpa using hv)
        simp only [DELETED_VALUE, SIZE_MAX1] at *
        omega
      obtain ⟨T1, hc, _⟩ := compress_spec T key value fuel hinv hsize hk hval hfuel
      exact ⟨T1, 0, hc⟩

/-- C33 as stated fails in the initial state itself: before the first call of
compress_absolute_index the capacity `hash_table_size` is 0, which is not a
power of two. -/
theorem C33_initial_capacity_is_zero :
    table_reachable table_init ∧ table_init.hash_table_size = 0 ∧
      ¬ ∃ k : Nat, table_init.hash_table_size = 2 ^ k := by
  refine ⟨table_reachable.init, rfl, ?_⟩
  rintro ⟨k, hk⟩
  have : 0 < 2 ^ k := Nat.two_pow_pos k
  have h0 : table_init.hash_table_size = 0 := rfl
  omega

/-- C33 (amended): in every state of the expansion table reached from the
initial globals by calls of compress_absolute_index, delete_reference and
delete_all_for_pool (allocations succeeding, the doubled size within
`size_t`), the capacity `hash_table_size` is either 0, with no table
allocated, or a power of two from PAGE_SIZE = 2 ^ 12 up; and after every call
of compress_absolute_index that returns it is such a power of two. -/
theorem C33_capacity_power_of_two (T : table_state) (h : table_reachable T) :
    ((T.hash_table_size = 0 ∧ T.reference_table = []) ∨
      ∃ k, T.hash_table_size = 2 ^ (12 + k)) ∧
    ∀ key value fuel T1 ret, T.hash_table_size * 2 < SIZE_MAX1 → value < SIZE_MAX1 →
      max PAGE_SIZE (2 * T.hash_table_size) ≤ fuel →
      compress_absolute_index fuel true T key value = some (T1, ret) →
      ∃ k, T1.hash_table_size = 2 ^ (12 + k) := by
  have hinv := table_reachable_inv T h
  have hs := table_reachable_size T h
  have hp : ∀ k, PAGE_SIZE * 2 ^ k = 2 ^ (12 + k) := fun k => by
    rw [pow_add]; rfl
  constructor
  · rcases hs.1 with h0 | ⟨k, hk⟩
    · left
      refine ⟨h0, ?_⟩
      apply List.eq_nil_of_length_eq_zero
      rw [hinv.len, h0]
    · right
      exact ⟨k, by rw [hk, hp]⟩
  · intro key value fuel T1 ret hsize hvalue hfuel hc
    obtain ⟨T0, _, _, ⟨k, hk⟩, _⟩ :=
      compress_room T T1 key value fuel ret hinv hsize hvalue hfuel hs.1 hs.2 hc
    exact ⟨k, by rw [hk, hp]⟩

/-- C33 (amended) at a concrete input: the state after the first store of
test/test_reference_table.c, the key 0xbeefdeadbeef with the value 424242. -/
theorem C33_capacity_power_of_two_witness :
    ∃ T1, compress_absolute_index 4096 true table_init 209937442389743 424242 = some (T1, 0) ∧
      ((T1.hash_table_size = 0 ∧ T1.reference_table = []) ∨
        ∃ k, T1.hash_table_size = 2 ^ (12 + k)) := by
  obtain ⟨T1, hc, _⟩ := compress_spec table_init 209937442389743 424242 4096
    table_init_inv (by decide) (by decide) (by decide) (by decide)
  exact ⟨T1, hc, (C33_capacity_power_of_two T1
    (table_reachable.compress table_init T1 209937442389743 424242 4096 0
      table_reachable.init (by decide) (by decide) (by decide) hc)).1⟩

/-- C34: in every state of the expansion table reached from the initial
globals, `hash_table_value_count` is the number of slots with `key != 0`,
`hash_table_del_count` is the number of tombstone slots (`key == 0` and a
value other than 0, which is DELETED_VALUE), and live plus tombstones is at
most the capacity.  Every compress_absolute_index of a key other than 0 with a
value without the top bit returns 0 and leaves `(live - 1) * 2 < capacity` and
a slot that is truly empty (`key == 0`, `value == 0`). -/
theorem C34_counter_invariants (T : table_state) (h : table_reachable T) :
    T.hash_table_value_count = (T.reference_table.filter (fun e => decide (e.key ≠ 0))).length ∧
    T.hash_table_del_count =
      (T.reference_table.filter (fun e => decide (e.key = 0 ∧ e.value ≠ 0))).length ∧
    (∀ e ∈ T.reference_table, e.key = 0 → e.value ≠ 0 → e.value = DELETED_VALUE) ∧
    T.reference_table.length = T.hash_table_size ∧
    T.hash_table_value_count + T.hash_table_del_count ≤ T.hash_table_size ∧
    ∀ key value fuel, key ≠ 0 → value < DELETED_VALUE →
      T.hash_table_size * 2 < SIZE_MAX1 → max PAGE_SIZE (2 * T.hash_table_size) ≤ fuel →
      ∃ T1, compress_absolute_index fuel true T key value = some (T1, 0) ∧
        (T1.hash_table_value_count - 1) * 2 < T1.hash_table_size ∧
        ∃ j, j < T1.hash_table_size ∧ (table_at T1.reference_table j).key = 0 ∧
          (table_at T1.reference_table j).value = 0 := by
  have hinv := table_reachable_inv T h
  have hs := table_reachable_size T h
  refine ⟨?_, ?_, ?_, hinv.len, ?_, ?_⟩
  · rw [hinv.live, live_count, List.countP_eq_length_filter]
  · rw [hinv.dead, tomb_count, List.countP_eq_length_filter]
  · intro e he hk hv
    rcases hinv.ok e he with ⟨_, h0 | h1⟩ | ⟨h2, _⟩
    · exact absurd h0 hv
    · exact h1
    · exact absurd hk h2
  · rw [hinv.live, hinv.dead, ← hinv.len]
    exact live_tomb_le _
  · intro key value fuel hkey hval hsize hfuel
    obtain ⟨T1, hc, hinv1, _⟩ := compress_spec T key value fuel hinv hsize hkey hval hfuel
    have hvalue : value < SIZE_MAX1 := by
      simp only [DELETED_VALUE, SIZE_MAX1] at *
      omega
    obtain ⟨T0, _, _, ⟨k, hk⟩, hroom⟩ :=
      compress_room T T1 key value fuel 0 hinv hsize hvalue hfuel hs.1 hs.2 hc
    have hge : 4096 ≤ T1.hash_table_size := by
      rw [hk]; exact Nat.le_mul_of_pos_right _ (Nat.two_pow_pos k)
    refine ⟨T1, hc, ?_, ?_⟩
    · rw [hinv1.live]
      omega
    · obtain ⟨j, hj, hj1, hj2⟩ := exists_empty T1.reference_table (by rw [hinv1.len]; omega)
      exact ⟨j, by rw [← hinv1.len]; exact hj, hj1, hj2⟩

/-- C34 at a concrete input: the state after the first store of
test/test_reference_table.c, the key 0xbeefdeadbeef with the value 424242,
and then a store of the key 0xbabe04040404 with 42. -/
theorem C34_counter_invariants_witness :
    ∃ T1, compress_absolute_index 4096 true table_init 209937442389743 424242 = some (T1, 0) ∧
      T1.hash_table_value_count =
        (T1.reference_table.filter (fun e => decide (e.key ≠ 0))).length ∧
      T1.hash_table_value_count + T1.hash_table_del_count ≤ T1.hash_table_size ∧
      ∃ T2, compress_absolute_index 8192 true T1 205325273924612 42 = some (T2, 0) ∧
        (T2.hash_table_value_count - 1) * 2 < T2.hash_table_size := by
  obtain ⟨T1, hc, _, _, _, hle, _, _, _⟩ := compress_other table_init 209937442389743 424242
    4096 table_init_inv (by decide) (by decide) (by decide) (by decide)
  have hle1 : T1.hash_table_size ≤ 4096 := hle
  have hm : SIZE_MAX1 = 18446744073709551616 := rfl
  have hp : PAGE_SIZE = 4096 := rfl
  have h := C34_counter_invariants T1
    (table_reachable.compress table_init T1 209937442389743 424242 4096 0
      table_reachable.init (by decide) (by decide) (by decide) hc)
  obtain ⟨T2, hc2, h2, _⟩ := h.2.2.2.2.2 205325273924612 42 8192 (by decide) (by decide)
    (by omega) (by omega)
  exact ⟨T1, hc, h.1, h.2.2.2.2.1, T2, hc2, h2⟩

theorem table_run_below_half (fuel : Nat) :
    ∀ (ops : List table_op) (T : table_state), table_inv T →
      T.hash_table_size * 2 < SIZE_MAX1 →
      max PAGE_SIZE (2 * T.hash_table_size) ≤ fuel →
      (∀ key value, table_op.compress key value ∈ ops → value < SIZE_MAX1) →
      below_half fuel T ops →
      ∃ T1, table_run fuel T ops = some T1 ∧ T1.hash_table_size = T.hash_table_size ∧
        table_inv T1 := by
  intro ops
  induction ops with
  | nil => intro T hinv _ _ _ _; exact ⟨T, rfl, rfl, hinv⟩
  | cons op ops ih =>
    intro T hinv hsize hfuel hvals hb
    obtain ⟨hb1, hb2⟩ := hb
    have hvals1 : ∀ key value, table_op.compress key value ∈ ops → value < SIZE_MAX1 :=
      fun key value hm => hvals key value (List.mem_cons_of_mem _ hm)
    cases op with
    | compress key value =>
      have hlt := hb1 key value rfl
      have hvalue := hvals key value (List.mem_cons_self _ _)
      obtain ⟨T1, ret, hc⟩ := compress_returns T key value fuel hinv hsize hvalue hfuel
      obtain ⟨T0, hres, _, _, _, hclean, hsame⟩ := resize_step_effect T hinv hsize
      have hs1 := compress_size T T0 T1 key value fuel true ret hres hc
      have hs0 : T0.hash_table_size = T.hash_table_size := by
        by_cases hcl : (T.hash_table_value_count + T.hash_table_del_count) * 2 ≥
            T.hash_table_size
        · exact (hclean hlt hcl).1
        · rw [hsame hlt (by omega)]
      have hstep : table_step fuel T (table_op.compress key value) = some T1 := by
        simp only [table_step, hc, Option.map_some']
      have hinv1 := compress_inv T T1 key value fuel ret hinv hsize hvalue hfuel hc
      have hsz : T1.hash_table_size = T.hash_table_size := hs1.trans hs0
      obtain ⟨T2, hrun, hs2, hinv2⟩ := ih T1 hinv1 (by rw [hsz]; exact hsize)
        (by rw [hsz]; exact hfuel) hvals1 (hb2 T1 hstep)
      refine ⟨T2, ?_, hs2.trans hsz, hinv2⟩
      simp only [table_run, hstep]
      exact hrun
    | delete key =>
      have hstep : table_step fuel T (table_op.delete key) = some (delete_reference T key).1 :=
        rfl
      have hd := delete_other T key hinv
      have hsz := hd.2.2.1
      obtain ⟨T2, hrun, hs2, hinv2⟩ := ih (delete_reference T key).1 hd.1
        (by rw [hsz]; exact hsize) (by rw [hsz]; exact hfuel) hvals1 (hb2 _ hstep)
      refine ⟨T2, ?_, hs2.trans hsz, hinv2⟩
      simp only [table_run, hstep]
      exact hrun

/-- C35: in every state of the expansion table reached from the initial
globals (the doubled size within `size_t`, allocations succeeding), a call of
compress_absolute_index first resizes: when `live * 2 >= capacity` on entry the
capacity becomes `max(PAGE_SIZE, 2 * capacity)` and the tombstone counter 0;
when instead `(live + tombstones) * 2 >= capacity` the table is rebuilt with
the capacity and the live counter unchanged and no tombstone left; otherwise
nothing changes; and the call ends with the capacity that the resizing step
left, so the capacity changes only when `live * 2 >= capacity` on entry.
delete_reference keeps the capacity.  Consequently a sequence of calls of
compress_absolute_index and delete_reference, each compress entered with
`live * 2 < capacity`, returns and ends with the capacity it started from. -/
theorem C35_sizing_policy (T : table_state) (h : table_reachable T)
    (hsize : T.hash_table_size * 2 < SIZE_MAX1) :
    (∃ T0, resize_step true T = some T0 ∧
      (T.hash_table_value_count * 2 ≥ T.hash_table_size →
        T0.hash_table_size = max PAGE_SIZE (2 * T.hash_table_size) ∧
        T0.hash_table_del_count = 0) ∧
      (T.hash_table_value_count * 2 < T.hash_table_size →
        (T.hash_table_value_count + T.hash_table_del_count) * 2 ≥ T.hash_table_size →
        T0.hash_table_size = T.hash_table_size ∧ T0.hash_table_del_count = 0 ∧
        tomb_count T0.reference_table = 0 ∧
        T0.hash_table_value_count = T.hash_table_value_count) ∧
      (T.hash_table_value_count * 2 < T.hash_table_size →
        (T.hash_table_value_count + T.hash_table_del_count) * 2 < T.hash_table_size →
        T0 = T) ∧
      ∀ key value fuel, value < SIZE_MAX1 → max PAGE_SIZE (2 * T.hash_table_size) ≤ fuel →
        ∃ T1 ret, compress_absolute_index fuel true T key value = some (T1, ret) ∧
          T1.hash_table_size = T0.hash_table_size ∧
          (T1.hash_table_size ≠ T.hash_table_size →
            T.hash_table_value_count * 2 ≥ T.hash_table_size)) ∧
    (∀ key, (delete_reference T key).1.hash_table_size = T.hash_table_size) ∧
    ∀ ops fuel, max PAGE_SIZE (2 * T.hash_table_size) ≤ fuel →
      (∀ key value, table_op.compress key value ∈ ops → value < SIZE_MAX1) →
      below_half fuel T ops →
      ∃ T1, table_run fuel T ops = some T1 ∧ T1.hash_table_size = T.hash_table_size := by
  have hinv := table_reachable_inv T h
  have hs := table_reachable_size T h
  obtain ⟨T0, hres, hinv0, _, hsz0, _⟩ := resize_step_room T hinv hsize hs.1 hs.2
  obtain ⟨T0', hres', hvc, _, hgrow, hclean, hsame⟩ := resize_step_effect T hinv hsize
  rw [hres] at hres'
  simp only [Option.some.injEq] at hres'
  subst hres'
  refine ⟨⟨T0, hres, ?_, ?_, hsame, ?_⟩, fun key => (delete_other T key hinv).2.2.1, ?_⟩
  · intro hg
    rw [if_pos hg] at hsz0
    exact ⟨hsz0, (hgrow hg).2⟩
  · intro hlt hcl
    obtain ⟨h1, h2⟩ := hclean hlt hcl
    exact ⟨h1, h2, by rw [← hinv0.dead]; exact h2, hvc⟩
  · intro key value fuel hvalue hfuel
    obtain ⟨T1, ret, hc⟩ := compress_returns T key value fuel hinv hsize hvalue hfuel
    have hs1 := compress_size T T0 T1 key value fuel true ret hres hc
    refine ⟨T1, ret, hc, hs1, ?_⟩
    intro hne
    by_contra hlt
    rw [if_neg hlt] at hsz0
    exact hne (hs1.trans hsz0)
  · intro ops fuel hfuel hvals hb
    obtain ⟨T1, hrun, hs1, _⟩ := table_run_below_half fuel ops T hinv hsize hfuel hvals hb
    exact ⟨T1, hrun, hs1⟩

/-- C35 at a concrete input: on the state after the first store of
test/test_reference_table.c (the key 0xbeefdeadbeef with 424242), the
sequence delete_reference of that key, compress_absolute_index of the key
0xbabe04040404 with 42 returns and leaves the capacity as it was. -/
theorem C35_sizing_policy_witness :
    ∃ T1, compress_absolute_index 4096 true table_init 209937442389743 424242 = some (T1, 0) ∧
      ∃ T2, table_run 8192 T1
          [table_op.delete 209937442389743, table_op.compress 205325273924612 42] = some T2 ∧
        T2.hash_table_size = T1.hash_table_size := by
  have hm : SIZE_MAX1 = 18446744073709551616 := rfl
  have hp : PAGE_SIZE = 4096 := rfl
  obtain ⟨T0, T1, hres, hc, hsz, hvc, _⟩ := compress_effect table_init 209937442389743 424242
    4096 table_init_inv (by decide) (by decide) (by decide) (by decide)
  have hr : resize_step true table_init = some ⟨4096, 0, 0, List.replicate 4096 ⟨0, 0⟩⟩ := by
    rfl
  rw [hr] at hres
  simp only [Option.some.injEq] at hres
  subst hres
  have hsz1 : T1.hash_table_size = 4096 := hsz
  have hvc1 : T1.hash_table_value_count ≤ 1 := by
    rw [hvc]
    have : table_init.hash_table_value_count = 0 := rfl
    split_ifs <;> omega
  have hreach : table_reachable T1 :=
    table_reachable.compress table_init T1 209937442389743 424242 4096 0
      table_reachable.init (by decide) (by decide) (by decide) hc
  have hd := delete_other T1 209937442389743 (table_reachable_inv T1 hreach)
  obtain ⟨T2, hrun, hs2⟩ := (C35_sizing_policy T1 hreach (by omega)).2.2
    [table_op.delete 209937442389743, table_op.compress 205325273924612 42] 8192 (by omega)
    (by
      intro key value hmem
      simp only [List.mem_cons, List.mem_singleton, List.not_mem_nil, or_false,
        table_op.compress.injEq] at hmem
      rcases hmem with hmem | hmem
      · cases hmem
      · rw [hmem.2]
        decide)
    (by
      simp only [below_half]
      refine ⟨fun key value hop => (nomatch hop), ?_⟩
      intro T2 hstep
      simp only [table_step, Option.some.injEq] at hstep
      subst hstep
      refine ⟨fun key value _ => ?_, fun T3 _ => trivial⟩
      have h1 := hd.2.2.1
      have h2 := hd.2.2.2
      omega)
  exact ⟨T1, hc, T2, hrun, hs2⟩

/-! ## Claim C39: the probe loop of compress_absolute_index -/

theorem compress_loop_stop (T1 : table_state) (key : Nat) (hinv : table_inv T1)
    (hn : 0 < T1.hash_table_size)
    (hroom : live_count T1.reference_table + tomb_count T1.reference_table <
      T1.hash_table_size) :
    ∃ ds dF, dF ≤ ds ∧ ds < T1.hash_table_size ∧
      ((table_at T1.reference_table
          (probe T1.hash_table_size (hash_func key % T1.hash_table_size) ds)).key = key ∨
       ((table_at T1.reference_table
          (probe T1.hash_table_size (hash_func key % T1.hash_table_size) ds)).key = 0 ∧
        (table_at T1.reference_table
          (probe T1.hash_table_size (hash_func key % T1.hash_table_size) ds)).value = 0)) ∧
      (∀ c, c < ds →
        (table_at T1.reference_table
          (probe T1.hash_table_size (hash_func key % T1.hash_table_size) c)).key ≠ key ∧
        (table_at T1.reference_table
          (probe T1.hash_table_size (hash_func key % T1.hash_table_size) c)).value ≠ 0) ∧
      (∀ fuel, ds < fuel →
        compress_loop T1.hash_table_size T1.reference_table key fuel
          (hash_func key % T1.hash_table_size) none =
          some (probe T1.hash_table_size (hash_func key % T1.hash_table_size) dF)) ∧
      (((table_at T1.reference_table
          (probe T1.hash_table_size (hash_func key % T1.hash_table_size) ds)).key = key ∧
          dF = ds) ∨
       ((table_at T1.reference_table
          (probe T1.hash_table_size (hash_func key % T1.hash_table_size) ds)).key ≠ key ∧
        (table_at T1.reference_table
          (probe T1.hash_table_size (hash_func key % T1.hash_table_size) dF)).key = 0 ∧
        ∀ c, c < dF →
          (table_at T1.reference_table
            (probe T1.hash_table_size (hash_func key % T1.hash_table_size) c)).key ≠ 0)) := by
  obtain ⟨size, vc, dc, t⟩ := T1
  have hlen : t.length = size := hinv.len
  simp only at hn hroom hlen ⊢
  subst hlen
  have hok : ∀ j, j < t.length → entry_ok (table_at t j) :=
    fun j hj => hinv.ok _ (table_at_mem t j hj)
  have hh : hash_func key % t.length < t.length := Nat.mod_lt _ hn
  generalize hhdef : hash_func key % t.length = h at *
  obtain ⟨j, hj, hj0, hjv⟩ := exists_empty t hroom
  obtain ⟨d0, hd0, hpd0⟩ := probe_surj t.length h j hh hj
  have hex : ∃ d, (table_at t (probe t.length h d)).key = key ∨
      ((table_at t (probe t.length h d)).key = 0 ∧
        (table_at t (probe t.length h d)).value &&& DELETED_VALUE = 0) :=
    ⟨d0, Or.inr (by rw [hpd0, hj0, hjv]; simp)⟩
  have hds : Nat.find hex ≤ d0 := Nat.find_min' hex (Or.inr (by rw [hpd0, hj0, hjv]; simp))
  have hstop := Nat.find_spec hex
  have hnostop : ∀ c, c < Nat.find hex → (table_at t (probe t.length h c)).key ≠ key ∧
      (table_at t (probe t.length h c)).value &&& DELETED_VALUE ≠ 0 := by
    intro c hc
    have hmin := Nat.find_min hex hc
    have hc_ok := hok _ (probe_lt t.length h c hn)
    have hbit := and_deleted_of_entry _ hc_ok
    constructor
    · intro hk; exact hmin (Or.inl hk)
    · intro hv; exact hmin (Or.inr ⟨hbit.2 hv, hv⟩)
  generalize Nat.find hex = ds at hds hstop hnostop
  obtain ⟨dF, hdF, _, hcase⟩ := compress_loop_spec t.length t key h ds hn hnostop hstop
    (ds + 1) 0 none (Nat.zero_le _) (by omega) (fun _ c' hc' => absurd hc' (Nat.not_lt_zero _))
    (fun f hf => by simp at hf)
  refine ⟨ds, dF, hdF, by omega, ?_, ?_, ?_, hcase⟩
  · rcases hstop with hs | ⟨hs0, hs⟩
    · exact Or.inl hs
    · exact Or.inr ⟨hs0, (and_deleted_of_entry _ (hok _ (probe_lt t.length h ds hn))).1.1 hs⟩
  · intro c hc
    obtain ⟨h1, h2⟩ := hnostop c hc
    refine ⟨h1, ?_⟩
    intro hv0
    rw [hv0] at h2
    simp at h2
  · intro fuel hfuel
    obtain ⟨dF', hdF', hres', hcase'⟩ := compress_loop_spec t.length t key h ds hn hnostop hstop
      fuel 0 none (Nat.zero_le _) (by omega)
      (fun _ c' hc' => absurd hc' (Nat.not_lt_zero _)) (fun f hf => by simp at hf)
    rw [probe_zero t.length h hh] at hres'
    rw [hres']
    have : dF' = dF := by
      rcases hcase with ⟨hk, hd⟩ | ⟨hk, hF0, hFmin⟩
      · rcases hcase' with ⟨_, hd'⟩ | ⟨hk', _, _⟩
        · omega
        · exact absurd hk hk'
      · rcases hcase' with ⟨hk', _⟩ | ⟨_, hF0', hFmin'⟩
        · exact absurd hk' hk
        · rcases Nat.lt_trichotomy dF' dF with hlt | heq | hgt
          · exact absurd hF0' (hFmin dF' hlt)
          · exact heq
          · exact absurd hF0 (hFmin' dF hgt)
    rw [this]

/-- C39: in every state of the expansion table reached from the initial
globals (the doubled size within `size_t`, allocations succeeding) and for
every key other than 0, the resizing step of compress_absolute_index leaves a
table of capacity at least PAGE_SIZE with a truly empty slot; the probe
sequence of the key reaches, after `ds < capacity` steps and not before, a
slot that holds the key or is truly empty; the probe loop, given more than
`ds` iterations, returns a slot `dF <= ds` steps along the sequence, which is
the slot holding the key if the sequence stopped there, and else the first
slot with `key == 0` on the sequence; and the call returns 0 having written
that slot. -/
theorem C39_probe_loop_terminates (T : table_state) (h : table_reachable T)
    (hsize : T.hash_table_size * 2 < SIZE_MAX1) (key : Nat) (hkey : key ≠ 0) :
    ∃ T0, resize_step true T = some T0 ∧ PAGE_SIZE ≤ T0.hash_table_size ∧
      (∃ j, j < T0.hash_table_size ∧ (table_at T0.reference_table j).key = 0 ∧
        (table_at T0.reference_table j).value = 0) ∧
      ∃ ds dF, dF ≤ ds ∧ ds < T0.hash_table_size ∧
        ((table_at T0.reference_table
            (probe T0.hash_table_size (hash_func key % T0.hash_table_size) ds)).key = key ∨
         ((table_at T0.reference_table
            (probe T0.hash_table_size (hash_func key % T0.hash_table_size) ds)).key = 0 ∧
          (table_at T0.reference_table
            (probe T0.hash_table_size (hash_func key % T0.hash_table_size) ds)).value = 0)) ∧
        (∀ c, c < ds →
          (table_at T0.reference_table
            (probe T0.hash_table_size (hash_func key % T0.hash_table_size) c)).key ≠ key ∧
          (table_at T0.reference_table
            (probe T0.hash_table_size (hash_func key % T0.hash_table_size) c)).value ≠ 0) ∧
        (∀ fuel, ds < fuel →
          compress_loop T0.hash_table_size T0.reference_table key fuel
            (hash_func key % T0.hash_table_size) none =
            some (probe T0.hash_table_size (hash_func key % T0.hash_table_size) dF)) ∧
        (((table_at T0.reference_table
            (probe T0.hash_table_size (hash_func key % T0.hash_table_size) ds)).key = key ∧
            dF = ds) ∨
         ((table_at T0.reference_table
            (probe T0.hash_table_size (hash_func key % T0.hash_table_size) ds)).key ≠ key ∧
          (table_at T0.reference_table
            (probe T0.hash_table_size (hash_func key % T0.hash_table_size) dF)).key = 0 ∧
          ∀ c, c < dF →
            (table_at T0.reference_table
              (probe T0.hash_table_size (hash_func key % T0.hash_table_size) c)).key ≠ 0)) ∧
        ∀ value fuel, value < DELETED_VALUE → T0.hash_table_size ≤ fuel →
          ∃ T1, compress_absolute_index fuel true T key value = some (T1, 0) ∧
            T1.reference_table = T0.reference_table.set
              (probe T0.hash_table_size (hash_func key % T0.hash_table_size) dF)
              ⟨key, DELETED_VALUE ||| value⟩ := by
  have hinv := table_reachable_inv T h
  have hs := table_reachable_size T h
  obtain ⟨T0, hres, hinv0, ⟨k, hk⟩, _, hroom⟩ := resize_step_room T hinv hsize hs.1 hs.2
  have hge : PAGE_SIZE ≤ T0.hash_table_size := by
    rw [hk]; exact Nat.le_mul_of_pos_right _ (Nat.two_pow_pos k)
  have hp : PAGE_SIZE = 4096 := rfl
  have hroom1 : live_count T0.reference_table + tomb_count T0.reference_table <
      T0.hash_table_size := by omega
  obtain ⟨j, hj, hj1, hj2⟩ := exists_empty T0.reference_table (by rw [hinv0.len]; omega)
  obtain ⟨ds, dF, hle, hds, hstop, hpath, hloop, hcase⟩ :=
    compress_loop_stop T0 key hinv0 (by omega) hroom1
  refine ⟨T0, hres, hge, ⟨j, by rw [← hinv0.len]; exact hj, hj1, hj2⟩, ds, dF, hle, hds, hstop,
    hpath, hloop, hcase, ?_⟩
  intro value fuel hval hfuel
  have hv : value &&& DELETED_VALUE = 0 := by
    rw [and_deleted]
    simp only [DELETED_VALUE] at hval ⊢
    omega
  rw [compress_unfold, hres]
  simp only [hkey, hv, ne_eq, not_true_eq_false, if_false, hloop fuel (by omega)]
  exact ⟨_, rfl, rfl⟩

/-- C39 at a concrete input: the table before its first use and the key
0xbeefdeadbeef of test/test_reference_table.c. -/
theorem C39_probe_loop_terminates_witness :
    ∃ T0, resize_step true table_init = some T0 ∧ PAGE_SIZE ≤ T0.hash_table_size ∧
      ∃ ds dF, dF ≤ ds ∧ ds < T0.hash_table_size ∧
        (∀ fuel, ds < fuel →
          compress_loop T0.hash_table_size T0.reference_table 209937442389743 fuel
            (hash_func 209937442389743 % T0.hash_table_size) none =
            some (probe T0.hash_table_size
              (hash_func 209937442389743 % T0.hash_table_size) dF)) := by
  obtain ⟨T0, h1, h2, _, ds, dF, h3, h4, _, _, h5, _⟩ :=
    C39_probe_loop_terminates table_init table_reachable.init (by decide) 209937442389743
      (by decide)
  exact ⟨T0, h1, h2, ds, dF, h3, h4, h5⟩

/-! ## Claim C36: calls on one key leave the other keys alone -/

theorem resize_step_other (T T0 : table_state) (hinv : table_inv T)
    (hsize : T.hash_table_size * 2 < SIZE_MAX1) (hres : resize_step true T = some T0)
    (k : Nat) : expand_local_reference T0 k = expand_local_reference T k := by
  obtain ⟨T0', hres', hinv0, _⟩ := resize_step_spec T hinv hsize
  obtain ⟨T0'', hres'', _, hmem, _⟩ := resize_step_effect T hinv hsize
  rw [hres] at hres' hres''
  simp only [Option.some.injEq] at hres' hres''
  subst hres'
  subst hres''
  exact expand_congr T T0 k hinv hinv0 (fun e he _ => hmem e he)

/-- C36: on a well-formed expansion table and for keys `k1 != k2`, every call
of compress_absolute_index on `k1` returns (allocations succeeding, the
doubled size within `size_t`), and whatever it returns it leaves the result
of expand_local_reference for `k2` as it was, whether or not the call grew or
rebuilt the table; and so does delete_reference of `k1`. -/
theorem C36_other_keys_undisturbed (T : table_state) (k1 k2 v fuel : Nat)
    (hinv : table_inv T) (hsize : T.hash_table_size * 2 < SIZE_MAX1) (hne : k1 ≠ k2)
    (hv : v < SIZE_MAX1) (hfuel : max PAGE_SIZE (2 * T.hash_table_size) ≤ fuel) :
    (∃ T1 ret, compress_absolute_index fuel true T k1 v = some (T1, ret) ∧
      expand_local_reference T1 k2 = expand_local_reference T k2) ∧
    expand_local_reference (delete_reference T k1).1 k2 = expand_local_reference T k2 := by
  refine ⟨?_, (delete_other T k1 hinv).2.1 k2 (fun h => hne h.symm)⟩
  obtain ⟨T0, hres, _⟩ := resize_step_spec T hinv hsize
  by_cases hk : k1 = 0
  · refine ⟨T0, 1, ?_, resize_step_other T T0 hinv hsize hres k2⟩
    rw [compress_unfold, hres]
    simp [hk]
  · by_cases hb : v &&& DELETED_VALUE ≠ 0
    · refine ⟨T0, 1, ?_, resize_step_other T T0 hinv hsize hres k2⟩
      rw [compress_unfold, hres]
      simp [hk, hb]
    · have hval : v < DELETED_VALUE := by
        have := (and_deleted v).1 (by simpa using hb)
        simp only [DELETED_VALUE, SIZE_MAX1] at *
        omega
      obtain ⟨T1, hc, _, _, hother, _⟩ := compress_other T k1 v fuel hinv hsize hk hval hfuel
      exact ⟨T1, 0, hc, hother k2 (fun h => hne h.symm)⟩

/-- C36 at a concrete input, the keys of test/test_reference_table.c: with
0xbabe04040404 stored with 42, storing and then deleting 0xbeefdeadbeef leaves
the lookup of 0xbabe04040404 at 42. -/
theorem C36_other_keys_undisturbed_witness :
    ∃ T1, compress_absolute_index 4096 true table_init 205325273924612 42 = some (T1, 0) ∧
      ∃ T2 ret, compress_absolute_index 8192 true T1 209937442389743 424242 = some (T2, ret) ∧
        expand_local_reference T2 205325273924612 = 42 ∧
        expand_local_reference (delete_reference T1 209937442389743).1 205325273924612 =
          42 := by
  have hm : SIZE_MAX1 = 18446744073709551616 := rfl
  have hp : PAGE_SIZE = 4096 := rfl
  obtain ⟨T1, hc, hinv1, hexp, _, hle, _⟩ := compress_other table_init 205325273924612 42
    4096 table_init_inv (by decide) (by decide) (by decide) (by decide)
  have hle1 : T1.hash_table_size ≤ 4096 := hle
  obtain ⟨⟨T2, ret, hc2, h2⟩, h3⟩ := C36_other_keys_undisturbed T1 209937442389743
    205325273924612 424242 8192 hinv1 (by omega) (by decide) (by decide) (by omega)
  exact ⟨T1, hc, T2, ret, hc2, h2.trans hexp, h3.trans hexp⟩

/-! ## Claim C37: pool_get_ref and the absolute index -/

/-- C37: for every pool handle `p` and absolute index `i < 2 ^ 28`,
pool_get_ref yields a reference `q` with
`q.sub_pool_id * PAGE_SIZE + q.index = i`, the `type_id` and `pool_id` of `p`,
and the bits `full`, `is_extended`, `gc_state` cleared; and for every
reference `r` with members in range and those bits cleared, pool_get_ref on
`r` and GET_GLOBAL_INDEX_OF_REF of `r` yields `r`. -/
theorem C37_pool_get_ref_round_trip (p r : pool_struct) (i : Nat) (hi : i < 2 ^ 28)
    (hr : r.wf) (hf : r.full = 0 ∧ r.is_extended = 0 ∧ r.gc_state = 0) :
    (∃ q, pool_get_ref p i = some q ∧ GET_GLOBAL_INDEX_OF_REF q = i ∧
      q.sub_pool_id * PAGE_SIZE + q.index = i ∧ q.index < PAGE_SIZE ∧
      q.type_id = p.type_id ∧ q.pool_id = p.pool_id ∧
      q.full = 0 ∧ q.is_extended = 0 ∧ q.gc_state = 0) ∧
    pool_get_ref r (GET_GLOBAL_INDEX_OF_REF r) = some r := by
  have hp : PAGE_SIZE = 4096 := rfl
  constructor
  · obtain ⟨q, hq, h1, h2, h3, h4, h5, h6, h7⟩ := pool_get_ref_members p i hi
    refine ⟨q, hq, ?_, ?_, ?_, h1, h2, h5, h6, h7⟩
    · rw [GET_GLOBAL_INDEX_OF_REF, h3, h4, hp]; omega
    · rw [h3, h4, hp]; omega
    · rw [h4, hp]; omega
  · obtain ⟨h1, h2, h3, h4, _, _, _⟩ := hr
    have hlt : GET_GLOBAL_INDEX_OF_REF r < 2 ^ 28 := by
      rw [GET_GLOBAL_INDEX_OF_REF, hp]; omega
    obtain ⟨q, hq, g1, g2, g3, g4, g5, g6, g7⟩ :=
      pool_get_ref_members r (GET_GLOBAL_INDEX_OF_REF r) hlt
    rw [hq]
    congr 1
    obtain ⟨a1, a2, a3, a4, a5, a6, a7⟩ := q
    obtain ⟨b1, b2, b3, b4, b5, b6, b7⟩ := r
    simp only [GET_GLOBAL_INDEX_OF_REF, hp] at *
    obtain ⟨f1, f2, f3⟩ := hf
    subst g1 g2 g5 g6 g7 f1 f2 f3
    have e1 : a2 = b2 := by omega
    have e2 : a4 = b4 := by omega
    rw [e1, e2]

/-- C37 at a concrete input, as in test/test_iterator.c: index 4097 of the
pool 1 of longs, and back. -/
theorem C37_pool_get_ref_round_trip_witness :
    (∃ q, pool_get_ref ⟨1, 1, 1, 2, 0, 0, 0⟩ 4097 = some q ∧
      GET_GLOBAL_INDEX_OF_REF q = 4097 ∧ q.full = 0 ∧ q.is_extended = 0 ∧ q.gc_state = 0) ∧
    pool_get_ref ⟨1, 1, 1, 1, 0, 0, 0⟩ (GET_GLOBAL_INDEX_OF_REF ⟨1, 1, 1, 1, 0, 0, 0⟩) =
      some ⟨1, 1, 1, 1, 0, 0, 0⟩ := by
  obtain ⟨⟨q, h1, h2, _, _, _, _, h3, h4, h5⟩, h6⟩ := C37_pool_get_ref_round_trip
    ⟨1, 1, 1, 2, 0, 0, 0⟩ ⟨1, 1, 1, 1, 0, 0, 0⟩ 4097 (by decide) (by decide)
    ⟨rfl, rfl, rfl⟩
  exact ⟨⟨q, h1, h2, h3, h4, h5⟩, h6⟩

/-! ## Claim C40: the cursor of a pool handle -/

/-- C40 (the code departs from the claim): pool_alloc and pool_grow, when
`mmap` succeeds, leave a cursor with `full = 1` exactly when `index = 0`, but
pool_shrink does not.  The char pool with id 1 grown to 8193 records and
shrunk by one record is left at subpool 1, index 0 with `full` clear; grown to
12288 records and shrunk by 4097 it is left at index 4095 with `full` set.
Both runs shrink by less than the population. -/
theorem C40_pool_shrink_breaks_cursor :
    (∀ (tt : Type_table) (p : pool_struct) (n : Nat),
      ((pool_grow tt true p n).pool.full = 1 → (pool_grow tt true p n).pool.index = 0) ∧
      ((pool_grow tt true p n).pool.index = 0 → (pool_grow tt true p n).pool.full = 1) ∧
      ((pool_alloc tt true p).pool.full = 1 → (pool_alloc tt true p).pool.index = 0) ∧
      ((pool_alloc tt true p).pool.index = 0 → (pool_alloc tt true p).pool.full = 1)) ∧
    GET_SIZE_OF_POOL (pool_run basic_type_table (pool_fresh basic_type_table 1 0)
      [pool_op.grow 8193]).1 = 8193 ∧
    (pool_run basic_type_table (pool_fresh basic_type_table 1 0)
      [pool_op.grow 8193, pool_op.shrink 1]).1 = ⟨0, 1, 1, 0, 0, 0, 0⟩ ∧
    ¬ ((⟨0, 1, 1, 0, 0, 0, 0⟩ : pool_struct).index = 0 ∧
        0 < (⟨0, 1, 1, 0, 0, 0, 0⟩ : pool_struct).sub_pool_id →
      (⟨0, 1, 1, 0, 0, 0, 0⟩ : pool_struct).full = 1) ∧
    GET_SIZE_OF_POOL (pool_run basic_type_table (pool_fresh basic_type_table 1 0)
      [pool_op.grow 12288]).1 = 12288 ∧
    (pool_run basic_type_table (pool_fresh basic_type_table 1 0)
      [pool_op.grow 12288, pool_op.shrink 4097]).1 = ⟨0, 0, 1, 4095, 1, 0, 0⟩ ∧
    ¬ ((⟨0, 0, 1, 4095, 1, 0, 0⟩ : pool_struct).full = 1 →
      (⟨0, 0, 1, 4095, 1, 0, 0⟩ : pool_struct).index = 0) := by
  refine ⟨?_, by decide, by decide, by decide, by decide, by decide, by decide⟩
  intro tt p n
  have h1 := pool_add_elements_inv tt p n
  have h2 := pool_add_elements_inv tt p 1
  have e1 : (pool_grow tt true p n).pool = (pool_add_elements tt true p n).pool := rfl
  have e2 : (pool_alloc tt true p).pool = (pool_add_elements tt true p 1).pool := rfl
  rw [e1, e2]
  unfold cursor_inv at h1 h2
  refine ⟨?_, ?_, ?_, ?_⟩ <;> intro h <;> omega

/-! ## Claim C38: the bytes of distinct fields -/

/-- C38 as stated fails for two pools: the list node type of 18 bytes has
subpools of 73728 bytes, well within the window of 2 ^ 32 bytes, yet field 0
of the first record of subpool 58255 of pool 1 has the address of field 2 of
record 2048 of pool 2, and set_field on the former changes the byte that the
latter holds. -/
theorem C38_pools_overlap :
    (type_row basic_type_table 7).type_size * PAGE_SIZE ≤ 2 ^ 32 ∧
    get_field basic_type_table ⟨7, 58255, 1, 0, 0, 0, 0⟩ 0 = some 8589991936 ∧
    get_field basic_type_table ⟨7, 0, 2, 2048, 0, 0, 0⟩ 2 = some 8589991936 ∧
    (store (fun _ => 0) 100 2 513) 8589991936 = 0 ∧
    (set_field basic_type_table ⟨7, 58255, 1, 0, 0, 0, 0⟩ 0 100
      (store (fun _ => 0) 100 2 513)).1 8589991936 = 1 := by
  refine ⟨by decide, by decide, by decide, by decide, ?_⟩
  decide

/-- C38 (amended): let `r1`, `r2` be records of types whose lanes lie within
the record and apart from each other, each record in a subpool that ends
within the window of 2 ^ 32 bytes of its pool, two records of one pool having
one type.  If `(r1, k1)` and `(r2, k2)` differ in pool, subpool, index or
field, no byte of field `k1` of `r1` is a byte of field `k2` of `r2`, and
set_field on `(r1, k1)` leaves every byte of field `k2` of `r2` as it was. -/
theorem C38_set_field_frame (tt : Type_table) (r1 r2 : reference_struct)
    (k1 k2 b1 b2 data : Nat) (mem : Mem)
    (hin1 : lanes_within tt r1.type_id) (hap1 : lanes_apart tt r1.type_id)
    (hin2 : lanes_within tt r2.type_id)
    (hk1 : k1 < (type_row tt r1.type_id).field_count)
    (hk2 : k2 < (type_row tt r2.type_id).field_count)
    (hw1 : (r1.sub_pool_id + 1) * ((type_row tt r1.type_id).type_size * 4096) ≤ 2 ^ 32)
    (hw2 : (r2.sub_pool_id + 1) * ((type_row tt r2.type_id).type_size * 4096) ≤ 2 ^ 32)
    (hi1 : r1.index < 4096) (hi2 : r2.index < 4096)
    (hp1 : r1.pool_id < 65536) (hp2 : r2.pool_id < 65536)
    (he1 : r1.is_extended = 0) (he2 : r2.is_extended = 0)
    (hsame : r1.pool_id = r2.pool_id → r1.type_id = r2.type_id)
    (hne : ¬ (r1.pool_id = r2.pool_id ∧ r1.sub_pool_id = r2.sub_pool_id ∧
      r1.index = r2.index ∧ k1 = k2))
    (hb1 : b1 < (field_entry tt r1.type_id k1).field_size)
    (hb2 : b2 < (field_entry tt r2.type_id k2).field_size) :
    ∃ a1 a2, get_field tt r1 k1 = some a1 ∧ get_field tt r2 k2 = some a2 ∧
      a1 + b1 ≠ a2 + b2 ∧
      (set_field tt r1 k1 data mem).1 (a2 + b2) = mem (a2 + b2) ∧
      (set_field tt r1 k1 data mem).2 = 0 := by
  have hm : SIZE_MAX1 = 18446744073709551616 := rfl
  have hdis : ∀ c1, c1 < (field_entry tt r1.type_id k1).field_size →
      field_address tt r1 k1 + c1 ≠ field_address tt r2 k2 + b2 := by
    intro c1 hc1 heq
    by_cases hp : r1.pool_id = r2.pool_id
    · have ht := hsame hp
      rw [← ht] at hk2 hw2 hb2
      have := cell_disjoint tt r1 r2 k1 k2 c1 b2 ht hin1 hap1 hk1 hk2 hw1 hw2 hi1 hi2
        hc1 hb2 heq
      exact hne ⟨this.1, this.2.1, this.2.2.1, this.2.2.2.1⟩
    · have g1 := field_address_bounds tt r1 k1 c1 hin1 hk1 hw1 hi1 hc1
      have g2 := field_address_bounds tt r2 k2 b2 hin2 hk2 hw2 hi2 hb2
      omega
  have g1 := field_address_bounds tt r1 k1 b1 hin1 hk1 hw1 hi1 hb1
  have g2 := field_address_bounds tt r2 k2 b2 hin2 hk2 hw2 hi2 hb2
  have hlt1 : field_address tt r1 k1 < SIZE_MAX1 := by omega
  have hlt2 : field_address tt r2 k2 < SIZE_MAX1 := by omega
  refine ⟨field_address tt r1 k1, field_address tt r2 k2, ?_, ?_, hdis b1 hb1, ?_,
    (set_field_eq_memcpy tt r1 k1 data mem).2⟩
  · rw [get_field_eq tt r1 k1 he1, Nat.mod_eq_of_lt hlt1]
  · rw [get_field_eq tt r2 k2 he2, Nat.mod_eq_of_lt hlt2]
  · rw [(set_field_eq_memcpy tt r1 k1 data mem).1, Nat.mod_eq_of_lt hlt1]
    apply memcpy_other
    by_contra hcon
    push_neg at hcon
    have := hdis (field_address tt r2 k2 + b2 - field_address tt r1 k1) (by omega)
    omega

/-- C38 (amended) at a concrete input: the second field of the list nodes 5
and 6 of pool 1. -/
theorem C38_set_field_frame_witness :
    ∃ a1 a2, get_field basic_type_table ⟨7, 0, 1, 5, 0, 0, 0⟩ 1 = some a1 ∧
      get_field basic_type_table ⟨7, 0, 1, 6, 0, 0, 0⟩ 1 = some a2 ∧
      a1 + 7 ≠ a2 + 0 ∧
      (set_field basic_type_table ⟨7, 0, 1, 5, 0, 0, 0⟩ 1 100 (fun _ => 0)).1 (a2 + 0) =
        (fun _ => 0 : Mem) (a2 + 0) ∧
      (set_field basic_type_table ⟨7, 0, 1, 5, 0, 0, 0⟩ 1 100 (fun _ => 0)).2 = 0 :=
  C38_set_field_frame basic_type_table ⟨7, 0, 1, 5, 0, 0, 0⟩ ⟨7, 0, 1, 6, 0, 0, 0⟩ 1 1 7 0 100
    (fun _ => 0) (by decide) (by decide) (by decide) (by decide) (by decide) (by decide)
    (by decide) (by decide) (by decide) (by decide) (by decide) rfl rfl (fun _ => rfl)
    (by decide) (by decide) (by decide)

/-! ## Claims C31 and C32: the entries of the expansion table -/

/-- C31 (the code departs from the claim): set_field_reference with NULL_REF on
a field that holds a far reference stores the 16-bit zero and leaves the
expansion table as it is.  For records `a`, `b` of one pool whose absolute
indices differ by PAGE_SIZE or more: after set_field_reference of `b` and then
of NULL_REF into field `k` of `a`, the field reads 0 and get_field_reference
returns NULL_REF, yet the table still holds one live entry under the tag of
the field, with the absolute index of `b`. -/
theorem C31_null_leaves_stale_entry (tt : Type_table) (fuel : Nat) (a b : reference_struct)
    (k : Nat) (w : world)
    (hinv : table_inv w.table) (hsize : w.table.hash_table_size * 2 < SIZE_MAX1)
    (hfuel : max PAGE_SIZE (2 * w.table.hash_table_size) ≤ fuel)
    (hbn : raw_val b ≠ NULL_REF) (hbs : b.sub_pool_id < 65536) (hbi : b.index < 4096)
    (hk : k < 4096) (hpool : a.pool_id = b.pool_id)
    (hfar : GET_GLOBAL_INDEX_OF_REF a + PAGE_SIZE ≤ GET_GLOBAL_INDEX_OF_REF b ∨
      GET_GLOBAL_INDEX_OF_REF b + PAGE_SIZE ≤ GET_GLOBAL_INDEX_OF_REF a) :
    ∃ w1 w2, set_field_reference tt fuel true a b k w = some (w1, 0) ∧
      set_field_reference tt fuel true a (of_raw NULL_REF) k w1 = some (w2, 0) ∧
      load w2.mem (local_ref_ptr tt a k) 2 = 0 ∧
      get_field_reference tt a k w2 = of_raw NULL_REF ∧
      w2.table = w1.table ∧
      key_count w2.table.reference_table (tag_raw a (local_raw (k : Int) 1 0)) = 1 ∧
      expand_local_reference w2.table (tag_raw a (local_raw (k : Int) 1 0)) =
        GET_GLOBAL_INDEX_OF_REF b ∧
      0 < w2.table.hash_table_value_count := by
  obtain ⟨T1, h1, hinv1, _, hcnt, hexp⟩ :=
    set_field_reference_far tt fuel a b k w hinv hsize hfuel hbn hbs hbi hk hpool hfar
  have h2 : set_field_reference tt fuel true a (of_raw NULL_REF) k
      ⟨store w.mem (local_ref_ptr tt a k) 2 (local_raw (k : Int) 1 0), T1⟩ =
      some (⟨store (store w.mem (local_ref_ptr tt a k) 2 (local_raw (k : Int) 1 0))
        (local_ref_ptr tt a k) 2 0, T1⟩, 0) := by
    unfold set_field_reference
    simp only [NULL_REF, raw_val_of_raw_zero, if_true]
  have hload : load (store (store w.mem (local_ref_ptr tt a k) 2 (local_raw (k : Int) 1 0))
      (local_ref_ptr tt a k) 2 0) (local_ref_ptr tt a k) 2 = 0 := by
    rw [load_store_two]
  refine ⟨_, _, h1, h2, hload, ?_, rfl, hcnt, hexp, ?_⟩
  · unfold get_field_reference
    simp only [hload, if_true]
  · show 0 < T1.hash_table_value_count
    rw [hinv1.live]
    have hpos : 0 < key_count T1.reference_table (tag_raw a (local_raw (k : Int) 1 0)) := by
      omega
    have hex : ∃ j, j < T1.reference_table.length ∧
        (table_at T1.reference_table j).key = tag_raw a (local_raw (k : Int) 1 0) := by
      by_contra hne
      push_neg at hne
      have := key_count_zero T1.reference_table _ hne
      omega
    obtain ⟨j, hj, hjk⟩ := hex
    apply live_count_pos T1.reference_table j hj
    rw [hjk]
    have := (local_raw_far k hk).1
    unfold tag_raw
    rw [this]
    omega

/-- C31 at a concrete input: the list node of index 0 of pool 1 is given the
node of index 4096 as successor and then NULL_REF, in zeroed memory and with
the expansion table before its first use. -/
theorem C31_null_leaves_stale_entry_witness :
    ∃ w1 w2, set_field_reference basic_type_table 4096 true ⟨7, 0, 1, 0, 0, 0, 0⟩
        ⟨7, 1, 1, 0, 0, 0, 0⟩ 0 ⟨fun _ => 0, table_init⟩ = some (w1, 0) ∧
      set_field_reference basic_type_table 4096 true ⟨7, 0, 1, 0, 0, 0, 0⟩
        (of_raw NULL_REF) 0 w1 = some (w2, 0) ∧
      get_field_reference basic_type_table ⟨7, 0, 1, 0, 0, 0, 0⟩ 0 w2 = of_raw NULL_REF ∧
      0 < w2.table.hash_table_value_count := by
  obtain ⟨w1, w2, h1, h2, _, h3, _, _, _, h4⟩ := C31_null_leaves_stale_entry
    basic_type_table 4096 ⟨7, 0, 1, 0, 0, 0, 0⟩ ⟨7, 1, 1, 0, 0, 0, 0⟩ 0 ⟨fun _ => 0, table_init⟩
    table_init_inv (by decide) (by decide) (by decide) (by decide) (by decide) (by decide)
    rfl (by decide)
  exact ⟨w1, w2, h1, h2, h3, h4⟩

theorem tag_raw_flags (a a1 : reference_struct) (l : Nat)
    (hs : a.sub_pool_id = a1.sub_pool_id) (hp : a.pool_id = a1.pool_id)
    (hri : raw_index a ≠ raw_index a1) : tag_raw a1 l ≠ tag_raw a l := by
  unfold tag_raw
  rw [hs, hp]
  omega

theorem local_ref_ptr_flags (tt : Type_table) (a a1 : reference_struct) (k : Nat)
    (ht : a.type_id = a1.type_id) (hs : a.sub_pool_id = a1.sub_pool_id)
    (hp : a.pool_id = a1.pool_id) (hi : a.index = a1.index) :
    local_ref_ptr tt a1 k = local_ref_ptr tt a k := by
  simp only [local_ref_ptr, GET_POOL_ADDR, GET_SUB_POOL_SIZE, GET_FIELD_OFFSET, ht, hs, hp, hi]

/-- C32 (the code departs from the claim): the tag that set_field_reference
and get_field_reference build takes the full 16 bits of `raw_index` of the
handle, flag bits included.  Let `a` and `a1` be two handles of one record
(equal `type_id`, `pool_id`, `sub_pool_id`, `index`) that differ in the bits
`full`, `is_extended`, `gc_state`, as a list iterator and a plain reference
do, and `b` a record of the pool whose absolute index differs by PAGE_SIZE or
more; the table holds no entry under the tag of `a1`.  After
set_field_reference through `a`, get_field_reference through `a` returns the
handle of `b`, and get_field_reference through `a1` returns NULL_REF. -/
theorem C32_tag_takes_flag_bits (tt : Type_table) (fuel : Nat) (a a1 b : reference_struct)
    (k : Nat) (w : world)
    (hinv : table_inv w.table) (hsize : w.table.hash_table_size * 2 < SIZE_MAX1)
    (hfuel : max PAGE_SIZE (2 * w.table.hash_table_size) ≤ fuel)
    (hai : a.index < 4096) (hbn : raw_val b ≠ NULL_REF) (hbs : b.sub_pool_id < 65536)
    (hbi : b.index < 4096) (hk : k < 4096) (hpool : a.pool_id = b.pool_id)
    (hfar : GET_GLOBAL_INDEX_OF_REF a + PAGE_SIZE ≤ GET_GLOBAL_INDEX_OF_REF b ∨
      GET_GLOBAL_INDEX_OF_REF b + PAGE_SIZE ≤ GET_GLOBAL_INDEX_OF_REF a)
    (ht : a.type_id = a1.type_id) (hs : a.sub_pool_id = a1.sub_pool_id)
    (hp : a.pool_id = a1.pool_id) (hi : a.index = a1.index)
    (hflags : raw_index a ≠ raw_index a1)
    (hnone : expand_local_reference w.table (tag_raw a1 (local_raw (k : Int) 1 0)) =
      REF_NOT_FOUND) :
    ∃ w1, set_field_reference tt fuel true a b k w = some (w1, 0) ∧
      local_ref_ptr tt a1 k = local_ref_ptr tt a k ∧
      load w1.mem (local_ref_ptr tt a k) 2 = local_raw (k : Int) 1 0 ∧
      get_field_reference tt a k w1 = { a with sub_pool_id := b.sub_pool_id, index := b.index } ∧
      get_field_reference tt a1 k w1 = of_raw NULL_REF ∧
      tag_raw a1 (local_raw (k : Int) 1 0) ≠ tag_raw a (local_raw (k : Int) 1 0) := by
  have hp4 : PAGE_SIZE = 4096 := rfl
  obtain ⟨T1, h1, _⟩ :=
    set_field_reference_far tt fuel a b k w hinv hsize hfuel hbn hbs hbi hk hpool hfar
  obtain ⟨w1, h2, _, _, hother, _, _, _, _, hget⟩ :=
    set_field_reference_effect tt fuel a b k w hinv hsize hfuel hai hbs hbi hk
      (fun _ => hpool) (fun _ => Or.inr hfar)
  rw [h1] at h2
  simp only [Option.some.injEq, Prod.mk.injEq, and_true] at h2
  subst h2
  have hptr := local_ref_ptr_flags tt a a1 k ht hs hp hi
  have htag := tag_raw_flags a a1 (local_raw (k : Int) 1 0) hs hp hflags
  obtain ⟨hraw, hlong, _⟩ := local_raw_far k hk
  have hload : load (store w.mem (local_ref_ptr tt a k) 2 (local_raw (k : Int) 1 0))
      (local_ref_ptr tt a k) 2 = local_raw (k : Int) 1 0 := by
    rw [load_store_two, hraw]
    omega
  refine ⟨_, h1, hptr, hload, ?_, ?_, htag⟩
  · rw [hget, if_neg]
    rintro (h | h)
    · exact hbn h
    · omega
  · unfold get_field_reference
    simp only [hptr, hload]
    have hne0 : local_raw (k : Int) 1 0 ≠ 0 := by rw [hraw]; omega
    rw [if_neg hne0, hlong]
    simp only [ne_eq, one_ne_zero, not_false_eq_true, if_true]
    rw [hother _ htag, hnone]
    simp

/-- C32 at a concrete input: the list iterator on the node of index 0 of pool
1 (`iterator_type = ITERATOR_LIST`) and the plain reference to that node; the
successor stored is the node of index 4096. -/
theorem C32_tag_takes_flag_bits_witness :
    ∃ w1, set_field_reference basic_type_table 4096 true ⟨7, 0, 1, 0, 0, 0, 1⟩
        ⟨7, 1, 1, 0, 0, 0, 0⟩ 0 ⟨fun _ => 0, table_init⟩ = some (w1, 0) ∧
      get_field_reference basic_type_table ⟨7, 0, 1, 0, 0, 0, 1⟩ 0 w1 =
        ⟨7, 1, 1, 0, 0, 0, 1⟩ ∧
      get_field_reference basic_type_table ⟨7, 0, 1, 0, 0, 0, 0⟩ 0 w1 = of_raw NULL_REF := by
  obtain ⟨w1, h1, _, _, h2, h3, _⟩ := C32_tag_takes_flag_bits basic_type_table 4096
    ⟨7, 0, 1, 0, 0, 0, 1⟩ ⟨7, 0, 1, 0, 0, 0, 0⟩ ⟨7, 1, 1, 0, 0, 0, 0⟩ 0
    ⟨fun _ => 0, table_init⟩ table_init_inv (by decide) (by decide) (by decide) (by decide)
    (by decide) (by decide) (by decide) rfl (by decide) rfl rfl rfl rfl (by decide) rfl
  exact ⟨w1, h1, h2, h3⟩

end Ohmm
